import Mathlib

/-!
The sdcheck scan engine: a shallow embedding of `scan_engine.c`.

The definitions below follow `src/source/scan_engine.c` function by function and
keep the C names.  Conventions of the embedding:

* a C string is the list of its characters before the terminating NUL (`CStr`),
  one `Char` per byte; `snprintf(dst, n, "%.250s", s)` is `s.take 250` and
  `snprintf(dst, n, "%s", s)` is `s.take (n - 1)`;
* `uint64_t` event counters that are only ever incremented are natural numbers;
  `bytes_read` and `current_done`, which the code also subtracts from, are kept
  modulo `2 ^ 64`; `uint32_t` checksums are natural numbers below `2 ^ 32`;
* the fixed arrays of `ScanStats` are lists (of 16, 10 and 5 slots) written with
  `List.set` and read with `List.getD`; the `int` element counts are natural
  numbers, which they are in every state reachable from the zeroed structure;
* pointers that the engine never passes as NULL (`st`, `cfg`, `f`, `bufs`) are
  plain values; the NULL defaults of `first_fail_capture` and `perf_record` are
  kept through `Option`;
* the `double` throughput of `perf_record` is the exact fraction `num / den` of
  natural numbers (`Throughput`), compared with a constant by
  cross-multiplication; the double arithmetic itself is `perf_mibs_double`,
  which takes the same bucket and stall decisions for the reads the engine
  records, of at most 1 MiB (`perf_mibs_double_agrees`);
* everything the engine obtains from outside (directory listings, `stat`,
  `fopen`, `fseeko`, `fread`, the clock, `malloc`, the UI callback) is answered
  by the `World` value threaded through the I/O functions.
-/

namespace SdCheck

/-! ## Constants and types (`app.h`, `config.h`, `scan_engine.h`) -/

/-- A C string: its characters before the terminating NUL. -/
abbrev CStr := List Char

def PATH_MAX_LOCAL : Nat := 2048
def ERR_RING_MAX : Nat := 16
def LARGEST_MAX : Nat := 10
def FAIL_MAX : Nat := 5
def SAMPLE_REGION : Nat := 64 * 1024

/-- Reduction of a value to the range of `uint64_t`. -/
def u64 (x : Nat) : Nat := x % 2 ^ 64

/-- Subtraction on `uint64_t`: `a -= b` wraps modulo `2 ^ 64`. -/
def u64_sub (a b : Nat) : Nat := (a + 2 ^ 64 - b % 2 ^ 64) % 2 ^ 64

/-- A throughput in MiB/s as the exact fraction `num / den` (`den > 0`); a
double is such a fraction with a power of two for `den`. -/
structure Throughput where
  num : Nat
  den : Nat
deriving DecidableEq

/-- The comparison `q >= k` of a throughput with a whole number of MiB/s. -/
def Throughput.ge (q : Throughput) (k : Nat) : Bool := decide (k * q.den ≤ q.num)

/-- The comparison `q < k` of a throughput with a whole number of MiB/s. -/
def Throughput.lt (q : Throughput) (k : Nat) : Bool := decide (q.num < k * q.den)

structure LargestEntry where
  size : Nat
  path : CStr
deriving DecidableEq

inductive ChunkMode where
  | CHUNK_AUTO
  | CHUNK_128K
  | CHUNK_256K
  | CHUNK_512K
  | CHUNK_1M
deriving DecidableEq

inductive ScanTarget where
  | SCAN_TARGET_ALL
  | SCAN_TARGET_NINTENDO
  | SCAN_TARGET_EMUMMC
  | SCAN_TARGET_SWITCH
  | SCAN_TARGET_CUSTOM_CFG
deriving DecidableEq

/-- The fields of `ScanConfig` that the scan engine reads.  `read_retries` is an
`int` that `config.c` and the settings menu keep within `0..3`; it is a natural
number here. -/
structure ScanConfig where
  full_read : Bool
  large_file_limit : Nat
  read_retries : Nat
  consistency_check : Bool
  chunk_mode : ChunkMode
  skip_known_folders : Bool
  skip_media_exts : Bool
  deep_target : ScanTarget
deriving DecidableEq

/-- The fields of `ScanStats` that the scan engine reads or writes (the UI block
`ui_active` .. `wall_start_str` and the `run_*` copy of the configuration belong
to the caller and are left out). -/
structure ScanStats where
  dirs_total : Nat
  files_total : Nat
  files_read : Nat
  bytes_read : Nat
  open_errors : Nat
  read_errors : Nat
  read_errors_transient : Nat
  stat_errors : Nat
  path_errors : Nat
  consistency_errors : Nat
  skipped_dirs : Nat
  skipped_files : Nat
  cancelled : Bool
  current_path : CStr
  current_size : Nat
  current_planned : Nat
  current_done : Nat
  current_sample : Bool
  err_ring : List CStr
  err_ring_count : Nat
  largest : List LargestEntry
  largest_count : Nat
  fail_paths : List CStr
  fail_count : Nat
  perf_ops : Nat
  perf_bytes : Nat
  perf_hist : List Nat
  perf_stalls : Nat
  perf_stall_total_ms : Nat
  perf_longest_ms : Nat
  perf_longest_mib_s : Throughput
  perf_longest_off : Nat
  perf_longest_bytes : Nat
  perf_longest_path : CStr
  first_fail_set : Bool
  first_fail_kind : CStr
  first_fail_path : CStr
  first_fail_off : Nat
  first_fail_bytes : Nat
  first_fail_errno : Int
  first_fail_note : CStr
deriving DecidableEq

/-- The zero-initialised `ScanStats` the caller hands to the engine
(`memset(&st, 0, sizeof st)`). -/
def ScanStats.zero : ScanStats where
  dirs_total := 0
  files_total := 0
  files_read := 0
  bytes_read := 0
  open_errors := 0
  read_errors := 0
  read_errors_transient := 0
  stat_errors := 0
  path_errors := 0
  consistency_errors := 0
  skipped_dirs := 0
  skipped_files := 0
  cancelled := false
  current_path := []
  current_size := 0
  current_planned := 0
  current_done := 0
  current_sample := false
  err_ring := List.replicate ERR_RING_MAX []
  err_ring_count := 0
  largest := List.replicate LARGEST_MAX ⟨0, []⟩
  largest_count := 0
  fail_paths := List.replicate FAIL_MAX []
  fail_count := 0
  perf_ops := 0
  perf_bytes := 0
  perf_hist := List.replicate 5 0
  perf_stalls := 0
  perf_stall_total_ms := 0
  perf_longest_ms := 0
  perf_longest_mib_s := ⟨0, 1⟩
  perf_longest_off := 0
  perf_longest_bytes := 0
  perf_longest_path := []
  first_fail_set := false
  first_fail_kind := []
  first_fail_path := []
  first_fail_off := 0
  first_fail_bytes := 0
  first_fail_errno := 0
  first_fail_note := []

/-! ## CRC32 -/

/-- One round of the inner loop of `crc32_init`:
`c = (c & 1) ? (0xEDB88320u ^ (c >> 1)) : (c >> 1)`. -/
def crc32_round (c : Nat) : Nat :=
  if c &&& 1 ≠ 0 then 0xEDB88320 ^^^ (c >>> 1) else c >>> 1

/-- The table entry `crc32_init` computes for index `i`: eight rounds from `i`. -/
def crc32_entry (i : Nat) : Nat := crc32_round^[8] i

/-- The 256-entry table built by `crc32_init`. -/
def crc32_init : List Nat := (List.range 256).map crc32_entry

/-- The static `crc32_table` after `crc32_init` has run. -/
def crc32_table : List Nat := crc32_init

/-- The byte loop of `crc32_update`:
`crc = crc32_table[(crc ^ p[i]) & 0xFF] ^ (crc >> 8)`. -/
def crc32_bytes (crc : Nat) : List Nat → Nat
  | [] => crc
  | b :: rest => crc32_bytes (crc32_table.getD ((crc ^^^ b) &&& 0xFF) 0 ^^^ (crc >>> 8)) rest

/-- The checksum `crc32_update(crc, data, len)`; on a 32-bit value `~crc` is
`crc ^ 0xFFFFFFFF`. -/
def crc32_update (crc : Nat) (data : List Nat) : Nat :=
  crc32_bytes (crc ^^^ 0xFFFFFFFF) data ^^^ 0xFFFFFFFF

/-- One bit of the reference CRC-32 (ISO-HDLC, reflected): shift right and, when
the bit shifted out is 1, xor the polynomial 0xEDB88320 in. -/
def crc32_ref_bit (c : Nat) : Nat :=
  if c % 2 = 1 then (c / 2) ^^^ 0xEDB88320 else c / 2

/-- One byte of the reference CRC-32: xor the byte into the low bits, then 8 bit
steps. -/
def crc32_ref_byte (c b : Nat) : Nat := crc32_ref_bit^[8] (c ^^^ b)

/-- The reference bit-by-bit CRC-32 of a byte sequence: initial value
0xFFFFFFFF, final xor 0xFFFFFFFF. -/
def crc32_reference (data : List Nat) : Nat :=
  data.foldl crc32_ref_byte 0xFFFFFFFF ^^^ 0xFFFFFFFF

/-! ## Small utilities -/

/-- The function `err_push(st, msg)`: store the message in slot
`err_ring_count % ERR_RING_MAX` of the ring (a 256-byte slot) and count it.
The call `log_push("ERROR", msg)` writes to the log module only. -/
def err_push (st : ScanStats) (msg : CStr) : ScanStats :=
  let idx := st.err_ring_count % ERR_RING_MAX
  { st with
    err_ring := st.err_ring.set idx (msg.take 255)
    err_ring_count := st.err_ring_count + 1 }

/-- The function `fail_push_unique(st, path)`. -/
def fail_push_unique (st : ScanStats) (path : CStr) : ScanStats :=
  if path = [] then st
  else
    let t := path.take 250
    if (List.range st.fail_count).any (fun i => st.fail_paths.getD i [] == t) then st
    else if st.fail_count < FAIL_MAX then
      { st with
        fail_paths := st.fail_paths.set st.fail_count (t.take 255)
        fail_count := st.fail_count + 1 }
    else st

/-- The search loop of `largest_update`: the first index `i < n` with
`size > largest[i].size`, if any (`pos` stays `-1` otherwise). -/
def largest_find (largest : List LargestEntry) (size n : Nat) : Option Nat :=
  (List.range n).find? (fun i => decide (size > (largest.getD i ⟨0, []⟩).size))

/-- The shift loop of `largest_update`, entered with `i = n - 1`:
`for (; i > pos; i--) largest[i] = largest[i - 1]`. -/
def largest_shift (largest : List LargestEntry) (pos : Nat) : Nat → List LargestEntry
  | 0 => largest
  | i + 1 =>
    if i + 1 > pos then
      largest_shift (largest.set (i + 1) (largest.getD i ⟨0, []⟩)) pos i
    else largest

/-- The tail of `largest_update` once the position is known. -/
def largest_insert (st : ScanStats) (path : CStr) (size n pos : Nat) : ScanStats :=
  let n1 := if n < LARGEST_MAX then n + 1 else n
  let shifted := largest_shift st.largest pos (n1 - 1)
  { st with
    largest := shifted.set pos ⟨size, path.take 250⟩
    largest_count := n1 }

/-- The function `largest_update(st, path, size)`. -/
def largest_update (st : ScanStats) (path : CStr) (size : Nat) : ScanStats :=
  if path = [] then st
  else if size = 0 then st
  else
    let n := st.largest_count
    match largest_find st.largest size n with
    | some pos => largest_insert st path size n pos
    | none => if n < LARGEST_MAX then largest_insert st path size n n else st

/-- The function `first_fail_capture(st, kind, path, off, bytes, err, note)`;
`none` is a NULL argument. -/
def first_fail_capture (st : ScanStats) (kind path : Option CStr) (off bytes : Nat)
    (err : Int) (note : Option CStr) : ScanStats :=
  if st.first_fail_set then st
  else
    { st with
      first_fail_set := true
      first_fail_kind := ((kind.getD "FAIL".toList).take 15)
      first_fail_path := ((path.getD "(unknown)".toList).take 250)
      first_fail_off := off
      first_fail_bytes := bytes
      first_fail_errno := err
      first_fail_note := ((note.getD []).take 95) }

/-- The histogram bucket `perf_record` selects for a throughput. -/
def perf_bucket (mibs : Throughput) : Nat :=
  if mibs.ge 60 then 0
  else if mibs.ge 30 then 1
  else if mibs.ge 10 then 2
  else if mibs.ge 1 then 3
  else 4

/-- The function `perf_record(st, bytes, dt_ms, off, path)`, with the exact
throughput `bytes * 1000 / (1048576 * dt_ms)` for the double `mibs`: for
`bytes <= 1048576`, the largest read the engine records, the comparisons of
`mibs` with 60, 30, 10 and 1 come out as those of the double
(`perf_mibs_double_agrees`); the 64-bit counters are natural numbers. -/
def perf_record (st : ScanStats) (bytes dt_ms off : Nat) (path : Option CStr) : ScanStats :=
  if bytes = 0 then st
  else
    let dt_ms := if dt_ms = 0 then 1 else dt_ms
    let mibs : Throughput := if dt_ms > 0 then ⟨bytes * 1000, 1048576 * dt_ms⟩ else ⟨0, 1⟩
    let st := { st with perf_ops := st.perf_ops + 1, perf_bytes := st.perf_bytes + bytes }
    let b := perf_bucket mibs
    let st := { st with perf_hist := st.perf_hist.set b (st.perf_hist.getD b 0 + 1) }
    let st :=
      if mibs.lt 1 || decide (dt_ms ≥ 500) then
        { st with
          perf_stalls := st.perf_stalls + 1
          perf_stall_total_ms := st.perf_stall_total_ms + dt_ms }
      else st
    if dt_ms > st.perf_longest_ms then
      { st with
        perf_longest_ms := dt_ms
        perf_longest_mib_s := mibs
        perf_longest_off := off
        perf_longest_bytes := bytes
        perf_longest_path := ((path.getD "(unknown)".toList).take 250) }
    else st

/-! ## Filters -/

/-- Case-insensitive comparison of two character runs, `tolower` on each side. -/
def ci_eq (a b : CStr) : Bool := a.map Char.toLower == b.map Char.toLower

/-- The function `ends_with_ext_ci(path, ext)`. -/
def ends_with_ext_ci (path ext : CStr) : Bool :=
  let lp := path.length
  let le := ext.length
  if lp < le then false
  else ci_eq (path.drop (lp - le)) ext

/-- The function `path_contains_segment_ci(path, seg)`: `/seg/` anywhere,
`/seg` at the end, or `sdmc:/seg` at the start of the path. -/
def path_contains_segment_ci (path seg : CStr) : Bool :=
  if seg = [] then false
  else
    let needle := ("/".toList ++ seg ++ "/".toList).take 63
    let ln := needle.length
    let lp := path.length
    if (List.range (lp + 1 - ln)).any (fun i => ci_eq ((path.drop i).take ln) needle) then true
    else
      let needle2 := ("/".toList ++ seg).take 63
      let ln2 := needle2.length
      if decide (lp ≥ ln2) && ci_eq (path.drop (lp - ln2)) needle2 then true
      else
        let needle3 := ("sdmc:/".toList ++ seg).take 63
        let ln3 := needle3.length
        if decide (lp ≥ ln3) && ci_eq (path.take ln3) needle3 then true
        else false

/-- The function `should_skip_dir(path, cfg)`. -/
def should_skip_dir (path : CStr) (cfg : ScanConfig) : Bool :=
  if !cfg.skip_known_folders then false
  else if cfg.deep_target ≠ ScanTarget.SCAN_TARGET_ALL then false
  else if path_contains_segment_ci path "Nintendo".toList then true
  else if path_contains_segment_ci path "emuMMC".toList then true
  else if path_contains_segment_ci path "Emutendo".toList then true
  else false

/-- The extension table of `should_skip_file`. -/
def skip_exts : List CStr :=
  [".nsp", ".nsz", ".xci", ".xcz", ".mp4", ".mkv", ".avi", ".mov", ".webm",
   ".iso", ".bin", ".img", ".zip", ".7z", ".rar"].map String.toList

/-- The function `should_skip_file(path, cfg)`. -/
def should_skip_file (path : CStr) (cfg : ScanConfig) : Bool :=
  if !cfg.skip_media_exts then false
  else skip_exts.any (fun ext => ends_with_ext_ci path ext)

/-! ## Read strategy: chunk sizes -/

/-- The function `chunk_bytes_from_mode(m)`; `0` stands for "no fixed size". -/
def chunk_bytes_from_mode (m : ChunkMode) : Nat :=
  match m with
  | ChunkMode.CHUNK_128K => 128 * 1024
  | ChunkMode.CHUNK_256K => 256 * 1024
  | ChunkMode.CHUNK_512K => 512 * 1024
  | ChunkMode.CHUNK_1M => 1024 * 1024
  | ChunkMode.CHUNK_AUTO => 0

/-- The function `choose_chunk_auto(file_size)`. -/
def choose_chunk_auto (file_size : Nat) : Nat :=
  if file_size ≥ 1 * 1024 * 1024 * 1024 then 1024 * 1024
  else if file_size ≥ 256 * 1024 * 1024 then 512 * 1024
  else if file_size ≥ 64 * 1024 * 1024 then 256 * 1024
  else 128 * 1024

/-! ## The outside world -/

/-- The answer to one `fread` call: the bytes delivered (the call takes at most
`want` of them), the milliseconds `now_ms()` measures around the call, whether
the call raises the stream's error indicator, and the `errno` it leaves. -/
structure FreadResp where
  data : List Nat
  dt : Nat
  err : Bool
  errno : Int
deriving DecidableEq

/-- The answer of `stat` for a path. -/
inductive StatRes where
  | fail (errno : Int)
  | dir
  | reg (size : Nat)
  | other
deriving DecidableEq

/-- The calls the engine makes to the outside, as recorded in `World.trace`.  A
callback invocation is recorded with the `ScanStats` it leaves on return, which
is what it was shown plus the cancellation flag if it set it. -/
inductive IoCall where
  | opendir (path : CStr)
  | stat (path : CStr)
  | fopen (path : CStr)
  | fseeko (off : Nat)
  | fread (want : Nat)
  | ui_update (force : Bool) (seen : ScanStats)
deriving DecidableEq

/-- The buffers of `ScanBuffers`, by capacity. -/
structure ScanBuffers where
  sample_cap : Nat
  chunk_cap : Nat
deriving DecidableEq

/-- Everything outside `ScanStats` that the engine reads or changes.
`dirs path` is the listing `opendir`/`readdir` give for a directory (or the
`errno` of a failed `opendir`), `stats` and `fopens` answer `stat` and `fopen`
(`some e` is a failure with `errno = e`); `seeks`, `reads`, `mallocs` and `ui`
are consumed one answer per `fseeko`, `fread`, `malloc`/`realloc` and callback
invocation (an exhausted list answers success, end of file, success and "no
cancel request"); `ferr` is the error indicator of the open stream, `errno` the
C variable, `bufs` the scan buffers and `trace` the calls made so far, newest
first. -/
structure World where
  dirs : CStr → Except Int (List CStr)
  stats : CStr → StatRes
  fopens : CStr → Option Int
  strerror : Int → CStr
  seeks : List (Option Int)
  reads : List FreadResp
  mallocs : List Bool
  ui : List Bool
  ferr : Bool
  errno : Int
  bufs : ScanBuffers
  trace : List IoCall

/-- The callback `ui_update(st, pad, force)`: the only thing the engine observes
of it is that it may set `st->cancelled` (the fields it draws from and its own
UI fields are not engine state).  A NULL callback is one that never asks to
cancel. -/
def ui_update (w : World) (st : ScanStats) (force : Bool) : World × ScanStats :=
  match w.ui with
  | [] => ({ w with trace := IoCall.ui_update force st :: w.trace }, st)
  | c :: rest =>
    let st1 := if c then { st with cancelled := true } else st
    ({ w with ui := rest, trace := IoCall.ui_update force st1 :: w.trace }, st1)

/-- The call `fread(buf, 1, want, f)`, returning the bytes read and the elapsed
milliseconds. -/
def fread (w : World) (want : Nat) : List Nat × Nat × World :=
  let w1 := { w with trace := IoCall.fread want :: w.trace }
  match w.reads with
  | [] => ([], 0, w1)
  | r :: rest =>
    (r.data.take want, r.dt,
      { w1 with
        reads := rest
        ferr := w.ferr || r.err
        errno := if r.err then r.errno else w.errno })

/-- The call `fseeko(f, off, SEEK_SET)`: `true` when it returns 0. -/
def fseeko (w : World) (off : Nat) : Bool × World :=
  let w1 := { w with trace := IoCall.fseeko off :: w.trace }
  match w.seeks with
  | [] => (true, w1)
  | none :: rest => (true, { w1 with seeks := rest })
  | some e :: rest => (false, { w1 with seeks := rest, errno := e })

/-- One `malloc`/`realloc`: `true` when it returns a non-NULL pointer. -/
def malloc (w : World) : Bool × World :=
  match w.mallocs with
  | [] => (true, w)
  | ok :: rest => (ok, { w with mallocs := rest })

/-- The function `scan_buffers_init_default(b)`. -/
def scan_buffers_init_default (w : World) : Bool × World :=
  let (ok1, w1) := malloc w
  let (ok2, w2) := malloc w1
  if !ok1 || !ok2 then (false, { w2 with bufs := ⟨0, 0⟩ })
  else (true, { w2 with bufs := ⟨SAMPLE_REGION, 1024 * 1024⟩ })

/-- The function `ensure_chunk_cap(b, need)`. -/
def ensure_chunk_cap (w : World) (need : Nat) : Bool × World :=
  if need ≤ w.bufs.chunk_cap then (true, w)
  else
    let (ok, w1) := malloc w
    if !ok then (false, w1)
    else (true, { w1 with bufs := { w1.bufs with chunk_cap := need } })

/-! ## Read strategy -/

/-- The statistics part of the block `if (r > 0) { .. }` of `read_region_retry`
for the bytes `data` an `fread` delivered in `dt` ms:
`bytes_read += r; current_done += r; perf_record(st, r, dt, off, st->current_path)`. -/
def region_account (st : ScanStats) (data : List Nat) (dt off : Nat) : ScanStats :=
  if data.length > 0 then
    perf_record
      { st with
        bytes_read := u64 (st.bytes_read + data.length)
        current_done := u64 (st.current_done + data.length) }
      data.length dt off (some st.current_path)
  else st

/-- The attempt loop of `read_region_retry`; `left` is `retries - attempt`, so
`attempt < retries` is `left > 0`.  The result is `some crc` when the function
returns true with `*out_crc = crc`, `none` when it returns false. -/
def read_region_attempts (off want : Nat) :
    Nat → Nat → World → ScanStats → Option Nat × World × ScanStats
  | left, crc, w, st =>
    let (data, dt, w1) := fread { w with errno := 0 } want
    let e := w1.errno
    let crc1 := if data.length > 0 then crc32_update crc data else crc
    let st1 := region_account st data dt off
    if !w1.ferr then (some crc1, w1, st1)
    else
      let w2 := { w1 with ferr := false }
      match left with
      | left1 + 1 =>
        read_region_attempts off want left1 crc1 w2
          { st1 with read_errors_transient := st1.read_errors_transient + 1 }
      | 0 =>
        let st2 := { st1 with read_errors := st1.read_errors + 1 }
        let st3 := first_fail_capture st2 (some "READ".toList) (some st2.current_path) off want e
          (some "read_region".toList)
        (none, w2, err_push st3 "Read error".toList)

/-- The function `read_region_retry(f, off, buf, want, cfg, st, out_crc)`. -/
def read_region_retry (off want : Nat) (cfg : ScanConfig) (w : World) (st : ScanStats) :
    Option Nat × World × ScanStats :=
  let (ok, w1) := fseeko w off
  if !ok then
    let st1 := { st with read_errors := st.read_errors + 1 }
    let st2 := first_fail_capture st1 (some "SEEK".toList) (some st1.current_path) off want
      w1.errno (some "fseeko".toList)
    (none, w1, err_push st2 "Seek error".toList)
  else
    read_region_attempts off want cfg.read_retries 0 w1 st

/-- The second half of `read_sample`: the last region, entered when
`size > SAMPLE_REGION`.  The result is `some crc_total` or `none` (false). -/
def read_sample_last (size : Nat) (cfg : ScanConfig) (crc_total : Nat) (w : World)
    (st : ScanStats) : Option Nat × World × ScanStats :=
  let off := if size > SAMPLE_REGION then size - SAMPLE_REGION else 0
  match read_region_retry off SAMPLE_REGION cfg w st with
  | (none, w1, st1) => (none, w1, st1)
  | (some crc2, w1, st1) =>
    let crc_total := crc_total ^^^ crc2
    let (w2, st2) := ui_update w1 st1 false
    if st2.cancelled then (none, w2, st2)
    else if cfg.consistency_check then
      let st3 := { st2 with
        current_done := u64_sub st2.current_done SAMPLE_REGION
        bytes_read := u64_sub st2.bytes_read SAMPLE_REGION }
      match read_region_retry off SAMPLE_REGION cfg w2 st3 with
      | (none, w3, st4) => (none, w3, st4)
      | (some crc2b, w3, st4) =>
        let st5 := { st4 with
          current_done := u64_sub st4.current_done SAMPLE_REGION
          bytes_read := u64_sub st4.bytes_read SAMPLE_REGION }
        if crc2b ≠ crc2 then
          let st6 := { st5 with consistency_errors := st5.consistency_errors + 1 }
          (none, w3, err_push st6 "Consistency mismatch (last region)".toList)
        else (some crc_total, w3, st5)
    else (some crc_total, w2, st2)

/-- The function `read_sample(f, size, cfg, st, bufs, ui_update, pad, out_crc)`:
`some crc` when it returns true with `*out_crc = crc`, `none` when it returns
false. -/
def read_sample (size : Nat) (cfg : ScanConfig) (w : World) (st : ScanStats) :
    Option Nat × World × ScanStats :=
  if w.bufs.sample_cap < SAMPLE_REGION then (none, w, st)
  else
    let want := if size < SAMPLE_REGION then size else SAMPLE_REGION
    match read_region_retry 0 want cfg w st with
    | (none, w1, st1) => (none, w1, st1)
    | (some crc1, w1, st1) =>
      let crc_total := 0 ^^^ crc1
      let (w2, st2) := ui_update w1 st1 false
      if st2.cancelled then (none, w2, st2)
      else
        let first : Option Unit × World × ScanStats :=
          if cfg.consistency_check then
            let st3 := { st2 with
              current_done := u64_sub st2.current_done want
              bytes_read := u64_sub st2.bytes_read want }
            match read_region_retry 0 want cfg w2 st3 with
            | (none, w3, st4) => (none, w3, st4)
            | (some crc1b, w3, st4) =>
              let st5 := { st4 with
                current_done := u64_sub st4.current_done want
                bytes_read := u64_sub st4.bytes_read want }
              if crc1b ≠ crc1 then
                let st6 := { st5 with consistency_errors := st5.consistency_errors + 1 }
                let st7 := first_fail_capture st6 (some "CONSIST".toList) (some st6.current_path)
                  0 SAMPLE_REGION 0 (some "CRC mismatch".toList)
                (none, w3, err_push st7 "Consistency mismatch (first region)".toList)
              else (some (), w3, st5)
          else (some (), w2, st2)
        match first with
        | (none, w4, st8) => (none, w4, st8)
        | (some _, w4, st8) =>
          if size > SAMPLE_REGION then
            match read_sample_last size cfg crc_total w4 st8 with
            | (none, w5, st9) => (none, w5, st9)
            | (some crc, w5, st9) => if st9.cancelled then (none, w5, st9) else (some crc, w5, st9)
          else if st8.cancelled then (none, w4, st8)
          else (some crc_total, w4, st8)

/-- The local variables `crc`, `first_crc` and `first_crc_set` of `read_full`. -/
structure FullLocals where
  crc : Nat
  first_crc : Nat
  first_crc_set : Bool
deriving DecidableEq

/-- How one pass through the body of the `while` loop of `read_full` ends:
`next` reaches the `ui_update` at the bottom of the body, `eof` is a `break`,
`fail` is the `return false` of a persistent read error. -/
inductive ChunkOutcome where
  | next
  | eof
  | fail
deriving DecidableEq

/-- The statistics part of the blocks `if (r > 0) { .. }` of `read_full` for the
bytes `data` an `fread` delivered in `dt` ms, `off0` being `current_done` before
the call: `perf_record(st, r, dt, off0, st->current_path); bytes_read += r;
current_done += r`. -/
def full_account (st : ScanStats) (data : List Nat) (dt off0 : Nat) : ScanStats :=
  if data.length > 0 then
    let sp := perf_record st data.length dt off0 (some st.current_path)
    { sp with
      bytes_read := u64 (sp.bytes_read + data.length)
      current_done := u64 (sp.current_done + data.length) }
  else st

/-- The retry loop of `read_full`; `left` is `retries - attempt`.  The result is
`(ok, r, crc, last_e, ..)` as the loop leaves them. -/
def read_full_retries (chunk : Nat) :
    Nat → Nat → Nat → Int → World → ScanStats → Bool × Nat × Nat × Int × World × ScanStats
  | 0, r, crc, last_e, w, st => (false, r, crc, last_e, w, st)
  | left + 1, _, crc, _, w, st =>
    let w1 := { w with ferr := false }
    let st1 := { st with read_errors_transient := st.read_errors_transient + 1 }
    let off0b := st1.current_done
    let (data, dtb, w2) := fread { w1 with errno := 0 } chunk
    let r := data.length
    let last_e := w2.errno
    let crc1 := if r > 0 then crc32_update crc data else crc
    let st2 := full_account st1 data dtb off0b
    if !w2.ferr then (true, r, crc1, last_e, w2, st2)
    else read_full_retries chunk left r crc1 last_e w2 st2

/-- One pass through the body of the `while` loop of `read_full`, up to (not
including) the `ui_update` at its bottom. -/
def read_full_chunk (chunk : Nat) (cfg : ScanConfig) (loc : FullLocals) (w : World)
    (st : ScanStats) : ChunkOutcome × FullLocals × World × ScanStats :=
  let off0 := st.current_done
  let (data, dt, w1) := fread { w with errno := 0 } chunk
  let r := data.length
  let loc1 : FullLocals :=
    if r > 0 then
      { crc := crc32_update loc.crc data
        first_crc :=
          if !loc.first_crc_set then
            crc32_update 0 (data.take (if r < SAMPLE_REGION then r else SAMPLE_REGION))
          else loc.first_crc
        first_crc_set := true }
    else loc
  let st1 := full_account st data dt off0
  if r < chunk then
    if w1.ferr then
      match read_full_retries chunk cfg.read_retries r loc1.crc w1.errno w1 st1 with
      | (false, _, crc2, last_e, w2, st2) =>
        let st3 := { st2 with read_errors := st2.read_errors + 1 }
        let st4 := first_fail_capture st3 (some "READ".toList) (some st3.current_path)
          st3.current_done chunk last_e (some "full read".toList)
        (ChunkOutcome.fail, { loc1 with crc := crc2 }, w2, err_push st4 "Full: read error".toList)
      | (true, r2, crc2, _, w2, st2) =>
        if r2 < chunk && !w2.ferr then (ChunkOutcome.eof, { loc1 with crc := crc2 }, w2, st2)
        else (ChunkOutcome.next, { loc1 with crc := crc2 }, w2, st2)
    else (ChunkOutcome.eof, loc1, w1, st1)
  else (ChunkOutcome.next, loc1, w1, st1)

/-- The `while (!st->cancelled)` loop of `read_full`.  `true` in the result means
the loop was left by its condition or a `break`, `false` by `return false`.
The first argument bounds the number of passes; `read_full` supplies one more
than the number of `fread` answers left, and every pass that goes round again
has used one up. -/
def read_full_loop (chunk : Nat) (cfg : ScanConfig) :
    Nat → FullLocals → World → ScanStats → Bool × FullLocals × World × ScanStats
  | 0, loc, w, st => (true, loc, w, st)
  | fuel + 1, loc, w, st =>
    if st.cancelled then (true, loc, w, st)
    else
      match read_full_chunk chunk cfg loc w st with
      | (ChunkOutcome.fail, loc1, w1, st1) => (false, loc1, w1, st1)
      | (ChunkOutcome.eof, loc1, w1, st1) => (true, loc1, w1, st1)
      | (ChunkOutcome.next, loc1, w1, st1) =>
        let (w2, st2) := ui_update w1 st1 false
        read_full_loop chunk cfg fuel loc1 w2 st2

/-- The consistency check at the end of `read_full` (after the forced
`ui_update`): `true` when control reaches the final `return !st->cancelled`,
`false` on `return false`. -/
def read_full_verify (cfg : ScanConfig) (loc : FullLocals) (w : World) (st : ScanStats) :
    Bool × World × ScanStats :=
  if cfg.consistency_check && loc.first_crc_set && !st.cancelled then
    let want := SAMPLE_REGION
    let (sk, w1) := fseeko w 0
    if sk then
      let (data, _, w2) := fread w1 want
      let rr := data.length
      if !w2.ferr && decide (rr > 0) then
        let c2 := crc32_update 0 data
        if c2 ≠ loc.first_crc then
          let st1 := { st with consistency_errors := st.consistency_errors + 1 }
          let st2 := first_fail_capture st1 (some "CONSIST".toList) (some st1.current_path)
            0 SAMPLE_REGION 0 (some "CRC mismatch".toList)
          (false, w2, err_push st2 "Consistency mismatch (first chunk)".toList)
        else (true, w2, st)
      else
        let e := w2.errno
        let w3 := { w2 with ferr := false }
        let st1 := { st with read_errors := st.read_errors + 1 }
        let st2 := first_fail_capture st1 (some "READ".toList) (some st1.current_path)
          0 SAMPLE_REGION e (some "consistency read".toList)
        (false, w3, err_push st2 "Consistency check read failed".toList)
    else (true, w1, st)
  else (true, w, st)

/-- The function `read_full(f, size, cfg, st, bufs, ui_update, pad, out_crc)`:
`some crc` when it returns true with `*out_crc = crc`, `none` when it returns
false. -/
def read_full (size : Nat) (cfg : ScanConfig) (w : World) (st : ScanStats) :
    Option Nat × World × ScanStats :=
  let fixed := chunk_bytes_from_mode cfg.chunk_mode
  let chunk := if fixed ≠ 0 then fixed else choose_chunk_auto size
  let (okc, w0) := ensure_chunk_cap w chunk
  if !okc then (none, w0, st)
  else
    match read_full_loop chunk cfg (w0.reads.length + 1) ⟨0, 0, false⟩ w0 st with
    | (false, _, w1, st1) => (none, w1, st1)
    | (true, loc, w1, st1) =>
      let (w2, st2) := ui_update w1 st1 true
      match read_full_verify cfg loc w2 st2 with
      | (false, w3, st3) => (none, w3, st3)
      | (true, w3, st3) => if st3.cancelled then (none, w3, st3) else (some loc.crc, w3, st3)

/-! ## Deep scan traversal -/

/-- The message `snprintf(msg, 256, "<what> failed: %s (%.180s)", strerror(errno), path)`. -/
def fail_msg (what : CStr) (w : World) (path : CStr) : CStr :=
  (what ++ " failed: ".toList ++ w.strerror w.errno ++ " (".toList ++ path.take 180
    ++ ")".toList).take 255

/-- The read-mode decision and progress cursor `scan_dir_recursive` sets up for
a regular file that passed the file filter: the local `sample` and the fields
`current_path` .. `current_planned`. -/
def scan_file_plan (child : CStr) (fsize : Nat) (cfg : ScanConfig) (st : ScanStats) :
    Bool × ScanStats :=
  let sample := !cfg.full_read && decide (fsize > cfg.large_file_limit)
  let st := { st with
    current_path := child.take 250
    current_size := fsize
    current_done := 0
    current_sample := sample }
  if sample then
    let want := SAMPLE_REGION
    let p1 := if fsize < want then fsize else want
    let p2 := if fsize > want then want else 0
    (sample, { st with current_planned := p1 + p2 })
  else (sample, { st with current_planned := fsize })

/-- The regular-file branch of the directory loop of `scan_dir_recursive`, for
the entry `child` of size `fsize`.  The Boolean is `true` when the loop goes on
with the next entry and `false` on `break`. -/
def scan_file (child : CStr) (fsize : Nat) (cfg : ScanConfig) (w : World) (st : ScanStats) :
    Bool × World × ScanStats :=
  let st := { st with files_total := st.files_total + 1 }
  let st := largest_update st child fsize
  if should_skip_file child cfg then
    (true, w, { st with skipped_files := st.skipped_files + 1 })
  else
    let (sample, st) := scan_file_plan child fsize cfg st
    let (w, st) := ui_update w st true
    if st.cancelled then (false, w, st)
    else
      let w := { w with trace := IoCall.fopen child :: w.trace }
      match w.fopens child with
      | some e =>
        let w := { w with errno := e }
        let st := { st with open_errors := st.open_errors + 1 }
        let st := first_fail_capture st (some "OPEN_FILE".toList) (some child) 0 0 w.errno
          (some "fopen".toList)
        let st := err_push st (fail_msg "fopen".toList w child)
        (true, w, fail_push_unique st child)
      | none =>
        let w := { w with ferr := false }
        let st := { st with files_read := st.files_read + 1 }
        let (ok, w, st) := if sample then read_sample fsize cfg w st else read_full fsize cfg w st
        if ok.isNone then
          let st := fail_push_unique st child
          if st.cancelled then (false, w, st) else (true, w, st)
        else (true, w, st)

/-- The result type of `scan_dir_recursive`: its return value and the state it
leaves. -/
abbrev ScanResult := Bool × World × ScanStats

/-- The `while ((ent = readdir(d)) != NULL)` loop of `scan_dir_recursive` over
the entries still to come.  `recurse child` is the recursive call
`scan_dir_recursive(root, child, depth + 1, ..)`; the result is the state when
the loop is left (by exhaustion or `break`). -/
def scan_entries (recurse : CStr → World → ScanStats → Option ScanResult) (path : CStr)
    (cfg : ScanConfig) : List CStr → World → ScanStats → Option (World × ScanStats)
  | [], w, st => some (w, st)
  | name :: rest, w, st =>
    let (w, st) := ui_update w st false
    if st.cancelled then some (w, st)
    else if name = ".".toList ∨ name = "..".toList then scan_entries recurse path cfg rest w st
    else
      let n := path.length + 1 + name.length
      if n ≥ PATH_MAX_LOCAL then
        let st := { st with path_errors := st.path_errors + 1 }
        let st := first_fail_capture st (some "PATH".toList) (some path) 0 0 0
          (some "Path too long".toList)
        let st := err_push st "Path too long (snprintf)".toList
        scan_entries recurse path cfg rest w st
      else
        let child := path ++ "/".toList ++ name
        let w := { w with trace := IoCall.stat child :: w.trace }
        match w.stats child with
        | StatRes.fail e =>
          let w := { w with errno := e }
          let st := { st with stat_errors := st.stat_errors + 1 }
          let st := first_fail_capture st (some "STAT".toList) (some child) 0 0 w.errno
            (some "stat".toList)
          let st := err_push st (fail_msg "stat".toList w child)
          let st := fail_push_unique st child
          scan_entries recurse path cfg rest w st
        | StatRes.dir =>
          let st := { st with dirs_total := st.dirs_total + 1 }
          if should_skip_dir child cfg then
            scan_entries recurse path cfg rest w { st with skipped_dirs := st.skipped_dirs + 1 }
          else
            let st := { st with
              current_path := child.take 250
              current_size := 0
              current_planned := 0
              current_done := 0
              current_sample := false }
            match recurse child w st with
            | none => none
            | some (false, w, st) => some (w, st)
            | some (true, w, st) => scan_entries recurse path cfg rest w st
        | StatRes.reg fsize =>
          match scan_file child fsize cfg w st with
          | (false, w, st) => some (w, st)
          | (true, w, st) => scan_entries recurse path cfg rest w st
        | StatRes.other => scan_entries recurse path cfg rest w st

/-- The function `scan_dir_recursive(root, path, depth, cfg, st, pad, ui_update,
bufs)`.  The first argument bounds the nesting of directories that are opened;
the result is `none` only when it is used up, which `129` levels never are
because of the check `depth > 128`. -/
def scan_dir_recursive :
    Nat → CStr → Nat → ScanConfig → World → ScanStats → Option ScanResult
  | fuel, path, depth, cfg, w, st =>
    if st.cancelled then some (false, w, st)
    else if depth > 128 then
      let st := { st with path_errors := st.path_errors + 1 }
      some (true, w, err_push st "Maximum directory depth reached (possible loop)".toList)
    else if should_skip_dir path cfg then
      some (true, w, { st with skipped_dirs := st.skipped_dirs + 1 })
    else
      match fuel with
      | 0 => none
      | fuel1 + 1 =>
        let w := { w with trace := IoCall.opendir path :: w.trace }
        match w.dirs path with
        | Except.error e =>
          let w := { w with errno := e }
          let st := { st with open_errors := st.open_errors + 1 }
          let st := first_fail_capture st (some "OPEN_DIR".toList) (some path) 0 0 w.errno
            (some "opendir".toList)
          let st := err_push st (fail_msg "opendir".toList w path)
          some (true, w, fail_push_unique st path)
        | Except.ok entries =>
          match scan_entries (fun child w1 st1 => scan_dir_recursive fuel1 child (depth + 1) cfg w1 st1)
              path cfg entries w st with
          | none => none
          | some (w, st) => some (!st.cancelled, w, st)

/-- The function `scan_engine_run(root, cfg, st, pad, ui_update)` for non-NULL
arguments. -/
def scan_engine_run (root : CStr) (cfg : ScanConfig) (w : World) (st : ScanStats) :
    Option ScanResult :=
  let (ok, w) := scan_buffers_init_default w
  if !ok then some (false, w, err_push st "Out of memory (scan buffers)".toList)
  else
    match scan_dir_recursive 129 root 0 cfg w st with
    | none => none
    | some (ok, w, st) => some (ok, { w with bufs := ⟨0, 0⟩ }, st)

/-! ## Specification-side definitions used by the theorems -/

/-- The entries of `largest[0 .. largest_count)`. -/
def largest_live (st : ScanStats) : List LargestEntry := st.largest.take st.largest_count

/-- A run of `largest_update` calls, one per `(path, size)` in encounter order. -/
def largest_feed (st : ScanStats) (files : List (CStr × Nat)) : ScanStats :=
  files.foldl (fun s f => largest_update s f.1 f.2) st

/-- The entry `largest_update` stores for a file: its size and its path cut to
250 bytes. -/
def largest_entry (f : CStr × Nat) : LargestEntry := ⟨f.2, f.1.take 250⟩

/-- The order "at least as large as" on entries. -/
def size_ge (a b : LargestEntry) : Prop := a.size ≥ b.size

instance size_ge_decidable : DecidableRel size_ge := fun a b => inferInstanceAs (Decidable (a.size ≥ b.size))

instance size_ge_isTotal : IsTotal LargestEntry size_ge :=
  ⟨fun a b => by unfold size_ge; omega⟩

instance size_ge_isTrans : IsTrans LargestEntry size_ge :=
  ⟨fun a b c hab hbc => by unfold size_ge at *; omega⟩

/-- The stable descending sort by size the specification speaks of: insertion
sort, each element going in front of the first later-placed element that is not
larger, so that among equal sizes the earlier element stays ahead. -/
def stable_sort_desc (l : List LargestEntry) : List LargestEntry := l.insertionSort size_ge

/-- Insertion of an entry in front of the first strictly smaller one (at the end
when there is none): what one `largest_update` does to an unbounded list. -/
def insert_desc (x : LargestEntry) : List LargestEntry → List LargestEntry
  | [] => [x]
  | b :: l => if x.size > b.size then x :: b :: l else b :: insert_desc x l

/-- The entries a run of `largest_update` calls is fed: those of non-zero size,
in encounter order. -/
def fed_entries (files : List (CStr × Nat)) : List LargestEntry :=
  (files.filter (fun f => decide (f.2 ≠ 0))).map largest_entry

/-- The entries of `fail_paths[0 .. fail_count)`. -/
def fail_live (st : ScanStats) : List CStr := st.fail_paths.take st.fail_count

/-- A run of `fail_push_unique` calls, one per path in encounter order. -/
def fail_feed (st : ScanStats) (paths : List CStr) : ScanStats :=
  paths.foldl fail_push_unique st

/-- The distinct strings of a list in order of first occurrence. -/
def first_distinct : List CStr → List CStr
  | [] => []
  | x :: xs => x :: (first_distinct xs).filter (fun y => decide (y ≠ x))

/-- Appending a string to a list unless it is already there. -/
def push_new (acc : List CStr) (x : CStr) : List CStr := if x ∈ acc then acc else acc ++ [x]

/-- A path of 251 bytes: 250 times `a`, then `b`. -/
def long_path_b : CStr := List.replicate 250 'a' ++ ['b']

/-- A path of 251 bytes: 250 times `a`, then `c`. -/
def long_path_c : CStr := List.replicate 250 'a' ++ ['c']

/-- The arguments of one `first_fail_capture` call (all pointers non-NULL). -/
structure FailArgs where
  kind : CStr
  path : CStr
  off : Nat
  bytes : Nat
  err : Int
  note : CStr
deriving DecidableEq

/-- The call `first_fail_capture(st, a.kind, a.path, a.off, a.bytes, a.err, a.note)`. -/
def capture_args (st : ScanStats) (a : FailArgs) : ScanStats :=
  first_fail_capture st (some a.kind) (some a.path) a.off a.bytes a.err (some a.note)

/-- A world in which a stream is open and `fread` is answered by `reads`: every
`fseeko` and `malloc` succeeds, the callback never asks to cancel, the file
system is empty. -/
def world_reads (reads : List FreadResp) : World where
  dirs := fun _ => Except.ok []
  stats := fun _ => StatRes.other
  fopens := fun _ => none
  strerror := fun _ => []
  seeks := []
  reads := reads
  mallocs := []
  ui := []
  ferr := false
  errno := 0
  bufs := ⟨SAMPLE_REGION, 1024 * 1024⟩
  trace := []

/-- A configuration with the given retry count and consistency check: sampling
above 64 MiB, automatic chunk size, no filters, target `sdmc:/`. -/
def cfg_with (retries : Nat) (consistency : Bool) : ScanConfig where
  full_read := false
  large_file_limit := 64 * 1024 * 1024
  read_retries := retries
  consistency_check := consistency
  chunk_mode := ChunkMode.CHUNK_AUTO
  skip_known_folders := false
  skip_media_exts := false
  deep_target := ScanTarget.SCAN_TARGET_ALL

/-- An `fread` that fails outright: no byte delivered, error indicator raised,
`errno = EIO`. -/
def fread_eio : FreadResp := ⟨[], 30, true, 5⟩

/-- The checksum `read_region_retry` hands back for a region read that delivered
`data` in a single error-free `fread` (0 when nothing was read). -/
def region_crc (data : List Nat) : Nat := if data.length > 0 then crc32_update 0 data else 0

/-- The scenario of the specification: the root `sdmc:/` holds the empty
directory `a` and the regular file `big.bin` of 100 MiB; every call succeeds and
the file's bytes are not modelled (each `fread` reports end of file). -/
def scenario_world : World :=
  { world_reads [] with
    dirs := fun p =>
      if p = "sdmc:/".toList then Except.ok ["a".toList, "big.bin".toList]
      else if p = "sdmc://a".toList then Except.ok []
      else Except.error 2
    stats := fun p =>
      if p = "sdmc://a".toList then StatRes.dir
      else if p = "sdmc://big.bin".toList then StatRes.reg (100 * 1024 * 1024)
      else StatRes.fail 2
    bufs := ⟨0, 0⟩ }

/-- The counters and cursor fields the scenario speaks of, with the return value. -/
def scenario_view (r : Option ScanResult) : Option (Bool × List Nat × Bool) :=
  r.map (fun x =>
    (x.1, [x.2.2.dirs_total, x.2.2.files_total, x.2.2.files_read, x.2.2.current_planned],
      x.2.2.current_sample))

/-- A file system in which every path is a directory with the single entry `a`:
below the root lies an endless chain of nested directories. -/
def chain_world : World :=
  { world_reads [] with
    dirs := fun _ => Except.ok ["a".toList]
    stats := fun _ => StatRes.dir
    bufs := ⟨0, 0⟩ }

/-- A file system whose root `sdmc:/` has a single entry, with a name of 2048
bytes. -/
def long_name_world : World :=
  { world_reads [] with
    dirs := fun p =>
      if p = "sdmc:/".toList then Except.ok [List.replicate 2048 'x'] else Except.error 2
    stats := fun _ => StatRes.fail 2
    bufs := ⟨0, 0⟩ }

/-- A file system whose root `sdmc:/` holds the single regular file `f` of
128 KiB; the two reads of its first region deliver the same byte, the two reads
of its last region deliver different bytes, none raises an error. -/
def unstable_tail_world : World :=
  { world_reads [⟨[1], 1, false, 0⟩, ⟨[1], 1, false, 0⟩, ⟨[2], 1, false, 0⟩, ⟨[3], 1, false, 0⟩] with
    dirs := fun p => if p = "sdmc:/".toList then Except.ok ["f".toList] else Except.error 2
    stats := fun p => if p = "sdmc://f".toList then StatRes.reg 131072 else StatRes.fail 2
    bufs := ⟨0, 0⟩ }

/-- A file system whose root `sdmc:/` holds the single regular file `f` of 10
bytes, every `fread` on which fails outright. -/
def dead_file_world : World :=
  { world_reads [fread_eio, fread_eio, fread_eio, fread_eio] with
    dirs := fun p => if p = "sdmc:/".toList then Except.ok ["f".toList] else Except.error 2
    stats := fun p => if p = "sdmc://f".toList then StatRes.reg 10 else StatRes.fail 2
    bufs := ⟨0, 0⟩ }

/-- The error bookkeeping of a finished run: the return value, the counters
`dirs_total`, `files_total`, `path_errors`, `consistency_errors`, `read_errors`,
`read_errors_transient`, `err_ring_count` and `fail_count`, and
`first_fail_set`. -/
def error_view (r : Option ScanResult) : Option (Bool × List Nat × Bool) :=
  r.map (fun x =>
    (x.1, [x.2.2.dirs_total, x.2.2.files_total, x.2.2.path_errors, x.2.2.consistency_errors,
      x.2.2.read_errors, x.2.2.read_errors_transient, x.2.2.err_ring_count, x.2.2.fail_count],
      x.2.2.first_fail_set))

/-! ## Specification-side definitions: telemetry sequences -/

/-- The state after `err_push` has been called on zeroed stats with each message
of `msgs` in turn. -/
def err_push_all (msgs : List CStr) : ScanStats := msgs.foldl err_push ScanStats.zero

/-- The throughput of the specification as a rational number of MiB/s:
`(bytes / 1048576) / (max(dt_ms, 1) / 1000)`. -/
def spec_mib_s (bytes dt_ms : Nat) : ℚ :=
  ((bytes : ℚ) / 1048576) / (((max dt_ms 1 : Nat) : ℚ) / 1000)

/-- The arguments of one `perf_record` call. -/
structure PerfCall where
  bytes : Nat
  dt_ms : Nat
  off : Nat
  path : Option CStr
deriving DecidableEq

/-- The duration `perf_record` works with: `dt_ms`, or 1 when it is 0. -/
def PerfCall.eff_ms (c : PerfCall) : Nat := max c.dt_ms 1

/-- The state after `perf_record` has been called, starting from `st`, with each
argument tuple of `calls` in turn. -/
def perf_record_all (st : ScanStats) (calls : List PerfCall) : ScanStats :=
  calls.foldl (fun s c => perf_record s c.bytes c.dt_ms c.off c.path) st

/-- The maximum of `max(dt_ms, 1)` over the calls with `bytes > 0`, 0 when there
is none. -/
def longest_ms (calls : List PerfCall) : Nat :=
  ((calls.filter (fun c => decide (0 < c.bytes))).map PerfCall.eff_ms).foldr max 0

/-- The longest-operation snapshot of the stats: `perf_longest_ms`,
`perf_longest_mib_s`, `perf_longest_off`, `perf_longest_bytes` and
`perf_longest_path`. -/
def longest_view (st : ScanStats) : Nat × Throughput × Nat × Nat × CStr :=
  (st.perf_longest_ms, st.perf_longest_mib_s, st.perf_longest_off, st.perf_longest_bytes,
    st.perf_longest_path)

/-- The snapshot a call leaves when it is the longest so far: its duration,
throughput, offset and size, and its path as `"%.250s"` prints it. -/
def PerfCall.snapshot (c : PerfCall) : Nat × Throughput × Nat × Nat × CStr :=
  (c.eff_ms, ⟨c.bytes * 1000, 1048576 * c.eff_ms⟩, c.off, c.bytes,
    (c.path.getD "(unknown)".toList).take 250)

/-! ## Specification-side definitions: cancellation and the call trace -/

/-- A file system whose root `sdmc:/` holds the regular files `f` and `g` of 10
bytes each, every call on which succeeds; the callback answers the requests of
`ui` in turn. -/
def two_files_world (ui : List Bool) : World :=
  { world_reads [] with
    dirs := fun p => if p = "sdmc:/".toList then Except.ok ["f".toList, "g".toList]
      else Except.error 2
    stats := fun p =>
      if p = "sdmc://f".toList ∨ p = "sdmc://g".toList then StatRes.reg 10 else StatRes.fail 2
    ui := ui
    bufs := ⟨0, 0⟩ }

/-- The states the callback has left, newest first: one per `ui_update` entry of
a trace. -/
def seen : List IoCall → List ScanStats
  | [] => []
  | IoCall.ui_update _ s :: t => s :: seen t
  | IoCall.opendir _ :: t => seen t
  | IoCall.stat _ :: t => seen t
  | IoCall.fopen _ :: t => seen t
  | IoCall.fseeko _ :: t => seen t
  | IoCall.fread _ :: t => seen t

/-- The file-system calls that start work on a new entry: `stat`, `opendir`,
`fopen`. -/
def IoCall.is_fs : IoCall → Bool
  | IoCall.opendir _ => true
  | IoCall.stat _ => true
  | IoCall.fopen _ => true
  | _ => false

/-- A callback invocation that has left `st->cancelled` set. -/
def IoCall.is_cancel : IoCall → Bool
  | IoCall.ui_update _ s => s.cancelled
  | _ => false

/-- A trace (newest first) in which no `stat`, `opendir` or `fopen` comes after a
callback invocation that left `st->cancelled` set. -/
def quiet : List IoCall → Bool
  | [] => true
  | e :: older => (!e.is_fs || !older.any IoCall.is_cancel) && quiet older

/-- The number of bytes the remaining `fread` answers hold. -/
def reads_total (rs : List FreadResp) : Nat := (rs.map (fun r => r.data.length)).sum

/-- The 64-bit byte total cannot wrap: even if every remaining `fread` answer is
counted in full, `bytes_read` stays below `2 ^ 64`. -/
def NoWrap (w : World) (st : ScanStats) : Prop :=
  st.bytes_read + reads_total w.reads < 2 ^ 64

/-- The state `b` is a later state of `a` so far as the counters go: none of the
event counters is smaller and the cancellation flag has not been cleared; when
`bytes` is set, `bytes_read` is not smaller either; when `files` is set, the
two states are states of the same file, with `files_total` and `files_read`
unchanged. -/
def Mono (bytes files : Bool) (a b : ScanStats) : Prop :=
  (a.dirs_total ≤ b.dirs_total ∧ a.files_total ≤ b.files_total ∧ a.files_read ≤ b.files_read
      ∧ a.open_errors ≤ b.open_errors ∧ a.read_errors ≤ b.read_errors
      ∧ a.read_errors_transient ≤ b.read_errors_transient ∧ a.stat_errors ≤ b.stat_errors
      ∧ a.path_errors ≤ b.path_errors ∧ a.consistency_errors ≤ b.consistency_errors
      ∧ a.skipped_dirs ≤ b.skipped_dirs ∧ a.skipped_files ≤ b.skipped_files)
    ∧ (a.cancelled = true → b.cancelled = true)
    ∧ (bytes = true → a.bytes_read ≤ b.bytes_read)
    ∧ (files = true → b.files_total = a.files_total ∧ b.files_read = a.files_read)

/-- What every stretch of the engine does to the stats and the trace, from the
state `(w, st)` to the state `(w1, st1)`: the counters only grow (`bytes_read`
included when `bytes` is set and the total cannot wrap; the file counters
unchanged when `files` is set), every state the callback is shown on the way
lies between the two ends and after the states shown before it, and the trace
stays `quiet` as long as the flag is set whenever a callback has left it set. -/
structure Step (bytes files : Bool) (w : World) (st : ScanStats) (w1 : World)
    (st1 : ScanStats) : Prop where
  mono : (bytes = true → NoWrap w st) → Mono bytes files st st1
  pot : bytes = true → NoWrap w st →
    st1.bytes_read + reads_total w1.reads ≤ st.bytes_read + reads_total w.reads
  obs : (bytes = true → NoWrap w st) →
    ∃ new : List ScanStats, seen w1.trace = new ++ seen w.trace
      ∧ (∀ s ∈ new, Mono bytes files st s ∧ Mono bytes files s st1)
      ∧ new.Pairwise (fun later earlier => Mono bytes files earlier later)
  calm : quiet w.trace = true → (w.trace.any IoCall.is_cancel = true → st.cancelled = true) →
    quiet w1.trace = true ∧ (w1.trace.any IoCall.is_cancel = true → st1.cancelled = true)

/-- The invariant `files_read <= files_total`, with `k` files counted but not yet
opened: every state the callback was shown satisfies `files_read <=
files_total`, and the current state has `files_read + k <= files_total`. -/
def files_ok (k : Nat) (w : World) (st : ScanStats) : Prop :=
  (∀ s ∈ seen w.trace, s.files_read ≤ s.files_total) ∧ st.files_read + k ≤ st.files_total

/-- A stretch of the traversal: a `Step` that may change the file counters and
takes the invariant `files_ok k` to `files_ok k1`. -/
structure Trav (bytes : Bool) (k k1 : Nat) (w : World) (st : ScanStats) (w1 : World)
    (st1 : ScanStats) : Prop where
  step : Step bytes false w st w1 st1
  files : files_ok k w st → files_ok k1 w1 st1

/-! ## Specification-side definitions: verification re-reads -/

/-- What a verified region makes of a 64-bit byte count `x` when each of the two
reads delivers `n` bytes: `x += n` (read), `x -= SAMPLE_REGION` (rollback),
`x += n` (re-read), `x -= SAMPLE_REGION` (rollback). -/
def verify_net (x n : Nat) : Nat :=
  u64_sub (u64 (u64_sub (u64 (x + n)) SAMPLE_REGION + n)) SAMPLE_REGION

/-- A block of 64 KiB of zero bytes delivered by one error-free `fread`. -/
def zero_block : FreadResp := ⟨List.replicate SAMPLE_REGION 0, 1, false, 0⟩

/-- A stream that delivers four blocks of 64 KiB without error, as a file of at
least 128 KiB does when its first and its last region are each read twice; the
scan buffers are allocated. -/
def four_blocks_world : World :=
  world_reads [zero_block, zero_block, zero_block, zero_block]

/-- The stats at the moment `read_sample` is entered for the 100 MiB file
`sdmc://big.bin` of the specification's scenario, on otherwise zeroed stats:
counted, planned (128 KiB) and opened. -/
def big_file_stats : ScanStats :=
  { (scan_file_plan "sdmc://big.bin".toList (100 * 1024 * 1024) (cfg_with 0 true)
      { ScanStats.zero with files_total := 1 }).2 with files_read := 1 }

/-- A call of the trace in words: the call and its path, or what the callback
answered. -/
def IoCall.view : IoCall → CStr
  | IoCall.opendir p => "opendir ".toList ++ p
  | IoCall.stat p => "stat ".toList ++ p
  | IoCall.fopen p => "fopen ".toList ++ p
  | IoCall.fseeko _ => "fseeko".toList
  | IoCall.fread _ => "fread".toList
  | IoCall.ui_update _ s => if s.cancelled then "callback: cancel".toList else "callback".toList

/-- The calls of a finished run in words, oldest first. -/
def trace_view (r : Option ScanResult) : Option (List CStr) :=
  r.map (fun x => x.2.1.trace.reverse.map IoCall.view)

/-- The locals `crc`, `first_crc` and `first_crc_set` of `read_full` after the
block `if (r > 0) { .. }` for a chunk `data` that an `fread` delivered. -/
def full_locals_step (loc : FullLocals) (data : List Nat) : FullLocals :=
  if data.length > 0 then
    { crc := crc32_update loc.crc data
      first_crc :=
        if !loc.first_crc_set then
          crc32_update 0
            (data.take (if data.length < SAMPLE_REGION then data.length else SAMPLE_REGION))
        else loc.first_crc
      first_crc_set := true }
  else loc

/-- The chunk size `read_full` works with for a file of the given size. -/
def full_chunk (cfg : ScanConfig) (size : Nat) : Nat :=
  if chunk_bytes_from_mode cfg.chunk_mode ≠ 0 then chunk_bytes_from_mode cfg.chunk_mode
  else choose_chunk_auto size

/-- A stream over a file of three bytes read in full mode with the consistency
check: the read that reaches the end of the file, then the re-read of the first
chunk, both without error; the scan buffers are allocated. -/
def tiny_file_world : World :=
  world_reads [⟨[1, 2, 3], 1, false, 0⟩, ⟨[1, 2, 3], 1, false, 0⟩]

/-! ## Specification-side definitions: filters -/

/-- Some segment of `path` that follows a `/` equals `seg` up to ASCII case: the
path reads `pre/s` or `pre/s/rest`, where `s` holds no `/` and is `seg` after
`tolower` on both sides. -/
def has_segment_ci (path seg : CStr) : Prop :=
  ∃ pre s post, path = pre ++ '/' :: s ++ post ∧ (post = [] ∨ ∃ rest, post = '/' :: rest)
    ∧ '/' ∉ s ∧ s.map Char.toLower = seg.map Char.toLower

/-- The path begins with `head` up to ASCII case, whatever follows. -/
def starts_with_ci (path head : CStr) : Prop :=
  ∃ h rest, path = h ++ rest ∧ h.map Char.toLower = head.map Char.toLower

/-- The path ends with `tail` up to ASCII case. -/
def ends_with_ci (path tail : CStr) : Prop :=
  ∃ pre t, path = pre ++ t ∧ t.map Char.toLower = tail.map Char.toLower

/-- The loop `while (n > strlen("sdmc:/") && out[n-1] == '/') { out[n-1] = 0; n--; }`
of `get_deep_root` (`main.c`); the first argument bounds the number of passes. -/
def trim_slashes : Nat → CStr → CStr
  | 0, out => out
  | fuel + 1, out =>
    if out.length > "sdmc:/".toList.length ∧ out.getLast? = some '/' then
      trim_slashes fuel out.dropLast
    else out

/-- The function `get_deep_root(cfg, out, 256)` of `main.c` for a non-NULL
configuration, as the string it leaves in `out`.  The field `custom_root` of
`ScanConfig`, which the engine does not read, is passed next to the target. -/
def get_deep_root (target : ScanTarget) (custom_root : CStr) : CStr :=
  let out : CStr :=
    match target with
    | ScanTarget.SCAN_TARGET_NINTENDO => "sdmc:/Nintendo".toList
    | ScanTarget.SCAN_TARGET_EMUMMC => "sdmc:/emuMMC".toList
    | ScanTarget.SCAN_TARGET_SWITCH => "sdmc:/switch".toList
    | ScanTarget.SCAN_TARGET_CUSTOM_CFG =>
      if custom_root ≠ [] then custom_root.take 255 else "sdmc:/".toList
    | ScanTarget.SCAN_TARGET_ALL => "sdmc:/".toList
  trim_slashes out.length out

/-- The paths `scan_dir_recursive` gives to `should_skip_dir` in a scan of
`root`: the root itself, and children built as `"%s/%s"` from a path of the scan
and an entry name, which all read `root/rest`. -/
def scan_path (root path : CStr) : Prop :=
  path = root ∨ ∃ rest, path = root ++ "/".toList ++ rest

/-- A configuration with the folder filter and the extension filter switched on
and the given scan target. -/
def filter_cfg (target : ScanTarget) : ScanConfig where
  full_read := false
  large_file_limit := 64 * 1024 * 1024
  read_retries := 0
  consistency_check := false
  chunk_mode := ChunkMode.CHUNK_AUTO
  skip_known_folders := true
  skip_media_exts := true
  deep_target := target

/-! ## Specification-side definitions: chunk sizes -/

/-- The integer value of a `ChunkMode` enumerator (`config.h`). -/
def ChunkMode.code : ChunkMode → Int
  | ChunkMode.CHUNK_AUTO => 0
  | ChunkMode.CHUNK_128K => 1
  | ChunkMode.CHUNK_256K => 2
  | ChunkMode.CHUNK_512K => 3
  | ChunkMode.CHUNK_1M => 4

/-- The `switch` of `chunk_bytes_from_mode` on the integer a `ChunkMode` variable
holds, which need not be the value of an enumerator: every value but those of
the four fixed modes takes the `default` branch. -/
def chunk_bytes_from_code (m : Int) : Nat :=
  if m = 1 then 128 * 1024
  else if m = 2 then 256 * 1024
  else if m = 3 then 512 * 1024
  else if m = 4 then 1024 * 1024
  else 0

/-- The chunk size `read_full` works with when `cfg->chunk_mode` holds the
integer `m`: `fixed ? fixed : choose_chunk_auto(size)`. -/
def full_chunk_of_code (m : Int) (size : Nat) : Nat :=
  if chunk_bytes_from_code m ≠ 0 then chunk_bytes_from_code m else choose_chunk_auto size

/-! ## Specification-side definitions: concrete runs -/

/-- A file system whose root `sdmc:/` holds the single regular file `f` of 10
bytes, which `fopen` refuses with `errno = EACCES`. -/
def locked_file_world : World :=
  { world_reads [] with
    dirs := fun p => if p = "sdmc:/".toList then Except.ok ["f".toList] else Except.error 2
    stats := fun p => if p = "sdmc://f".toList then StatRes.reg 10 else StatRes.fail 2
    fopens := fun _ => some 13
    bufs := ⟨0, 0⟩ }

/-- An error-free `fread` that delivers three bytes and then meets the end of the
file. -/
def short_read : FreadResp := ⟨[7, 7, 7], 1, false, 0⟩

/-- An error-free `fread` at the end of the file: no byte delivered. -/
def eof_read : FreadResp := ⟨[], 1, false, 0⟩

/-- A stream over a file that `stat` reports as 128 KiB long but that ends after
three bytes: the two reads of the first region deliver the three bytes and reach
the end of the file without error, the two reads of the last region deliver
nothing. -/
def short_file_world : World :=
  world_reads [short_read, short_read, eof_read, eof_read]

/-- The stream of `short_file_world` when the second `fseeko`, the one before the
re-read of the first region, fails with `errno = EIO`. -/
def short_file_seek_world : World :=
  { world_reads [short_read] with seeks := [none, some 5] }

/-- The byte counters of the states the callback was shown, oldest first, then
those of the final state, each as `(bytes_read, current_done)`. -/
def bytes_view (r : Option Nat × World × ScanStats) : List (Nat × Nat) :=
  ((seen r.2.1.trace).reverse ++ [r.2.2]).map (fun s => (s.bytes_read, s.current_done))

/-- A file system whose root `sdmc:/` holds the regular files `f` and `g` of 10
bytes each, every call on which succeeds; the callback asks to cancel at its
third invocation, which is the one at the end of the read loop of `f`. -/
def cancel_in_read_world : World :=
  { world_reads [⟨[1, 2, 3, 4, 5, 6, 7, 8, 9, 10], 1, false, 0⟩] with
    dirs := fun p => if p = "sdmc:/".toList then Except.ok ["f".toList, "g".toList]
      else Except.error 2
    stats := fun p =>
      if p = "sdmc://f".toList ∨ p = "sdmc://g".toList then StatRes.reg 10 else StatRes.fail 2
    ui := [false, false, true]
    bufs := ⟨0, 0⟩ }

/-- The error counters `open_errors`, `stat_errors`, `path_errors`,
`read_errors`, `read_errors_transient` and `consistency_errors` of a state. -/
def error_counters (st : ScanStats) : List Nat :=
  [st.open_errors, st.stat_errors, st.path_errors, st.read_errors, st.read_errors_transient,
    st.consistency_errors]

/-- A full-read configuration with the given retry count and the consistency
check switched on. -/
def full_cfg (retries : Nat) : ScanConfig where
  full_read := true
  large_file_limit := 64 * 1024 * 1024
  read_retries := retries
  consistency_check := true
  chunk_mode := ChunkMode.CHUNK_AUTO
  skip_known_folders := false
  skip_media_exts := false
  deep_target := ScanTarget.SCAN_TARGET_ALL

/-- The five bytes of the file read in `partial_read_world`. -/
def five_bytes : List Nat := [1, 2, 3, 4, 5]

/-- A stream over an unchanging file of the five bytes `five_bytes`: the first
`fread` delivers the first two bytes and raises the error indicator
(`errno = EIO`), the retry delivers the remaining three and reaches the end of
the file without error, and the re-read from offset 0 delivers all five. -/
def partial_read_world : World :=
  world_reads [⟨five_bytes.take 2, 1, true, 5⟩, ⟨five_bytes.drop 2, 1, false, 0⟩,
    ⟨five_bytes, 1, false, 0⟩]

/-! ## Results and verdict (`main.c`) -/

/-- The enumeration `Verdict`. -/
inductive Verdict where
  | VERDICT_PASSED
  | VERDICT_WARNINGS
  | VERDICT_FAILED
  | VERDICT_CANCELLED
deriving DecidableEq

/-- The fields of `RunResult` that `compute_verdict` reads; the counters are
`uint64_t` and tested only against zero. -/
structure RunResult where
  ran : Bool
  cancelled : Bool
  open_errors : Nat
  read_errors : Nat
  read_errors_transient : Nat
  stat_errors : Nat
  path_errors : Nat
  consistency_errors : Nat
  skipped_dirs : Nat
  skipped_files : Nat
  write_test_enabled : Bool
  write_test_ok : Bool
deriving DecidableEq

/-- The function `compute_verdict(r)`; `none` is the NULL pointer. -/
def compute_verdict (r : Option RunResult) : Verdict :=
  match r with
  | none => Verdict.VERDICT_WARNINGS
  | some r =>
    if !r.ran then Verdict.VERDICT_WARNINGS
    else if r.cancelled then Verdict.VERDICT_CANCELLED
    else if r.read_errors > 0 ∨ r.consistency_errors > 0 then Verdict.VERDICT_FAILED
    else if r.write_test_enabled && !r.write_test_ok then Verdict.VERDICT_FAILED
    else
      let any_warn := false
      let any_warn :=
        if r.open_errors ≠ 0 ∨ r.stat_errors ≠ 0 ∨ r.path_errors ≠ 0 then true else any_warn
      let any_warn := if r.read_errors_transient ≠ 0 then true else any_warn
      let any_warn := if r.skipped_dirs ≠ 0 ∨ r.skipped_files ≠ 0 then true else any_warn
      let any_warn := if !r.write_test_enabled then true else any_warn
      if any_warn then Verdict.VERDICT_WARNINGS else Verdict.VERDICT_PASSED

/-- The error bookkeeping of a finished run as the failing-path list relates to
it: the return value, the six error counters followed by `files_total` and
`files_read`, and the live entries of `fail_paths`. -/
def fail_view (r : Option ScanResult) : Option (Bool × List Nat × List CStr) :=
  r.map (fun x =>
    (x.1, error_counters x.2.2 ++ [x.2.2.files_total, x.2.2.files_read], fail_live x.2.2))

/-! ## Double arithmetic of `perf_record` -/

/-- The loop behind `ilog2`; the first argument bounds the number of halvings. -/
def ilog2_loop : Nat → Nat → Nat
  | 0, _ => 0
  | fuel + 1, n => if n < 2 then 0 else ilog2_loop fuel (n / 2) + 1

/-- The position of the leading bit of `n > 0`: the `e` with
`2 ^ e <= n < 2 ^ (e + 1)`. -/
def ilog2 (n : Nat) : Nat := ilog2_loop n n

/-- The IEEE 754 binary64 rounding (to nearest, ties to even) of the positive
fraction `n / d`, as the fraction `num / den` it yields.  With
`N = n * 2 ^ (53 + ilog2 d)` and `D = d * 2 ^ dn`, where `dn` is `ilog2 n` or
`ilog2 n + 1`, the quotient `N / D` lies in `[2 ^ 52, 2 ^ 53)`; it is rounded to
the whole number `m` of 53 bits, and the double is
`m * 2 ^ dn / 2 ^ (53 + ilog2 d)`.
The exponent range is not modelled: the values `perf_record` computes from
64-bit integers lie between `2 ^ -74` and `2 ^ 74`. -/
def double_round (n d : Nat) : Throughput :=
  if n = 0 ∨ d = 0 then ⟨0, 1⟩
  else
    let N := n * 2 ^ (53 + ilog2 d)
    let dn := if N / (d * 2 ^ ilog2 n) ≥ 2 ^ 53 then ilog2 n + 1 else ilog2 n
    let D := d * 2 ^ dn
    let m := N / D
    let r := N % D
    let m := if 2 * r > D ∨ (2 * r = D ∧ m % 2 = 1) then m + 1 else m
    ⟨m * 2 ^ dn, 2 ^ (53 + ilog2 d)⟩

/-- The conversion `(double)x` of a 64-bit unsigned integer. -/
def double_of_u64 (x : Nat) : Throughput := double_round x 1

/-- The division `a / b` of two doubles. -/
def double_div (a b : Throughput) : Throughput := double_round (a.num * b.den) (a.den * b.num)

/-- The double `mibs` of `perf_record` for `bytes > 0`:
`secs = (double)dt_ms / 1000.0; mib = (double)bytes / 1048576.0;
mibs = (secs > 0.0) ? (mib / secs) : 0.0`, after `if (dt_ms == 0) dt_ms = 1`. -/
def perf_mibs_double (bytes dt_ms : Nat) : Throughput :=
  let dt_ms := if dt_ms = 0 then 1 else dt_ms
  let secs := double_div (double_of_u64 dt_ms) ⟨1000, 1⟩
  let mib := double_div (double_of_u64 bytes) ⟨1048576, 1⟩
  if secs.num > 0 then double_div mib secs else ⟨0, 1⟩

/-- The value of a fraction as a rational number. -/
def Throughput.val (q : Throughput) : ℚ := (q.num : ℚ) / (q.den : ℚ)

/-! ## CRC32: table-driven update against the bit-by-bit reference -/

theorem shiftRight_xor (x y k : Nat) : (x ^^^ y) >>> k = (x >>> k) ^^^ (y >>> k) := by
  apply Nat.eq_of_testBit_eq
  intro i
  simp [Nat.testBit_shiftRight, Nat.testBit_xor]

theorem xor_cancel_mid (p a b : Nat) : (p ^^^ a) ^^^ (p ^^^ b) = a ^^^ b := by
  apply Nat.eq_of_testBit_eq
  intro i
  simp only [Nat.testBit_xor]
  cases p.testBit i <;> cases a.testBit i <;> cases b.testBit i <;> rfl

theorem xor_rotate (p a b : Nat) : a ^^^ (p ^^^ b) = p ^^^ (a ^^^ b) := by
  apply Nat.eq_of_testBit_eq
  intro i
  simp only [Nat.testBit_xor]
  cases p.testBit i <;> cases a.testBit i <;> cases b.testBit i <;> rfl

theorem xor_mask_twice (x m : Nat) : (x ^^^ m) ^^^ m = x := by
  rw [Nat.xor_assoc, Nat.xor_self, Nat.xor_zero]

/-- The round of `crc32_init` is the reference bit step. -/
theorem crc32_round_eq_ref (c : Nat) : crc32_round c = crc32_ref_bit c := by
  unfold crc32_round crc32_ref_bit
  rw [Nat.and_one_is_mod, Nat.shiftRight_eq_div_pow, Nat.xor_comm]
  have : c % 2 = 0 ∨ c % 2 = 1 := by omega
  rcases this with h | h <;> simp [h]

/-- The round is linear over xor. -/
theorem crc32_round_xor (x y : Nat) :
    crc32_round (x ^^^ y) = crc32_round x ^^^ crc32_round y := by
  unfold crc32_round
  simp only [Nat.and_one_is_mod, shiftRight_xor]
  have hx : x % 2 = 0 ∨ x % 2 = 1 := by omega
  have hy : y % 2 = 0 ∨ y % 2 = 1 := by omega
  have hxy := @Nat.xor_mod_two_eq_one x y
  rcases hx with hx | hx <;> rcases hy with hy | hy
  · have : (x ^^^ y) % 2 = 0 := by
      have : (x ^^^ y) % 2 ≠ 1 := by rw [Ne, hxy]; simp [hx, hy]
      omega
    simp [hx, hy, this]
  · have : (x ^^^ y) % 2 = 1 := by rw [hxy]; simp [hx, hy]
    simp only [hx, hy, this, ne_eq, one_ne_zero, not_false_eq_true, not_true_eq_false,
      if_true, if_false]
    exact (xor_rotate _ _ _).symm
  · have : (x ^^^ y) % 2 = 1 := by rw [hxy]; simp [hx, hy]
    simp [hx, hy, this, Nat.xor_assoc]
  · have : (x ^^^ y) % 2 = 0 := by
      have : (x ^^^ y) % 2 ≠ 1 := by rw [Ne, hxy]; simp [hx, hy]
      omega
    simp only [hx, hy, this, ne_eq, one_ne_zero, not_false_eq_true, not_true_eq_false,
      if_true, if_false]
    exact (xor_cancel_mid _ _ _).symm

theorem crc32_round_iter_xor (k x y : Nat) :
    crc32_round^[k] (x ^^^ y) = crc32_round^[k] x ^^^ crc32_round^[k] y := by
  induction k generalizing x y with
  | zero => rfl
  | succ k ih => simp only [Function.iterate_succ, Function.comp_apply, crc32_round_xor, ih]

/-- On a value whose low `k` bits are clear, `k` rounds only shift. -/
theorem crc32_round_iter_shiftLeft (k z : Nat) : crc32_round^[k] (z <<< k) = z := by
  induction k generalizing z with
  | zero => simp
  | succ k ih =>
    have h1 : crc32_round (z <<< (k + 1)) = z <<< k := by
      unfold crc32_round
      rw [Nat.and_one_is_mod, Nat.shiftLeft_eq, Nat.shiftRight_eq_div_pow, Nat.shiftLeft_eq]
      have : z * 2 ^ (k + 1) = 2 * (z * 2 ^ k) := by ring
      rw [this]
      simp
    simp only [Function.iterate_succ, Function.comp_apply, h1, ih]

theorem split_low_byte (x : Nat) : x = (x &&& 0xFF) ^^^ ((x >>> 8) <<< 8) := by
  apply Nat.eq_of_testBit_eq
  intro i
  have h255 : (0xFF : Nat) = 2 ^ 8 - 1 := by norm_num
  rw [Nat.testBit_xor, Nat.testBit_and, h255, Nat.testBit_two_pow_sub_one,
    Nat.testBit_shiftLeft, Nat.testBit_shiftRight]
  by_cases h : i < 8
  · have : ¬ 8 ≤ i := by omega
    simp [h, this]
  · have : 8 ≤ i := by omega
    simp [h, this]

/-- Eight rounds on `x` are a table entry for the low byte xor the rest shifted. -/
theorem crc32_round8_split (x : Nat) :
    crc32_round^[8] x = crc32_entry (x &&& 0xFF) ^^^ (x >>> 8) := by
  conv_lhs => rw [split_low_byte x]
  rw [crc32_round_iter_xor, crc32_round_iter_shiftLeft]
  rfl

theorem crc32_table_getD (i : Nat) (h : i < 256) : crc32_table.getD i 0 = crc32_entry i := by
  simp [crc32_table, crc32_init, List.getD_eq_getElem?_getD, h]

theorem and_ff_lt (x : Nat) : x &&& 0xFF < 256 := by
  have h255 : (0xFF : Nat) = 2 ^ 8 - 1 := by norm_num
  rw [h255, Nat.and_pow_two_sub_one_eq_mod]
  exact Nat.mod_lt _ (by norm_num)

theorem xor_byte_shiftRight8 (c b : Nat) (hb : b < 256) : (c ^^^ b) >>> 8 = c >>> 8 := by
  rw [shiftRight_xor]
  have : b >>> 8 = 0 := by
    rw [Nat.shiftRight_eq_div_pow]; exact Nat.div_eq_of_lt (by simpa using hb)
  rw [this, Nat.xor_zero]

/-- The table-driven byte loop is the fold of the reference byte step. -/
theorem crc32_bytes_eq_ref (crc : Nat) (data : List Nat) (h : ∀ b ∈ data, b < 256) :
    crc32_bytes crc data = data.foldl crc32_ref_byte crc := by
  induction data generalizing crc with
  | nil => rfl
  | cons b rest ih =>
    have hb : b < 256 := h b (List.mem_cons_self _ _)
    have hr : ∀ x ∈ rest, x < 256 := fun x hx => h x (List.mem_cons_of_mem _ hx)
    simp only [crc32_bytes, List.foldl_cons]
    rw [ih _ hr]
    congr 1
    rw [crc32_table_getD _ (and_ff_lt _), crc32_ref_byte, ← xor_byte_shiftRight8 crc b hb,
      ← crc32_round8_split]
    congr 1
    funext c
    exact crc32_round_eq_ref c

theorem crc32_entry_lt (i : Nat) (h : i < 256) : crc32_entry i < 2 ^ 32 := by
  have hstep : ∀ c, c < 2 ^ 32 → crc32_round c < 2 ^ 32 := by
    intro c hc
    unfold crc32_round
    have h1 : c >>> 1 < 2 ^ 32 := by
      rw [Nat.shiftRight_eq_div_pow]; exact lt_of_le_of_lt (Nat.div_le_self _ _) hc
    split
    · exact Nat.xor_lt_two_pow (by norm_num) h1
    · exact h1
  have hiter : ∀ k c, c < 2 ^ 32 → crc32_round^[k] c < 2 ^ 32 := by
    intro k
    induction k with
    | zero => intro c hc; simpa using hc
    | succ k ih =>
      intro c hc
      rw [Function.iterate_succ, Function.comp_apply]
      exact ih _ (hstep c hc)
  exact hiter 8 i (lt_trans h (by norm_num))

/-- The checksum stays a 32-bit value. -/
theorem crc32_update_lt (crc : Nat) (data : List Nat) (hc : crc < 2 ^ 32) :
    crc32_update crc data < 2 ^ 32 := by
  have hbytes : ∀ (d : List Nat) (c : Nat), c < 2 ^ 32 → crc32_bytes c d < 2 ^ 32 := by
    intro d
    induction d with
    | nil => intro c h; simpa [crc32_bytes] using h
    | cons b rest ih =>
      intro c h
      simp only [crc32_bytes]
      apply ih
      apply Nat.xor_lt_two_pow
      · rw [crc32_table_getD _ (and_ff_lt _)]
        exact crc32_entry_lt _ (and_ff_lt _)
      · rw [Nat.shiftRight_eq_div_pow]
        exact lt_of_le_of_lt (Nat.div_le_self _ _) h
  unfold crc32_update
  exact Nat.xor_lt_two_pow (hbytes _ _ (Nat.xor_lt_two_pow hc (by norm_num))) (by norm_num)

/-- C1: with the table built by `crc32_init`, feeding `a` and then `b` through
`crc32_update`, starting from 0, gives the reference bit-by-bit CRC-32
(polynomial 0xEDB88320, initial value and final xor 0xFFFFFFFF) of `a ++ b`. -/
theorem C1_crc32_update_incremental (a b : List Nat) (ha : ∀ x ∈ a, x < 256)
    (hb : ∀ x ∈ b, x < 256) :
    crc32_update (crc32_update 0 a) b = crc32_reference (a ++ b) := by
  unfold crc32_update crc32_reference
  rw [xor_mask_twice, crc32_bytes_eq_ref _ a ha, crc32_bytes_eq_ref _ b hb, List.foldl_append]
  rfl

/-- C1 at "1234" followed by "56789": the chunked checksum is the reference
CRC-32 of "123456789", which is the check value 0xCBF43926. -/
theorem C1_crc32_update_incremental_witness :
    crc32_update (crc32_update 0 [0x31, 0x32, 0x33, 0x34]) [0x35, 0x36, 0x37, 0x38, 0x39]
        = crc32_reference ([0x31, 0x32, 0x33, 0x34] ++ [0x35, 0x36, 0x37, 0x38, 0x39])
      ∧ crc32_update 0 [0x31, 0x32, 0x33, 0x34, 0x35, 0x36, 0x37, 0x38, 0x39] = 0xCBF43926 :=
  ⟨C1_crc32_update_incremental _ _ (by decide) (by decide), by decide⟩

/-! ## Read-mode decision -/

/-- C2: for a regular file that reaches the read strategy the mode is `sample`
exactly when `full_read` is false and the size exceeds `large_file_limit` (so a
file of size at most the limit is read in full whatever `full_read` is);
`current_sample` records the mode; in sample mode `current_planned` is
`min(size, 65536) + (65536 if size > 65536 else 0)` and in full mode it is the
size.  A file of 100 MiB under a 64 MiB limit with `full_read = false` is
sampled with `current_planned = 131072`. -/
theorem C2_read_mode_and_planned :
    (∀ (child : CStr) (fsize : Nat) (cfg : ScanConfig) (st : ScanStats),
      ((scan_file_plan child fsize cfg st).1 = true ↔
          (cfg.full_read = false ∧ fsize > cfg.large_file_limit))
        ∧ (fsize ≤ cfg.large_file_limit → (scan_file_plan child fsize cfg st).1 = false)
        ∧ (scan_file_plan child fsize cfg st).2.current_sample = (scan_file_plan child fsize cfg st).1
        ∧ ((scan_file_plan child fsize cfg st).1 = true →
            (scan_file_plan child fsize cfg st).2.current_planned
              = min fsize 65536 + (if fsize > 65536 then 65536 else 0))
        ∧ ((scan_file_plan child fsize cfg st).1 = false →
            (scan_file_plan child fsize cfg st).2.current_planned = fsize))
      ∧ (∀ (child : CStr) (st : ScanStats) (chunk : ChunkMode) (retries : Nat) (b1 b2 b3 : Bool)
          (target : ScanTarget),
          scan_file_plan child (100 * 1048576)
              ⟨false, 64 * 1048576, retries, b1, chunk, b2, b3, target⟩ st
            = (true, { st with
                current_path := child.take 250
                current_size := 100 * 1048576
                current_done := 0
                current_sample := true
                current_planned := 131072 })) := by
  refine ⟨?_, ?_⟩
  · intro child fsize cfg st
    have hmin : min fsize 65536 = if fsize < 65536 then fsize else 65536 := by
      split <;> omega
    by_cases hs : (!cfg.full_read && decide (fsize > cfg.large_file_limit)) = true
    · have h1 : cfg.full_read = false ∧ fsize > cfg.large_file_limit := by
        simpa using hs
      refine ⟨?_, ?_, ?_, ?_, ?_⟩
      · simp [scan_file_plan, hs, h1]
      · intro hle; omega
      · simp [scan_file_plan, hs]
      · intro _; simp [scan_file_plan, hs, hmin, SAMPLE_REGION]
      · intro hf; simp [scan_file_plan, hs] at hf
    · have hs' : (!cfg.full_read && decide (fsize > cfg.large_file_limit)) = false := by
        simpa using hs
      have h1 : ¬ (cfg.full_read = false ∧ fsize > cfg.large_file_limit) := by
        intro h; apply hs; simpa using h
      refine ⟨?_, ?_, ?_, ?_, ?_⟩
      · simp only [scan_file_plan, hs']
        simp [h1]
      · intro _; simp [scan_file_plan, hs']
      · simp [scan_file_plan, hs']
      · intro hf; simp [scan_file_plan, hs'] at hf
      · intro _; simp [scan_file_plan, hs']
  · intro child st chunk retries b1 b2 b3 target
    simp [scan_file_plan, SAMPLE_REGION]

/-! ## Largest-file list -/

theorem insert_desc_getElem? (x : LargestEntry) (a : List LargestEntry) (j : Nat) :
    (insert_desc x a)[j]? =
      if j < a.findIdx (fun b => decide (x.size > b.size)) then a[j]?
      else if j = a.findIdx (fun b => decide (x.size > b.size)) then some x
      else a[j - 1]? := by
  induction a generalizing j with
  | nil =>
    cases j with
    | zero => simp [insert_desc]
    | succ k => simp [insert_desc]
  | cons b l ih =>
    by_cases h : x.size > b.size
    · cases j with
      | zero => simp [insert_desc, List.findIdx_cons, h]
      | succ k => simp [insert_desc, List.findIdx_cons, h]
    · cases j with
      | zero => simp [insert_desc, List.findIdx_cons, h]
      | succ k =>
        simp only [insert_desc, List.findIdx_cons, h, if_false, decide_False, cond_false,
          List.getElem?_cons_succ, ih k, Nat.add_lt_add_iff_right, Nat.add_right_cancel_iff,
          Nat.add_sub_cancel]
        split
        · rfl
        · split
          · rfl
          · rename_i h1 h2
            have : 1 ≤ k := by omega
            obtain ⟨m, rfl⟩ : ∃ m, k = m + 1 := ⟨k - 1, by omega⟩
            simp

theorem largest_shift_length (pos : Nat) (i : Nat) (L : List LargestEntry) :
    (largest_shift L pos i).length = L.length := by
  induction i generalizing L with
  | zero => rfl
  | succ k ih =>
    unfold largest_shift
    split
    · rw [ih]; simp
    · rfl

theorem largest_shift_getElem? (pos : Nat) (i : Nat) (L : List LargestEntry) (j : Nat)
    (hi : i < L.length) :
    (largest_shift L pos i)[j]? = if pos < j ∧ j ≤ i then L[j - 1]? else L[j]? := by
  induction i generalizing L with
  | zero =>
    have : ¬ (pos < j ∧ j ≤ 0) := by omega
    rw [if_neg this]
    rfl
  | succ k ih =>
    unfold largest_shift
    by_cases hk : k + 1 > pos
    · have hlen : k < (L.set (k + 1) (L.getD k ⟨0, []⟩)).length := by simp; omega
      rw [if_pos hk, ih _ hlen]
      have hget : L.getD k ⟨0, []⟩ = L[k] := by
        simp [List.getD_eq_getElem?_getD, List.getElem?_eq_getElem (show k < L.length by omega)]
      by_cases hj : pos < j ∧ j ≤ k
      · have hj' : pos < j ∧ j ≤ k + 1 := ⟨hj.1, by omega⟩
        rw [if_pos hj, if_pos hj', List.getElem?_set]
        have : ¬ (k + 1 = j - 1) := by omega
        simp [this]
      · rw [if_neg hj, List.getElem?_set]
        by_cases hjk : k + 1 = j
        · subst hjk
          have : pos < k + 1 ∧ k + 1 ≤ k + 1 := ⟨hk, le_refl _⟩
          simp [this, hi, hget, List.getElem?_eq_getElem (show k < L.length by omega)]
        · have : ¬ (pos < j ∧ j ≤ k + 1) := by omega
          simp [hjk, this]
    · have : ¬ (pos < j ∧ j ≤ k + 1) := by omega
      simp [hk, this]

theorem largest_find_some (L : List LargestEntry) (size n pos : Nat) (hn : n ≤ L.length)
    (h : largest_find L size n = some pos) :
    pos < n ∧ (L.take n).findIdx (fun b => decide (size > b.size)) = pos := by
  unfold largest_find at h
  rw [List.find?_range_eq_some] at h
  obtain ⟨hp, hmem, hbefore⟩ := h
  have hpn : pos < n := List.mem_range.mp hmem
  refine ⟨hpn, ?_⟩
  have hlen : pos < (L.take n).length := by simp; omega
  rw [List.findIdx_eq hlen]
  constructor
  · simpa [List.getD_eq_getElem?_getD, List.getElem?_eq_getElem (show pos < L.length by omega)]
      using hp
  · intro j hj
    have := hbefore j hj
    simpa [List.getD_eq_getElem?_getD, List.getElem?_eq_getElem (show j < L.length by omega)]
      using this

theorem largest_find_none (L : List LargestEntry) (size n : Nat) (hn : n ≤ L.length)
    (h : largest_find L size n = none) :
    (L.take n).findIdx (fun b => decide (size > b.size)) = n := by
  unfold largest_find at h
  rw [List.find?_range_eq_none] at h
  have hlen : (L.take n).length = n := by simp; omega
  have hall : ∀ x ∈ L.take n, (fun b : LargestEntry => decide (size > b.size)) x = false := by
    intro x hx
    obtain ⟨i, hi, rfl⟩ := List.getElem_of_mem hx
    have hi' : i < n := by simpa [hlen] using hi
    have := h i hi'
    simpa [List.getD_eq_getElem?_getD, List.getElem?_eq_getElem (show i < L.length by omega)]
      using this
  rw [List.findIdx_eq_length_of_false hall, hlen]
theorem largest_insert_live (st : ScanStats) (path : CStr) (size pos : Nat)
    (hlen : st.largest.length = LARGEST_MAX) (hn : st.largest_count ≤ LARGEST_MAX)
    (hpos : pos ≤ st.largest_count) (hpos10 : pos < LARGEST_MAX)
    (hidx : (largest_live st).findIdx (fun b => decide (size > b.size)) = pos) :
    largest_live (largest_insert st path size st.largest_count pos)
        = (insert_desc ⟨size, path.take 250⟩ (largest_live st)).take LARGEST_MAX
      ∧ (largest_insert st path size st.largest_count pos).largest.length = LARGEST_MAX
      ∧ (largest_insert st path size st.largest_count pos).largest_count ≤ LARGEST_MAX := by
  simp only [LARGEST_MAX] at *
  refine ⟨?_, ?_, ?_⟩
  · apply List.ext_getElem?
    intro j
    have hsh : (if st.largest_count < 10 then st.largest_count + 1 else st.largest_count) - 1
        < st.largest.length := by split <;> omega
    have hidx' : List.findIdx (fun b : LargestEntry =>
        decide ((⟨size, path.take 250⟩ : LargestEntry).size > b.size)) (largest_live st) = pos := hidx
    simp only [largest_live, largest_insert, LARGEST_MAX, List.getElem?_take, List.getElem?_set,
      largest_shift_length, largest_shift_getElem? _ _ _ _ hsh, insert_desc_getElem?]
    simp only [largest_live] at hidx'
    rw [hidx']
    by_cases hc : st.largest_count < 10
    · simp only [hc, if_true]
      split_ifs <;> first | rfl | omega
    · have hc10 : st.largest_count = 10 := by omega
      simp only [hc, if_false]
      split_ifs <;> first | rfl | omega
  · simp [largest_insert, largest_shift_length, hlen]
  · simp only [largest_insert, LARGEST_MAX]
    split <;> omega

theorem largest_update_live (st : ScanStats) (path : CStr) (size : Nat)
    (hlen : st.largest.length = LARGEST_MAX) (hn : st.largest_count ≤ LARGEST_MAX)
    (hp : path ≠ []) (hs : size ≠ 0) :
    largest_live (largest_update st path size)
        = (insert_desc ⟨size, path.take 250⟩ (largest_live st)).take LARGEST_MAX
      ∧ (largest_update st path size).largest.length = LARGEST_MAX
      ∧ (largest_update st path size).largest_count ≤ LARGEST_MAX := by
  have hn' : st.largest_count ≤ st.largest.length := by omega
  unfold largest_update
  rw [if_neg hp, if_neg hs]
  cases hfind : largest_find st.largest size st.largest_count with
  | some pos =>
    obtain ⟨hpn, hidx⟩ := largest_find_some _ _ _ _ hn' hfind
    simp only [hfind]
    exact largest_insert_live st path size pos hlen hn (le_of_lt hpn) (by omega) hidx
  | none =>
    have hidx := largest_find_none _ _ _ hn' hfind
    simp only [hfind]
    by_cases hc : st.largest_count < LARGEST_MAX
    · simp only [hc, if_true]
      exact largest_insert_live st path size _ hlen hn (le_refl _) hc hidx
    · simp only [hc, if_false]
      refine ⟨?_, hlen, hn⟩
      apply List.ext_getElem?
      intro j
      have hidx' : List.findIdx (fun b : LargestEntry =>
          decide ((⟨size, path.take 250⟩ : LargestEntry).size > b.size)) (largest_live st)
            = st.largest_count := hidx
      rw [List.getElem?_take, insert_desc_getElem?, hidx']
      have hc10 : st.largest_count = LARGEST_MAX := by omega
      have hnone : ∀ k, st.largest_count ≤ k → (largest_live st)[k]? = none := by
        intro k hk
        apply List.getElem?_eq_none
        simp [largest_live]; omega
      split_ifs <;> first | rfl | omega | (apply hnone; omega)

theorem insert_desc_length (x : LargestEntry) (l : List LargestEntry) :
    (insert_desc x l).length = l.length + 1 := by
  induction l with
  | nil => rfl
  | cons b l ih => unfold insert_desc; split <;> simp [ih]

/-- Cutting to the capacity before or after an insertion gives the same first
`LARGEST_MAX` entries. -/
theorem insert_desc_take (x : LargestEntry) (l : List LargestEntry) (k : Nat) :
    (insert_desc x (l.take k)).take k = (insert_desc x l).take k := by
  induction l generalizing k with
  | nil => simp
  | cons b l ih =>
    cases k with
    | zero => simp
    | succ k =>
      simp only [List.take_succ_cons, insert_desc]
      split
      · simp only [List.take_succ_cons]
        congr 1
        cases k with
        | zero => simp
        | succ k =>
          simp only [List.take_succ_cons]
          congr 1
          rw [List.take_take]; simp
      · simp only [List.take_succ_cons]
        congr 1
        exact ih k

/-- The two insertions commute: placing `x` behind its equals and `a` in front
of its equals can be done in either order. -/
theorem insert_desc_orderedInsert (x a : LargestEntry) (l : List LargestEntry) :
    insert_desc x (l.orderedInsert size_ge a) = (insert_desc x l).orderedInsert size_ge a := by
  induction l with
  | nil =>
    simp only [List.orderedInsert, insert_desc]
    by_cases h : x.size > a.size
    · have : ¬ size_ge a x := by unfold size_ge; omega
      simp [h, this]
    · have : size_ge a x := by unfold size_ge; omega
      simp [h, this]
  | cons b l ih =>
    by_cases hab : size_ge a b
    · by_cases hxb : x.size > b.size
      · by_cases hxa : x.size > a.size
        · have : ¬ size_ge a x := by unfold size_ge; omega
          simp [List.orderedInsert, insert_desc, hab, hxb, hxa, this]
        · have : size_ge a x := by unfold size_ge; omega
          simp [List.orderedInsert, insert_desc, hab, hxb, hxa, this]
      · have hxa : ¬ x.size > a.size := by unfold size_ge at hab; omega
        simp [List.orderedInsert, insert_desc, hab, hxb, hxa]
    · by_cases hxb : x.size > b.size
      · have : ¬ size_ge a x := by unfold size_ge at hab ⊢; omega
        simp [List.orderedInsert, insert_desc, hab, hxb, this]
      · simp [List.orderedInsert, insert_desc, hab, hxb, ih]

theorem foldl_insert_desc_orderedInsert (a : LargestEntry) (l acc : List LargestEntry) :
    l.foldl (fun s x => insert_desc x s) (acc.orderedInsert size_ge a)
      = (l.foldl (fun s x => insert_desc x s) acc).orderedInsert size_ge a := by
  induction l generalizing acc with
  | nil => rfl
  | cons x l ih =>
    simp only [List.foldl_cons]
    rw [insert_desc_orderedInsert, ih]

/-- Inserting the elements one by one, each behind its equals, is the stable
descending sort. -/
theorem foldl_insert_desc_eq_sort (l : List LargestEntry) :
    l.foldl (fun s x => insert_desc x s) [] = stable_sort_desc l := by
  induction l with
  | nil => rfl
  | cons a l ih =>
    have h0 : insert_desc a [] = ([] : List LargestEntry).orderedInsert size_ge a := rfl
    simp only [List.foldl_cons, stable_sort_desc, List.insertionSort]
    rw [h0, foldl_insert_desc_orderedInsert, ih]
    rfl
theorem foldl_insert_desc_take (l A : List LargestEntry) (k : Nat) :
    (l.foldl (fun s x => insert_desc x s) (A.take k)).take k
      = (l.foldl (fun s x => insert_desc x s) A).take k := by
  induction l generalizing A with
  | nil => simp [List.take_take]
  | cons x l ih =>
    simp only [List.foldl_cons]
    rw [← ih (insert_desc x (A.take k)), insert_desc_take, ih]

theorem largest_feed_live (files : List (CStr × Nat)) (st : ScanStats)
    (hlen : st.largest.length = LARGEST_MAX) (hn : st.largest_count ≤ LARGEST_MAX)
    (hp : ∀ f ∈ files, f.1 ≠ []) :
    largest_live (largest_feed st files)
        = ((fed_entries files).foldl (fun s x => insert_desc x s) (largest_live st)).take LARGEST_MAX
      ∧ (largest_feed st files).largest.length = LARGEST_MAX
      ∧ (largest_feed st files).largest_count ≤ LARGEST_MAX := by
  induction files generalizing st with
  | nil =>
    refine ⟨?_, hlen, hn⟩
    simp only [largest_feed, fed_entries, List.foldl_nil, List.filter_nil, List.map_nil,
      largest_live]
    rw [List.take_take]
    simp [hn]
  | cons f files ih =>
    have hf : f.1 ≠ [] := hp f (List.mem_cons_self _ _)
    have hrest : ∀ g ∈ files, g.1 ≠ [] := fun g hg => hp g (List.mem_cons_of_mem _ hg)
    have hstep : largest_feed st (f :: files) = largest_feed (largest_update st f.1 f.2) files := rfl
    rw [hstep]
    by_cases hz : f.2 = 0
    · have hu : largest_update st f.1 f.2 = st := by simp [largest_update, hf, hz]
      have hfed : fed_entries (f :: files) = fed_entries files := by
        simp [fed_entries, List.filter_cons, hz]
      rw [hu, hfed]
      exact ih st hlen hn hrest
    · obtain ⟨h1, h2, h3⟩ := largest_update_live st f.1 f.2 hlen hn hf hz
      obtain ⟨i1, i2, i3⟩ := ih _ h2 h3 hrest
      refine ⟨?_, i2, i3⟩
      have hfed : fed_entries (f :: files) = largest_entry f :: fed_entries files := by
        simp [fed_entries, List.filter_cons, hz]
      rw [i1, h1, hfed, List.foldl_cons, foldl_insert_desc_take]
      rfl

/-- The stable descending sort keeps the encounter order among entries of one
size. -/
theorem stable_sort_desc_filter (s : Nat) (l : List LargestEntry) :
    (stable_sort_desc l).filter (fun e => decide (e.size = s))
      = l.filter (fun e => decide (e.size = s)) := by
  have hins : ∀ (a : LargestEntry) (L : List LargestEntry),
      (L.orderedInsert size_ge a).filter (fun e => decide (e.size = s))
        = if a.size = s then a :: L.filter (fun e => decide (e.size = s))
          else L.filter (fun e => decide (e.size = s)) := by
    intro a L
    induction L with
    | nil => by_cases h : a.size = s <;> simp [h]
    | cons b L ih =>
      by_cases hab : size_ge a b
      · by_cases h : a.size = s <;> simp [List.orderedInsert, hab, List.filter_cons, h]
      · have hne : a.size = s → ¬ b.size = s := by
          intro h1 h2; apply hab; unfold size_ge; omega
        by_cases h : a.size = s
        · simp [List.orderedInsert, hab, List.filter_cons, ih, h, hne h]
        · by_cases hb : b.size = s <;>
            simp [List.orderedInsert, hab, List.filter_cons, ih, h, hb]
  induction l with
  | nil => rfl
  | cons a l ih =>
    simp only [stable_sort_desc, List.insertionSort] at ih ⊢
    rw [hins, ih]
    by_cases h : a.size = s <;> simp [List.filter_cons, h]

/-- C3: starting from an empty list, after `largest_update` has been called for
any sequence of (non-empty path, size) pairs, `largest[0 .. largest_count)` is
the first 10 elements of the stable descending sort of the entries of non-zero
size fed so far, and so are its sizes; `largest_count <= 10`; the list is
non-increasing; no zero size appears; the entries of one size are the first
ones encountered with that size, in encounter order. -/
theorem C3_largest_top10_stable (files : List (CStr × Nat)) (hp : ∀ f ∈ files, f.1 ≠ []) :
    largest_live (largest_feed ScanStats.zero files)
        = (stable_sort_desc (fed_entries files)).take LARGEST_MAX
      ∧ (largest_live (largest_feed ScanStats.zero files)).map LargestEntry.size
        = ((((files.map Prod.snd).filter (fun s => decide (s ≠ 0))).insertionSort
            (fun a b => a ≥ b)).take 10)
      ∧ (largest_feed ScanStats.zero files).largest_count ≤ 10
      ∧ (largest_live (largest_feed ScanStats.zero files)).Pairwise (fun a b => a.size ≥ b.size)
      ∧ (∀ e ∈ largest_live (largest_feed ScanStats.zero files), e.size ≠ 0)
      ∧ (∀ s : Nat, List.IsPrefix
          ((largest_live (largest_feed ScanStats.zero files)).filter (fun e => decide (e.size = s)))
          ((fed_entries files).filter (fun e => decide (e.size = s)))) := by
  obtain ⟨h1, _, h3⟩ := largest_feed_live files ScanStats.zero (by simp [ScanStats.zero])
    (by simp [ScanStats.zero]) hp
  have hzero : largest_live ScanStats.zero = [] := by simp [largest_live, ScanStats.zero]
  rw [hzero, foldl_insert_desc_eq_sort] at h1
  have hsorted : (stable_sort_desc (fed_entries files)).Pairwise size_ge :=
    List.sorted_insertionSort size_ge _
  refine ⟨h1, ?_, h3, ?_, ?_, ?_⟩
  · rw [h1, List.map_take]
    simp only [LARGEST_MAX]
    congr 1
    unfold stable_sort_desc
    rw [List.map_insertionSort (r := size_ge) (s := fun a b : Nat => a ≥ b) LargestEntry.size _
      (fun a _ b _ => Iff.rfl)]
    congr 1
    simp only [fed_entries, List.map_map, List.filter_map]
    rfl
  · rw [h1]
    exact hsorted.take
  · intro e he
    rw [h1] at he
    have he' : e ∈ fed_entries files :=
      (List.mem_insertionSort size_ge).mp (List.mem_of_mem_take he)
    simp only [fed_entries, List.mem_map, List.mem_filter] at he'
    obtain ⟨f, ⟨_, hf⟩, rfl⟩ := he'
    simpa [largest_entry] using hf
  · intro s
    rw [h1, ← stable_sort_desc_filter s (fed_entries files)]
    have hpre := List.take_prefix LARGEST_MAX (stable_sort_desc (fed_entries files))
    exact hpre.filter _

/-- C3 on the sizes 5, 3, 9, 1, 9: the list is 9, 9, 5, 3, 1 with the 9 seen
first ahead of the 9 seen second. -/
theorem C3_largest_top10_stable_witness :
    (∀ f ∈ [("a".toList, 5), ("b".toList, 3), ("c".toList, 9), ("d".toList, 1),
        ("e".toList, 9)], f.1 ≠ [])
      ∧ largest_live (largest_feed ScanStats.zero
          [("a".toList, 5), ("b".toList, 3), ("c".toList, 9), ("d".toList, 1), ("e".toList, 9)])
        = [⟨9, "c".toList⟩, ⟨9, "e".toList⟩, ⟨5, "a".toList⟩, ⟨3, "b".toList⟩, ⟨1, "d".toList⟩]
      ∧ largest_live (largest_feed ScanStats.zero
          [("a".toList, 5), ("b".toList, 3), ("c".toList, 9), ("d".toList, 1), ("e".toList, 9)])
        = (stable_sort_desc (fed_entries
          [("a".toList, 5), ("b".toList, 3), ("c".toList, 9), ("d".toList, 1),
            ("e".toList, 9)])).take LARGEST_MAX :=
  ⟨by decide, by decide,
    (C3_largest_top10_stable
      [("a".toList, 5), ("b".toList, 3), ("c".toList, 9), ("d".toList, 1), ("e".toList, 9)]
      (by decide)).1⟩

/-! ## Failing-path list -/

theorem fail_any_iff (L : List CStr) (n : Nat) (t : CStr) (hn : n ≤ L.length) :
    (List.range n).any (fun i => L.getD i [] == t) = true ↔ t ∈ L.take n := by
  simp only [List.any_eq_true, List.mem_range, beq_iff_eq]
  constructor
  · rintro ⟨i, hi, h⟩
    have hiL : i < L.length := by omega
    rw [List.getD_eq_getElem?_getD, List.getElem?_eq_getElem hiL] at h
    simp only [Option.getD_some] at h
    rw [List.mem_iff_getElem]
    refine ⟨i, by simp; omega, ?_⟩
    simpa using h
  · intro h
    rw [List.mem_iff_getElem] at h
    obtain ⟨i, hi, h⟩ := h
    have hi' : i < n ∧ i < L.length := by simpa using hi
    refine ⟨i, hi'.1, ?_⟩
    rw [List.getD_eq_getElem?_getD, List.getElem?_eq_getElem hi'.2]
    simpa using h

theorem set_take_succ (L : List CStr) (n : Nat) (t : CStr) (hn : n < L.length) :
    (L.set n t).take (n + 1) = L.take n ++ [t] := by
  apply List.ext_getElem?
  intro j
  rw [List.getElem?_take, List.getElem?_set, List.getElem?_append]
  simp only [List.length_take, List.getElem?_take]
  have hmin : min n L.length = n := by omega
  rw [hmin]
  by_cases h1 : j < n
  · have : ¬ n = j := by omega
    simp [h1, this, show j < n + 1 by omega]
  · by_cases h2 : j = n
    · subst h2; simp [hn]
    · have h3 : ¬ j < n + 1 := by omega
      have : 0 < j - n := by omega
      obtain ⟨m, hm⟩ : ∃ m, j - n = m + 1 := ⟨j - n - 1, by omega⟩
      simp [h1, h3, hm]

/-- What one call of `fail_push_unique` does to the live entries. -/
theorem fail_push_unique_live (st : ScanStats) (p : CStr)
    (hlen : st.fail_paths.length = FAIL_MAX) (hc : st.fail_count ≤ FAIL_MAX) :
    fail_live (fail_push_unique st p)
        = (if p = [] then fail_live st else (push_new (fail_live st) (p.take 250)).take FAIL_MAX)
      ∧ (fail_push_unique st p).fail_paths.length = FAIL_MAX
      ∧ (fail_push_unique st p).fail_count ≤ FAIL_MAX
      ∧ (fail_push_unique st p).fail_count = (fail_live (fail_push_unique st p)).length := by
  have hcl : st.fail_count ≤ st.fail_paths.length := by omega
  have hlive : (fail_live st).length = st.fail_count := by simp [fail_live]; omega
  have htake : (fail_live st).take FAIL_MAX = fail_live st := by
    apply List.take_of_length_le; omega
  unfold fail_push_unique
  by_cases hp : p = []
  · simp only [hp, if_true]
    exact ⟨trivial, hlen, hc, hlive.symm⟩
  · simp only [hp, if_false]
    by_cases hmem : p.take 250 ∈ fail_live st
    · have hany := (fail_any_iff st.fail_paths st.fail_count (p.take 250) hcl).mpr hmem
      simp only [hany, if_true, push_new, hmem]
      exact ⟨htake.symm, hlen, hc, hlive.symm⟩
    · have hany : ((List.range st.fail_count).any
          (fun i => st.fail_paths.getD i [] == p.take 250)) = false := by
        rw [Bool.eq_false_iff]
        intro h
        exact hmem ((fail_any_iff st.fail_paths st.fail_count (p.take 250) hcl).mp h)
      simp only [hany, Bool.false_eq_true, if_false, push_new, hmem]
      by_cases hlt : st.fail_count < FAIL_MAX
      · have h255 : (p.take 250).take 255 = p.take 250 := by
          rw [List.take_take]; simp
        simp only [hlt, if_true, h255]
        have hst : fail_live { st with
            fail_paths := st.fail_paths.set st.fail_count (p.take 250)
            fail_count := st.fail_count + 1 } = fail_live st ++ [p.take 250] := by
          simp only [fail_live]
          exact set_take_succ _ _ _ (by omega)
        rw [hst]
        refine ⟨?_, by simp [hlen], (by show st.fail_count + 1 ≤ FAIL_MAX; omega), ?_⟩
        · symm; apply List.take_of_length_le; simp [hlive]; omega
        · simp [hlive]
      · simp only [hlt, if_false]
        refine ⟨?_, hlen, hc, hlive.symm⟩
        have h5 : st.fail_count = FAIL_MAX := by omega
        rw [List.take_append_of_le_length (by omega)]
        exact htake.symm
theorem push_new_nodup (acc : List CStr) (x : CStr) (h : acc.Nodup) : (push_new acc x).Nodup := by
  unfold push_new
  split
  · exact h
  · rename_i hx
    rw [List.nodup_append]
    refine ⟨h, List.nodup_singleton x, ?_⟩
    intro a ha hb
    simp only [List.mem_singleton] at hb
    exact hx (hb ▸ ha)

theorem fail_push_unique_full (st : ScanStats) (p : CStr) (h : st.fail_count = FAIL_MAX) :
    fail_push_unique st p = st := by
  unfold fail_push_unique
  have : ¬ st.fail_count < FAIL_MAX := by omega
  simp only [this, if_false]
  split
  · rfl
  · split <;> rfl

theorem fail_feed_invariant (paths : List CStr) (st : ScanStats)
    (hlen : st.fail_paths.length = FAIL_MAX) (hc : st.fail_count ≤ FAIL_MAX)
    (hnd : (fail_live st).Nodup) :
    (fail_feed st paths).fail_paths.length = FAIL_MAX
      ∧ (fail_feed st paths).fail_count ≤ FAIL_MAX
      ∧ (fail_live (fail_feed st paths)).Nodup := by
  induction paths generalizing st with
  | nil => exact ⟨hlen, hc, hnd⟩
  | cons p paths ih =>
    obtain ⟨h1, h2, h3, _⟩ := fail_push_unique_live st p hlen hc
    have hstep : fail_feed st (p :: paths) = fail_feed (fail_push_unique st p) paths := rfl
    rw [hstep]
    apply ih _ h2 h3
    rw [h1]
    split
    · exact hnd
    · exact (push_new_nodup _ _ hnd).sublist (List.take_sublist _ _)

/-- C4: starting from an empty list, after any sequence of `fail_push_unique`
calls with any paths, `fail_count <= 5` and the entries
`fail_paths[0 .. fail_count)` are pairwise distinct; once `fail_count = 5` no
call changes the structure (no eviction). -/
theorem C4_fail_paths_bounded_distinct (paths : List CStr) :
    (fail_feed ScanStats.zero paths).fail_count ≤ 5
      ∧ (fail_live (fail_feed ScanStats.zero paths)).Nodup
      ∧ ((fail_feed ScanStats.zero paths).fail_count = 5 →
          ∀ p : CStr, fail_push_unique (fail_feed ScanStats.zero paths) p
            = fail_feed ScanStats.zero paths) := by
  obtain ⟨_, h2, h3⟩ := fail_feed_invariant paths ScanStats.zero (by simp [ScanStats.zero])
    (by simp [ScanStats.zero]) (by simp [fail_live, ScanStats.zero])
  exact ⟨h2, h3, fun h p => fail_push_unique_full _ p h⟩

theorem push_new_take (A : List CStr) (t : CStr) (k : Nat) :
    (push_new (A.take k) t).take k = (push_new A t).take k := by
  unfold push_new
  by_cases h1 : t ∈ A.take k
  · have h2 : t ∈ A := List.mem_of_mem_take h1
    simp [h1, h2, List.take_take]
  · simp only [h1, if_false]
    by_cases hk : k ≤ A.length
    · have e1 : (A.take k ++ [t]).take k = A.take k := by
        rw [List.take_append_of_le_length (by simp [hk])]
        simp [List.take_take]
      rw [e1]
      split
      · rfl
      · rw [List.take_append_of_le_length hk]
    · have hA : A.take k = A := List.take_of_length_le (by omega)
      rw [hA] at h1 ⊢
      simp [h1]

theorem foldl_push_new_take (l : List CStr) (A : List CStr) (k : Nat) :
    (l.foldl push_new (A.take k)).take k = (l.foldl push_new A).take k := by
  induction l generalizing A with
  | nil => simp [List.take_take]
  | cons x l ih =>
    simp only [List.foldl_cons]
    rw [← ih (push_new (A.take k) x), push_new_take, ih]

theorem foldl_push_new_eq (l acc : List CStr) :
    l.foldl push_new acc = acc ++ (first_distinct l).filter (fun y => decide (y ∉ acc)) := by
  induction l generalizing acc with
  | nil => simp [first_distinct]
  | cons x l ih =>
    simp only [List.foldl_cons, first_distinct]
    rw [ih]
    by_cases hx : x ∈ acc
    · have e : push_new acc x = acc := by simp [push_new, hx]
      rw [e, List.filter_cons]
      simp only [hx, not_true_eq_false, decide_False, Bool.false_eq_true, if_false,
        List.filter_filter]
      congr 1
      apply List.filter_congr
      intro y _
      by_cases hy : y ∈ acc
      · simp [hy]
      · have : y ≠ x := fun h => hy (h ▸ hx)
        simp [hy, this]
    · have e : push_new acc x = acc ++ [x] := by simp [push_new, hx]
      rw [e, List.filter_cons]
      simp only [hx, not_false_eq_true, decide_True, if_true, List.filter_filter,
        List.append_assoc, List.singleton_append]
      congr 2
      apply List.filter_congr
      intro y _
      by_cases hy : y ∈ acc <;> by_cases hyx : y = x <;> simp [hy, hyx]

theorem fail_feed_live (paths : List CStr) (st : ScanStats)
    (hlen : st.fail_paths.length = FAIL_MAX) (hc : st.fail_count ≤ FAIL_MAX) :
    fail_live (fail_feed st paths)
      = (((paths.filter (fun p => decide (p ≠ []))).map (fun p => p.take 250)).foldl push_new
          (fail_live st)).take FAIL_MAX := by
  induction paths generalizing st with
  | nil =>
    simp only [fail_feed, List.foldl_nil, List.filter_nil, List.map_nil]
    symm; apply List.take_of_length_le; simp [fail_live]; omega
  | cons p paths ih =>
    obtain ⟨h1, h2, h3, _⟩ := fail_push_unique_live st p hlen hc
    have hstep : fail_feed st (p :: paths) = fail_feed (fail_push_unique st p) paths := rfl
    rw [hstep, ih _ h2 h3, h1]
    by_cases hp : p = []
    · simp [hp, List.filter_cons]
    · simp only [hp, if_false, List.filter_cons, ne_eq, not_false_eq_true, decide_True, if_true,
        List.map_cons, List.foldl_cons]
      rw [foldl_push_new_take]
theorem fail_push_unique_cases (st : ScanStats) (p : CStr)
    (hcl : st.fail_count ≤ st.fail_paths.length) :
    fail_push_unique st p =
      if p = [] ∨ p.take 250 ∈ fail_live st then st
      else if st.fail_count < FAIL_MAX then
        { st with
          fail_paths := st.fail_paths.set st.fail_count (p.take 250)
          fail_count := st.fail_count + 1 }
      else st := by
  unfold fail_push_unique
  by_cases hp : p = []
  · simp [hp]
  · by_cases hmem : p.take 250 ∈ fail_live st
    · have hany := (fail_any_iff st.fail_paths st.fail_count (p.take 250) hcl).mpr hmem
      simp only [hp, hany, hmem, if_true, if_false, or_true]
    · have hany : ((List.range st.fail_count).any
          (fun i => st.fail_paths.getD i [] == p.take 250)) = false := by
        rw [Bool.eq_false_iff]
        intro h
        exact hmem ((fail_any_iff st.fail_paths st.fail_count (p.take 250) hcl).mp h)
      have h255 : (p.take 250).take 255 = p.take 250 := by
        rw [List.take_take]; simp
      simp only [hp, hany, hmem, h255, Bool.false_eq_true, if_false, or_self]

theorem first_distinct_nodup (l : List CStr) : (first_distinct l).Nodup := by
  induction l with
  | nil => simp [first_distinct]
  | cons x l ih =>
    simp only [first_distinct, List.nodup_cons]
    refine ⟨?_, ih.sublist (List.filter_sublist _)⟩
    simp [List.mem_filter]

/-- C5 as amended: `fail_push_unique` deduplicates by exact match of the path cut
to its first 250 bytes.  For a state with `fail_count < 5` and a non-empty path
`p`, the call leaves the structure unchanged exactly when some entry equals the
first 250 bytes of `p`; otherwise it appends the first 250 bytes of `p` and
`fail_count` grows by one; for a path of at most 250 bytes this is exact match
of `p` itself.  After any call sequence from the empty list the entries are the
first five distinct 250-byte prefixes of the non-empty paths, in encounter
order. -/
theorem C5_fail_push_unique_dedup_truncated (st : ScanStats) (p : CStr)
    (hlen : st.fail_paths.length = FAIL_MAX) (hc : st.fail_count < FAIL_MAX) (hp : p ≠ []) :
    (fail_push_unique st p = st ↔ p.take 250 ∈ fail_live st)
      ∧ (p.take 250 ∉ fail_live st →
          fail_live (fail_push_unique st p) = fail_live st ++ [p.take 250]
            ∧ (fail_push_unique st p).fail_count = st.fail_count + 1)
      ∧ (p.length ≤ 250 → (fail_push_unique st p = st ↔ p ∈ fail_live st))
      ∧ (∀ paths : List CStr,
          fail_live (fail_feed ScanStats.zero paths)
            = (first_distinct ((paths.filter (fun q => decide (q ≠ []))).map
                (fun q => q.take 250))).take FAIL_MAX) := by
  have hcl : st.fail_count ≤ st.fail_paths.length := by omega
  have hcases := fail_push_unique_cases st p hcl
  have hiff : fail_push_unique st p = st ↔ p.take 250 ∈ fail_live st := by
    rw [hcases]
    by_cases hmem : p.take 250 ∈ fail_live st
    · simp [hmem]
    · simp only [hp, hmem, or_self, if_false, hc, if_true, iff_false]
      intro h
      have := congrArg ScanStats.fail_count h
      simp at this
  refine ⟨hiff, ?_, ?_, ?_⟩
  · intro hmem
    rw [hcases]
    simp only [hp, hmem, or_self, if_false, hc, if_true]
    refine ⟨?_, trivial⟩
    simp only [fail_live]
    exact set_take_succ _ _ _ (by omega)
  · intro hshort
    rw [hiff, List.take_of_length_le hshort]
  · intro paths
    rw [fail_feed_live paths ScanStats.zero (by simp [ScanStats.zero]) (by simp [ScanStats.zero])]
    have hzero : fail_live ScanStats.zero = [] := by simp [fail_live, ScanStats.zero]
    rw [hzero, foldl_push_new_eq]
    simp

/-- C5 (amended) at the empty list and the path "sdmc:/a": the path is appended
and a second call with it changes nothing. -/
theorem C5_fail_push_unique_dedup_truncated_witness :
    fail_live (fail_push_unique ScanStats.zero "sdmc:/a".toList) = ["sdmc:/a".toList]
      ∧ (fail_push_unique ScanStats.zero "sdmc:/a".toList).fail_count = 1
      ∧ fail_live (fail_feed ScanStats.zero ["sdmc:/a".toList, "sdmc:/a".toList, "sdmc:/b".toList])
          = ["sdmc:/a".toList, "sdmc:/b".toList] :=
  ⟨((C5_fail_push_unique_dedup_truncated ScanStats.zero "sdmc:/a".toList (by decide) (by decide)
      (by decide)).2.1 (by decide)).1,
    ((C5_fail_push_unique_dedup_truncated ScanStats.zero "sdmc:/a".toList (by decide) (by decide)
      (by decide)).2.1 (by decide)).2,
    by decide⟩

/-- C5 as stated fails: with the single entry made from `long_path_b` (251
bytes) in the list, the call for the different path `long_path_c`, which shares
its first 250 bytes, leaves the structure unchanged although no entry equals
`long_path_c`; the two distinct paths leave one entry. -/
theorem C5_exact_match_counterexample :
    (fail_push_unique ScanStats.zero long_path_b).fail_paths.length = FAIL_MAX
      ∧ (fail_push_unique ScanStats.zero long_path_b).fail_count < FAIL_MAX
      ∧ long_path_c ≠ []
      ∧ long_path_b ≠ long_path_c
      ∧ fail_push_unique (fail_push_unique ScanStats.zero long_path_b) long_path_c
          = fail_push_unique ScanStats.zero long_path_b
      ∧ long_path_c ∉ fail_live (fail_push_unique ScanStats.zero long_path_b)
      ∧ (fail_feed ScanStats.zero [long_path_b, long_path_c]).fail_count = 1 := by
  decide!

/-! ## First-failure snapshot -/

theorem capture_args_set (st : ScanStats) (a : FailArgs) (h : st.first_fail_set = true) :
    capture_args st a = st := by
  simp [capture_args, first_fail_capture, h]

theorem capture_args_foldl_set (st : ScanStats) (l : List FailArgs)
    (h : st.first_fail_set = true) : l.foldl capture_args st = st := by
  induction l with
  | nil => rfl
  | cons a l ih => rw [List.foldl_cons, capture_args_set st a h, ih]

/-- C6: `first_fail_capture` is write-once.  If `first_fail_set` is already true
the call changes no field of `ScanStats`; if it is false the call sets
`first_fail_set` and stores the given kind, path (cut to 250 bytes), offset,
byte count, errno and note (a kind of at most 15 and a note of at most 95 bytes,
as every call in the engine passes, fit their fields).  Consequently after any
sequence of captures the snapshot is that of the first one. -/
theorem C6_first_fail_capture_write_once (st : ScanStats) (a : FailArgs) (rest : List FailArgs)
    (hk : a.kind.length ≤ 15) (hn : a.note.length ≤ 95) :
    (st.first_fail_set = true → capture_args st a = st)
      ∧ (st.first_fail_set = false →
          capture_args st a
              = { st with
                  first_fail_set := true
                  first_fail_kind := a.kind
                  first_fail_path := a.path.take 250
                  first_fail_off := a.off
                  first_fail_bytes := a.bytes
                  first_fail_errno := a.err
                  first_fail_note := a.note }
            ∧ (a :: rest).foldl capture_args st = capture_args st a) := by
  refine ⟨capture_args_set st a, ?_⟩
  intro h
  have hcap : capture_args st a
      = { st with
          first_fail_set := true
          first_fail_kind := a.kind
          first_fail_path := a.path.take 250
          first_fail_off := a.off
          first_fail_bytes := a.bytes
          first_fail_errno := a.err
          first_fail_note := a.note } := by
    simp [capture_args, first_fail_capture, h, List.take_of_length_le hk,
      List.take_of_length_le hn]
  refine ⟨hcap, ?_⟩
  rw [List.foldl_cons]
  apply capture_args_foldl_set
  rw [hcap]

/-- C6 on the zeroed structure: a capture of an `OPEN_DIR` failure followed by
one of a `READ` failure leaves the `OPEN_DIR` snapshot. -/
theorem C6_first_fail_capture_write_once_witness :
    ([⟨"OPEN_DIR".toList, "sdmc:/x".toList, 0, 0, 13, "opendir".toList⟩,
        ⟨"READ".toList, "sdmc:/y".toList, 4096, 65536, 5, "read_region".toList⟩].foldl
        capture_args ScanStats.zero)
      = { ScanStats.zero with
          first_fail_set := true
          first_fail_kind := "OPEN_DIR".toList
          first_fail_path := "sdmc:/x".toList
          first_fail_off := 0
          first_fail_bytes := 0
          first_fail_errno := 13
          first_fail_note := "opendir".toList } := by
  have h := C6_first_fail_capture_write_once ScanStats.zero
    ⟨"OPEN_DIR".toList, "sdmc:/x".toList, 0, 0, 13, "opendir".toList⟩
    [⟨"READ".toList, "sdmc:/y".toList, 4096, 65536, 5, "read_region".toList⟩]
    (by decide) (by decide)
  rw [(h.2 rfl).2, (h.2 rfl).1]
  rfl

/-! ## Frame lemmas: what the telemetry functions leave alone -/

/-- The function `perf_record` writes the performance block only. -/
theorem perf_record_frame (st : ScanStats) (bytes dt_ms off : Nat) (path : Option CStr) :
    ∃ (o b : Nat) (h : List Nat) (s t l : Nat) (m : Throughput) (lo lb : Nat) (lp : CStr),
      perf_record st bytes dt_ms off path
        = { st with
            perf_ops := o
            perf_bytes := b
            perf_hist := h
            perf_stalls := s
            perf_stall_total_ms := t
            perf_longest_ms := l
            perf_longest_mib_s := m
            perf_longest_off := lo
            perf_longest_bytes := lb
            perf_longest_path := lp } := by
  unfold perf_record
  by_cases h0 : bytes = 0
  · rw [if_pos h0]
    exact ⟨_, _, _, _, _, _, _, _, _, _, rfl⟩
  · rw [if_neg h0]
    simp only []
    split_ifs <;> exact ⟨_, _, _, _, _, _, _, _, _, _, rfl⟩

@[simp] theorem perf_record_dirs_total (st : ScanStats) (bytes dt_ms off : Nat) (path : Option CStr) :
    (perf_record st bytes dt_ms off path).dirs_total = st.dirs_total := by
  obtain ⟨_, _, _, _, _, _, _, _, _, _, h⟩ := perf_record_frame st bytes dt_ms off path
  rw [h]

@[simp] theorem perf_record_files_total (st : ScanStats) (bytes dt_ms off : Nat) (path : Option CStr) :
    (perf_record st bytes dt_ms off path).files_total = st.files_total := by
  obtain ⟨_, _, _, _, _, _, _, _, _, _, h⟩ := perf_record_frame st bytes dt_ms off path
  rw [h]

@[simp] theorem perf_record_files_read (st : ScanStats) (bytes dt_ms off : Nat) (path : Option CStr) :
    (perf_record st bytes dt_ms off path).files_read = st.files_read := by
  obtain ⟨_, _, _, _, _, _, _, _, _, _, h⟩ := perf_record_frame st bytes dt_ms off path
  rw [h]

@[simp] theorem perf_record_bytes_read (st : ScanStats) (bytes dt_ms off : Nat) (path : Option CStr) :
    (perf_record st bytes dt_ms off path).bytes_read = st.bytes_read := by
  obtain ⟨_, _, _, _, _, _, _, _, _, _, h⟩ := perf_record_frame st bytes dt_ms off path
  rw [h]

@[simp] theorem perf_record_open_errors (st : ScanStats) (bytes dt_ms off : Nat) (path : Option CStr) :
    (perf_record st bytes dt_ms off path).open_errors = st.open_errors := by
  obtain ⟨_, _, _, _, _, _, _, _, _, _, h⟩ := perf_record_frame st bytes dt_ms off path
  rw [h]

@[simp] theorem perf_record_read_errors (st : ScanStats) (bytes dt_ms off : Nat) (path : Option CStr) :
    (perf_record st bytes dt_ms off path).read_errors = st.read_errors := by
  obtain ⟨_, _, _, _, _, _, _, _, _, _, h⟩ := perf_record_frame st bytes dt_ms off path
  rw [h]

@[simp] theorem perf_record_read_errors_transient (st : ScanStats) (bytes dt_ms off : Nat) (path : Option CStr) :
    (perf_record st bytes dt_ms off path).read_errors_transient = st.read_errors_transient := by
  obtain ⟨_, _, _, _, _, _, _, _, _, _, h⟩ := perf_record_frame st bytes dt_ms off path
  rw [h]

@[simp] theorem perf_record_stat_errors (st : ScanStats) (bytes dt_ms off : Nat) (path : Option CStr) :
    (perf_record st bytes dt_ms off path).stat_errors = st.stat_errors := by
  obtain ⟨_, _, _, _, _, _, _, _, _, _, h⟩ := perf_record_frame st bytes dt_ms off path
  rw [h]

@[simp] theorem perf_record_path_errors (st : ScanStats) (bytes dt_ms off : Nat) (path : Option CStr) :
    (perf_record st bytes dt_ms off path).path_errors = st.path_errors := by
  obtain ⟨_, _, _, _, _, _, _, _, _, _, h⟩ := perf_record_frame st bytes dt_ms off path
  rw [h]

@[simp] theorem perf_record_consistency_errors (st : ScanStats) (bytes dt_ms off : Nat) (path : Option CStr) :
    (perf_record st bytes dt_ms off path).consistency_errors = st.consistency_errors := by
  obtain ⟨_, _, _, _, _, _, _, _, _, _, h⟩ := perf_record_frame st bytes dt_ms off path
  rw [h]

@[simp] theorem perf_record_skipped_dirs (st : ScanStats) (bytes dt_ms off : Nat) (path : Option CStr) :
    (perf_record st bytes dt_ms off path).skipped_dirs = st.skipped_dirs := by
  obtain ⟨_, _, _, _, _, _, _, _, _, _, h⟩ := perf_record_frame st bytes dt_ms off path
  rw [h]

@[simp] theorem perf_record_skipped_files (st : ScanStats) (bytes dt_ms off : Nat) (path : Option CStr) :
    (perf_record st bytes dt_ms off path).skipped_files = st.skipped_files := by
  obtain ⟨_, _, _, _, _, _, _, _, _, _, h⟩ := perf_record_frame st bytes dt_ms off path
  rw [h]

@[simp] theorem perf_record_cancelled (st : ScanStats) (bytes dt_ms off : Nat) (path : Option CStr) :
    (perf_record st bytes dt_ms off path).cancelled = st.cancelled := by
  obtain ⟨_, _, _, _, _, _, _, _, _, _, h⟩ := perf_record_frame st bytes dt_ms off path
  rw [h]

@[simp] theorem perf_record_current_path (st : ScanStats) (bytes dt_ms off : Nat) (path : Option CStr) :
    (perf_record st bytes dt_ms off path).current_path = st.current_path := by
  obtain ⟨_, _, _, _, _, _, _, _, _, _, h⟩ := perf_record_frame st bytes dt_ms off path
  rw [h]

@[simp] theorem perf_record_current_size (st : ScanStats) (bytes dt_ms off : Nat) (path : Option CStr) :
    (perf_record st bytes dt_ms off path).current_size = st.current_size := by
  obtain ⟨_, _, _, _, _, _, _, _, _, _, h⟩ := perf_record_frame st bytes dt_ms off path
  rw [h]

@[simp] theorem perf_record_current_planned (st : ScanStats) (bytes dt_ms off : Nat) (path : Option CStr) :
    (perf_record st bytes dt_ms off path).current_planned = st.current_planned := by
  obtain ⟨_, _, _, _, _, _, _, _, _, _, h⟩ := perf_record_frame st bytes dt_ms off path
  rw [h]

@[simp] theorem perf_record_current_done (st : ScanStats) (bytes dt_ms off : Nat) (path : Option CStr) :
    (perf_record st bytes dt_ms off path).current_done = st.current_done := by
  obtain ⟨_, _, _, _, _, _, _, _, _, _, h⟩ := perf_record_frame st bytes dt_ms off path
  rw [h]

@[simp] theorem perf_record_current_sample (st : ScanStats) (bytes dt_ms off : Nat) (path : Option CStr) :
    (perf_record st bytes dt_ms off path).current_sample = st.current_sample := by
  obtain ⟨_, _, _, _, _, _, _, _, _, _, h⟩ := perf_record_frame st bytes dt_ms off path
  rw [h]

@[simp] theorem perf_record_err_ring (st : ScanStats) (bytes dt_ms off : Nat) (path : Option CStr) :
    (perf_record st bytes dt_ms off path).err_ring = st.err_ring := by
  obtain ⟨_, _, _, _, _, _, _, _, _, _, h⟩ := perf_record_frame st bytes dt_ms off path
  rw [h]

@[simp] theorem perf_record_err_ring_count (st : ScanStats) (bytes dt_ms off : Nat) (path : Option CStr) :
    (perf_record st bytes dt_ms off path).err_ring_count = st.err_ring_count := by
  obtain ⟨_, _, _, _, _, _, _, _, _, _, h⟩ := perf_record_frame st bytes dt_ms off path
  rw [h]

@[simp] theorem perf_record_largest (st : ScanStats) (bytes dt_ms off : Nat) (path : Option CStr) :
    (perf_record st bytes dt_ms off path).largest = st.largest := by
  obtain ⟨_, _, _, _, _, _, _, _, _, _, h⟩ := perf_record_frame st bytes dt_ms off path
  rw [h]

@[simp] theorem perf_record_largest_count (st : ScanStats) (bytes dt_ms off : Nat) (path : Option CStr) :
    (perf_record st bytes dt_ms off path).largest_count = st.largest_count := by
  obtain ⟨_, _, _, _, _, _, _, _, _, _, h⟩ := perf_record_frame st bytes dt_ms off path
  rw [h]

@[simp] theorem perf_record_fail_paths (st : ScanStats) (bytes dt_ms off : Nat) (path : Option CStr) :
    (perf_record st bytes dt_ms off path).fail_paths = st.fail_paths := by
  obtain ⟨_, _, _, _, _, _, _, _, _, _, h⟩ := perf_record_frame st bytes dt_ms off path
  rw [h]

@[simp] theorem perf_record_fail_count (st : ScanStats) (bytes dt_ms off : Nat) (path : Option CStr) :
    (perf_record st bytes dt_ms off path).fail_count = st.fail_count := by
  obtain ⟨_, _, _, _, _, _, _, _, _, _, h⟩ := perf_record_frame st bytes dt_ms off path
  rw [h]

@[simp] theorem perf_record_first_fail_set (st : ScanStats) (bytes dt_ms off : Nat) (path : Option CStr) :
    (perf_record st bytes dt_ms off path).first_fail_set = st.first_fail_set := by
  obtain ⟨_, _, _, _, _, _, _, _, _, _, h⟩ := perf_record_frame st bytes dt_ms off path
  rw [h]

@[simp] theorem perf_record_first_fail_kind (st : ScanStats) (bytes dt_ms off : Nat) (path : Option CStr) :
    (perf_record st bytes dt_ms off path).first_fail_kind = st.first_fail_kind := by
  obtain ⟨_, _, _, _, _, _, _, _, _, _, h⟩ := perf_record_frame st bytes dt_ms off path
  rw [h]

@[simp] theorem perf_record_first_fail_path (st : ScanStats) (bytes dt_ms off : Nat) (path : Option CStr) :
    (perf_record st bytes dt_ms off path).first_fail_path = st.first_fail_path := by
  obtain ⟨_, _, _, _, _, _, _, _, _, _, h⟩ := perf_record_frame st bytes dt_ms off path
  rw [h]

@[simp] theorem perf_record_first_fail_off (st : ScanStats) (bytes dt_ms off : Nat) (path : Option CStr) :
    (perf_record st bytes dt_ms off path).first_fail_off = st.first_fail_off := by
  obtain ⟨_, _, _, _, _, _, _, _, _, _, h⟩ := perf_record_frame st bytes dt_ms off path
  rw [h]

@[simp] theorem perf_record_first_fail_bytes (st : ScanStats) (bytes dt_ms off : Nat) (path : Option CStr) :
    (perf_record st bytes dt_ms off path).first_fail_bytes = st.first_fail_bytes := by
  obtain ⟨_, _, _, _, _, _, _, _, _, _, h⟩ := perf_record_frame st bytes dt_ms off path
  rw [h]

@[simp] theorem perf_record_first_fail_errno (st : ScanStats) (bytes dt_ms off : Nat) (path : Option CStr) :
    (perf_record st bytes dt_ms off path).first_fail_errno = st.first_fail_errno := by
  obtain ⟨_, _, _, _, _, _, _, _, _, _, h⟩ := perf_record_frame st bytes dt_ms off path
  rw [h]

@[simp] theorem perf_record_first_fail_note (st : ScanStats) (bytes dt_ms off : Nat) (path : Option CStr) :
    (perf_record st bytes dt_ms off path).first_fail_note = st.first_fail_note := by
  obtain ⟨_, _, _, _, _, _, _, _, _, _, h⟩ := perf_record_frame st bytes dt_ms off path
  rw [h]

@[simp] theorem err_push_dirs_total (st : ScanStats) (msg : CStr) :
    (err_push st msg).dirs_total = st.dirs_total := rfl

@[simp] theorem err_push_files_total (st : ScanStats) (msg : CStr) :
    (err_push st msg).files_total = st.files_total := rfl

@[simp] theorem err_push_files_read (st : ScanStats) (msg : CStr) :
    (err_push st msg).files_read = st.files_read := rfl

@[simp] theorem err_push_bytes_read (st : ScanStats) (msg : CStr) :
    (err_push st msg).bytes_read = st.bytes_read := rfl

@[simp] theorem err_push_open_errors (st : ScanStats) (msg : CStr) :
    (err_push st msg).open_errors = st.open_errors := rfl

@[simp] theorem err_push_read_errors (st : ScanStats) (msg : CStr) :
    (err_push st msg).read_errors = st.read_errors := rfl

@[simp] theorem err_push_read_errors_transient (st : ScanStats) (msg : CStr) :
    (err_push st msg).read_errors_transient = st.read_errors_transient := rfl

@[simp] theorem err_push_stat_errors (st : ScanStats) (msg : CStr) :
    (err_push st msg).stat_errors = st.stat_errors := rfl

@[simp] theorem err_push_path_errors (st : ScanStats) (msg : CStr) :
    (err_push st msg).path_errors = st.path_errors := rfl

@[simp] theorem err_push_consistency_errors (st : ScanStats) (msg : CStr) :
    (err_push st msg).consistency_errors = st.consistency_errors := rfl

@[simp] theorem err_push_skipped_dirs (st : ScanStats) (msg : CStr) :
    (err_push st msg).skipped_dirs = st.skipped_dirs := rfl

@[simp] theorem err_push_skipped_files (st : ScanStats) (msg : CStr) :
    (err_push st msg).skipped_files = st.skipped_files := rfl

@[simp] theorem err_push_cancelled (st : ScanStats) (msg : CStr) :
    (err_push st msg).cancelled = st.cancelled := rfl

@[simp] theorem err_push_current_path (st : ScanStats) (msg : CStr) :
    (err_push st msg).current_path = st.current_path := rfl

@[simp] theorem err_push_current_size (st : ScanStats) (msg : CStr) :
    (err_push st msg).current_size = st.current_size := rfl

@[simp] theorem err_push_current_planned (st : ScanStats) (msg : CStr) :
    (err_push st msg).current_planned = st.current_planned := rfl

@[simp] theorem err_push_current_done (st : ScanStats) (msg : CStr) :
    (err_push st msg).current_done = st.current_done := rfl

@[simp] theorem err_push_current_sample (st : ScanStats) (msg : CStr) :
    (err_push st msg).current_sample = st.current_sample := rfl

@[simp] theorem err_push_largest (st : ScanStats) (msg : CStr) :
    (err_push st msg).largest = st.largest := rfl

@[simp] theorem err_push_largest_count (st : ScanStats) (msg : CStr) :
    (err_push st msg).largest_count = st.largest_count := rfl

@[simp] theorem err_push_fail_paths (st : ScanStats) (msg : CStr) :
    (err_push st msg).fail_paths = st.fail_paths := rfl

@[simp] theorem err_push_fail_count (st : ScanStats) (msg : CStr) :
    (err_push st msg).fail_count = st.fail_count := rfl

@[simp] theorem err_push_first_fail_set (st : ScanStats) (msg : CStr) :
    (err_push st msg).first_fail_set = st.first_fail_set := rfl

@[simp] theorem err_push_first_fail_kind (st : ScanStats) (msg : CStr) :
    (err_push st msg).first_fail_kind = st.first_fail_kind := rfl

@[simp] theorem err_push_first_fail_path (st : ScanStats) (msg : CStr) :
    (err_push st msg).first_fail_path = st.first_fail_path := rfl

@[simp] theorem err_push_first_fail_off (st : ScanStats) (msg : CStr) :
    (err_push st msg).first_fail_off = st.first_fail_off := rfl

@[simp] theorem err_push_first_fail_bytes (st : ScanStats) (msg : CStr) :
    (err_push st msg).first_fail_bytes = st.first_fail_bytes := rfl

@[simp] theorem err_push_first_fail_errno (st : ScanStats) (msg : CStr) :
    (err_push st msg).first_fail_errno = st.first_fail_errno := rfl

@[simp] theorem err_push_first_fail_note (st : ScanStats) (msg : CStr) :
    (err_push st msg).first_fail_note = st.first_fail_note := rfl

@[simp] theorem first_fail_capture_dirs_total (st : ScanStats) (kind path : Option CStr)
    (off bytes : Nat) (err : Int) (note : Option CStr) :
    (first_fail_capture st kind path off bytes err note).dirs_total = st.dirs_total := by
  unfold first_fail_capture
  split <;> rfl

@[simp] theorem first_fail_capture_files_total (st : ScanStats) (kind path : Option CStr)
    (off bytes : Nat) (err : Int) (note : Option CStr) :
    (first_fail_capture st kind path off bytes err note).files_total = st.files_total := by
  unfold first_fail_capture
  split <;> rfl

@[simp] theorem first_fail_capture_files_read (st : ScanStats) (kind path : Option CStr)
    (off bytes : Nat) (err : Int) (note : Option CStr) :
    (first_fail_capture st kind path off bytes err note).files_read = st.files_read := by
  unfold first_fail_capture
  split <;> rfl

@[simp] theorem first_fail_capture_bytes_read (st : ScanStats) (kind path : Option CStr)
    (off bytes : Nat) (err : Int) (note : Option CStr) :
    (first_fail_capture st kind path off bytes err note).bytes_read = st.bytes_read := by
  unfold first_fail_capture
  split <;> rfl

@[simp] theorem first_fail_capture_open_errors (st : ScanStats) (kind path : Option CStr)
    (off bytes : Nat) (err : Int) (note : Option CStr) :
    (first_fail_capture st kind path off bytes err note).open_errors = st.open_errors := by
  unfold first_fail_capture
  split <;> rfl

@[simp] theorem first_fail_capture_read_errors (st : ScanStats) (kind path : Option CStr)
    (off bytes : Nat) (err : Int) (note : Option CStr) :
    (first_fail_capture st kind path off bytes err note).read_errors = st.read_errors := by
  unfold first_fail_capture
  split <;> rfl

@[simp] theorem first_fail_capture_read_errors_transient (st : ScanStats) (kind path : Option CStr)
    (off bytes : Nat) (err : Int) (note : Option CStr) :
    (first_fail_capture st kind path off bytes err note).read_errors_transient = st.read_errors_transient := by
  unfold first_fail_capture
  split <;> rfl

@[simp] theorem first_fail_capture_stat_errors (st : ScanStats) (kind path : Option CStr)
    (off bytes : Nat) (err : Int) (note : Option CStr) :
    (first_fail_capture st kind path off bytes err note).stat_errors = st.stat_errors := by
  unfold first_fail_capture
  split <;> rfl

@[simp] theorem first_fail_capture_path_errors (st : ScanStats) (kind path : Option CStr)
    (off bytes : Nat) (err : Int) (note : Option CStr) :
    (first_fail_capture st kind path off bytes err note).path_errors = st.path_errors := by
  unfold first_fail_capture
  split <;> rfl

@[simp] theorem first_fail_capture_consistency_errors (st : ScanStats) (kind path : Option CStr)
    (off bytes : Nat) (err : Int) (note : Option CStr) :
    (first_fail_capture st kind path off bytes err note).consistency_errors = st.consistency_errors := by
  unfold first_fail_capture
  split <;> rfl

@[simp] theorem first_fail_capture_skipped_dirs (st : ScanStats) (kind path : Option CStr)
    (off bytes : Nat) (err : Int) (note : Option CStr) :
    (first_fail_capture st kind path off bytes err note).skipped_dirs = st.skipped_dirs := by
  unfold first_fail_capture
  split <;> rfl

@[simp] theorem first_fail_capture_skipped_files (st : ScanStats) (kind path : Option CStr)
    (off bytes : Nat) (err : Int) (note : Option CStr) :
    (first_fail_capture st kind path off bytes err note).skipped_files = st.skipped_files := by
  unfold first_fail_capture
  split <;> rfl

@[simp] theorem first_fail_capture_cancelled (st : ScanStats) (kind path : Option CStr)
    (off bytes : Nat) (err : Int) (note : Option CStr) :
    (first_fail_capture st kind path off bytes err note).cancelled = st.cancelled := by
  unfold first_fail_capture
  split <;> rfl

@[simp] theorem first_fail_capture_current_path (st : ScanStats) (kind path : Option CStr)
    (off bytes : Nat) (err : Int) (note : Option CStr) :
    (first_fail_capture st kind path off bytes err note).current_path = st.current_path := by
  unfold first_fail_capture
  split <;> rfl

@[simp] theorem first_fail_capture_current_size (st : ScanStats) (kind path : Option CStr)
    (off bytes : Nat) (err : Int) (note : Option CStr) :
    (first_fail_capture st kind path off bytes err note).current_size = st.current_size := by
  unfold first_fail_capture
  split <;> rfl

@[simp] theorem first_fail_capture_current_planned (st : ScanStats) (kind path : Option CStr)
    (off bytes : Nat) (err : Int) (note : Option CStr) :
    (first_fail_capture st kind path off bytes err note).current_planned = st.current_planned := by
  unfold first_fail_capture
  split <;> rfl

@[simp] theorem first_fail_capture_current_done (st : ScanStats) (kind path : Option CStr)
    (off bytes : Nat) (err : Int) (note : Option CStr) :
    (first_fail_capture st kind path off bytes err note).current_done = st.current_done := by
  unfold first_fail_capture
  split <;> rfl

@[simp] theorem first_fail_capture_current_sample (st : ScanStats) (kind path : Option CStr)
    (off bytes : Nat) (err : Int) (note : Option CStr) :
    (first_fail_capture st kind path off bytes err note).current_sample = st.current_sample := by
  unfold first_fail_capture
  split <;> rfl

@[simp] theorem first_fail_capture_err_ring (st : ScanStats) (kind path : Option CStr)
    (off bytes : Nat) (err : Int) (note : Option CStr) :
    (first_fail_capture st kind path off bytes err note).err_ring = st.err_ring := by
  unfold first_fail_capture
  split <;> rfl

@[simp] theorem first_fail_capture_err_ring_count (st : ScanStats) (kind path : Option CStr)
    (off bytes : Nat) (err : Int) (note : Option CStr) :
    (first_fail_capture st kind path off bytes err note).err_ring_count = st.err_ring_count := by
  unfold first_fail_capture
  split <;> rfl

@[simp] theorem first_fail_capture_largest (st : ScanStats) (kind path : Option CStr)
    (off bytes : Nat) (err : Int) (note : Option CStr) :
    (first_fail_capture st kind path off bytes err note).largest = st.largest := by
  unfold first_fail_capture
  split <;> rfl

@[simp] theorem first_fail_capture_largest_count (st : ScanStats) (kind path : Option CStr)
    (off bytes : Nat) (err : Int) (note : Option CStr) :
    (first_fail_capture st kind path off bytes err note).largest_count = st.largest_count := by
  unfold first_fail_capture
  split <;> rfl

@[simp] theorem first_fail_capture_fail_paths (st : ScanStats) (kind path : Option CStr)
    (off bytes : Nat) (err : Int) (note : Option CStr) :
    (first_fail_capture st kind path off bytes err note).fail_paths = st.fail_paths := by
  unfold first_fail_capture
  split <;> rfl

@[simp] theorem first_fail_capture_fail_count (st : ScanStats) (kind path : Option CStr)
    (off bytes : Nat) (err : Int) (note : Option CStr) :
    (first_fail_capture st kind path off bytes err note).fail_count = st.fail_count := by
  unfold first_fail_capture
  split <;> rfl
@[simp] theorem region_account_dirs_total (st : ScanStats) (data : List Nat) (dt off : Nat) :
    (region_account st data dt off).dirs_total = st.dirs_total := by
  unfold region_account
  split
  · simp
  · rfl

@[simp] theorem region_account_files_total (st : ScanStats) (data : List Nat) (dt off : Nat) :
    (region_account st data dt off).files_total = st.files_total := by
  unfold region_account
  split
  · simp
  · rfl

@[simp] theorem region_account_files_read (st : ScanStats) (data : List Nat) (dt off : Nat) :
    (region_account st data dt off).files_read = st.files_read := by
  unfold region_account
  split
  · simp
  · rfl

@[simp] theorem region_account_open_errors (st : ScanStats) (data : List Nat) (dt off : Nat) :
    (region_account st data dt off).open_errors = st.open_errors := by
  unfold region_account
  split
  · simp
  · rfl

@[simp] theorem region_account_read_errors (st : ScanStats) (data : List Nat) (dt off : Nat) :
    (region_account st data dt off).read_errors = st.read_errors := by
  unfold region_account
  split
  · simp
  · rfl

@[simp] theorem region_account_read_errors_transient (st : ScanStats) (data : List Nat) (dt off : Nat) :
    (region_account st data dt off).read_errors_transient = st.read_errors_transient := by
  unfold region_account
  split
  · simp
  · rfl

@[simp] theorem region_account_stat_errors (st : ScanStats) (data : List Nat) (dt off : Nat) :
    (region_account st data dt off).stat_errors = st.stat_errors := by
  unfold region_account
  split
  · simp
  · rfl

@[simp] theorem region_account_path_errors (st : ScanStats) (data : List Nat) (dt off : Nat) :
    (region_account st data dt off).path_errors = st.path_errors := by
  unfold region_account
  split
  · simp
  · rfl

@[simp] theorem region_account_consistency_errors (st : ScanStats) (data : List Nat) (dt off : Nat) :
    (region_account st data dt off).consistency_errors = st.consistency_errors := by
  unfold region_account
  split
  · simp
  · rfl

@[simp] theorem region_account_skipped_dirs (st : ScanStats) (data : List Nat) (dt off : Nat) :
    (region_account st data dt off).skipped_dirs = st.skipped_dirs := by
  unfold region_account
  split
  · simp
  · rfl

@[simp] theorem region_account_skipped_files (st : ScanStats) (data : List Nat) (dt off : Nat) :
    (region_account st data dt off).skipped_files = st.skipped_files := by
  unfold region_account
  split
  · simp
  · rfl

@[simp] theorem region_account_cancelled (st : ScanStats) (data : List Nat) (dt off : Nat) :
    (region_account st data dt off).cancelled = st.cancelled := by
  unfold region_account
  split
  · simp
  · rfl

@[simp] theorem region_account_current_path (st : ScanStats) (data : List Nat) (dt off : Nat) :
    (region_account st data dt off).current_path = st.current_path := by
  unfold region_account
  split
  · simp
  · rfl

@[simp] theorem region_account_current_size (st : ScanStats) (data : List Nat) (dt off : Nat) :
    (region_account st data dt off).current_size = st.current_size := by
  unfold region_account
  split
  · simp
  · rfl

@[simp] theorem region_account_current_planned (st : ScanStats) (data : List Nat) (dt off : Nat) :
    (region_account st data dt off).current_planned = st.current_planned := by
  unfold region_account
  split
  · simp
  · rfl

@[simp] theorem region_account_current_sample (st : ScanStats) (data : List Nat) (dt off : Nat) :
    (region_account st data dt off).current_sample = st.current_sample := by
  unfold region_account
  split
  · simp
  · rfl

@[simp] theorem region_account_err_ring (st : ScanStats) (data : List Nat) (dt off : Nat) :
    (region_account st data dt off).err_ring = st.err_ring := by
  unfold region_account
  split
  · simp
  · rfl

@[simp] theorem region_account_err_ring_count (st : ScanStats) (data : List Nat) (dt off : Nat) :
    (region_account st data dt off).err_ring_count = st.err_ring_count := by
  unfold region_account
  split
  · simp
  · rfl

@[simp] theorem region_account_largest (st : ScanStats) (data : List Nat) (dt off : Nat) :
    (region_account st data dt off).largest = st.largest := by
  unfold region_account
  split
  · simp
  · rfl

@[simp] theorem region_account_largest_count (st : ScanStats) (data : List Nat) (dt off : Nat) :
    (region_account st data dt off).largest_count = st.largest_count := by
  unfold region_account
  split
  · simp
  · rfl

@[simp] theorem region_account_fail_paths (st : ScanStats) (data : List Nat) (dt off : Nat) :
    (region_account st data dt off).fail_paths = st.fail_paths := by
  unfold region_account
  split
  · simp
  · rfl

@[simp] theorem region_account_fail_count (st : ScanStats) (data : List Nat) (dt off : Nat) :
    (region_account st data dt off).fail_count = st.fail_count := by
  unfold region_account
  split
  · simp
  · rfl

@[simp] theorem region_account_first_fail_set (st : ScanStats) (data : List Nat) (dt off : Nat) :
    (region_account st data dt off).first_fail_set = st.first_fail_set := by
  unfold region_account
  split
  · simp
  · rfl

@[simp] theorem region_account_first_fail_kind (st : ScanStats) (data : List Nat) (dt off : Nat) :
    (region_account st data dt off).first_fail_kind = st.first_fail_kind := by
  unfold region_account
  split
  · simp
  · rfl

@[simp] theorem region_account_first_fail_path (st : ScanStats) (data : List Nat) (dt off : Nat) :
    (region_account st data dt off).first_fail_path = st.first_fail_path := by
  unfold region_account
  split
  · simp
  · rfl

@[simp] theorem region_account_first_fail_off (st : ScanStats) (data : List Nat) (dt off : Nat) :
    (region_account st data dt off).first_fail_off = st.first_fail_off := by
  unfold region_account
  split
  · simp
  · rfl

@[simp] theorem region_account_first_fail_bytes (st : ScanStats) (data : List Nat) (dt off : Nat) :
    (region_account st data dt off).first_fail_bytes = st.first_fail_bytes := by
  unfold region_account
  split
  · simp
  · rfl

@[simp] theorem region_account_first_fail_errno (st : ScanStats) (data : List Nat) (dt off : Nat) :
    (region_account st data dt off).first_fail_errno = st.first_fail_errno := by
  unfold region_account
  split
  · simp
  · rfl

@[simp] theorem region_account_first_fail_note (st : ScanStats) (data : List Nat) (dt off : Nat) :
    (region_account st data dt off).first_fail_note = st.first_fail_note := by
  unfold region_account
  split
  · simp
  · rfl

@[simp] theorem full_account_dirs_total (st : ScanStats) (data : List Nat) (dt off0 : Nat) :
    (full_account st data dt off0).dirs_total = st.dirs_total := by
  unfold full_account
  split
  · simp
  · rfl

@[simp] theorem full_account_files_total (st : ScanStats) (data : List Nat) (dt off0 : Nat) :
    (full_account st data dt off0).files_total = st.files_total := by
  unfold full_account
  split
  · simp
  · rfl

@[simp] theorem full_account_files_read (st : ScanStats) (data : List Nat) (dt off0 : Nat) :
    (full_account st data dt off0).files_read = st.files_read := by
  unfold full_account
  split
  · simp
  · rfl

@[simp] theorem full_account_open_errors (st : ScanStats) (data : List Nat) (dt off0 : Nat) :
    (full_account st data dt off0).open_errors = st.open_errors := by
  unfold full_account
  split
  · simp
  · rfl

@[simp] theorem full_account_read_errors (st : ScanStats) (data : List Nat) (dt off0 : Nat) :
    (full_account st data dt off0).read_errors = st.read_errors := by
  unfold full_account
  split
  · simp
  · rfl

@[simp] theorem full_account_read_errors_transient (st : ScanStats) (data : List Nat) (dt off0 : Nat) :
    (full_account st data dt off0).read_errors_transient = st.read_errors_transient := by
  unfold full_account
  split
  · simp
  · rfl

@[simp] theorem full_account_stat_errors (st : ScanStats) (data : List Nat) (dt off0 : Nat) :
    (full_account st data dt off0).stat_errors = st.stat_errors := by
  unfold full_account
  split
  · simp
  · rfl

@[simp] theorem full_account_path_errors (st : ScanStats) (data : List Nat) (dt off0 : Nat) :
    (full_account st data dt off0).path_errors = st.path_errors := by
  unfold full_account
  split
  · simp
  · rfl

@[simp] theorem full_account_consistency_errors (st : ScanStats) (data : List Nat) (dt off0 : Nat) :
    (full_account st data dt off0).consistency_errors = st.consistency_errors := by
  unfold full_account
  split
  · simp
  · rfl

@[simp] theorem full_account_skipped_dirs (st : ScanStats) (data : List Nat) (dt off0 : Nat) :
    (full_account st data dt off0).skipped_dirs = st.skipped_dirs := by
  unfold full_account
  split
  · simp
  · rfl

@[simp] theorem full_account_skipped_files (st : ScanStats) (data : List Nat) (dt off0 : Nat) :
    (full_account st data dt off0).skipped_files = st.skipped_files := by
  unfold full_account
  split
  · simp
  · rfl

@[simp] theorem full_account_cancelled (st : ScanStats) (data : List Nat) (dt off0 : Nat) :
    (full_account st data dt off0).cancelled = st.cancelled := by
  unfold full_account
  split
  · simp
  · rfl

@[simp] theorem full_account_current_path (st : ScanStats) (data : List Nat) (dt off0 : Nat) :
    (full_account st data dt off0).current_path = st.current_path := by
  unfold full_account
  split
  · simp
  · rfl

@[simp] theorem full_account_current_size (st : ScanStats) (data : List Nat) (dt off0 : Nat) :
    (full_account st data dt off0).current_size = st.current_size := by
  unfold full_account
  split
  · simp
  · rfl

@[simp] theorem full_account_current_planned (st : ScanStats) (data : List Nat) (dt off0 : Nat) :
    (full_account st data dt off0).current_planned = st.current_planned := by
  unfold full_account
  split
  · simp
  · rfl

@[simp] theorem full_account_current_sample (st : ScanStats) (data : List Nat) (dt off0 : Nat) :
    (full_account st data dt off0).current_sample = st.current_sample := by
  unfold full_account
  split
  · simp
  · rfl

@[simp] theorem full_account_err_ring (st : ScanStats) (data : List Nat) (dt off0 : Nat) :
    (full_account st data dt off0).err_ring = st.err_ring := by
  unfold full_account
  split
  · simp
  · rfl

@[simp] theorem full_account_err_ring_count (st : ScanStats) (data : List Nat) (dt off0 : Nat) :
    (full_account st data dt off0).err_ring_count = st.err_ring_count := by
  unfold full_account
  split
  · simp
  · rfl

@[simp] theorem full_account_largest (st : ScanStats) (data : List Nat) (dt off0 : Nat) :
    (full_account st data dt off0).largest = st.largest := by
  unfold full_account
  split
  · simp
  · rfl

@[simp] theorem full_account_largest_count (st : ScanStats) (data : List Nat) (dt off0 : Nat) :
    (full_account st data dt off0).largest_count = st.largest_count := by
  unfold full_account
  split
  · simp
  · rfl

@[simp] theorem full_account_fail_paths (st : ScanStats) (data : List Nat) (dt off0 : Nat) :
    (full_account st data dt off0).fail_paths = st.fail_paths := by
  unfold full_account
  split
  · simp
  · rfl

@[simp] theorem full_account_fail_count (st : ScanStats) (data : List Nat) (dt off0 : Nat) :
    (full_account st data dt off0).fail_count = st.fail_count := by
  unfold full_account
  split
  · simp
  · rfl

@[simp] theorem full_account_first_fail_set (st : ScanStats) (data : List Nat) (dt off0 : Nat) :
    (full_account st data dt off0).first_fail_set = st.first_fail_set := by
  unfold full_account
  split
  · simp
  · rfl

@[simp] theorem full_account_first_fail_kind (st : ScanStats) (data : List Nat) (dt off0 : Nat) :
    (full_account st data dt off0).first_fail_kind = st.first_fail_kind := by
  unfold full_account
  split
  · simp
  · rfl

@[simp] theorem full_account_first_fail_path (st : ScanStats) (data : List Nat) (dt off0 : Nat) :
    (full_account st data dt off0).first_fail_path = st.first_fail_path := by
  unfold full_account
  split
  · simp
  · rfl

@[simp] theorem full_account_first_fail_off (st : ScanStats) (data : List Nat) (dt off0 : Nat) :
    (full_account st data dt off0).first_fail_off = st.first_fail_off := by
  unfold full_account
  split
  · simp
  · rfl

@[simp] theorem full_account_first_fail_bytes (st : ScanStats) (data : List Nat) (dt off0 : Nat) :
    (full_account st data dt off0).first_fail_bytes = st.first_fail_bytes := by
  unfold full_account
  split
  · simp
  · rfl

@[simp] theorem full_account_first_fail_errno (st : ScanStats) (data : List Nat) (dt off0 : Nat) :
    (full_account st data dt off0).first_fail_errno = st.first_fail_errno := by
  unfold full_account
  split
  · simp
  · rfl

@[simp] theorem full_account_first_fail_note (st : ScanStats) (data : List Nat) (dt off0 : Nat) :
    (full_account st data dt off0).first_fail_note = st.first_fail_note := by
  unfold full_account
  split
  · simp
  · rfl

@[simp] theorem first_fail_capture_set (st : ScanStats) (kind path : Option CStr)
    (off bytes : Nat) (err : Int) (note : Option CStr) :
    (first_fail_capture st kind path off bytes err note).first_fail_set = true := by
  unfold first_fail_capture
  split
  · assumption
  · rfl

/-! ## The read primitives, one answer at a time -/

theorem fread_cons (w : World) (want : Nat) (r : FreadResp) (rest : List FreadResp)
    (h : w.reads = r :: rest) :
    fread w want
      = (r.data.take want, r.dt,
          { w with
            trace := IoCall.fread want :: w.trace
            reads := rest
            ferr := w.ferr || r.err
            errno := if r.err then r.errno else w.errno }) := by
  unfold fread
  rw [h]

theorem fseeko_ok (w : World) (off : Nat) (h : (fseeko w off).1 = true) :
    (fseeko w off).2.reads = w.reads ∧ (fseeko w off).2.ferr = w.ferr
      ∧ (fseeko w off).2.ui = w.ui ∧ (fseeko w off).2.bufs = w.bufs := by
  unfold fseeko at h ⊢
  split
  · exact ⟨rfl, rfl, rfl, rfl⟩
  · exact ⟨rfl, rfl, rfl, rfl⟩
  · rename_i heq; rw [heq] at h; simp at h

/-- An attempt of `read_region_retry` whose `fread` raises no error returns true
after accounting for the bytes read. -/
theorem read_region_attempts_ok (off want left crc : Nat) (w : World) (st : ScanStats)
    (r : FreadResp) (rest : List FreadResp) (hr : w.reads = r :: rest) (he : r.err = false)
    (hf : w.ferr = false) :
    ∃ w1 : World,
      read_region_attempts off want left crc w st
          = (some (if (r.data.take want).length > 0 then crc32_update crc (r.data.take want)
                else crc), w1, region_account st (r.data.take want) r.dt off)
        ∧ w1.reads = rest ∧ w1.ferr = false ∧ w1.ui = w.ui ∧ w1.seeks = w.seeks
        ∧ w1.bufs = w.bufs := by
  have hr0 : ({ w with errno := 0 } : World).reads = r :: rest := hr
  unfold read_region_attempts
  simp only [fread_cons _ want r rest hr0]
  simp only [he, hf, Bool.or_self, Bool.not_false, if_true]
  exact ⟨_, rfl, rfl, rfl, rfl, rfl, rfl⟩

/-- An attempt of `read_region_retry` whose `fread` raises the error indicator,
with retries left: one transient error is counted and the loop goes round. -/
theorem read_region_attempts_retry (off want left crc : Nat) (w : World) (st : ScanStats)
    (r : FreadResp) (rest : List FreadResp) (hr : w.reads = r :: rest) (he : r.err = true) :
    ∃ w2 : World,
      read_region_attempts off want (left + 1) crc w st
          = read_region_attempts off want left
              (if (r.data.take want).length > 0 then crc32_update crc (r.data.take want) else crc)
              w2
              { region_account st (r.data.take want) r.dt off with
                read_errors_transient :=
                  (region_account st (r.data.take want) r.dt off).read_errors_transient + 1 }
        ∧ w2.reads = rest ∧ w2.ferr = false ∧ w2.ui = w.ui ∧ w2.seeks = w.seeks
        ∧ w2.bufs = w.bufs := by
  have hr0 : ({ w with errno := 0 } : World).reads = r :: rest := hr
  rw [read_region_attempts]
  simp only [fread_cons _ want r rest hr0, he, Bool.or_true, Bool.not_true, Bool.false_eq_true,
    if_false, if_true]
  exact ⟨_, rfl, rfl, rfl, rfl, rfl, rfl⟩

/-- The last attempt of `read_region_retry` with the error indicator raised: one
persistent error is counted and captured, and the function returns false. -/
theorem read_region_attempts_fail (off want crc : Nat) (w : World) (st : ScanStats)
    (r : FreadResp) (rest : List FreadResp) (hr : w.reads = r :: rest) (he : r.err = true) :
    ∃ w2 : World,
      read_region_attempts off want 0 crc w st
          = (none, w2,
              err_push
                (first_fail_capture
                  { region_account st (r.data.take want) r.dt off with
                    read_errors := (region_account st (r.data.take want) r.dt off).read_errors + 1 }
                  (some "READ".toList) (some st.current_path) off want r.errno
                  (some "read_region".toList))
                "Read error".toList)
        ∧ w2.reads = rest ∧ w2.ferr = false ∧ w2.ui = w.ui ∧ w2.seeks = w.seeks
        ∧ w2.bufs = w.bufs := by
  have hr0 : ({ w with errno := 0 } : World).reads = r :: rest := hr
  rw [read_region_attempts]
  simp only [fread_cons _ want r rest hr0, he, Bool.or_true, Bool.not_true, Bool.false_eq_true,
    if_false, if_true, region_account_current_path]
  exact ⟨_, rfl, rfl, rfl, rfl, rfl, rfl⟩

/-- A retry of `read_full` whose `fread` raises no error ends the retry loop with
`ok = true`, one transient error counted. -/
theorem read_full_retries_ok (chunk left r crc : Nat) (e : Int) (w : World) (st : ScanStats)
    (r2 : FreadResp) (rest : List FreadResp) (hr : w.reads = r2 :: rest)
    (he : r2.err = false) :
    ∃ (e2 : Int) (w2 : World),
      read_full_retries chunk (left + 1) r crc e w st
          = (true, (r2.data.take chunk).length,
              (if (r2.data.take chunk).length > 0 then crc32_update crc (r2.data.take chunk)
                else crc),
              e2, w2,
              full_account { st with read_errors_transient := st.read_errors_transient + 1 }
                (r2.data.take chunk) r2.dt st.current_done)
        ∧ w2.reads = rest ∧ w2.ferr = false ∧ w2.ui = w.ui ∧ w2.seeks = w.seeks
        ∧ w2.bufs = w.bufs := by
  have hr0 : ({ ({ w with ferr := false } : World) with errno := 0 } : World).reads = r2 :: rest :=
    hr
  rw [read_full_retries]
  simp only [fread_cons _ chunk r2 rest hr0]
  simp only [he, Bool.or_self, Bool.not_false, if_true]
  exact ⟨_, _, rfl, rfl, rfl, rfl, rfl, rfl⟩

/-- A retry of `read_full` whose `fread` raises the error indicator again: one
transient error is counted and the retry loop goes round. -/
theorem read_full_retries_err (chunk left r crc : Nat) (e : Int) (w : World) (st : ScanStats)
    (r2 : FreadResp) (rest : List FreadResp) (hr : w.reads = r2 :: rest)
    (he : r2.err = true) :
    ∃ (w2 : World),
      read_full_retries chunk (left + 1) r crc e w st
          = read_full_retries chunk left (r2.data.take chunk).length
              (if (r2.data.take chunk).length > 0 then crc32_update crc (r2.data.take chunk)
                else crc)
              r2.errno w2
              (full_account { st with read_errors_transient := st.read_errors_transient + 1 }
                (r2.data.take chunk) r2.dt st.current_done)
        ∧ w2.reads = rest ∧ w2.ferr = true ∧ w2.ui = w.ui ∧ w2.seeks = w.seeks
        ∧ w2.bufs = w.bufs := by
  have hr0 : ({ ({ w with ferr := false } : World) with errno := 0 } : World).reads = r2 :: rest :=
    hr
  rw [read_full_retries]
  simp only [fread_cons _ chunk r2 rest hr0]
  simp only [he, Bool.or_true, Bool.not_true, Bool.false_eq_true, if_false, if_true]
  exact ⟨_, rfl, rfl, rfl, rfl, rfl, rfl⟩

/-- A first `fread` of a pass of `read_full` that comes back short with the error
indicator raised hands over to the retry loop. -/
theorem read_full_chunk_err (chunk : Nat) (cfg : ScanConfig) (loc : FullLocals) (w : World)
    (st : ScanStats) (r1 : FreadResp) (rest : List FreadResp) (hr : w.reads = r1 :: rest)
    (he : r1.err = true) (hshort : (r1.data.take chunk).length < chunk) :
    ∃ (loc1 : FullLocals) (w1 : World),
      read_full_chunk chunk cfg loc w st
          = (match read_full_retries chunk cfg.read_retries (r1.data.take chunk).length loc1.crc
                r1.errno w1 (full_account st (r1.data.take chunk) r1.dt st.current_done) with
              | (false, _, crc2, last_e, w2, st2) =>
                let st3 := { st2 with read_errors := st2.read_errors + 1 }
                let st4 := first_fail_capture st3 (some "READ".toList) (some st3.current_path)
                  st3.current_done chunk last_e (some "full read".toList)
                (ChunkOutcome.fail, { loc1 with crc := crc2 }, w2,
                  err_push st4 "Full: read error".toList)
              | (true, r2, crc2, _, w2, st2) =>
                if r2 < chunk && !w2.ferr then
                  (ChunkOutcome.eof, { loc1 with crc := crc2 }, w2, st2)
                else (ChunkOutcome.next, { loc1 with crc := crc2 }, w2, st2))
        ∧ w1.reads = rest ∧ w1.ferr = true ∧ w1.ui = w.ui ∧ w1.seeks = w.seeks
        ∧ w1.bufs = w.bufs := by
  have hr0 : ({ w with errno := 0 } : World).reads = r1 :: rest := hr
  unfold read_full_chunk
  simp only [fread_cons _ chunk r1 rest hr0]
  simp only [he, hshort, Bool.or_true, if_true]
  exact ⟨_, _, rfl, rfl, rfl, rfl, rfl, rfl⟩

theorem ui_update_nil (w : World) (st : ScanStats) (force : Bool) (h : w.ui = []) :
    ui_update w st force = ({ w with trace := IoCall.ui_update force st :: w.trace }, st) := by
  unfold ui_update
  rw [h]

/-- A region read on a stream without pending error whose seek succeeds and
whose single `fread` raises no error. -/
theorem read_region_retry_ok (off want : Nat) (cfg : ScanConfig) (w : World) (st : ScanStats)
    (r : FreadResp) (rest : List FreadResp) (hs : w.seeks = []) (hr : w.reads = r :: rest)
    (he : r.err = false) (hf : w.ferr = false) :
    ∃ w1 : World,
      read_region_retry off want cfg w st
          = (some (region_crc (r.data.take want)), w1,
              region_account st (r.data.take want) r.dt off)
        ∧ w1.reads = rest ∧ w1.ferr = false ∧ w1.ui = w.ui ∧ w1.seeks = [] ∧ w1.bufs = w.bufs := by
  have hfs : fseeko w off = (true, { w with trace := IoCall.fseeko off :: w.trace }) := by
    unfold fseeko; rw [hs]
  unfold read_region_retry
  rw [hfs]
  simp only [Bool.not_true, Bool.false_eq_true, if_false]
  obtain ⟨w1, e, h1, h2, h3, h4, h5⟩ := read_region_attempts_ok off want cfg.read_retries 0
    { w with trace := IoCall.fseeko off :: w.trace } st r rest hr he hf
  exact ⟨w1, e, h1, h2, h3, h4.trans hs, h5⟩

/-- The depth guard of `scan_dir_recursive`: beyond depth 128 the directory is
counted as a path error, reported to the error ring and left unopened. -/
theorem scan_dir_recursive_depth_exceeded (fuel : Nat) (path : CStr) (depth : Nat)
    (cfg : ScanConfig) (w : World) (st : ScanStats) (hc : st.cancelled = false)
    (hd : depth > 128) :
    scan_dir_recursive fuel path depth cfg w st
      = some (true, w,
          err_push { st with path_errors := st.path_errors + 1 }
            "Maximum directory depth reached (possible loop)".toList) := by
  cases fuel <;> simp [scan_dir_recursive, hc, hd]

/-- The length guard of the directory loop: an entry whose path does not fit
`PATH_MAX_LOCAL` is counted, captured and reported, and the loop goes on with
the next entry. -/
theorem scan_entries_path_too_long (recurse : CStr → World → ScanStats → Option ScanResult)
    (path : CStr) (cfg : ScanConfig) (name : CStr) (rest : List CStr) (w : World)
    (st : ScanStats) (hui : w.ui = []) (hc : st.cancelled = false)
    (hdot : name ≠ ".".toList ∧ name ≠ "..".toList)
    (hlong : path.length + 1 + name.length ≥ PATH_MAX_LOCAL) :
    scan_entries recurse path cfg (name :: rest) w st
      = scan_entries recurse path cfg rest
          { w with trace := IoCall.ui_update false st :: w.trace }
          (err_push
            (first_fail_capture { st with path_errors := st.path_errors + 1 }
              (some "PATH".toList) (some path) 0 0 0 (some "Path too long".toList))
            "Path too long (snprintf)".toList) := by
  rw [scan_entries]
  simp only [ui_update_nil w st false hui, hc, Bool.false_eq_true, if_false, hdot.1, hdot.2,
    or_self, hlong, if_true]

/-! ## The traversal always returns -/

theorem scan_entries_isSome (recurse : CStr → World → ScanStats → Option ScanResult)
    (path : CStr) (cfg : ScanConfig)
    (h : ∀ child w st, (recurse child w st).isSome = true) :
    ∀ (entries : List CStr) (w : World) (st : ScanStats),
      (scan_entries recurse path cfg entries w st).isSome = true := by
  intro entries
  induction entries with
  | nil => intro w st; rfl
  | cons name rest ih =>
    intro w st
    rw [scan_entries]
    simp only []
    split
    · rfl
    · split
      · exact ih _ _
      · split
        · exact ih _ _
        · split
          · exact ih _ _
          · split
            · exact ih _ _
            · have hrec : ∀ w1 st1, recurse (path ++ "/".toList ++ name) w1 st1 ≠ none := by
                intro w1 st1 hn
                have := h (path ++ "/".toList ++ name) w1 st1
                rw [hn] at this
                simp at this
              split
              · rename_i heq
                exact absurd heq (hrec _ _)
              · rfl
              · exact ih _ _
          · split
            · rfl
            · exact ih _ _
          · exact ih _ _

/-- With at least `129 - depth` levels to spend `scan_dir_recursive` returns a
result: the levels bound is never what stops it. -/
theorem scan_dir_recursive_isSome (fuel : Nat) :
    ∀ (path : CStr) (depth : Nat) (cfg : ScanConfig) (w : World) (st : ScanStats),
      129 ≤ fuel + depth → (scan_dir_recursive fuel path depth cfg w st).isSome = true := by
  induction fuel with
  | zero =>
    intro path depth cfg w st hd
    have : depth > 128 := by omega
    rw [scan_dir_recursive]
    split
    · rfl
    · simp [this]
  | succ fuel ih =>
    intro path depth cfg w st hd
    rw [scan_dir_recursive]
    split
    · rfl
    · split
      · rfl
      · split
        · rfl
        · simp only []
          split
          · rfl
          · have hrec : ∀ child w1 st1,
                (scan_dir_recursive fuel child (depth + 1) cfg w1 st1).isSome = true :=
              fun child w1 st1 => ih child (depth + 1) cfg w1 st1 (by omega)
            have hent : ∀ entries w1 st1,
                scan_entries (fun child w2 st2 => scan_dir_recursive fuel child (depth + 1) cfg w2 st2)
                  path cfg entries w1 st1 ≠ none := by
              intro entries w1 st1 hn
              have := scan_entries_isSome
                (fun child w2 st2 => scan_dir_recursive fuel child (depth + 1) cfg w2 st2) path cfg
                hrec entries w1 st1
              rw [hn] at this
              simp at this
            split
            · rename_i heq
              exact absurd heq (hent _ _ _)
            · rfl

/-- The scan entry point always returns. -/
theorem scan_engine_run_isSome (root : CStr) (cfg : ScanConfig) (w : World) (st : ScanStats) :
    (scan_engine_run root cfg w st).isSome = true := by
  unfold scan_engine_run
  simp only []
  split
  · rfl
  · have h : ∀ w1, scan_dir_recursive 129 root 0 cfg w1 st ≠ none := by
      intro w1 hn
      have := scan_dir_recursive_isSome 129 root 0 cfg w1 st (by omega)
      rw [hn] at this
      simp at this
    split
    · rename_i heq
      exact absurd heq (h _)
    · rfl

/-! ## The pass bound of `read_full` is never what stops the loop -/

theorem fread_reads_length (w : World) (want : Nat) :
    (fread w want).2.2.reads.length = w.reads.length - 1 := by
  unfold fread
  cases h : w.reads with
  | nil => simp [h]
  | cons r rest => simp

theorem ui_update_reads (w : World) (st : ScanStats) (force : Bool) :
    (ui_update w st force).1.reads = w.reads := by
  unfold ui_update
  cases w.ui <;> rfl

theorem read_full_retries_reads_le (chunk : Nat) (left : Nat) :
    ∀ (r crc : Nat) (e : Int) (w : World) (st : ScanStats),
      (read_full_retries chunk left r crc e w st).2.2.2.2.1.reads.length ≤ w.reads.length := by
  induction left with
  | zero => intro r crc e w st; simp [read_full_retries]
  | succ left ih =>
    intro r crc e w st
    rw [read_full_retries]
    simp only []
    have hlen := fread_reads_length { ({ w with ferr := false } : World) with errno := 0 } chunk
    have hlen' : (fread { ({ w with ferr := false } : World) with errno := 0 } chunk).2.2.reads.length
        ≤ w.reads.length := by rw [hlen]; exact Nat.sub_le _ _
    split
    · exact hlen'
    · exact le_trans (ih _ _ _ _ _) hlen'

/-- On a stream with no answers left a retry of `read_full` ends the retry loop
with `ok = true` and nothing read. -/
theorem read_full_retries_nil (chunk left r crc : Nat) (e : Int) (w : World) (st : ScanStats)
    (h : w.reads = []) :
    (read_full_retries chunk (left + 1) r crc e w st).1 = true
      ∧ (read_full_retries chunk (left + 1) r crc e w st).2.1 = 0
      ∧ (read_full_retries chunk (left + 1) r crc e w st).2.2.2.2.1.ferr = false := by
  rw [read_full_retries]
  simp [fread, h]

theorem read_full_retries_nil_elim (chunk left r crc : Nat) (e : Int) (w : World)
    (st : ScanStats) (h : w.reads = []) (r2 crc2 : Nat) (e2 : Int) (w2 : World)
    (st2 : ScanStats)
    (heq : read_full_retries chunk left r crc e w st = (true, r2, crc2, e2, w2, st2)) :
    r2 = 0 ∧ w2.ferr = false := by
  cases left with
  | zero => simp [read_full_retries] at heq
  | succ k =>
    obtain ⟨_, h2, h3⟩ := read_full_retries_nil chunk k r crc e w st h
    rw [heq] at h2 h3
    exact ⟨h2, h3⟩

theorem read_full_retries_reads_le_elim (chunk left r crc : Nat) (e : Int) (w : World)
    (st : ScanStats) (ok : Bool) (r2 crc2 : Nat) (e2 : Int) (w2 : World) (st2 : ScanStats)
    (heq : read_full_retries chunk left r crc e w st = (ok, r2, crc2, e2, w2, st2)) :
    w2.reads.length ≤ w.reads.length := by
  have := read_full_retries_reads_le chunk left r crc e w st
  rw [heq] at this
  exact this

/-- A pass of the `read_full` loop that goes round again has used up an `fread`
answer. -/
theorem read_full_chunk_next_reads (chunk : Nat) (cfg : ScanConfig) (loc : FullLocals)
    (w : World) (st : ScanStats) (hchunk : 0 < chunk)
    (hnext : (read_full_chunk chunk cfg loc w st).1 = ChunkOutcome.next) :
    (read_full_chunk chunk cfg loc w st).2.2.1.reads.length < w.reads.length := by
  cases hreads : w.reads with
  | nil =>
    exfalso
    revert hnext
    unfold read_full_chunk
    simp only [fread, hreads, List.length_nil, hchunk, if_true, gt_iff_lt, lt_self_iff_false,
      if_false]
    split
    · split
      · simp
      · rename_i heq
        obtain ⟨h2, h3⟩ := read_full_retries_nil_elim _ _ _ _ _ _ _ rfl _ _ _ _ _ heq
        simp [h2, h3, hchunk]
    · simp
  | cons r rest =>
    have hr0 : ({ w with errno := 0 } : World).reads = r :: rest := hreads
    revert hnext
    unfold read_full_chunk
    simp only [fread_cons _ chunk r rest hr0]
    split
    · split
      · split
        · simp
        · rename_i heq
          have hle := read_full_retries_reads_le_elim _ _ _ _ _ _ _ _ _ _ _ _ _ heq
          simp only [List.length_cons] at hle ⊢
          intro _
          split
          · exact Nat.lt_succ_of_le hle
          · exact Nat.lt_succ_of_le hle
      · simp
    · intro _
      simp

/-- Any two pass bounds above the number of `fread` answers left give the same
run of the `read_full` loop: the bound `read_full` supplies is never reached. -/
theorem read_full_loop_bound_irrelevant (chunk : Nat) (cfg : ScanConfig) (hchunk : 0 < chunk)
    (fuel1 : Nat) :
    ∀ (fuel2 : Nat) (loc : FullLocals) (w : World) (st : ScanStats),
      w.reads.length < fuel1 → w.reads.length < fuel2 →
      read_full_loop chunk cfg fuel1 loc w st = read_full_loop chunk cfg fuel2 loc w st := by
  induction fuel1 with
  | zero => intro fuel2 loc w st h1 _; omega
  | succ f1 ih =>
    intro fuel2 loc w st h1 h2
    obtain ⟨f2, rfl⟩ : ∃ f2, fuel2 = f2 + 1 := ⟨fuel2 - 1, by omega⟩
    rw [read_full_loop, read_full_loop]
    split
    · rfl
    · have hprog := read_full_chunk_next_reads chunk cfg loc w st hchunk
      rcases hres : read_full_chunk chunk cfg loc w st with ⟨o, loc1, w1, st1⟩
      rw [hres] at hprog
      cases o with
      | fail => rfl
      | eof => rfl
      | next =>
        simp only at hprog ⊢
        have hlt := hprog trivial
        have hu := ui_update_reads w1 st1 false
        rcases hup : ui_update w1 st1 false with ⟨w2, st2⟩
        rw [hup] at hu
        simp only at hu
        exact ih f2 loc1 w2 st2 (by rw [hu]; omega) (by rw [hu]; omega)

/-- The scenario of the specification run through the whole engine:
`dirs_total = 1`, `files_total = 1`, `files_read = 1`, sample mode and
`current_planned = 131072`. -/
theorem scenario_big_file_sampled :
    scenario_view (scan_engine_run "sdmc:/".toList (cfg_with 1 false) scenario_world
        ScanStats.zero)
      = some (true, [1, 1, 1, 131072], true) := by
  decide!

/-! ## Errors that bypass the first-failure snapshot and the failing-path list -/

/-- The last-region half of `read_sample` with the consistency check on, when
both reads of the region succeed and their checksums differ: the mismatch is
counted and reported, `first_fail_capture` is not called. -/
theorem read_sample_last_mismatch (size : Nat) (cfg : ScanConfig) (crc_total : Nat) (w : World)
    (st : ScanStats) (r3 r4 : FreadResp) (rest : List FreadResp)
    (hcc : cfg.consistency_check = true) (hseek : w.seeks = []) (hui : w.ui = [])
    (hf : w.ferr = false) (hr : w.reads = r3 :: r4 :: rest) (he3 : r3.err = false)
    (he4 : r4.err = false)
    (hdiff : region_crc (r4.data.take SAMPLE_REGION) ≠ region_crc (r3.data.take SAMPLE_REGION))
    (hc : st.cancelled = false) :
    (read_sample_last size cfg crc_total w st).1 = none
      ∧ (read_sample_last size cfg crc_total w st).2.2.consistency_errors
          = st.consistency_errors + 1
      ∧ (read_sample_last size cfg crc_total w st).2.2.first_fail_set = st.first_fail_set
      ∧ (read_sample_last size cfg crc_total w st).2.2.read_errors = st.read_errors := by
  unfold read_sample_last
  simp only []
  generalize (if size > SAMPLE_REGION then size - SAMPLE_REGION else 0) = off
  obtain ⟨w1, e1, hr1, hf1, hu1, hs1, _⟩ := read_region_retry_ok off SAMPLE_REGION cfg w st r3
    (r4 :: rest) hseek hr he3 hf
  have k1 : (region_account st (r3.data.take SAMPLE_REGION) r3.dt off).cancelled = false := by
    simpa using hc
  have k2 : (region_account st (r3.data.take SAMPLE_REGION) r3.dt off).consistency_errors
      = st.consistency_errors := by simp
  have k3 : (region_account st (r3.data.take SAMPLE_REGION) r3.dt off).first_fail_set
      = st.first_fail_set := by simp
  have k4 : (region_account st (r3.data.take SAMPLE_REGION) r3.dt off).read_errors
      = st.read_errors := by simp
  generalize region_account st (r3.data.take SAMPLE_REGION) r3.dt off = st1 at e1 k1 k2 k3 k4
  rw [e1]
  simp only [ui_update_nil w1 _ false (hu1.trans hui), hcc, if_true]
  rw [if_neg (by simp [k1])]
  obtain ⟨w3, e3, _⟩ := read_region_retry_ok off SAMPLE_REGION cfg
    { w1 with trace := IoCall.ui_update false st1 :: w1.trace }
    { st1 with
      current_done := u64_sub st1.current_done SAMPLE_REGION
      bytes_read := u64_sub st1.bytes_read SAMPLE_REGION }
    r4 rest hs1 hr1 he4 hf1
  rw [e3]
  simp [hdiff, k2, k3, k4]

/-- C7, what the code does at the two places that count an error without
capturing it.  (1) A directory entered beyond depth 128 increments
`path_errors` and leaves `first_fail_set` as it was, false if no error came
before.  (2) In sample mode with the consistency check on, a file larger than
the sample region whose first region re-reads identically and whose last region
re-reads differently increments `consistency_errors`, fails the file and leaves
`first_fail_set` false. -/
theorem C7_errors_without_first_failure (fuel : Nat) (path : CStr) (depth : Nat)
    (cfg : ScanConfig) (w : World) (st : ScanStats) (size : Nat) (r1 r2 r3 r4 : FreadResp)
    (rest : List FreadResp) (hc : st.cancelled = false) (hff : st.first_fail_set = false) :
    (depth > 128 →
        ∃ st1 : ScanStats,
          scan_dir_recursive fuel path depth cfg w st = some (true, w, st1)
            ∧ st1.path_errors = st.path_errors + 1
            ∧ st1.first_fail_set = false)
      ∧ (size > SAMPLE_REGION → cfg.consistency_check = true →
          ¬ w.bufs.sample_cap < SAMPLE_REGION → w.seeks = [] → w.ui = [] → w.ferr = false →
          w.reads = r1 :: r2 :: r3 :: r4 :: rest →
          r1.err = false → r2.err = false → r3.err = false → r4.err = false →
          region_crc (r2.data.take SAMPLE_REGION) = region_crc (r1.data.take SAMPLE_REGION) →
          region_crc (r4.data.take SAMPLE_REGION) ≠ region_crc (r3.data.take SAMPLE_REGION) →
          (read_sample size cfg w st).1 = none
            ∧ (read_sample size cfg w st).2.2.consistency_errors = st.consistency_errors + 1
            ∧ (read_sample size cfg w st).2.2.read_errors = st.read_errors
            ∧ (read_sample size cfg w st).2.2.first_fail_set = false) := by
  constructor
  · intro hd
    refine ⟨_, scan_dir_recursive_depth_exceeded fuel path depth cfg w st hc hd, ?_, ?_⟩
    · simp
    · simpa using hff
  · intro hsize hcc hbuf hseek hui hf hr he1 he2 he3 he4 hsame hdiff
    have hwant : ¬ size < SAMPLE_REGION := by omega
    unfold read_sample
    simp only [hbuf, if_false, hwant]
    obtain ⟨w1, e1, hr1, hf1, hu1, hs1, _⟩ := read_region_retry_ok 0 SAMPLE_REGION cfg w st r1
      (r2 :: r3 :: r4 :: rest) hseek hr he1 hf
    have k1 : (region_account st (r1.data.take SAMPLE_REGION) r1.dt 0).cancelled = false := by
      simpa using hc
    have k2 : (region_account st (r1.data.take SAMPLE_REGION) r1.dt 0).consistency_errors
        = st.consistency_errors := by simp
    have k3 : (region_account st (r1.data.take SAMPLE_REGION) r1.dt 0).first_fail_set
        = false := by simpa using hff
    have k4 : (region_account st (r1.data.take SAMPLE_REGION) r1.dt 0).read_errors
        = st.read_errors := by simp
    generalize region_account st (r1.data.take SAMPLE_REGION) r1.dt 0 = st1 at e1 k1 k2 k3 k4
    rw [e1]
    simp only [ui_update_nil w1 _ false (hu1.trans hui), hcc, if_true]
    rw [if_neg (by simp [k1])]
    obtain ⟨w3, e3, hr3, hf3, hu3, hs3, _⟩ := read_region_retry_ok 0 SAMPLE_REGION cfg
      { w1 with trace := IoCall.ui_update false st1 :: w1.trace }
      { st1 with
        current_done := u64_sub st1.current_done SAMPLE_REGION
        bytes_read := u64_sub st1.bytes_read SAMPLE_REGION }
      r2 (r3 :: r4 :: rest) hs1 hr1 he2 hf1
    have j1 : (region_account
        { st1 with
          current_done := u64_sub st1.current_done SAMPLE_REGION
          bytes_read := u64_sub st1.bytes_read SAMPLE_REGION }
        (r2.data.take SAMPLE_REGION) r2.dt 0).cancelled = false := by simpa using k1
    have j2 : (region_account
        { st1 with
          current_done := u64_sub st1.current_done SAMPLE_REGION
          bytes_read := u64_sub st1.bytes_read SAMPLE_REGION }
        (r2.data.take SAMPLE_REGION) r2.dt 0).consistency_errors = st.consistency_errors := by
      simpa using k2
    have j3 : (region_account
        { st1 with
          current_done := u64_sub st1.current_done SAMPLE_REGION
          bytes_read := u64_sub st1.bytes_read SAMPLE_REGION }
        (r2.data.take SAMPLE_REGION) r2.dt 0).first_fail_set = false := by simpa using k3
    have j4 : (region_account
        { st1 with
          current_done := u64_sub st1.current_done SAMPLE_REGION
          bytes_read := u64_sub st1.bytes_read SAMPLE_REGION }
        (r2.data.take SAMPLE_REGION) r2.dt 0).read_errors = st.read_errors := by simpa using k4
    generalize region_account
        { st1 with
          current_done := u64_sub st1.current_done SAMPLE_REGION
          bytes_read := u64_sub st1.bytes_read SAMPLE_REGION }
        (r2.data.take SAMPLE_REGION) r2.dt 0 = st4 at e3 j1 j2 j3 j4
    rw [e3]
    simp only [hsame, ne_eq, not_true_eq_false, if_false, hsize, if_true]
    obtain ⟨l1, l2, l3, l4⟩ := read_sample_last_mismatch size cfg
      (0 ^^^ region_crc (r1.data.take SAMPLE_REGION)) w3
      { st4 with
        current_done := u64_sub st4.current_done SAMPLE_REGION
        bytes_read := u64_sub st4.bytes_read SAMPLE_REGION }
      r3 r4 rest hcc hs3 (hu3.trans (by simpa using hu1.trans hui)) hf3 hr3 he3 he4 hdiff j1
    rcases hres : read_sample_last size cfg (0 ^^^ region_crc (r1.data.take SAMPLE_REGION)) w3
      { st4 with
        current_done := u64_sub st4.current_done SAMPLE_REGION
        bytes_read := u64_sub st4.bytes_read SAMPLE_REGION }
      with ⟨o, w5, st9⟩
    rw [hres] at l1 l2 l3 l4
    simp only at l1 l2 l3 l4
    subst l1
    simp only [l2, l3, l4]
    exact ⟨trivial, j2 ▸ rfl, j4, j3⟩

/-- C7 at concrete inputs: a directory at depth 129 on zeroed statistics, and a
128 KiB file sampled with the consistency check on whose last region reads
differently the second time; in both an error is counted and `first_fail_set`
stays false.  The same through the whole engine: a scan of an endless chain of
nested directories ends with `path_errors = 1`, and a scan of a root holding
that file ends with `consistency_errors = 1`, each with `first_fail_set` false. -/
theorem C7_errors_without_first_failure_witness :
    (∃ st1 : ScanStats,
        scan_dir_recursive 0 "sdmc:/d".toList 129 (cfg_with 1 true)
            (world_reads [⟨[1], 1, false, 0⟩, ⟨[1], 1, false, 0⟩, ⟨[2], 1, false, 0⟩,
              ⟨[3], 1, false, 0⟩]) ScanStats.zero
          = some (true, world_reads [⟨[1], 1, false, 0⟩, ⟨[1], 1, false, 0⟩, ⟨[2], 1, false, 0⟩,
              ⟨[3], 1, false, 0⟩], st1)
          ∧ st1.path_errors = 0 + 1 ∧ st1.first_fail_set = false)
      ∧ ((read_sample 131072 (cfg_with 1 true)
            (world_reads [⟨[1], 1, false, 0⟩, ⟨[1], 1, false, 0⟩, ⟨[2], 1, false, 0⟩,
              ⟨[3], 1, false, 0⟩]) ScanStats.zero).1 = none
        ∧ (read_sample 131072 (cfg_with 1 true)
            (world_reads [⟨[1], 1, false, 0⟩, ⟨[1], 1, false, 0⟩, ⟨[2], 1, false, 0⟩,
              ⟨[3], 1, false, 0⟩]) ScanStats.zero).2.2.consistency_errors = 0 + 1
        ∧ (read_sample 131072 (cfg_with 1 true)
            (world_reads [⟨[1], 1, false, 0⟩, ⟨[1], 1, false, 0⟩, ⟨[2], 1, false, 0⟩,
              ⟨[3], 1, false, 0⟩]) ScanStats.zero).2.2.read_errors = 0
        ∧ (read_sample 131072 (cfg_with 1 true)
            (world_reads [⟨[1], 1, false, 0⟩, ⟨[1], 1, false, 0⟩, ⟨[2], 1, false, 0⟩,
              ⟨[3], 1, false, 0⟩]) ScanStats.zero).2.2.first_fail_set = false)
      ∧ error_view (scan_engine_run "sdmc:/".toList (cfg_with 1 false) chain_world
          ScanStats.zero) = some (true, [129, 0, 1, 0, 0, 0, 1, 0], false)
      ∧ error_view (scan_engine_run "sdmc:/".toList
          { cfg_with 1 true with large_file_limit := 65536 } unstable_tail_world ScanStats.zero)
          = some (true, [0, 1, 0, 1, 0, 0, 1, 1], false) :=
  ⟨(C7_errors_without_first_failure 0 "sdmc:/d".toList 129 (cfg_with 1 true)
      (world_reads [⟨[1], 1, false, 0⟩, ⟨[1], 1, false, 0⟩, ⟨[2], 1, false, 0⟩,
        ⟨[3], 1, false, 0⟩]) ScanStats.zero 131072 ⟨[1], 1, false, 0⟩ ⟨[1], 1, false, 0⟩
      ⟨[2], 1, false, 0⟩ ⟨[3], 1, false, 0⟩ [] rfl rfl).1 (by decide),
    (C7_errors_without_first_failure 0 "sdmc:/d".toList 129 (cfg_with 1 true)
      (world_reads [⟨[1], 1, false, 0⟩, ⟨[1], 1, false, 0⟩, ⟨[2], 1, false, 0⟩,
        ⟨[3], 1, false, 0⟩]) ScanStats.zero 131072 ⟨[1], 1, false, 0⟩ ⟨[1], 1, false, 0⟩
      ⟨[2], 1, false, 0⟩ ⟨[3], 1, false, 0⟩ [] rfl rfl).2 (by decide) rfl (by decide) rfl rfl rfl
      rfl rfl rfl rfl rfl rfl (by decide),
    by decide!, by decide!⟩

/-- C8, what the code does at the two places that count a path error without
recording the path.  (1) A directory entered beyond depth 128 increments
`path_errors` and leaves `fail_paths` and `fail_count` untouched.  (2) A
directory entry whose path would not fit `PATH_MAX_LOCAL` increments
`path_errors` and the loop moves on to the next entry with `fail_paths` and
`fail_count` untouched. -/
theorem C8_path_errors_without_failing_path (fuel : Nat) (path : CStr) (depth : Nat)
    (cfg : ScanConfig) (w : World) (st : ScanStats)
    (recurse : CStr → World → ScanStats → Option ScanResult) (name : CStr) (rest : List CStr)
    (hc : st.cancelled = false) :
    (depth > 128 →
        ∃ st1 : ScanStats,
          scan_dir_recursive fuel path depth cfg w st = some (true, w, st1)
            ∧ st1.path_errors = st.path_errors + 1
            ∧ st1.fail_count = st.fail_count ∧ st1.fail_paths = st.fail_paths)
      ∧ (w.ui = [] → (name ≠ ".".toList ∧ name ≠ "..".toList) →
          path.length + 1 + name.length ≥ PATH_MAX_LOCAL →
          ∃ (w1 : World) (st1 : ScanStats),
            scan_entries recurse path cfg (name :: rest) w st
                = scan_entries recurse path cfg rest w1 st1
              ∧ st1.path_errors = st.path_errors + 1
              ∧ st1.fail_count = st.fail_count ∧ st1.fail_paths = st.fail_paths) := by
  constructor
  · intro hd
    exact ⟨_, scan_dir_recursive_depth_exceeded fuel path depth cfg w st hc hd, by simp, by simp,
      by simp⟩
  · intro hui hdot hlong
    exact ⟨_, _, scan_entries_path_too_long recurse path cfg name rest w st hui hc hdot hlong,
      by simp, by simp, by simp⟩

/-- C8 at concrete inputs on zeroed statistics: a directory at depth 129, and an
entry with a name of 2048 bytes in `sdmc:/`; in both `path_errors` becomes 1 and
the failing-path list stays empty.  The same through the whole engine: a scan of
an endless chain of nested directories and a scan of a root holding such an
entry each end with `path_errors = 1` and `fail_count = 0`. -/
theorem C8_path_errors_without_failing_path_witness :
    (∃ st1 : ScanStats,
        scan_dir_recursive 0 "sdmc:/d".toList 129 (cfg_with 1 false) (world_reads [])
            ScanStats.zero = some (true, world_reads [], st1)
          ∧ st1.path_errors = 0 + 1 ∧ st1.fail_count = 0
          ∧ st1.fail_paths = ScanStats.zero.fail_paths)
      ∧ (∃ (w1 : World) (st1 : ScanStats),
          scan_entries (fun _ _ _ => none) "sdmc:/".toList (cfg_with 1 false)
              [List.replicate 2048 'x'] (world_reads []) ScanStats.zero
            = scan_entries (fun _ _ _ => none) "sdmc:/".toList (cfg_with 1 false) [] w1 st1
          ∧ st1.path_errors = 0 + 1 ∧ st1.fail_count = 0
          ∧ st1.fail_paths = ScanStats.zero.fail_paths)
      ∧ error_view (scan_engine_run "sdmc:/".toList (cfg_with 1 false) chain_world
          ScanStats.zero) = some (true, [129, 0, 1, 0, 0, 0, 1, 0], false)
      ∧ error_view (scan_engine_run "sdmc:/".toList (cfg_with 1 false) long_name_world
          ScanStats.zero) = some (true, [0, 0, 1, 0, 0, 0, 1, 0], true) :=
  ⟨(C8_path_errors_without_failing_path 0 "sdmc:/d".toList 129 (cfg_with 1 false)
      (world_reads []) ScanStats.zero (fun _ _ _ => none) (List.replicate 2048 'x') [] rfl).1
      (by decide),
    (C8_path_errors_without_failing_path 0 "sdmc:/".toList 129 (cfg_with 1 false)
      (world_reads []) ScanStats.zero (fun _ _ _ => none) (List.replicate 2048 'x') [] rfl).2
      rfl (by decide) (by rw [List.length_replicate]; decide),
    by decide!, by decide!⟩

/-! ## Persistent read errors -/

theorem read_region_attempts_all_fail (off want : Nat) (k : Nat) :
    ∀ (crc : Nat) (w : World) (st : ScanStats) (fs rest : List FreadResp),
      w.reads = fs ++ rest → fs.length = k + 1 → (∀ r ∈ fs, r.err = true) →
      (read_region_attempts off want k crc w st).1 = none
        ∧ (read_region_attempts off want k crc w st).2.2.read_errors = st.read_errors + 1
        ∧ (read_region_attempts off want k crc w st).2.2.read_errors_transient
            = st.read_errors_transient + k := by
  induction k with
  | zero =>
    intro crc w st fs rest hr hlen herr
    match fs, hlen with
    | [r], _ =>
      obtain ⟨w2, e, _⟩ := read_region_attempts_fail off want crc w st r rest
        (by simpa using hr) (herr r (List.mem_singleton.mpr rfl))
      rw [e]
      simp
  | succ k ih =>
    intro crc w st fs rest hr hlen herr
    match fs, hlen with
    | r :: fs1, hlen1 =>
      have hlen2 : fs1.length = k + 1 := by simpa using hlen1
      obtain ⟨w2, e, hw2, _⟩ := read_region_attempts_retry off want k crc w st r
        (fs1 ++ rest) (by simpa using hr) (herr r (List.mem_cons_self _ _))
      rw [e]
      obtain ⟨i1, i2, i3⟩ := ih
        (if (r.data.take want).length > 0 then crc32_update crc (r.data.take want) else crc) w2
        { region_account st (r.data.take want) r.dt off with
          read_errors_transient :=
            (region_account st (r.data.take want) r.dt off).read_errors_transient + 1 }
        fs1 rest hw2 hlen2 (fun x hx => herr x (List.mem_cons_of_mem _ hx))
      refine ⟨i1, ?_, ?_⟩
      · rw [i2]; simp
      · rw [i3]; simp; omega

theorem read_full_retries_all_fail (chunk : Nat) (k : Nat) :
    ∀ (r crc : Nat) (e : Int) (w : World) (st : ScanStats) (fs rest : List FreadResp),
      w.reads = fs ++ rest → fs.length = k → (∀ x ∈ fs, x.err = true) →
      (read_full_retries chunk k r crc e w st).1 = false
        ∧ (read_full_retries chunk k r crc e w st).2.2.2.2.2.read_errors = st.read_errors
        ∧ (read_full_retries chunk k r crc e w st).2.2.2.2.2.read_errors_transient
            = st.read_errors_transient + k := by
  induction k with
  | zero =>
    intro r crc e w st fs rest _ _ _
    simp [read_full_retries]
  | succ k ih =>
    intro r crc e w st fs rest hr hlen herr
    match fs, hlen with
    | r2 :: fs1, hlen1 =>
      have hlen2 : fs1.length = k := by simpa using hlen1
      obtain ⟨w2, e1, hw2, _⟩ := read_full_retries_err chunk k r crc e w st r2 (fs1 ++ rest)
        (by simpa using hr) (herr r2 (List.mem_cons_self _ _))
      rw [e1]
      obtain ⟨i1, i2, i3⟩ := ih (r2.data.take chunk).length
        (if (r2.data.take chunk).length > 0 then crc32_update crc (r2.data.take chunk) else crc)
        r2.errno w2
        (full_account { st with read_errors_transient := st.read_errors_transient + 1 }
          (r2.data.take chunk) r2.dt st.current_done)
        fs1 rest hw2 hlen2 (fun x hx => herr x (List.mem_cons_of_mem _ hx))
      refine ⟨i1, ?_, ?_⟩
      · rw [i2]; simp
      · rw [i3]; simp; omega

/-- C9, what the code does: when a read fails on the initial attempt and on
every one of the `read_retries` retries, `read_errors` increases by exactly 1
and the read returns failure, but `read_errors_transient` increases by
`read_retries` (one per retry made), not by 0, in `read_region_retry` and in
`read_full` alike. -/
theorem C9_persistent_failure_counts_each_retry (off want chunk : Nat) (cfg : ScanConfig)
    (loc : FullLocals) (w : World) (st : ScanStats) (fs rest : List FreadResp)
    (hr : w.reads = fs ++ rest) (hlen : fs.length = cfg.read_retries + 1)
    (herr : ∀ r ∈ fs, r.err = true) :
    ((fseeko w off).1 = true →
        (read_region_retry off want cfg w st).1 = none
          ∧ (read_region_retry off want cfg w st).2.2.read_errors = st.read_errors + 1
          ∧ (read_region_retry off want cfg w st).2.2.read_errors_transient
              = st.read_errors_transient + cfg.read_retries)
      ∧ ((∀ r ∈ fs.head?, (r.data.take chunk).length < chunk) →
          (read_full_chunk chunk cfg loc w st).1 = ChunkOutcome.fail
            ∧ (read_full_chunk chunk cfg loc w st).2.2.2.read_errors = st.read_errors + 1
            ∧ (read_full_chunk chunk cfg loc w st).2.2.2.read_errors_transient
                = st.read_errors_transient + cfg.read_retries) := by
  constructor
  · intro hseek
    obtain ⟨hsr, _, _, _⟩ := fseeko_ok w off hseek
    rcases hfs : fseeko w off with ⟨ok, w1⟩
    rw [hfs] at hseek hsr
    simp only at hseek hsr
    unfold read_region_retry
    rw [hfs]
    simp only [hseek, Bool.not_true, Bool.false_eq_true, if_false]
    exact read_region_attempts_all_fail off want cfg.read_retries 0 w1 st fs rest
      (hsr.trans hr) hlen herr
  · intro hshort
    match fs, hlen with
    | r1 :: fs1, hlen1 =>
      have hlen2 : fs1.length = cfg.read_retries := by simpa using hlen1
      have hs1 : (r1.data.take chunk).length < chunk := hshort r1 (by simp)
      obtain ⟨loc1, w1, e1, hw1, _⟩ := read_full_chunk_err chunk cfg loc w st r1 (fs1 ++ rest)
        (by simpa using hr) (herr r1 (List.mem_cons_self _ _)) hs1
      rw [e1]
      obtain ⟨i1, i2, i3⟩ := read_full_retries_all_fail chunk cfg.read_retries
        (r1.data.take chunk).length loc1.crc r1.errno w1
        (full_account st (r1.data.take chunk) r1.dt st.current_done) fs1 rest hw1 hlen2
        (fun x hx => herr x (List.mem_cons_of_mem _ hx))
      rcases hres : read_full_retries chunk cfg.read_retries (r1.data.take chunk).length loc1.crc
        r1.errno w1 (full_account st (r1.data.take chunk) r1.dt st.current_done)
        with ⟨ok, r2, crc2, e2, w2, st2⟩
      rw [hres] at i1 i2 i3
      simp only at i1 i2 i3
      subst i1
      simp only [err_push_read_errors, first_fail_capture_read_errors,
        err_push_read_errors_transient, first_fail_capture_read_errors_transient, i2, i3]
      simp

/-- C9 at `read_retries = 3` with four failing `fread` calls: the region read and
the full-mode pass both end with `read_errors = 1` and
`read_errors_transient = 3`; so does a scan, through the whole engine, of a root
holding one file on which every `fread` fails. -/
theorem C9_persistent_failure_counts_each_retry_witness :
    (read_region_retry 0 65536 (cfg_with 3 false)
        (world_reads [fread_eio, fread_eio, fread_eio, fread_eio]) ScanStats.zero).1 = none
      ∧ (read_region_retry 0 65536 (cfg_with 3 false)
        (world_reads [fread_eio, fread_eio, fread_eio, fread_eio]) ScanStats.zero).2.2.read_errors
          = 0 + 1
      ∧ (read_region_retry 0 65536 (cfg_with 3 false)
        (world_reads [fread_eio, fread_eio, fread_eio, fread_eio])
        ScanStats.zero).2.2.read_errors_transient = 0 + 3
      ∧ (read_full_chunk 131072 (cfg_with 3 false) ⟨0, 0, false⟩
        (world_reads [fread_eio, fread_eio, fread_eio, fread_eio])
        ScanStats.zero).2.2.2.read_errors_transient = 0 + 3
      ∧ error_view (scan_engine_run "sdmc:/".toList (cfg_with 3 false) dead_file_world
          ScanStats.zero) = some (true, [0, 1, 0, 0, 1, 3, 1, 1], true) :=
  ⟨((C9_persistent_failure_counts_each_retry 0 65536 131072 (cfg_with 3 false) ⟨0, 0, false⟩
      (world_reads [fread_eio, fread_eio, fread_eio, fread_eio]) ScanStats.zero
      [fread_eio, fread_eio, fread_eio, fread_eio] [] rfl rfl (by decide)).1 (by decide)).1,
    ((C9_persistent_failure_counts_each_retry 0 65536 131072 (cfg_with 3 false) ⟨0, 0, false⟩
      (world_reads [fread_eio, fread_eio, fread_eio, fread_eio]) ScanStats.zero
      [fread_eio, fread_eio, fread_eio, fread_eio] [] rfl rfl (by decide)).1 (by decide)).2.1,
    ((C9_persistent_failure_counts_each_retry 0 65536 131072 (cfg_with 3 false) ⟨0, 0, false⟩
      (world_reads [fread_eio, fread_eio, fread_eio, fread_eio]) ScanStats.zero
      [fread_eio, fread_eio, fread_eio, fread_eio] [] rfl rfl (by decide)).1 (by decide)).2.2,
    ((C9_persistent_failure_counts_each_retry 0 65536 131072 (cfg_with 3 false) ⟨0, 0, false⟩
      (world_reads [fread_eio, fread_eio, fread_eio, fread_eio]) ScanStats.zero
      [fread_eio, fread_eio, fread_eio, fread_eio] [] rfl rfl (by decide)).2 (by decide)).2.2,
    by decide!⟩

/-! ## Transient read errors -/

/-- C10: for every `retry_count >= 1`, when a read fails on its first attempt
(the `fread` raises the error indicator; in `read_full` it also returns fewer
bytes than the chunk, as a failing `fread` does) and succeeds on the first
retry, `read_errors_transient` increases by exactly 1, `read_errors` does not
change and reading continues: `read_region_retry` returns true, and the pass of
the `read_full` loop does not end in `return false`. -/
theorem C10_transient_read_error_accounting (off want chunk : Nat) (cfg : ScanConfig)
    (loc : FullLocals) (w : World) (st : ScanStats) (r1 r2 : FreadResp) (rest : List FreadResp)
    (hretry : cfg.read_retries ≥ 1) (hr : w.reads = r1 :: r2 :: rest) (h1 : r1.err = true)
    (h2 : r2.err = false) :
    ((fseeko w off).1 = true →
        (read_region_retry off want cfg w st).1.isSome = true
          ∧ (read_region_retry off want cfg w st).2.2.read_errors_transient
              = st.read_errors_transient + 1
          ∧ (read_region_retry off want cfg w st).2.2.read_errors = st.read_errors)
      ∧ ((r1.data.take chunk).length < chunk →
          (read_full_chunk chunk cfg loc w st).1 ≠ ChunkOutcome.fail
            ∧ (read_full_chunk chunk cfg loc w st).2.2.2.read_errors_transient
                = st.read_errors_transient + 1
            ∧ (read_full_chunk chunk cfg loc w st).2.2.2.read_errors = st.read_errors) := by
  obtain ⟨k, hk⟩ : ∃ k, cfg.read_retries = k + 1 := ⟨cfg.read_retries - 1, by omega⟩
  constructor
  · intro hseek
    obtain ⟨hsr, _, _, _⟩ := fseeko_ok w off hseek
    rcases hfs : fseeko w off with ⟨ok, w1⟩
    rw [hfs] at hseek hsr
    simp only at hseek hsr
    unfold read_region_retry
    rw [hfs]
    simp only [hseek, Bool.not_true, Bool.false_eq_true, if_false, hk]
    obtain ⟨w2, e1, hw2, hf2, _⟩ :=
      read_region_attempts_retry off want k 0 w1 st r1 (r2 :: rest) (hsr.trans hr) h1
    rw [e1]
    obtain ⟨w3, e2, _⟩ := read_region_attempts_ok off want k
      (if (r1.data.take want).length > 0 then crc32_update 0 (r1.data.take want) else 0) w2
      { region_account st (r1.data.take want) r1.dt off with
        read_errors_transient :=
          (region_account st (r1.data.take want) r1.dt off).read_errors_transient + 1 }
      r2 rest hw2 h2 hf2
    rw [e2]
    simp
  · intro hshort
    obtain ⟨loc1, w1, e1, hw1, _⟩ := read_full_chunk_err chunk cfg loc w st r1 (r2 :: rest) hr h1
      hshort
    rw [e1, hk]
    obtain ⟨e2, w2, e3, _, hf2, _⟩ := read_full_retries_ok chunk k (r1.data.take chunk).length
      loc1.crc r1.errno w1 (full_account st (r1.data.take chunk) r1.dt st.current_done) r2 rest
      hw1 h2
    rw [e3]
    simp only [hf2]
    split <;> simp

/-- C10 with one retry configured: a first `fread` that fails without data and a
second that delivers three bytes. -/
theorem C10_transient_read_error_accounting_witness :
    (read_region_retry 0 65536 (cfg_with 1 false)
        (world_reads [fread_eio, ⟨[1, 2, 3], 2, false, 0⟩]) ScanStats.zero).1.isSome = true
      ∧ (read_region_retry 0 65536 (cfg_with 1 false)
        (world_reads [fread_eio, ⟨[1, 2, 3], 2, false, 0⟩])
        ScanStats.zero).2.2.read_errors_transient = 0 + 1
      ∧ (read_region_retry 0 65536 (cfg_with 1 false)
        (world_reads [fread_eio, ⟨[1, 2, 3], 2, false, 0⟩]) ScanStats.zero).2.2.read_errors = 0
      ∧ (read_full_chunk 131072 (cfg_with 1 false) ⟨0, 0, false⟩
        (world_reads [fread_eio, ⟨[1, 2, 3], 2, false, 0⟩]) ScanStats.zero).1
          ≠ ChunkOutcome.fail
      ∧ (read_full_chunk 131072 (cfg_with 1 false) ⟨0, 0, false⟩
        (world_reads [fread_eio, ⟨[1, 2, 3], 2, false, 0⟩])
        ScanStats.zero).2.2.2.read_errors_transient = 0 + 1 :=
  ⟨((C10_transient_read_error_accounting 0 65536 131072 (cfg_with 1 false) ⟨0, 0, false⟩
      (world_reads [fread_eio, ⟨[1, 2, 3], 2, false, 0⟩]) ScanStats.zero fread_eio
      ⟨[1, 2, 3], 2, false, 0⟩ [] (by decide) rfl rfl rfl).1 (by decide)).1,
    ((C10_transient_read_error_accounting 0 65536 131072 (cfg_with 1 false) ⟨0, 0, false⟩
      (world_reads [fread_eio, ⟨[1, 2, 3], 2, false, 0⟩]) ScanStats.zero fread_eio
      ⟨[1, 2, 3], 2, false, 0⟩ [] (by decide) rfl rfl rfl).1 (by decide)).2.1,
    ((C10_transient_read_error_accounting 0 65536 131072 (cfg_with 1 false) ⟨0, 0, false⟩
      (world_reads [fread_eio, ⟨[1, 2, 3], 2, false, 0⟩]) ScanStats.zero fread_eio
      ⟨[1, 2, 3], 2, false, 0⟩ [] (by decide) rfl rfl rfl).1 (by decide)).2.2,
    ((C10_transient_read_error_accounting 0 65536 131072 (cfg_with 1 false) ⟨0, 0, false⟩
      (world_reads [fread_eio, ⟨[1, 2, 3], 2, false, 0⟩]) ScanStats.zero fread_eio
      ⟨[1, 2, 3], 2, false, 0⟩ [] (by decide) rfl rfl rfl).2 (by decide)).1,
    ((C10_transient_read_error_accounting 0 65536 131072 (cfg_with 1 false) ⟨0, 0, false⟩
      (world_reads [fread_eio, ⟨[1, 2, 3], 2, false, 0⟩]) ScanStats.zero fread_eio
      ⟨[1, 2, 3], 2, false, 0⟩ [] (by decide) rfl rfl rfl).2 (by decide)).2.1⟩

/-! ## Double arithmetic of `perf_record` -/

theorem ilog2_loop_spec (fuel : Nat) :
    ∀ n, n ≤ fuel → n ≠ 0 →
      2 ^ ilog2_loop fuel n ≤ n ∧ n < 2 ^ (ilog2_loop fuel n + 1) := by
  induction fuel with
  | zero =>
    intro n h h0
    omega
  | succ fuel ih =>
    intro n h h0
    unfold ilog2_loop
    split
    · simp
      omega
    · obtain ⟨h1, h2⟩ := ih (n / 2) (by omega) (by omega)
      rw [pow_succ, pow_succ]
      rw [pow_succ] at h2
      omega

/-- The leading bit of a positive number. -/
theorem ilog2_spec (n : Nat) (h : n ≠ 0) : 2 ^ ilog2 n ≤ n ∧ n < 2 ^ (ilog2 n + 1) :=
  ilog2_loop_spec n n (le_refl _) h

/-- Rounding to nearest: the whole number chosen for `N / D` is within a half of
it. -/
theorem round_half (N D : Nat) (hD : 0 < D) :
    2 * ((if 2 * (N % D) > D ∨ (2 * (N % D) = D ∧ N / D % 2 = 1) then N / D + 1 else N / D) * D)
        ≤ 2 * N + D
      ∧ 2 * N
        ≤ 2 * ((if 2 * (N % D) > D ∨ (2 * (N % D) = D ∧ N / D % 2 = 1) then N / D + 1
            else N / D) * D) + D := by
  have h1 := Nat.div_add_mod N D
  have h2 := Nat.mod_lt N hD
  generalize N / D = m at *
  generalize N % D = r at *
  rw [Nat.mul_comm] at h1
  split
  · rename_i h
    rw [Nat.add_mul, Nat.one_mul]
    generalize m * D = Y at *
    omega
  · rename_i h
    generalize m * D = Y at *
    omega

/-- What `double_round` yields for a positive fraction: a positive fraction
whose whole-number part `m` has 53 bits (`2 ^ 52 <= m <= 2 ^ 53`) and which
differs from `n / d` by at most `2 ^ -53` of it. -/
theorem double_round_spec (n d : Nat) (hn : n ≠ 0) (hd : d ≠ 0) :
    0 < (double_round n d).num ∧ 0 < (double_round n d).den
      ∧ (2 ^ 53 - 1) * (n * (double_round n d).den) ≤ 2 ^ 53 * ((double_round n d).num * d)
      ∧ 2 ^ 53 * ((double_round n d).num * d) ≤ (2 ^ 53 + 1) * (n * (double_round n d).den)
      ∧ ∃ m e, 2 ^ 52 ≤ m ∧ m ≤ 2 ^ 53 ∧ (double_round n d).num = m * 2 ^ e := by
  obtain ⟨hp1, hp2⟩ := ilog2_spec n hn
  obtain ⟨hq1, hq2⟩ := ilog2_spec d hd
  unfold double_round
  rw [if_neg (by simp [hn, hd])]
  simp only []
  generalize ilog2 n = p at *
  generalize ilog2 d = q at *
  -- the scaled numerator and the two candidate denominators
  have hN : 2 ^ 53 * (2 ^ q * 2 ^ p) ≤ n * 2 ^ (53 + q) := by
    rw [pow_add]
    calc 2 ^ 53 * (2 ^ q * 2 ^ p) = 2 ^ p * (2 ^ 53 * 2 ^ q) := by ring
      _ ≤ n * (2 ^ 53 * 2 ^ q) := Nat.mul_le_mul_right _ hp1
  have hN2 : n * 2 ^ (53 + q) < 2 ^ 54 * (d * 2 ^ p) := by
    rw [pow_add]
    have h2p : 0 < 2 ^ p := by positivity
    calc n * (2 ^ 53 * 2 ^ q) < 2 ^ (p + 1) * (2 ^ 53 * 2 ^ q) :=
          Nat.mul_lt_mul_of_pos_right hp2 (by positivity)
      _ = 2 ^ 54 * (2 ^ q * 2 ^ p) := by ring
      _ ≤ 2 ^ 54 * (d * 2 ^ p) :=
          Nat.mul_le_mul_left _ (Nat.mul_le_mul_right _ hq1)
  have hD0 : d * 2 ^ p < 2 * (2 ^ q * 2 ^ p) := by
    have h2p : 0 < 2 ^ p := by positivity
    calc d * 2 ^ p < 2 ^ (q + 1) * 2 ^ p := Nat.mul_lt_mul_of_pos_right hq2 h2p
      _ = 2 * (2 ^ q * 2 ^ p) := by ring
  have hD0pos : 0 < d * 2 ^ p := by positivity
  generalize hNdef : n * 2 ^ (53 + q) = N at *
  -- the denominator chosen
  have key : ∃ dn, (if N / (d * 2 ^ p) ≥ 2 ^ 53 then p + 1 else p) = dn
      ∧ 0 < d * 2 ^ dn ∧ 2 ^ 52 * (d * 2 ^ dn) ≤ N ∧ N < 2 ^ 53 * (d * 2 ^ dn) := by
    by_cases hc : N / (d * 2 ^ p) ≥ 2 ^ 53
    · have e : d * 2 ^ (p + 1) = 2 * (d * 2 ^ p) := by ring
      have h1 := (Nat.le_div_iff_mul_le hD0pos).1 hc
      refine ⟨p + 1, if_pos hc, by positivity, ?_, ?_⟩
      · rw [e]
        generalize d * 2 ^ p = D0 at *
        omega
      · rw [e]
        generalize d * 2 ^ p = D0 at *
        omega
    · have h1 : N < 2 ^ 53 * (d * 2 ^ p) :=
        (Nat.div_lt_iff_lt_mul hD0pos).1 (Nat.lt_of_not_ge hc)
      refine ⟨p, if_neg hc, hD0pos, ?_, h1⟩
      generalize d * 2 ^ p = D0 at *
      generalize 2 ^ q * 2 ^ p = Z at *
      omega
  obtain ⟨dn, hdn, hDpos, hlo, hhi⟩ := key
  rw [hdn]
  have hr := round_half N (d * 2 ^ dn) hDpos
  have hm1 : 2 ^ 52 ≤ N / (d * 2 ^ dn) := (Nat.le_div_iff_mul_le hDpos).2 hlo
  have hm2 : N / (d * 2 ^ dn) < 2 ^ 53 := by
    exact (Nat.div_lt_iff_lt_mul hDpos).2 hhi
  generalize hmdef : (if 2 * (N % (d * 2 ^ dn)) > d * 2 ^ dn
      ∨ (2 * (N % (d * 2 ^ dn)) = d * 2 ^ dn ∧ N / (d * 2 ^ dn) % 2 = 1)
    then N / (d * 2 ^ dn) + 1 else N / (d * 2 ^ dn)) = m at hr ⊢
  have hm3 : 2 ^ 52 ≤ m ∧ m ≤ 2 ^ 53 := by
    rw [← hmdef]
    split <;> omega
  have e : m * 2 ^ dn * d = m * (d * 2 ^ dn) := by ring
  refine ⟨?_, by positivity, ?_, ?_, m, dn, hm3.1, hm3.2, rfl⟩
  · have : 0 < m := by omega
    positivity
  · rw [e]
    generalize m * (d * 2 ^ dn) = X at *
    generalize d * 2 ^ dn = D at *
    omega
  · rw [e]
    generalize m * (d * 2 ^ dn) = X at *
    generalize d * 2 ^ dn = D at *
    omega

/-- The rounding error of `double_round`, in rational numbers: the double lies
within `2 ^ -53` of the fraction, relatively. -/
theorem double_round_close (n d : Nat) (hn : n ≠ 0) (hd : d ≠ 0) :
    0 < (double_round n d).num ∧ 0 < (double_round n d).den
      ∧ ((n : ℚ) / d) * (1 - 1 / 2 ^ 53) ≤ (double_round n d).val
      ∧ (double_round n d).val ≤ ((n : ℚ) / d) * (1 + 1 / 2 ^ 53) := by
  obtain ⟨h1, h2, h3, h4, -⟩ := double_round_spec n d hn hd
  refine ⟨h1, h2, ?_, ?_⟩
  · have hd' : (0 : ℚ) < d := by exact_mod_cast Nat.pos_of_ne_zero hd
    have h2' : (0 : ℚ) < (double_round n d).den := by exact_mod_cast h2
    have e : (2 ^ 53 - 1 : ℕ) = 9007199254740991 := by norm_num
    rw [e] at h3
    have h3' : (9007199254740991 : ℚ) * ((n : ℚ) * (double_round n d).den)
        ≤ 2 ^ 53 * (((double_round n d).num : ℚ) * d) := by exact_mod_cast h3
    unfold Throughput.val
    rw [div_mul_eq_mul_div, div_le_div_iff₀ hd' h2']
    nlinarith
  · have hd' : (0 : ℚ) < d := by exact_mod_cast Nat.pos_of_ne_zero hd
    have h2' : (0 : ℚ) < (double_round n d).den := by exact_mod_cast h2
    have h4' : (2 : ℚ) ^ 53 * (((double_round n d).num : ℚ) * d)
        ≤ (2 ^ 53 + 1) * ((n : ℚ) * (double_round n d).den) := by exact_mod_cast h4
    unfold Throughput.val
    rw [div_mul_eq_mul_div, div_le_div_iff₀ h2' hd']
    nlinarith

/-- The rounding error of a division of two positive doubles. -/
theorem double_div_close (x y : Throughput) (hx1 : 0 < x.num) (hx2 : 0 < x.den)
    (hy1 : 0 < y.num) (hy2 : 0 < y.den) :
    0 < (double_div x y).num ∧ 0 < (double_div x y).den
      ∧ (x.val / y.val) * (1 - 1 / 2 ^ 53) ≤ (double_div x y).val
      ∧ (double_div x y).val ≤ (x.val / y.val) * (1 + 1 / 2 ^ 53) := by
  have h := double_round_close (x.num * y.den) (x.den * y.num)
    (Nat.mul_ne_zero (by omega) (by omega)) (Nat.mul_ne_zero (by omega) (by omega))
  have e : ((x.num * y.den : ℕ) : ℚ) / ((x.den * y.num : ℕ) : ℚ) = x.val / y.val := by
    have a1 : ((x.den : ℕ) : ℚ) ≠ 0 := by exact_mod_cast hx2.ne.symm
    have a2 : ((y.den : ℕ) : ℚ) ≠ 0 := by exact_mod_cast hy2.ne.symm
    have a3 : ((y.num : ℕ) : ℚ) ≠ 0 := by exact_mod_cast hy1.ne.symm
    unfold Throughput.val
    push_cast
    field_simp
  rw [e] at h
  exact h

/-- The double `mibs` is at least `k` when the exact throughput exceeds `k` by
`2 ^ -30` of it. -/
theorem mibs_ge_of_gap (B T k bbv mibv tbv secsv yv : ℚ) (hk : 0 ≤ k) (hT : 0 ≤ T)
    (h1 : B * (1 - 1 / 2 ^ 53) ≤ bbv) (h2 : bbv / 1048576 * (1 - 1 / 2 ^ 53) ≤ mibv)
    (h3 : tbv ≤ T * (1 + 1 / 2 ^ 53)) (h4 : secsv ≤ tbv / 1000 * (1 + 1 / 2 ^ 53))
    (h5 : mibv / secsv * (1 - 1 / 2 ^ 53) ≤ yv) (hs : 0 < secsv)
    (hgap : k * T * 1048576 * (1 + 1 / 2 ^ 30) ≤ 1000 * B) : k ≤ yv := by
  generalize ha : (1 - 1 / 2 ^ 53 : ℚ) = a at *
  generalize hc : (1 + 1 / 2 ^ 53 : ℚ) = c at *
  have ha0 : 0 ≤ a := by rw [← ha]; norm_num
  have hc0 : 0 ≤ c := by rw [← hc]; norm_num
  have hnum : c * c ≤ (1 + 1 / 2 ^ 30) * (a * a * a) := by
    rw [← ha, ← hc]; norm_num
  have hm : B * a * a / 1048576 ≤ mibv := by
    calc B * a * a / 1048576 = (B * a) / 1048576 * a := by ring
      _ ≤ bbv / 1048576 * a := by gcongr
      _ ≤ mibv := h2
  have hsv : secsv ≤ T * c * c / 1000 := by
    calc secsv ≤ tbv / 1000 * c := h4
      _ ≤ (T * c) / 1000 * c := by gcongr
      _ = T * c * c / 1000 := by ring
  have hkey : k * secsv ≤ mibv * a := by
    calc k * secsv ≤ k * (T * c * c / 1000) := by gcongr
      _ = (k * T * 1048576) * (c * c) / (1000 * 1048576) := by ring
      _ ≤ (k * T * 1048576) * ((1 + 1 / 2 ^ 30) * (a * a * a)) / (1000 * 1048576) := by
          gcongr
      _ = (k * T * 1048576 * (1 + 1 / 2 ^ 30)) * (a * a * a) / (1000 * 1048576) := by ring
      _ ≤ (1000 * B) * (a * a * a) / (1000 * 1048576) := by gcongr
      _ = (B * a * a / 1048576) * a := by ring
      _ ≤ mibv * a := by gcongr
  calc k ≤ mibv * a / secsv := (le_div_iff₀ hs).2 hkey
    _ = mibv / secsv * a := by ring
    _ ≤ yv := h5

/-- The double `mibs` is below `k` when the exact throughput falls short of `k`
by `2 ^ -30` of it. -/
theorem mibs_lt_of_gap (B T k bbv mibv tbv secsv yv : ℚ) (hk : 0 < k) (hT : 0 < T)
    (h1 : bbv ≤ B * (1 + 1 / 2 ^ 53)) (h2 : mibv ≤ bbv / 1048576 * (1 + 1 / 2 ^ 53))
    (h3 : T * (1 - 1 / 2 ^ 53) ≤ tbv) (h4 : tbv / 1000 * (1 - 1 / 2 ^ 53) ≤ secsv)
    (h5 : yv ≤ mibv / secsv * (1 + 1 / 2 ^ 53)) (hs : 0 < secsv)
    (hgap : 1000 * B ≤ k * T * 1048576 * (1 - 1 / 2 ^ 30)) : yv < k := by
  generalize ha : (1 - 1 / 2 ^ 53 : ℚ) = a at *
  generalize hc : (1 + 1 / 2 ^ 53 : ℚ) = c at *
  have ha0 : 0 ≤ a := by rw [← ha]; norm_num
  have hc0 : 0 ≤ c := by rw [← hc]; norm_num
  have hnum : (1 - 1 / 2 ^ 30) * (c * c * c) < a * a := by
    rw [← ha, ← hc]; norm_num
  have hm : mibv ≤ B * c * c / 1048576 := by
    calc mibv ≤ bbv / 1048576 * c := h2
      _ ≤ (B * c) / 1048576 * c := by gcongr
      _ = B * c * c / 1048576 := by ring
  have hsv : T * a * a / 1000 ≤ secsv := by
    calc T * a * a / 1000 = (T * a) / 1000 * a := by ring
      _ ≤ tbv / 1000 * a := by gcongr
      _ ≤ secsv := h4
  have hkT : 0 < k * T * 1048576 := by positivity
  have hkey : mibv * c < k * secsv := by
    calc mibv * c ≤ (B * c * c / 1048576) * c := by gcongr
      _ = (1000 * B) * (c * c * c) / (1000 * 1048576) := by ring
      _ ≤ (k * T * 1048576 * (1 - 1 / 2 ^ 30)) * (c * c * c) / (1000 * 1048576) := by
          gcongr
      _ = (k * T * 1048576) * ((1 - 1 / 2 ^ 30) * (c * c * c)) / (1000 * 1048576) := by ring
      _ < (k * T * 1048576) * (a * a) / (1000 * 1048576) := by gcongr
      _ = k * (T * a * a / 1000) := by ring
      _ ≤ k * secsv := by gcongr
  calc yv ≤ mibv / secsv * c := h5
    _ = mibv * c / secsv := by ring
    _ < k := (div_lt_iff₀ hs).2 hkey
/-- Away from an exact threshold, the double `mibs` of `perf_record` compares
with a whole number `k` of MiB/s as the exact throughput does, for reads of at
most 1 MiB. -/
theorem perf_mibs_double_ge (bytes dt_ms k : Nat) (hb0 : bytes ≠ 0) (hb : bytes ≤ 1048576)
    (hk : k ≠ 0) (hne : bytes * 1000 ≠ k * (1048576 * max dt_ms 1)) :
    (perf_mibs_double bytes dt_ms).ge k
      = Throughput.ge ⟨bytes * 1000, 1048576 * max dt_ms 1⟩ k := by
  have hT : (if dt_ms = 0 then 1 else dt_ms) = max dt_ms 1 := by split <;> omega
  have hT1 : 1 ≤ max dt_ms 1 := by omega
  unfold perf_mibs_double
  simp only [hT]
  generalize max dt_ms 1 = T at *
  -- the five roundings
  obtain ⟨t1, t2, t3, t4⟩ := double_round_close T 1 (by omega) (by omega)
  obtain ⟨b1, b2, b3, b4⟩ := double_round_close bytes 1 hb0 (by omega)
  obtain ⟨s1, s2, s3, s4⟩ := double_div_close (double_of_u64 T) ⟨1000, 1⟩ t1 t2
    (by decide) (by decide)
  obtain ⟨m1, m2, m3, m4⟩ := double_div_close (double_of_u64 bytes) ⟨1048576, 1⟩ b1 b2
    (by decide) (by decide)
  obtain ⟨y1, y2, y3, y4⟩ := double_div_close _ _ m1 m2 s1 s2
  have e1000 : (⟨1000, 1⟩ : Throughput).val = 1000 := by simp [Throughput.val]
  have emib : (⟨1048576, 1⟩ : Throughput).val = 1048576 := by simp [Throughput.val]
  rw [e1000] at s3 s4
  rw [emib] at m3 m4
  simp only [Nat.cast_one, div_one] at t3 t4 b3 b4
  rw [if_pos s1]
  have hsv : 0 < (double_div (double_of_u64 T) ⟨1000, 1⟩).val := by
    unfold Throughput.val
    have a1 : (0 : ℚ) < (double_div (double_of_u64 T) ⟨1000, 1⟩).num := by exact_mod_cast s1
    have a2 : (0 : ℚ) < (double_div (double_of_u64 T) ⟨1000, 1⟩).den := by exact_mod_cast s2
    positivity
  generalize double_div (double_div (double_of_u64 bytes) ⟨1048576, 1⟩)
    (double_div (double_of_u64 T) ⟨1000, 1⟩) = y at *
  have hyden : (0 : ℚ) < y.den := by exact_mod_cast y2
  have hge : y.ge k = true ↔ (k : ℚ) ≤ y.val := by
    unfold Throughput.ge Throughput.val
    rw [decide_eq_true_eq, le_div_iff₀ hyden]
    exact_mod_cast Iff.rfl
  have hkq : (0 : ℚ) < k := by exact_mod_cast Nat.pos_of_ne_zero hk
  have hTq : (0 : ℚ) < T := by exact_mod_cast hT1
  have hP : k * (1048576 * T) = 1048576 * (k * T) := by ring
  by_cases hlt : k * (1048576 * T) < bytes * 1000
  · have hr : Throughput.ge ⟨bytes * 1000, 1048576 * T⟩ k = true := by
      simp only [Throughput.ge, decide_eq_true_eq]
      omega
    rw [hr, hge]
    have hg : 1048576 * (k * T) * (2 ^ 30 + 1) ≤ 1000 * bytes * 2 ^ 30 := by
      rw [hP] at hlt
      generalize k * T = P at *
      omega
    have hg' : (1048576 : ℚ) * (k * T) * (2 ^ 30 + 1) ≤ 1000 * bytes * 2 ^ 30 := by
      exact_mod_cast hg
    refine mibs_ge_of_gap bytes T k _ _ _ _ _ hkq.le hTq.le b3 m3 t4 s4 y3 hsv ?_
    rw [show (k : ℚ) * T * 1048576 * (1 + 1 / 2 ^ 30)
      = (1048576 * (k * T) * (2 ^ 30 + 1)) / 2 ^ 30 by ring]
    rw [div_le_iff₀ (by norm_num)]
    exact hg'
  · have hgt : bytes * 1000 < k * (1048576 * T) := by omega
    have hr : Throughput.ge ⟨bytes * 1000, 1048576 * T⟩ k = false := by
      simp only [Throughput.ge, decide_eq_false_iff_not]
      omega
    rw [hr]
    have hg : 1000 * bytes * 2 ^ 30 ≤ 1048576 * (k * T) * (2 ^ 30 - 1) := by
      rw [hP] at hgt
      generalize k * T = P at *
      omega
    have e : (2 ^ 30 - 1 : ℕ) = 1073741823 := by norm_num
    rw [e] at hg
    have hg' : (1000 : ℚ) * bytes * 2 ^ 30 ≤ 1048576 * (k * T) * 1073741823 := by
      exact_mod_cast hg
    have hy : y.val < k := by
      refine mibs_lt_of_gap bytes T k _ _ _ _ _ hkq hTq b4 m4 t3 s3 y4 hsv ?_
      rw [show (k : ℚ) * T * 1048576 * (1 - 1 / 2 ^ 30)
        = (1048576 * (k * T) * 1073741823) / 2 ^ 30 by ring]
      rw [le_div_iff₀ (by norm_num)]
      exact hg'
    cases h : y.ge k
    · rfl
    · exact absurd (hge.1 h) (not_le.2 hy)
/-- At an exact threshold the double `mibs` of `perf_record` reaches the
threshold, for reads of at most 1 MiB: the thirteen cases, each evaluated. -/
theorem perf_mibs_double_ge_exact (bytes dt_ms k : Nat)
    (hk : k = 1 ∨ k = 10 ∨ k = 30 ∨ k = 60) (hb0 : bytes ≠ 0) (hb : bytes ≤ 1048576)
    (heq : bytes * 1000 = k * (1048576 * max dt_ms 1)) :
    (perf_mibs_double bytes dt_ms).ge k
      = Throughput.ge ⟨bytes * 1000, 1048576 * max dt_ms 1⟩ k := by
  rcases hk with rfl | rfl | rfl | rfl
  · obtain ⟨j, hj1, hj2, hj3⟩ : ∃ j, dt_ms = 125 * j ∧ bytes = 131072 * j ∧ j ≤ 8 :=
      ⟨dt_ms / 125, by omega, by omega, by omega⟩
    subst hj1 hj2
    have : 1 ≤ j := by omega
    interval_cases j <;> decide!
  · obtain ⟨j, hj1, hj2, hj3⟩ : ∃ j, dt_ms = 25 * j ∧ bytes = 262144 * j ∧ j ≤ 4 :=
      ⟨dt_ms / 25, by omega, by omega, by omega⟩
    subst hj1 hj2
    have : 1 ≤ j := by omega
    interval_cases j <;> decide!
  · obtain ⟨j, hj1, hj2, hj3⟩ : ∃ j, dt_ms = 25 * j ∧ bytes = 786432 * j ∧ j ≤ 1 :=
      ⟨dt_ms / 25, by omega, by omega, by omega⟩
    subst hj1 hj2
    have : 1 ≤ j := by omega
    interval_cases j
    decide!
  · exfalso
    omega

/-- For reads of at most 1 MiB, which is all the engine records, the double
arithmetic of `perf_record` takes the decisions of the exact fraction: the same
histogram bucket and the same answer to `mibs < 1.0`. -/
theorem perf_mibs_double_agrees (bytes dt_ms : Nat) (hb0 : bytes ≠ 0) (hb : bytes ≤ 1048576) :
    perf_bucket (perf_mibs_double bytes dt_ms)
        = perf_bucket ⟨bytes * 1000, 1048576 * max dt_ms 1⟩
      ∧ (perf_mibs_double bytes dt_ms).lt 1
        = Throughput.lt ⟨bytes * 1000, 1048576 * max dt_ms 1⟩ 1 := by
  have h : ∀ k, (k = 1 ∨ k = 10 ∨ k = 30 ∨ k = 60) →
      (perf_mibs_double bytes dt_ms).ge k
        = Throughput.ge ⟨bytes * 1000, 1048576 * max dt_ms 1⟩ k := by
    intro k hk
    by_cases heq : bytes * 1000 = k * (1048576 * max dt_ms 1)
    · exact perf_mibs_double_ge_exact bytes dt_ms k hk hb0 hb heq
    · exact perf_mibs_double_ge bytes dt_ms k hb0 hb (by omega) heq
  have hlt : ∀ q : Throughput, q.lt 1 = !q.ge 1 := by
    intro q
    simp only [Throughput.lt, Throughput.ge]
    rw [← decide_not]
    exact decide_eq_decide.2 (by omega)
  refine ⟨?_, ?_⟩
  · unfold perf_bucket
    rw [h 60 (by simp), h 30 (by simp), h 10 (by simp), h 1 (by simp)]
  · rw [hlt, hlt, h 1 (by simp)]

/-- Beyond 1 MiB the two part ways: 8650752 bytes in 275 ms are exactly 30 MiB/s,
which the double arithmetic rounds to a value below 30 (bucket 2, where the
exact fraction gives bucket 1); 786432 bytes in 25 ms are exactly 30 MiB/s as
well, and there the double is 30. -/
theorem perf_mibs_double_large_read :
    perf_bucket ⟨8650752 * 1000, 1048576 * max 275 1⟩ = 1
      ∧ perf_bucket (perf_mibs_double 8650752 275) = 2
      ∧ (perf_mibs_double 8650752 275).ge 30 = false
      ∧ (perf_mibs_double 786432 25).ge 30 = true := by
  refine ⟨by decide, by decide!, by decide!, by decide!⟩

/-! ## Frame lemmas: the failing-path and largest-file lists -/

/-- The function `fail_push_unique` writes the failing-path list only. -/
theorem fail_push_unique_frame (st : ScanStats) (p : CStr) :
    ∃ (fp : List CStr) (fc : Nat),
      fail_push_unique st p = { st with fail_paths := fp, fail_count := fc } := by
  unfold fail_push_unique
  by_cases hp : p = []
  · rw [if_pos hp]; exact ⟨_, _, rfl⟩
  · rw [if_neg hp]
    simp only []
    split_ifs <;> exact ⟨_, _, rfl⟩

/-- The function `largest_update` writes the largest-file list only. -/
theorem largest_update_frame (st : ScanStats) (p : CStr) (size : Nat) :
    ∃ (l : List LargestEntry) (n : Nat),
      largest_update st p size = { st with largest := l, largest_count := n } := by
  unfold largest_update
  by_cases hp : p = []
  · rw [if_pos hp]; exact ⟨_, _, rfl⟩
  · rw [if_neg hp]
    by_cases hs : size = 0
    · rw [if_pos hs]; exact ⟨_, _, rfl⟩
    · rw [if_neg hs]
      simp only []
      split
      · exact ⟨_, _, rfl⟩
      · split_ifs
        · exact ⟨_, _, rfl⟩
        · exact ⟨_, _, rfl⟩

@[simp] theorem fail_push_unique_dirs_total (st : ScanStats) (p : CStr) :
    (fail_push_unique st p).dirs_total = st.dirs_total := by
  obtain ⟨_, _, h⟩ := fail_push_unique_frame st p
  rw [h]

@[simp] theorem fail_push_unique_files_total (st : ScanStats) (p : CStr) :
    (fail_push_unique st p).files_total = st.files_total := by
  obtain ⟨_, _, h⟩ := fail_push_unique_frame st p
  rw [h]

@[simp] theorem fail_push_unique_files_read (st : ScanStats) (p : CStr) :
    (fail_push_unique st p).files_read = st.files_read := by
  obtain ⟨_, _, h⟩ := fail_push_unique_frame st p
  rw [h]

@[simp] theorem fail_push_unique_bytes_read (st : ScanStats) (p : CStr) :
    (fail_push_unique st p).bytes_read = st.bytes_read := by
  obtain ⟨_, _, h⟩ := fail_push_unique_frame st p
  rw [h]

@[simp] theorem fail_push_unique_open_errors (st : ScanStats) (p : CStr) :
    (fail_push_unique st p).open_errors = st.open_errors := by
  obtain ⟨_, _, h⟩ := fail_push_unique_frame st p
  rw [h]

@[simp] theorem fail_push_unique_read_errors (st : ScanStats) (p : CStr) :
    (fail_push_unique st p).read_errors = st.read_errors := by
  obtain ⟨_, _, h⟩ := fail_push_unique_frame st p
  rw [h]

@[simp] theorem fail_push_unique_read_errors_transient (st : ScanStats) (p : CStr) :
    (fail_push_unique st p).read_errors_transient = st.read_errors_transient := by
  obtain ⟨_, _, h⟩ := fail_push_unique_frame st p
  rw [h]

@[simp] theorem fail_push_unique_stat_errors (st : ScanStats) (p : CStr) :
    (fail_push_unique st p).stat_errors = st.stat_errors := by
  obtain ⟨_, _, h⟩ := fail_push_unique_frame st p
  rw [h]

@[simp] theorem fail_push_unique_path_errors (st : ScanStats) (p : CStr) :
    (fail_push_unique st p).path_errors = st.path_errors := by
  obtain ⟨_, _, h⟩ := fail_push_unique_frame st p
  rw [h]

@[simp] theorem fail_push_unique_consistency_errors (st : ScanStats) (p : CStr) :
    (fail_push_unique st p).consistency_errors = st.consistency_errors := by
  obtain ⟨_, _, h⟩ := fail_push_unique_frame st p
  rw [h]

@[simp] theorem fail_push_unique_skipped_dirs (st : ScanStats) (p : CStr) :
    (fail_push_unique st p).skipped_dirs = st.skipped_dirs := by
  obtain ⟨_, _, h⟩ := fail_push_unique_frame st p
  rw [h]

@[simp] theorem fail_push_unique_skipped_files (st : ScanStats) (p : CStr) :
    (fail_push_unique st p).skipped_files = st.skipped_files := by
  obtain ⟨_, _, h⟩ := fail_push_unique_frame st p
  rw [h]

@[simp] theorem fail_push_unique_cancelled (st : ScanStats) (p : CStr) :
    (fail_push_unique st p).cancelled = st.cancelled := by
  obtain ⟨_, _, h⟩ := fail_push_unique_frame st p
  rw [h]

@[simp] theorem fail_push_unique_current_path (st : ScanStats) (p : CStr) :
    (fail_push_unique st p).current_path = st.current_path := by
  obtain ⟨_, _, h⟩ := fail_push_unique_frame st p
  rw [h]

@[simp] theorem fail_push_unique_current_size (st : ScanStats) (p : CStr) :
    (fail_push_unique st p).current_size = st.current_size := by
  obtain ⟨_, _, h⟩ := fail_push_unique_frame st p
  rw [h]

@[simp] theorem fail_push_unique_current_planned (st : ScanStats) (p : CStr) :
    (fail_push_unique st p).current_planned = st.current_planned := by
  obtain ⟨_, _, h⟩ := fail_push_unique_frame st p
  rw [h]

@[simp] theorem fail_push_unique_current_done (st : ScanStats) (p : CStr) :
    (fail_push_unique st p).current_done = st.current_done := by
  obtain ⟨_, _, h⟩ := fail_push_unique_frame st p
  rw [h]

@[simp] theorem fail_push_unique_current_sample (st : ScanStats) (p : CStr) :
    (fail_push_unique st p).current_sample = st.current_sample := by
  obtain ⟨_, _, h⟩ := fail_push_unique_frame st p
  rw [h]

@[simp] theorem fail_push_unique_err_ring (st : ScanStats) (p : CStr) :
    (fail_push_unique st p).err_ring = st.err_ring := by
  obtain ⟨_, _, h⟩ := fail_push_unique_frame st p
  rw [h]

@[simp] theorem fail_push_unique_err_ring_count (st : ScanStats) (p : CStr) :
    (fail_push_unique st p).err_ring_count = st.err_ring_count := by
  obtain ⟨_, _, h⟩ := fail_push_unique_frame st p
  rw [h]

@[simp] theorem fail_push_unique_largest (st : ScanStats) (p : CStr) :
    (fail_push_unique st p).largest = st.largest := by
  obtain ⟨_, _, h⟩ := fail_push_unique_frame st p
  rw [h]

@[simp] theorem fail_push_unique_largest_count (st : ScanStats) (p : CStr) :
    (fail_push_unique st p).largest_count = st.largest_count := by
  obtain ⟨_, _, h⟩ := fail_push_unique_frame st p
  rw [h]

@[simp] theorem fail_push_unique_first_fail_set (st : ScanStats) (p : CStr) :
    (fail_push_unique st p).first_fail_set = st.first_fail_set := by
  obtain ⟨_, _, h⟩ := fail_push_unique_frame st p
  rw [h]

@[simp] theorem fail_push_unique_first_fail_kind (st : ScanStats) (p : CStr) :
    (fail_push_unique st p).first_fail_kind = st.first_fail_kind := by
  obtain ⟨_, _, h⟩ := fail_push_unique_frame st p
  rw [h]

@[simp] theorem fail_push_unique_first_fail_path (st : ScanStats) (p : CStr) :
    (fail_push_unique st p).first_fail_path = st.first_fail_path := by
  obtain ⟨_, _, h⟩ := fail_push_unique_frame st p
  rw [h]

@[simp] theorem fail_push_unique_first_fail_off (st : ScanStats) (p : CStr) :
    (fail_push_unique st p).first_fail_off = st.first_fail_off := by
  obtain ⟨_, _, h⟩ := fail_push_unique_frame st p
  rw [h]

@[simp] theorem fail_push_unique_first_fail_bytes (st : ScanStats) (p : CStr) :
    (fail_push_unique st p).first_fail_bytes = st.first_fail_bytes := by
  obtain ⟨_, _, h⟩ := fail_push_unique_frame st p
  rw [h]

@[simp] theorem fail_push_unique_first_fail_errno (st : ScanStats) (p : CStr) :
    (fail_push_unique st p).first_fail_errno = st.first_fail_errno := by
  obtain ⟨_, _, h⟩ := fail_push_unique_frame st p
  rw [h]

@[simp] theorem fail_push_unique_first_fail_note (st : ScanStats) (p : CStr) :
    (fail_push_unique st p).first_fail_note = st.first_fail_note := by
  obtain ⟨_, _, h⟩ := fail_push_unique_frame st p
  rw [h]

@[simp] theorem largest_update_dirs_total (st : ScanStats) (p : CStr) (size : Nat) :
    (largest_update st p size).dirs_total = st.dirs_total := by
  obtain ⟨_, _, h⟩ := largest_update_frame st p size
  rw [h]

@[simp] theorem largest_update_files_total (st : ScanStats) (p : CStr) (size : Nat) :
    (largest_update st p size).files_total = st.files_total := by
  obtain ⟨_, _, h⟩ := largest_update_frame st p size
  rw [h]

@[simp] theorem largest_update_files_read (st : ScanStats) (p : CStr) (size : Nat) :
    (largest_update st p size).files_read = st.files_read := by
  obtain ⟨_, _, h⟩ := largest_update_frame st p size
  rw [h]

@[simp] theorem largest_update_bytes_read (st : ScanStats) (p : CStr) (size : Nat) :
    (largest_update st p size).bytes_read = st.bytes_read := by
  obtain ⟨_, _, h⟩ := largest_update_frame st p size
  rw [h]

@[simp] theorem largest_update_open_errors (st : ScanStats) (p : CStr) (size : Nat) :
    (largest_update st p size).open_errors = st.open_errors := by
  obtain ⟨_, _, h⟩ := largest_update_frame st p size
  rw [h]

@[simp] theorem largest_update_read_errors (st : ScanStats) (p : CStr) (size : Nat) :
    (largest_update st p size).read_errors = st.read_errors := by
  obtain ⟨_, _, h⟩ := largest_update_frame st p size
  rw [h]

@[simp] theorem largest_update_read_errors_transient (st : ScanStats) (p : CStr) (size : Nat) :
    (largest_update st p size).read_errors_transient = st.read_errors_transient := by
  obtain ⟨_, _, h⟩ := largest_update_frame st p size
  rw [h]

@[simp] theorem largest_update_stat_errors (st : ScanStats) (p : CStr) (size : Nat) :
    (largest_update st p size).stat_errors = st.stat_errors := by
  obtain ⟨_, _, h⟩ := largest_update_frame st p size
  rw [h]

@[simp] theorem largest_update_path_errors (st : ScanStats) (p : CStr) (size : Nat) :
    (largest_update st p size).path_errors = st.path_errors := by
  obtain ⟨_, _, h⟩ := largest_update_frame st p size
  rw [h]

@[simp] theorem largest_update_consistency_errors (st : ScanStats) (p : CStr) (size : Nat) :
    (largest_update st p size).consistency_errors = st.consistency_errors := by
  obtain ⟨_, _, h⟩ := largest_update_frame st p size
  rw [h]

@[simp] theorem largest_update_skipped_dirs (st : ScanStats) (p : CStr) (size : Nat) :
    (largest_update st p size).skipped_dirs = st.skipped_dirs := by
  obtain ⟨_, _, h⟩ := largest_update_frame st p size
  rw [h]

@[simp] theorem largest_update_skipped_files (st : ScanStats) (p : CStr) (size : Nat) :
    (largest_update st p size).skipped_files = st.skipped_files := by
  obtain ⟨_, _, h⟩ := largest_update_frame st p size
  rw [h]

@[simp] theorem largest_update_cancelled (st : ScanStats) (p : CStr) (size : Nat) :
    (largest_update st p size).cancelled = st.cancelled := by
  obtain ⟨_, _, h⟩ := largest_update_frame st p size
  rw [h]

@[simp] theorem largest_update_current_path (st : ScanStats) (p : CStr) (size : Nat) :
    (largest_update st p size).current_path = st.current_path := by
  obtain ⟨_, _, h⟩ := largest_update_frame st p size
  rw [h]

@[simp] theorem largest_update_current_size (st : ScanStats) (p : CStr) (size : Nat) :
    (largest_update st p size).current_size = st.current_size := by
  obtain ⟨_, _, h⟩ := largest_update_frame st p size
  rw [h]

@[simp] theorem largest_update_current_planned (st : ScanStats) (p : CStr) (size : Nat) :
    (largest_update st p size).current_planned = st.current_planned := by
  obtain ⟨_, _, h⟩ := largest_update_frame st p size
  rw [h]

@[simp] theorem largest_update_current_done (st : ScanStats) (p : CStr) (size : Nat) :
    (largest_update st p size).current_done = st.current_done := by
  obtain ⟨_, _, h⟩ := largest_update_frame st p size
  rw [h]

@[simp] theorem largest_update_current_sample (st : ScanStats) (p : CStr) (size : Nat) :
    (largest_update st p size).current_sample = st.current_sample := by
  obtain ⟨_, _, h⟩ := largest_update_frame st p size
  rw [h]

@[simp] theorem largest_update_err_ring (st : ScanStats) (p : CStr) (size : Nat) :
    (largest_update st p size).err_ring = st.err_ring := by
  obtain ⟨_, _, h⟩ := largest_update_frame st p size
  rw [h]

@[simp] theorem largest_update_err_ring_count (st : ScanStats) (p : CStr) (size : Nat) :
    (largest_update st p size).err_ring_count = st.err_ring_count := by
  obtain ⟨_, _, h⟩ := largest_update_frame st p size
  rw [h]

@[simp] theorem largest_update_fail_paths (st : ScanStats) (p : CStr) (size : Nat) :
    (largest_update st p size).fail_paths = st.fail_paths := by
  obtain ⟨_, _, h⟩ := largest_update_frame st p size
  rw [h]

@[simp] theorem largest_update_fail_count (st : ScanStats) (p : CStr) (size : Nat) :
    (largest_update st p size).fail_count = st.fail_count := by
  obtain ⟨_, _, h⟩ := largest_update_frame st p size
  rw [h]

@[simp] theorem largest_update_first_fail_set (st : ScanStats) (p : CStr) (size : Nat) :
    (largest_update st p size).first_fail_set = st.first_fail_set := by
  obtain ⟨_, _, h⟩ := largest_update_frame st p size
  rw [h]

@[simp] theorem largest_update_first_fail_kind (st : ScanStats) (p : CStr) (size : Nat) :
    (largest_update st p size).first_fail_kind = st.first_fail_kind := by
  obtain ⟨_, _, h⟩ := largest_update_frame st p size
  rw [h]

@[simp] theorem largest_update_first_fail_path (st : ScanStats) (p : CStr) (size : Nat) :
    (largest_update st p size).first_fail_path = st.first_fail_path := by
  obtain ⟨_, _, h⟩ := largest_update_frame st p size
  rw [h]

@[simp] theorem largest_update_first_fail_off (st : ScanStats) (p : CStr) (size : Nat) :
    (largest_update st p size).first_fail_off = st.first_fail_off := by
  obtain ⟨_, _, h⟩ := largest_update_frame st p size
  rw [h]

@[simp] theorem largest_update_first_fail_bytes (st : ScanStats) (p : CStr) (size : Nat) :
    (largest_update st p size).first_fail_bytes = st.first_fail_bytes := by
  obtain ⟨_, _, h⟩ := largest_update_frame st p size
  rw [h]

@[simp] theorem largest_update_first_fail_errno (st : ScanStats) (p : CStr) (size : Nat) :
    (largest_update st p size).first_fail_errno = st.first_fail_errno := by
  obtain ⟨_, _, h⟩ := largest_update_frame st p size
  rw [h]

@[simp] theorem largest_update_first_fail_note (st : ScanStats) (p : CStr) (size : Nat) :
    (largest_update st p size).first_fail_note = st.first_fail_note := by
  obtain ⟨_, _, h⟩ := largest_update_frame st p size
  rw [h]

/-! ## Counters along a run: the relation `Step` -/

theorem Mono.mono_refl (B F : Bool) (a : ScanStats) : Mono B F a a := by
  refine ⟨?_, fun h => h, fun _ => le_refl _, fun _ => ⟨rfl, rfl⟩⟩
  omega

theorem Mono.mono_trans {B F : Bool} {a b c : ScanStats} (h1 : Mono B F a b) (h2 : Mono B F b c) :
    Mono B F a c := by
  obtain ⟨n1, c1, b1, f1⟩ := h1
  obtain ⟨n2, c2, b2, f2⟩ := h2
  refine ⟨?_, fun h => c2 (c1 h), fun h => le_trans (b1 h) (b2 h),
    fun h => ⟨(f2 h).1.trans (f1 h).1, (f2 h).2.trans (f1 h).2⟩⟩
  omega

/-- A state change that leaves `bytes_read` alone is monotone with or without
`bytes_read`. -/
theorem Mono.of_false {B F : Bool} {a b : ScanStats} (h : Mono false F a b)
    (hb : B = true → a.bytes_read ≤ b.bytes_read) : Mono B F a b :=
  ⟨h.1, h.2.1, hb, h.2.2.2⟩

theorem Step.step_refl (B F : Bool) (w : World) (st : ScanStats) : Step B F w st w st where
  mono := fun _ => Mono.mono_refl B F st
  pot := fun _ _ => le_refl _
  obs := fun _ => ⟨[], rfl, by simp, List.Pairwise.nil⟩
  calm := fun h1 h2 => ⟨h1, h2⟩

theorem Step.step_trans {B F : Bool} {w : World} {st : ScanStats} {w1 : World} {st1 : ScanStats}
    {w2 : World} {st2 : ScanStats} (h1 : Step B F w st w1 st1) (h2 : Step B F w1 st1 w2 st2) :
    Step B F w st w2 st2 := by
  have hpre : (B = true → NoWrap w st) → (B = true → NoWrap w1 st1) := by
    intro h hB
    have := h1.pot hB (h hB)
    have h0 := h hB
    unfold NoWrap at h0 ⊢
    omega
  refine ⟨?_, ?_, ?_, ?_⟩
  · intro h
    exact (h1.mono h).mono_trans (h2.mono (hpre h))
  · intro hB h
    exact le_trans (h2.pot hB (hpre (fun _ => h) hB)) (h1.pot hB h)
  · intro h
    obtain ⟨n1, e1, m1, p1⟩ := h1.obs h
    obtain ⟨n2, e2, m2, p2⟩ := h2.obs (hpre h)
    have k1 := h1.mono h
    have k2 := h2.mono (hpre h)
    refine ⟨n2 ++ n1, by rw [e2, e1, List.append_assoc], ?_, ?_⟩
    · intro s hs
      rcases List.mem_append.1 hs with hs | hs
      · exact ⟨k1.mono_trans (m2 s hs).1, (m2 s hs).2⟩
      · exact ⟨(m1 s hs).1, (m1 s hs).2.mono_trans k2⟩
    · rw [List.pairwise_append]
      refine ⟨p2, p1, ?_⟩
      intro a ha b hb
      exact (m1 b hb).2.mono_trans (m2 a ha).1
  · intro q c
    obtain ⟨q1, c1⟩ := h1.calm q c
    exact h2.calm q1 c1

/-- A change of the stats alone. -/
theorem Step.step_pure {B F : Bool} {w : World} {st : ScanStats} {w1 : World} {st1 : ScanStats}
    (ht : w1.trace = w.trace) (hr : w1.reads = w.reads) (hm : Mono false F st st1)
    (hb : B = true → st1.bytes_read = st.bytes_read) : Step B F w st w1 st1 where
  mono := fun _ => hm.of_false (fun h => by rw [hb h])
  pot := fun h _ => by rw [hb h, hr]
  obs := fun _ => ⟨[], by rw [ht]; rfl, by simp, List.Pairwise.nil⟩
  calm := fun q c => by
    rw [ht]
    exact ⟨q, fun h => hm.2.1 (c h)⟩

/-- A call other than the callback: a `stat`, `opendir` or `fopen` made while the
flag is clear, or an `fseeko` or `fread`; `n` is the number of bytes the call
used up of the answers, all of which the stats may count. -/
theorem Step.step_call {B F : Bool} {w : World} {st : ScanStats} {w1 : World} {st1 : ScanStats}
    (e : IoCall) (n : Nat) (ht : w1.trace = e :: w.trace) (hs : seen (e :: w.trace) = seen w.trace)
    (hfs : e.is_fs = true → st.cancelled = false) (hc : e.is_cancel = false)
    (hr : n + reads_total w1.reads ≤ reads_total w.reads) (hm : Mono false F st st1)
    (hb : B = true → NoWrap w st → st.bytes_read ≤ st1.bytes_read ∧ st1.bytes_read ≤ st.bytes_read + n) :
    Step B F w st w1 st1 where
  mono := by
    intro h
    refine hm.of_false (fun hB => (hb hB (h hB)).1)
  pot := by
    intro hB h
    have := (hb hB h).2
    omega
  obs := fun _ => ⟨[], by rw [ht, hs]; rfl, by simp, List.Pairwise.nil⟩
  calm := by
    intro q c
    rw [ht]
    refine ⟨?_, ?_⟩
    · simp only [quiet, Bool.and_eq_true, Bool.or_eq_true, Bool.not_eq_true']
      refine ⟨?_, q⟩
      by_cases hf : e.is_fs = true
      · right
        have := hfs hf
        by_contra hne
        have hany : w.trace.any IoCall.is_cancel = true := by simpa using hne
        rw [c hany] at this
        exact Bool.noConfusion this
      · left; simpa using hf
    · intro h
      simp only [List.any_cons, hc, Bool.false_or] at h
      exact hm.2.1 (c h)

/-- The callback. -/
theorem ui_update_step (B F : Bool) (w : World) (st : ScanStats) (force : Bool) :
    Step B F w st (ui_update w st force).1 (ui_update w st force).2 := by
  have key : ∃ s1 : ScanStats, (ui_update w st force).2 = s1
      ∧ (ui_update w st force).1.trace = IoCall.ui_update force s1 :: w.trace
      ∧ reads_total (ui_update w st force).1.reads = reads_total w.reads
      ∧ Mono false F st s1 ∧ s1.bytes_read = st.bytes_read := by
    unfold ui_update
    split
    · exact ⟨st, rfl, rfl, rfl, Mono.mono_refl _ _ _, rfl⟩
    · rename_i c rest _
      cases c
      · exact ⟨st, rfl, rfl, rfl, Mono.mono_refl _ _ _, rfl⟩
      · refine ⟨{ st with cancelled := true }, rfl, rfl, rfl, ?_, rfl⟩
        exact ⟨(Mono.mono_refl false F st).1, fun _ => rfl, fun h => by simp at h,
          fun _ => ⟨rfl, rfl⟩⟩
  obtain ⟨s1, e2, et, er, hm, hb⟩ := key
  rw [e2]
  have hmB : Mono B F st s1 := hm.of_false (fun _ => by rw [hb])
  refine ⟨fun _ => hmB, ?_, ?_, ?_⟩
  · intro _ _
    rw [er, hb]
  · intro _
    refine ⟨[s1], by rw [et]; rfl, ?_, by simp⟩
    intro s hs
    rw [List.mem_singleton] at hs
    subst hs
    exact ⟨hmB, Mono.mono_refl _ _ _⟩
  · intro q c
    rw [et]
    refine ⟨?_, ?_⟩
    · simp only [quiet, IoCall.is_fs, Bool.not_false, Bool.true_or, Bool.true_and]
      exact q
    · intro h
      simp only [List.any_cons, IoCall.is_cancel, Bool.or_eq_true] at h
      rcases h with h | h
      · exact h
      · exact hm.2.1 (c h)

/-! ## The read strategy as steps -/

theorem u64_of_lt (x : Nat) (h : x < 2 ^ 64) : u64 x = x := Nat.mod_eq_of_lt h

theorem reads_total_cons (r : FreadResp) (rest : List FreadResp) :
    reads_total (r :: rest) = r.data.length + reads_total rest := by
  simp [reads_total]

/-- An `fread` adds itself to the trace and hands out no more bytes than the
answers it uses up hold. -/
theorem fread_facts (w : World) (want : Nat) :
    (fread w want).2.2.trace = IoCall.fread want :: w.trace
      ∧ (fread w want).1.length + reads_total (fread w want).2.2.reads ≤ reads_total w.reads := by
  unfold fread
  split
  · rename_i h
    simp [h]
  · rename_i r rest h
    simp only [h, reads_total_cons, List.length_take]
    exact ⟨trivial, by omega⟩

theorem region_account_mono (st : ScanStats) (data : List Nat) (dt off : Nat) :
    Mono false F st (region_account st data dt off) := by
  refine ⟨?_, by simp, by simp, by simp⟩
  unfold region_account
  split <;> simp

theorem region_account_bytes (st : ScanStats) (data : List Nat) (dt off : Nat)
    (h : st.bytes_read + data.length < 2 ^ 64) :
    (region_account st data dt off).bytes_read = st.bytes_read + data.length := by
  unfold region_account
  split
  · simp [u64_of_lt _ h]
  · omega

theorem full_account_mono (st : ScanStats) (data : List Nat) (dt off : Nat) :
    Mono false F st (full_account st data dt off) := by
  refine ⟨?_, by simp, by simp, by simp⟩
  unfold full_account
  split <;> simp

theorem full_account_bytes (st : ScanStats) (data : List Nat) (dt off : Nat)
    (h : st.bytes_read + data.length < 2 ^ 64) :
    (full_account st data dt off).bytes_read = st.bytes_read + data.length := by
  unfold full_account
  split
  · simp [u64_of_lt _ h]
  · omega
/-- One `fread` of a region with its accounting. -/
theorem fread_region_step (B F : Bool) (w : World) (st : ScanStats) (want off : Nat)
    (data : List Nat) (dt : Nat) (w1 : World)
    (h : fread { w with errno := 0 } want = (data, dt, w1)) :
    Step B F w st w1 (region_account st data dt off) := by
  have hf := fread_facts { w with errno := 0 } want
  rw [h] at hf
  refine Step.step_call (IoCall.fread want) data.length hf.1 rfl (by simp [IoCall.is_fs]) rfl hf.2
    (region_account_mono _ _ _ _) ?_
  intro _ hw
  have hlt : st.bytes_read + data.length < 2 ^ 64 := by
    have := hf.2
    unfold NoWrap at hw
    simp only at this
    omega
  rw [region_account_bytes _ _ _ _ hlt]
  omega

theorem read_region_attempts_step (B F : Bool) (off want : Nat) :
    ∀ (left crc : Nat) (w : World) (st : ScanStats) (o : Option Nat) (w1 : World)
      (st1 : ScanStats), read_region_attempts off want left crc w st = (o, w1, st1) →
      Step B F w st w1 st1 := by
  intro left
  induction left with
  | zero =>
    intro crc w st o w1 st1 h
    rw [read_region_attempts] at h
    generalize hfr : fread { w with errno := 0 } want = r at h
    obtain ⟨data, dt, wa⟩ := r
    have s1 := fread_region_step B F w st want off data dt wa hfr
    simp only at h
    split at h
    · simp only [Prod.mk.injEq] at h
      obtain ⟨-, rfl, rfl⟩ := h
      exact s1
    · simp only [Prod.mk.injEq] at h
      obtain ⟨-, rfl, rfl⟩ := h
      refine s1.step_trans (Step.step_pure rfl rfl ?_ (fun _ => by simp))
      refine ⟨?_, by simp, by simp, by simp⟩
      simp
  | succ left1 ih =>
    intro crc w st o w1 st1 h
    rw [read_region_attempts] at h
    generalize hfr : fread { w with errno := 0 } want = r at h
    obtain ⟨data, dt, wa⟩ := r
    have s1 := fread_region_step B F w st want off data dt wa hfr
    simp only at h
    split at h
    · simp only [Prod.mk.injEq] at h
      obtain ⟨-, rfl, rfl⟩ := h
      exact s1
    · have s2 := ih _ _ _ _ _ _ h
      refine s1.step_trans (Step.step_trans ?_ s2)
      refine Step.step_pure rfl rfl ⟨?_, fun h => h, by simp, by simp⟩ (fun _ => rfl)
      simp

theorem fseeko_facts (w : World) (off : Nat) :
    (fseeko w off).2.trace = IoCall.fseeko off :: w.trace
      ∧ (fseeko w off).2.reads = w.reads := by
  unfold fseeko
  split <;> exact ⟨rfl, rfl⟩

theorem fseeko_step (B F : Bool) (w : World) (st : ScanStats) (off : Nat) :
    Step B F w st (fseeko w off).2 st := by
  have hf := fseeko_facts w off
  refine Step.step_call (IoCall.fseeko off) 0 hf.1 rfl (by simp [IoCall.is_fs]) rfl
    (by rw [hf.2]; omega) (Mono.mono_refl _ _ _) (fun _ _ => ⟨le_refl _, by omega⟩)

theorem read_region_retry_step (B F : Bool) (off want : Nat) (cfg : ScanConfig) (w : World)
    (st : ScanStats) (o : Option Nat) (w1 : World) (st1 : ScanStats)
    (h : read_region_retry off want cfg w st = (o, w1, st1)) : Step B F w st w1 st1 := by
  unfold read_region_retry at h
  have s1 := fseeko_step B F w st off
  generalize fseeko w off = r at h s1
  obtain ⟨ok, wa⟩ := r
  simp only at h s1
  split at h
  · simp only [Prod.mk.injEq] at h
    obtain ⟨-, rfl, rfl⟩ := h
    refine s1.step_trans (Step.step_pure rfl rfl ?_ (fun _ => by simp))
    refine ⟨?_, by simp, by simp, by simp⟩
    simp
  · exact s1.step_trans (read_region_attempts_step B F off want _ _ _ _ _ _ _ h)

/-- The rollback of `read_sample` before and after a verification re-read: the
counters other than `bytes_read` are not touched. -/
theorem rollback_step (F : Bool) (w : World) (st : ScanStats) (cd br : Nat) :
    Step false F w st w { st with current_done := cd, bytes_read := br } :=
  Step.step_pure rfl rfl ⟨(Mono.mono_refl false F st).1, fun h => h, by simp, fun _ => ⟨rfl, rfl⟩⟩
    (fun h => by simp at h)

/-- The rollback followed by the report of a checksum mismatch. -/
theorem rollback_mismatch_step (F : Bool) (w : World) (st : ScanStats) (cd br : Nat) (msg : CStr) :
    Step false F w st w
      (err_push
        { st with
          current_done := cd
          bytes_read := br
          consistency_errors := st.consistency_errors + 1 } msg) := by
  refine Step.step_pure rfl rfl ⟨?_, by simp, by simp, by simp⟩ (fun h => by simp at h)
  simp

/-- The rollback followed by the capture and report of a checksum mismatch. -/
theorem rollback_mismatch_capture_step (F : Bool) (w : World) (st : ScanStats) (cd br : Nat)
    (kind path : Option CStr) (off bytes : Nat) (err : Int) (note : Option CStr) (msg : CStr) :
    Step false F w st w
      (err_push
        (first_fail_capture
          { st with
            current_done := cd
            bytes_read := br
            consistency_errors := st.consistency_errors + 1 } kind path off bytes err note)
        msg) := by
  refine Step.step_pure rfl rfl ⟨?_, by simp, by simp, by simp⟩ (fun h => by simp at h)
  simp

theorem read_sample_last_step (B F : Bool) (size : Nat) (cfg : ScanConfig) (crc_total : Nat)
    (hB : B = true → cfg.consistency_check = false)
    (w : World) (st : ScanStats) (o : Option Nat) (w1 : World) (st1 : ScanStats)
    (h : read_sample_last size cfg crc_total w st = (o, w1, st1)) : Step B F w st w1 st1 := by
  unfold read_sample_last at h
  simp only [] at h
  generalize hr1 : read_region_retry (if size > SAMPLE_REGION then size - SAMPLE_REGION else 0)
    SAMPLE_REGION cfg w st = r1 at h
  obtain ⟨o1, wa, sa⟩ := r1
  have s1 := read_region_retry_step B F _ _ _ _ _ _ _ _ hr1
  cases o1 with
  | none =>
    simp only [Prod.mk.injEq] at h
    obtain ⟨-, rfl, rfl⟩ := h
    exact s1
  | some crc2 =>
    simp only [] at h
    have s2 := ui_update_step B F wa sa false
    generalize ui_update wa sa false = u at h s2
    obtain ⟨wb, sb⟩ := u
    simp only [] at h s2
    have s12 := s1.step_trans s2
    split at h
    · simp only [Prod.mk.injEq] at h
      obtain ⟨-, rfl, rfl⟩ := h
      exact s12
    · split at h
      · rename_i hcc
        have hBf : B = false := by
          cases B
          · rfl
          · rw [hB rfl] at hcc
            exact absurd hcc (by simp)
        subst hBf
        generalize hr2 : read_region_retry (if size > SAMPLE_REGION then size - SAMPLE_REGION else 0)
          SAMPLE_REGION cfg wb
          { sb with
            current_done := u64_sub sb.current_done SAMPLE_REGION
            bytes_read := u64_sub sb.bytes_read SAMPLE_REGION } = r2 at h
        obtain ⟨o2, wc, sc⟩ := r2
        have s3 := read_region_retry_step false F _ _ _ _ _ _ _ _ hr2
        have s123 := s12.step_trans ((rollback_step F wb sb _ _).step_trans s3)
        cases o2 with
        | none =>
          simp only [Prod.mk.injEq] at h
          obtain ⟨-, rfl, rfl⟩ := h
          exact s123
        | some crc2b =>
          simp only [] at h
          split at h
          · simp only [Prod.mk.injEq] at h
            obtain ⟨-, rfl, rfl⟩ := h
            exact s123.step_trans (rollback_mismatch_step F wc sc _ _ _)
          · simp only [Prod.mk.injEq] at h
            obtain ⟨-, rfl, rfl⟩ := h
            exact s123.step_trans (rollback_step F wc sc _ _)
      · simp only [Prod.mk.injEq] at h
        obtain ⟨-, rfl, rfl⟩ := h
        exact s12

theorem read_sample_step (B F : Bool) (size : Nat) (cfg : ScanConfig)
    (hB : B = true → cfg.consistency_check = false)
    (w : World) (st : ScanStats) (o : Option Nat) (w1 : World) (st1 : ScanStats)
    (h : read_sample size cfg w st = (o, w1, st1)) : Step B F w st w1 st1 := by
  unfold read_sample at h
  split at h
  · simp only [Prod.mk.injEq] at h
    obtain ⟨-, rfl, rfl⟩ := h
    exact Step.step_refl _ _ _ _
  · simp only [] at h
    generalize (if size < SAMPLE_REGION then size else SAMPLE_REGION) = want at h
    generalize hr1 : read_region_retry 0 want cfg w st = r1 at h
    obtain ⟨o1, wa, sa⟩ := r1
    have s1 := read_region_retry_step B F _ _ _ _ _ _ _ _ hr1
    cases o1 with
    | none =>
      simp only [Prod.mk.injEq] at h
      obtain ⟨-, rfl, rfl⟩ := h
      exact s1
    | some crc1 =>
      simp only [] at h
      have s2 := ui_update_step B F wa sa false
      generalize ui_update wa sa false = u at h s2
      obtain ⟨wb, sb⟩ := u
      simp only [] at h s2
      have s12 := s1.step_trans s2
      split at h
      · simp only [Prod.mk.injEq] at h
        obtain ⟨-, rfl, rfl⟩ := h
        exact s12
      · -- the rest of the function, from the state the first region leaves
        have tail : ∀ (w4 : World) (st8 : ScanStats), Step B F w st w4 st8 →
            (if size > SAMPLE_REGION then
                match read_sample_last size cfg (0 ^^^ crc1) w4 st8 with
                | (none, w5, st9) => (none, w5, st9)
                | (some crc, w5, st9) =>
                  if st9.cancelled = true then (none, w5, st9) else (some crc, w5, st9)
              else if st8.cancelled = true then (none, w4, st8)
              else (some (0 ^^^ crc1), w4, st8)) = (o, w1, st1) →
            Step B F w st w1 st1 := by
          intro w4 st8 s48 h
          split at h
          · generalize hl : read_sample_last size cfg (0 ^^^ crc1) w4 st8 = rl at h
            obtain ⟨ol, w5, st9⟩ := rl
            have sl := read_sample_last_step B F size cfg _ hB _ _ _ _ _ hl
            cases ol with
            | none =>
              simp only [Prod.mk.injEq] at h
              obtain ⟨-, rfl, rfl⟩ := h
              exact s48.step_trans sl
            | some crc =>
              simp only [] at h
              split at h <;>
              · simp only [Prod.mk.injEq] at h
                obtain ⟨-, rfl, rfl⟩ := h
                exact s48.step_trans sl
          · split at h <;>
            · simp only [Prod.mk.injEq] at h
              obtain ⟨-, rfl, rfl⟩ := h
              exact s48
        by_cases hcc : cfg.consistency_check = true
        · have hBf : B = false := by
            cases B
            · rfl
            · rw [hB rfl] at hcc
              exact absurd hcc (by simp)
          subst hBf
          simp only [hcc, if_true] at h
          generalize hr2 : read_region_retry 0 want cfg wb
            { sb with
              current_done := u64_sub sb.current_done want
              bytes_read := u64_sub sb.bytes_read want } = r2 at h
          obtain ⟨o2, wc, sc⟩ := r2
          have s3 := read_region_retry_step false F _ _ _ _ _ _ _ _ hr2
          have s123 := s12.step_trans ((rollback_step F wb sb _ _).step_trans s3)
          cases o2 with
          | none =>
            simp only [Prod.mk.injEq] at h
            obtain ⟨-, rfl, rfl⟩ := h
            exact s123
          | some crc1b =>
            simp only [] at h
            by_cases hne : crc1b ≠ crc1
            · simp only [hne, if_true, ne_eq, not_false_eq_true, Prod.mk.injEq] at h
              obtain ⟨-, rfl, rfl⟩ := h
              exact s123.step_trans (rollback_mismatch_capture_step F wc sc _ _ _ _ _ _ _ _ _)
            · simp only [hne, if_false] at h
              exact tail _ _ (s123.step_trans (rollback_step F wc sc _ _)) h
        · simp only [hcc, if_false] at h
          exact tail _ _ s12 h

/-- One `fread` of a chunk with its accounting, on a stream whose error
indicator and `errno` may have been reset first. -/
theorem fread_full_step (B F : Bool) (w wx : World) (st sx : ScanStats) (chunk off : Nat)
    (data : List Nat) (dt : Nat) (w1 : World) (h : fread wx chunk = (data, dt, w1))
    (ht : wx.trace = w.trace) (hr : wx.reads = w.reads) (hm : Mono false F st sx)
    (hb : sx.bytes_read = st.bytes_read) :
    Step B F w st w1 (full_account sx data dt off) := by
  have hf := fread_facts wx chunk
  rw [h, ht, hr] at hf
  refine Step.step_call (IoCall.fread chunk) data.length hf.1 rfl (by simp [IoCall.is_fs]) rfl hf.2
    (hm.mono_trans (full_account_mono _ _ _ _)) ?_
  intro _ hw
  have hlt : sx.bytes_read + data.length < 2 ^ 64 := by
    have := hf.2
    unfold NoWrap at hw
    simp only at this
    omega
  rw [full_account_bytes _ _ _ _ hlt]
  omega

theorem read_full_retries_step (B F : Bool) (chunk : Nat) :
    ∀ (left r crc : Nat) (e : Int) (w : World) (st : ScanStats) (ok : Bool) (r1 crc1 : Nat)
      (e1 : Int) (w1 : World) (st1 : ScanStats),
      read_full_retries chunk left r crc e w st = (ok, r1, crc1, e1, w1, st1) →
      Step B F w st w1 st1 := by
  intro left
  induction left with
  | zero =>
    intro r crc e w st ok r1 crc1 e1 w1 st1 h
    rw [read_full_retries] at h
    simp only [Prod.mk.injEq] at h
    obtain ⟨-, -, -, -, rfl, rfl⟩ := h
    exact Step.step_refl _ _ _ _
  | succ left1 ih =>
    intro r crc e w st ok r1 crc1 e1 w1 st1 h
    rw [read_full_retries] at h
    simp only [] at h
    generalize hfr : fread
      { w with ferr := false, errno := 0 } chunk = fr at h
    obtain ⟨data, dt, wa⟩ := fr
    have s1 : Step B F w st wa
        (full_account { st with read_errors_transient := st.read_errors_transient + 1 }
          data dt st.current_done) := by
      refine fread_full_step B F w _ st _ chunk _ data dt wa hfr rfl rfl ⟨?_, fun h => h, by simp, by simp⟩ rfl
      simp
    simp only [] at h
    split at h
    · simp only [Prod.mk.injEq] at h
      obtain ⟨-, -, -, -, rfl, rfl⟩ := h
      exact s1
    · exact s1.step_trans (ih _ _ _ _ _ _ _ _ _ _ _ h)

theorem read_full_chunk_step (B F : Bool) (chunk : Nat) (cfg : ScanConfig) (loc : FullLocals)
    (w : World) (st : ScanStats) (out : ChunkOutcome) (loc1 : FullLocals) (w1 : World)
    (st1 : ScanStats) (h : read_full_chunk chunk cfg loc w st = (out, loc1, w1, st1)) :
    Step B F w st w1 st1 := by
  unfold read_full_chunk at h
  simp only [] at h
  generalize hfr : fread { w with errno := 0 } chunk = fr at h
  obtain ⟨data, dt, wa⟩ := fr
  have s1 : Step B F w st wa (full_account st data dt st.current_done) :=
    fread_full_step B F w _ st st chunk _ data dt wa hfr rfl rfl (Mono.mono_refl _ _ _) rfl
  simp only [] at h
  split at h
  · split at h
    · split at h
      · rename_i heq
        have s2 := read_full_retries_step B F chunk _ _ _ _ _ _ _ _ _ _ _ _ heq
        simp only [Prod.mk.injEq] at h
        obtain ⟨-, -, rfl, rfl⟩ := h
        refine s1.step_trans (s2.step_trans (Step.step_pure rfl rfl ⟨?_, by simp, by simp, by simp⟩ (fun _ => by simp)))
        simp
      · rename_i heq
        have s2 := read_full_retries_step B F chunk _ _ _ _ _ _ _ _ _ _ _ _ heq
        split at h <;>
        · simp only [Prod.mk.injEq] at h
          obtain ⟨-, -, rfl, rfl⟩ := h
          exact s1.step_trans s2
    · simp only [Prod.mk.injEq] at h
      obtain ⟨-, -, rfl, rfl⟩ := h
      exact s1
  · simp only [Prod.mk.injEq] at h
    obtain ⟨-, -, rfl, rfl⟩ := h
    exact s1

theorem read_full_loop_step (B F : Bool) (chunk : Nat) (cfg : ScanConfig) :
    ∀ (fuel : Nat) (loc : FullLocals) (w : World) (st : ScanStats) (ok : Bool)
      (loc1 : FullLocals) (w1 : World) (st1 : ScanStats),
      read_full_loop chunk cfg fuel loc w st = (ok, loc1, w1, st1) → Step B F w st w1 st1 := by
  intro fuel
  induction fuel with
  | zero =>
    intro loc w st ok loc1 w1 st1 h
    rw [read_full_loop] at h
    simp only [Prod.mk.injEq] at h
    obtain ⟨-, -, rfl, rfl⟩ := h
    exact Step.step_refl _ _ _ _
  | succ fuel1 ih =>
    intro loc w st ok loc1 w1 st1 h
    rw [read_full_loop] at h
    split at h
    · simp only [Prod.mk.injEq] at h
      obtain ⟨-, -, rfl, rfl⟩ := h
      exact Step.step_refl _ _ _ _
    · generalize hch : read_full_chunk chunk cfg loc w st = rc at h
      obtain ⟨out, la, wa, sa⟩ := rc
      have s1 := read_full_chunk_step B F chunk cfg loc w st _ _ _ _ hch
      cases out with
      | fail =>
        simp only [Prod.mk.injEq] at h
        obtain ⟨-, -, rfl, rfl⟩ := h
        exact s1
      | eof =>
        simp only [Prod.mk.injEq] at h
        obtain ⟨-, -, rfl, rfl⟩ := h
        exact s1
      | next =>
        simp only [] at h
        have s2 := ui_update_step B F wa sa false
        generalize ui_update wa sa false = u at h s2
        obtain ⟨wb, sb⟩ := u
        simp only [] at h s2
        exact s1.step_trans (s2.step_trans (ih _ _ _ _ _ _ _ h))

theorem read_full_verify_step (B F : Bool) (cfg : ScanConfig) (loc : FullLocals) (w : World)
    (st : ScanStats) (ok : Bool) (w1 : World) (st1 : ScanStats)
    (h : read_full_verify cfg loc w st = (ok, w1, st1)) : Step B F w st w1 st1 := by
  unfold read_full_verify at h
  split at h
  · simp only [] at h
    have s1 := fseeko_step B F w st 0
    generalize fseeko w 0 = sk at h s1
    obtain ⟨okk, wa⟩ := sk
    simp only [] at h s1
    split at h
    · have hf := fread_facts wa SAMPLE_REGION
      generalize fread wa SAMPLE_REGION = fr at h hf
      obtain ⟨data, dt, wb⟩ := fr
      simp only [] at h hf
      have s2 : Step B F wa st wb st :=
        Step.step_call (IoCall.fread SAMPLE_REGION) data.length hf.1 rfl (by simp [IoCall.is_fs]) rfl
          hf.2 (Mono.mono_refl _ _ _) (fun _ _ => ⟨le_refl _, by omega⟩)
      have s12 := s1.step_trans s2
      split at h
      · split at h
        · simp only [Prod.mk.injEq] at h
          obtain ⟨-, rfl, rfl⟩ := h
          refine s12.step_trans (Step.step_pure rfl rfl ⟨?_, by simp, by simp, by simp⟩ (fun _ => by simp))
          simp
        · simp only [Prod.mk.injEq] at h
          obtain ⟨-, rfl, rfl⟩ := h
          exact s12
      · simp only [Prod.mk.injEq] at h
        obtain ⟨-, rfl, rfl⟩ := h
        refine s12.step_trans (Step.step_pure rfl rfl ⟨?_, by simp, by simp, by simp⟩ (fun _ => by simp))
        simp
    · simp only [Prod.mk.injEq] at h
      obtain ⟨-, rfl, rfl⟩ := h
      exact s1
  · simp only [Prod.mk.injEq] at h
    obtain ⟨-, rfl, rfl⟩ := h
    exact Step.step_refl _ _ _ _

theorem malloc_facts (w : World) :
    (malloc w).2.trace = w.trace ∧ (malloc w).2.reads = w.reads := by
  unfold malloc
  split <;> exact ⟨rfl, rfl⟩

theorem ensure_chunk_cap_facts (w : World) (need : Nat) :
    (ensure_chunk_cap w need).2.trace = w.trace ∧ (ensure_chunk_cap w need).2.reads = w.reads := by
  unfold ensure_chunk_cap
  split
  · exact ⟨rfl, rfl⟩
  · have hm := malloc_facts w
    generalize malloc w = m at hm
    obtain ⟨ok, wa⟩ := m
    simp only [] at hm ⊢
    split <;> exact hm

theorem read_full_step (B F : Bool) (size : Nat) (cfg : ScanConfig) (w : World) (st : ScanStats)
    (o : Option Nat) (w1 : World) (st1 : ScanStats)
    (h : read_full size cfg w st = (o, w1, st1)) : Step B F w st w1 st1 := by
  unfold read_full at h
  simp only [] at h
  generalize (if chunk_bytes_from_mode cfg.chunk_mode ≠ 0 then chunk_bytes_from_mode cfg.chunk_mode
    else choose_chunk_auto size) = chunk at h
  have hf := ensure_chunk_cap_facts w chunk
  generalize ensure_chunk_cap w chunk = ec at h hf
  obtain ⟨okc, w0⟩ := ec
  simp only [] at h hf
  have s0 : Step B F w st w0 st := Step.step_pure hf.1 hf.2 (Mono.mono_refl _ _ _) (fun _ => rfl)
  split at h
  · simp only [Prod.mk.injEq] at h
    obtain ⟨-, rfl, rfl⟩ := h
    exact s0
  · generalize hl : read_full_loop chunk cfg (w0.reads.length + 1) ⟨0, 0, false⟩ w0 st = rl at h
    obtain ⟨okl, loc, wa, sa⟩ := rl
    have s1 := read_full_loop_step B F chunk cfg _ _ _ _ _ _ _ _ hl
    cases okl with
    | false =>
      simp only [Prod.mk.injEq] at h
      obtain ⟨-, rfl, rfl⟩ := h
      exact s0.step_trans s1
    | true =>
      simp only [] at h
      have s2 := ui_update_step B F wa sa true
      generalize ui_update wa sa true = u at h s2
      obtain ⟨wb, sb⟩ := u
      simp only [] at h s2
      generalize hv : read_full_verify cfg loc wb sb = rv at h
      obtain ⟨okv, wc, sc⟩ := rv
      have s3 := read_full_verify_step B F cfg loc wb sb _ _ _ hv
      have s := s0.step_trans (s1.step_trans (s2.step_trans s3))
      cases okv with
      | false =>
        simp only [Prod.mk.injEq] at h
        obtain ⟨-, rfl, rfl⟩ := h
        exact s
      | true =>
        simp only [] at h
        split at h <;>
        · simp only [Prod.mk.injEq] at h
          obtain ⟨-, rfl, rfl⟩ := h
          exact s

/-! ## The traversal as steps -/

/-- A stretch that leaves the file counters alone keeps the invariant
`files_read + k <= files_total`, also in every state the callback is shown. -/
theorem Trav.of_step {B : Bool} {w : World} {st : ScanStats} {w1 : World} {st1 : ScanStats}
    (k : Nat) (hB : Step B false w st w1 st1) (hF : Step false true w st w1 st1) :
    Trav B k k w st w1 st1 := by
  refine ⟨hB, ?_⟩
  rintro ⟨hs, hk⟩
  obtain ⟨new, e, hm, -⟩ := hF.obs (fun h => by simp at h)
  have h1 := (hF.mono (fun h => by simp at h)).2.2.2 rfl
  refine ⟨?_, by omega⟩
  intro s hsm
  rw [e, List.mem_append] at hsm
  rcases hsm with hsm | hsm
  · have := (hm s hsm).1.2.2.2 rfl
    omega
  · exact hs s hsm

theorem Trav.trav_refl (B : Bool) (k : Nat) (w : World) (st : ScanStats) : Trav B k k w st w st :=
  ⟨Step.step_refl _ _ _ _, fun h => h⟩

theorem Trav.trav_trans {B : Bool} {k k1 k2 : Nat} {w : World} {st : ScanStats} {w1 : World}
    {st1 : ScanStats} {w2 : World} {st2 : ScanStats} (h1 : Trav B k k1 w st w1 st1)
    (h2 : Trav B k1 k2 w1 st1 w2 st2) : Trav B k k2 w st w2 st2 :=
  ⟨h1.step.step_trans h2.step, fun h => h2.files (h1.files h)⟩

/-- A change of the stats alone. -/
theorem Trav.trav_pure {B : Bool} {w : World} {st : ScanStats} {w1 : World} {st1 : ScanStats}
    (k k1 : Nat) (ht : w1.trace = w.trace) (hr : w1.reads = w.reads)
    (hm : Mono false false st st1) (hb : B = true → st1.bytes_read = st.bytes_read)
    (hf : st.files_read + k ≤ st.files_total → st1.files_read + k1 ≤ st1.files_total) :
    Trav B k k1 w st w1 st1 :=
  ⟨Step.step_pure ht hr hm hb, fun h => ⟨by rw [ht]; exact h.1, hf h.2⟩⟩

/-- A `stat`, `opendir` or `fopen` made while the flag is clear. -/
theorem Trav.trav_call {B : Bool} {w : World} {st : ScanStats} {w1 : World} (k : Nat) (e : IoCall)
    (ht : w1.trace = e :: w.trace) (hs : seen (e :: w.trace) = seen w.trace)
    (hc : e.is_cancel = false) (hr : w1.reads = w.reads) (hfs : st.cancelled = false) :
    Trav B k k w st w1 st :=
  ⟨Step.step_call e 0 ht hs (fun _ => hfs) hc (by rw [hr]; omega) (Mono.mono_refl _ _ _)
      (fun _ _ => ⟨le_refl _, by omega⟩),
    fun h => ⟨by rw [ht, hs]; exact h.1, h.2⟩⟩

theorem scan_file_plan_mono (F : Bool) (child : CStr) (fsize : Nat) (cfg : ScanConfig)
    (st : ScanStats) :
    Mono false F st (scan_file_plan child fsize cfg st).2
      ∧ (scan_file_plan child fsize cfg st).2.bytes_read = st.bytes_read
      ∧ (scan_file_plan child fsize cfg st).1
          = (!cfg.full_read && decide (fsize > cfg.large_file_limit)) := by
  unfold scan_file_plan
  simp only []
  split <;>
    exact ⟨⟨(Mono.mono_refl false F st).1, fun h => h, by simp, fun _ => ⟨rfl, rfl⟩⟩, rfl, rfl⟩

theorem scan_file_trav (B : Bool) (child : CStr) (fsize : Nat) (cfg : ScanConfig)
    (hB : B = true → cfg.consistency_check = false ∨ cfg.full_read = true)
    (w : World) (st : ScanStats) (b : Bool) (w1 : World) (st1 : ScanStats)
    (h : scan_file child fsize cfg w st = (b, w1, st1)) : Trav B 0 0 w st w1 st1 := by
  unfold scan_file at h
  simp only [] at h
  -- the file is counted and offered to the largest-file list
  have t1 : Trav B 0 1 w st w
      (largest_update { st with files_total := st.files_total + 1 } child fsize) := by
    refine Trav.trav_pure 0 1 rfl rfl ⟨?_, by simp, by simp, by simp⟩ (fun _ => by simp) ?_
    · simp
    · simp
  generalize largest_update { st with files_total := st.files_total + 1 } child fsize = sA at h t1
  split at h
  · simp only [Prod.mk.injEq] at h
    obtain ⟨-, rfl, rfl⟩ := h
    refine t1.trav_trans (Trav.trav_pure 1 0 rfl rfl ⟨?_, fun h => h, by simp, by simp⟩ (fun _ => rfl) ?_)
    · simp
    · simp only []; omega
  · have hp := fun F => scan_file_plan_mono F child fsize cfg sA
    generalize scan_file_plan child fsize cfg sA = pl at h hp
    obtain ⟨sample, sP⟩ := pl
    simp only [] at h hp
    have t2 : Trav B 1 1 w sA w sP :=
      Trav.of_step 1 (Step.step_pure rfl rfl (hp false).1 (fun _ => (hp false).2.1))
        (Step.step_pure rfl rfl (hp true).1 (fun _ => (hp true).2.1))
    have hsample := (hp false).2.2
    have t3 : Trav B 1 1 w sP (ui_update w sP true).1 (ui_update w sP true).2 :=
      Trav.of_step 1 (ui_update_step _ _ _ _ _) (ui_update_step _ _ _ _ _)
    generalize ui_update w sP true = u at h t3
    obtain ⟨wU, sU⟩ := u
    simp only [] at h t3
    have t123 := t1.trav_trans (t2.trav_trans t3)
    split at h
    · simp only [Prod.mk.injEq] at h
      obtain ⟨-, rfl, rfl⟩ := h
      exact ⟨t123.step, fun hk => ⟨(t123.files hk).1, by have := (t123.files hk).2; omega⟩⟩
    · rename_i hcan
      have hcan0 : sU.cancelled = false := by simpa using hcan
      have t4 : Trav B 1 1 wU sU { wU with trace := IoCall.fopen child :: wU.trace } sU :=
        Trav.trav_call 1 (IoCall.fopen child) rfl rfl rfl rfl hcan0
      have t1234 := t123.trav_trans t4
      split at h
      · simp only [Prod.mk.injEq] at h
        obtain ⟨-, rfl, rfl⟩ := h
        refine t1234.trav_trans (Trav.trav_pure 1 0 rfl rfl ⟨?_, by simp, by simp, by simp⟩
          (fun _ => by simp) ?_)
        · simp
        · simp; omega
      · have t5 : Trav B 1 0 { wU with trace := IoCall.fopen child :: wU.trace } sU
            { wU with trace := IoCall.fopen child :: wU.trace, ferr := false }
            { sU with files_read := sU.files_read + 1 } := by
          refine Trav.trav_pure 1 0 rfl rfl ⟨?_, fun h => h, by simp, by simp⟩ (fun _ => rfl) ?_
          · simp
          · simp
        have hrd : ∀ (o : Option Nat) (wR : World) (sR : ScanStats),
            (if sample = true then
                read_sample fsize cfg
                  { wU with trace := IoCall.fopen child :: wU.trace, ferr := false }
                  { sU with files_read := sU.files_read + 1 }
              else
                read_full fsize cfg
                  { wU with trace := IoCall.fopen child :: wU.trace, ferr := false }
                  { sU with files_read := sU.files_read + 1 }) = (o, wR, sR) →
            Trav B 0 0 { wU with trace := IoCall.fopen child :: wU.trace, ferr := false }
              { sU with files_read := sU.files_read + 1 } wR sR := by
          intro o wR sR hr
          split at hr
          · rename_i hs
            have hcc : B = true → cfg.consistency_check = false := by
              intro hb
              rcases hB hb with hc | hc
              · exact hc
              · rw [hsample, hc] at hs
                simp at hs
            exact Trav.of_step 0 (read_sample_step B false fsize cfg hcc _ _ _ _ _ hr)
              (read_sample_step false true fsize cfg (fun h => by simp at h) _ _ _ _ _ hr)
          · exact Trav.of_step 0 (read_full_step B false fsize cfg _ _ _ _ _ hr)
              (read_full_step false true fsize cfg _ _ _ _ _ hr)
        generalize hrr : (if sample = true then
            read_sample fsize cfg
              { wU with trace := IoCall.fopen child :: wU.trace, ferr := false }
              { sU with files_read := sU.files_read + 1 }
          else
            read_full fsize cfg
              { wU with trace := IoCall.fopen child :: wU.trace, ferr := false }
              { sU with files_read := sU.files_read + 1 }) = rr at h
        obtain ⟨o, wR, sR⟩ := rr
        have t6 := hrd o wR sR hrr
        have t := t1234.trav_trans (t5.trav_trans t6)
        simp only [] at h
        split at h
        · have t7 : Trav B 0 0 wR sR wR (fail_push_unique sR child) := by
            refine Trav.trav_pure 0 0 rfl rfl ⟨?_, by simp, by simp, by simp⟩ (fun _ => by simp) ?_
            · simp
            · simp
          split at h <;>
          · simp only [Prod.mk.injEq] at h
            obtain ⟨-, rfl, rfl⟩ := h
            exact t.trav_trans t7
        · simp only [Prod.mk.injEq] at h
          obtain ⟨-, rfl, rfl⟩ := h
          exact t


theorem scan_entries_trav (B : Bool) (recurse : CStr → World → ScanStats → Option ScanResult)
    (path : CStr) (cfg : ScanConfig)
    (hB : B = true → cfg.consistency_check = false ∨ cfg.full_read = true)
    (hrec : ∀ (child : CStr) (w : World) (st : ScanStats) (b : Bool) (w1 : World)
      (st1 : ScanStats), recurse child w st = some (b, w1, st1) → Trav B 0 0 w st w1 st1) :
    ∀ (entries : List CStr) (w : World) (st : ScanStats) (w1 : World) (st1 : ScanStats),
      scan_entries recurse path cfg entries w st = some (w1, st1) → Trav B 0 0 w st w1 st1 := by
  intro entries
  induction entries with
  | nil =>
    intro w st w1 st1 h
    rw [scan_entries] at h
    simp only [Option.some.injEq, Prod.mk.injEq] at h
    obtain ⟨rfl, rfl⟩ := h
    exact Trav.trav_refl _ _ _ _
  | cons name rest ih =>
    intro w st w1 st1 h
    rw [scan_entries] at h
    have t1 : Trav B 0 0 w st (ui_update w st false).1 (ui_update w st false).2 :=
      Trav.of_step 0 (ui_update_step _ _ _ _ _) (ui_update_step _ _ _ _ _)
    generalize ui_update w st false = u at h t1
    obtain ⟨wU, sU⟩ := u
    simp only [] at h t1
    split at h
    · simp only [Option.some.injEq, Prod.mk.injEq] at h
      obtain ⟨rfl, rfl⟩ := h
      exact t1
    · rename_i hcan
      have hcan0 : sU.cancelled = false := by simpa using hcan
      split at h
      · exact t1.trav_trans (ih _ _ _ _ h)
      · split at h
        · refine t1.trav_trans (Trav.trav_trans ?_ (ih _ _ _ _ h))
          refine Trav.trav_pure 0 0 rfl rfl ⟨?_, by simp, by simp, by simp⟩ (fun _ => by simp) ?_
          · simp
          · simp
        · have t2 : Trav B 0 0 wU sU
              { wU with trace := IoCall.stat (path ++ "/".toList ++ name) :: wU.trace } sU :=
            Trav.trav_call 0 (IoCall.stat (path ++ "/".toList ++ name)) rfl rfl rfl rfl hcan0
          have t12 := t1.trav_trans t2
          split at h
          · refine t12.trav_trans (Trav.trav_trans ?_ (ih _ _ _ _ h))
            refine Trav.trav_pure 0 0 rfl rfl ⟨?_, by simp, by simp, by simp⟩ (fun _ => by simp) ?_
            · simp
            · simp
          · split at h
            · refine t12.trav_trans (Trav.trav_trans ?_ (ih _ _ _ _ h))
              refine Trav.trav_pure 0 0 rfl rfl ⟨?_, fun h => h, by simp, by simp⟩ (fun _ => rfl) ?_
              · simp
              · simp
            · have t3 : Trav B 0 0
                  { wU with trace := IoCall.stat (path ++ "/".toList ++ name) :: wU.trace } sU
                  { wU with trace := IoCall.stat (path ++ "/".toList ++ name) :: wU.trace }
                  { sU with
                    dirs_total := sU.dirs_total + 1
                    current_path := (path ++ "/".toList ++ name).take 250
                    current_size := 0
                    current_planned := 0
                    current_done := 0
                    current_sample := false } := by
                refine Trav.trav_pure 0 0 rfl rfl ⟨?_, fun h => h, by simp, by simp⟩ (fun _ => rfl) ?_
                · simp
                · simp
              split at h
              · simp at h
              · rename_i heq
                simp only [Option.some.injEq, Prod.mk.injEq] at h
                obtain ⟨rfl, rfl⟩ := h
                exact t12.trav_trans (t3.trav_trans (hrec _ _ _ _ _ _ heq))
              · rename_i heq
                exact t12.trav_trans (t3.trav_trans ((hrec _ _ _ _ _ _ heq).trav_trans (ih _ _ _ _ h)))
          · split at h
            · rename_i heq
              simp only [Option.some.injEq, Prod.mk.injEq] at h
              obtain ⟨rfl, rfl⟩ := h
              exact t12.trav_trans (scan_file_trav B _ _ cfg hB _ _ _ _ _ heq)
            · rename_i heq
              exact t12.trav_trans ((scan_file_trav B _ _ cfg hB _ _ _ _ _ heq).trav_trans (ih _ _ _ _ h))
          · exact t12.trav_trans (ih _ _ _ _ h)

theorem scan_dir_recursive_trav (B : Bool) (cfg : ScanConfig)
    (hB : B = true → cfg.consistency_check = false ∨ cfg.full_read = true) :
    ∀ (fuel : Nat) (path : CStr) (depth : Nat) (w : World) (st : ScanStats) (b : Bool)
      (w1 : World) (st1 : ScanStats),
      scan_dir_recursive fuel path depth cfg w st = some (b, w1, st1) →
      Trav B 0 0 w st w1 st1 := by
  intro fuel
  induction fuel with
  | zero =>
    intro path depth w st b w1 st1 h
    unfold scan_dir_recursive at h
    split at h
    · simp only [Option.some.injEq, Prod.mk.injEq] at h
      obtain ⟨-, rfl, rfl⟩ := h
      exact Trav.trav_refl _ _ _ _
    · split at h
      · simp only [Option.some.injEq, Prod.mk.injEq] at h
        obtain ⟨-, rfl, rfl⟩ := h
        refine Trav.trav_pure 0 0 rfl rfl ⟨?_, by simp, by simp, by simp⟩ (fun _ => by simp) ?_
        · simp
        · simp
      · split at h
        · simp only [Option.some.injEq, Prod.mk.injEq] at h
          obtain ⟨-, rfl, rfl⟩ := h
          refine Trav.trav_pure 0 0 rfl rfl ⟨?_, fun h => h, by simp, by simp⟩ (fun _ => rfl) ?_
          · simp
          · simp
        · simp at h
  | succ fuel1 ih =>
    intro path depth w st b w1 st1 h
    unfold scan_dir_recursive at h
    split at h
    · simp only [Option.some.injEq, Prod.mk.injEq] at h
      obtain ⟨-, rfl, rfl⟩ := h
      exact Trav.trav_refl _ _ _ _
    · rename_i hcan
      have hcan0 : st.cancelled = false := by simpa using hcan
      split at h
      · simp only [Option.some.injEq, Prod.mk.injEq] at h
        obtain ⟨-, rfl, rfl⟩ := h
        refine Trav.trav_pure 0 0 rfl rfl ⟨?_, by simp, by simp, by simp⟩ (fun _ => by simp) ?_
        · simp
        · simp
      · split at h
        · simp only [Option.some.injEq, Prod.mk.injEq] at h
          obtain ⟨-, rfl, rfl⟩ := h
          refine Trav.trav_pure 0 0 rfl rfl ⟨?_, fun h => h, by simp, by simp⟩ (fun _ => rfl) ?_
          · simp
          · simp
        · simp only [] at h
          have t1 : Trav B 0 0 w st { w with trace := IoCall.opendir path :: w.trace } st :=
            Trav.trav_call 0 (IoCall.opendir path) rfl rfl rfl rfl hcan0
          split at h
          · simp only [Option.some.injEq, Prod.mk.injEq] at h
            obtain ⟨-, rfl, rfl⟩ := h
            refine t1.trav_trans (Trav.trav_pure 0 0 rfl rfl ⟨?_, by simp, by simp, by simp⟩
              (fun _ => by simp) ?_)
            · simp
            · simp
          · split at h
            · simp at h
            · rename_i heq
              simp only [Option.some.injEq, Prod.mk.injEq] at h
              obtain ⟨-, rfl, rfl⟩ := h
              exact t1.trav_trans (scan_entries_trav B _ path cfg hB
                (fun child w st b w1 st1 hr => ih child (depth + 1) w st b w1 st1 hr)
                _ _ _ _ _ heq)

theorem scan_buffers_init_default_facts (w : World) :
    (scan_buffers_init_default w).2.trace = w.trace
      ∧ (scan_buffers_init_default w).2.reads = w.reads := by
  unfold scan_buffers_init_default
  have h1 := malloc_facts w
  generalize malloc w = m1 at h1
  obtain ⟨ok1, wa⟩ := m1
  simp only [] at h1 ⊢
  have h2 := malloc_facts wa
  generalize malloc wa = m2 at h2 ⊢
  obtain ⟨ok2, wb⟩ := m2
  simp only [] at h2 ⊢
  split <;> simp only [] <;> exact ⟨h2.1.trans h1.1, h2.2.trans h1.2⟩

theorem scan_engine_run_trav (B : Bool) (root : CStr) (cfg : ScanConfig)
    (hB : B = true → cfg.consistency_check = false ∨ cfg.full_read = true)
    (w : World) (st : ScanStats) (b : Bool) (w1 : World) (st1 : ScanStats)
    (h : scan_engine_run root cfg w st = some (b, w1, st1)) : Trav B 0 0 w st w1 st1 := by
  unfold scan_engine_run at h
  have hf := scan_buffers_init_default_facts w
  generalize scan_buffers_init_default w = r at h hf
  obtain ⟨ok, w0⟩ := r
  simp only [] at h hf
  split at h
  · simp only [Option.some.injEq, Prod.mk.injEq] at h
    obtain ⟨-, rfl, rfl⟩ := h
    refine Trav.trav_pure 0 0 hf.1 hf.2 ⟨?_, by simp, by simp, by simp⟩ (fun _ => by simp) ?_
    · simp
    · simp
  · have t0 : Trav B 0 0 w st w0 st :=
      Trav.trav_pure 0 0 hf.1 hf.2 (Mono.mono_refl _ _ _) (fun _ => rfl) (fun h => h)
    split at h
    · simp at h
    · rename_i heq
      simp only [Option.some.injEq, Prod.mk.injEq] at h
      obtain ⟨-, rfl, rfl⟩ := h
      refine t0.trav_trans ((scan_dir_recursive_trav B cfg hB _ _ _ _ _ _ _ _ heq).trav_trans ?_)
      exact Trav.trav_pure 0 0 rfl rfl (Mono.mono_refl _ _ _) (fun _ => rfl) (fun h => h)

/-! ## Verification re-reads in sample mode -/

theorem u64_sub_u64_add (a n : Nat) : u64_sub (u64 (a + n)) n = u64 a := by
  unfold u64_sub u64
  omega

theorem u64_lt (x : Nat) : u64 x < 2 ^ 64 := Nat.mod_lt _ (by norm_num)

theorem u64_sub_lt (a b : Nat) : u64_sub a b < 2 ^ 64 := Nat.mod_lt _ (by norm_num)

theorem region_account_bytes_u64 (st : ScanStats) (data : List Nat) (dt off : Nat)
    (h : st.bytes_read < 2 ^ 64) :
    (region_account st data dt off).bytes_read = u64 (st.bytes_read + data.length) := by
  unfold region_account
  split
  · simp
  · have : data.length = 0 := by omega
    rw [this, Nat.add_zero, u64_of_lt _ h]

theorem region_account_done_u64 (st : ScanStats) (data : List Nat) (dt off : Nat)
    (h : st.current_done < 2 ^ 64) :
    (region_account st data dt off).current_done = u64 (st.current_done + data.length) := by
  unfold region_account
  split
  · simp
  · have : data.length = 0 := by omega
    rw [this, Nat.add_zero, u64_of_lt _ h]

/-- A region read on a stream without pending error whose seek succeeds and
whose single `fread` raises no error, with the calls it adds to the trace. -/
theorem read_region_retry_ok_trace (off want : Nat) (cfg : ScanConfig) (w : World)
    (st : ScanStats) (r : FreadResp) (rest : List FreadResp) (hs : w.seeks = [])
    (hr : w.reads = r :: rest) (he : r.err = false) (hf : w.ferr = false) :
    ∃ w1 : World,
      read_region_retry off want cfg w st
          = (some (region_crc (r.data.take want)), w1,
              region_account st (r.data.take want) r.dt off)
        ∧ w1.reads = rest ∧ w1.ferr = false ∧ w1.ui = w.ui ∧ w1.seeks = [] ∧ w1.bufs = w.bufs
        ∧ w1.trace = IoCall.fread want :: IoCall.fseeko off :: w.trace := by
  have hfs : fseeko w off = (true, { w with trace := IoCall.fseeko off :: w.trace }) := by
    unfold fseeko; rw [hs]
  have hr0 : ({ w with trace := IoCall.fseeko off :: w.trace, errno := 0 } : World).reads
      = r :: rest := hr
  unfold read_region_retry
  rw [hfs]
  simp only [Bool.not_true, Bool.false_eq_true, if_false]
  unfold read_region_attempts
  simp only [fread_cons _ want r rest hr0]
  simp only [he, hf, Bool.or_self, Bool.not_false, if_true]
  exact ⟨_, rfl, rfl, rfl, rfl, hs, rfl, rfl⟩

/-- The last-region half of `read_sample` with the consistency check on, when
both reads of the region succeed and deliver the same bytes: the function
returns true, no error is counted, and `bytes_read` and `current_done` have gone
through read, rollback, re-read and rollback.  The callback was shown the state
after the first read. -/
theorem read_sample_last_verified (size : Nat) (cfg : ScanConfig) (crc_total : Nat) (w : World)
    (st : ScanStats) (r3 r4 : FreadResp) (rest : List FreadResp)
    (hcc : cfg.consistency_check = true) (hseek : w.seeks = []) (hui : w.ui = [])
    (hf : w.ferr = false) (hr : w.reads = r3 :: r4 :: rest) (he3 : r3.err = false)
    (he4 : r4.err = false) (hsame : r4.data.take SAMPLE_REGION = r3.data.take SAMPLE_REGION)
    (hc : st.cancelled = false) (hb : st.bytes_read < 2 ^ 64) (hd : st.current_done < 2 ^ 64) :
    ∃ (w1 : World) (st1 s : ScanStats),
      read_sample_last size cfg crc_total w st
          = (some (crc_total ^^^ region_crc (r3.data.take SAMPLE_REGION)), w1, st1)
        ∧ (w1.reads = rest ∧ w1.ferr = false ∧ w1.ui = [] ∧ w1.seeks = [] ∧ w1.bufs = w.bufs)
        ∧ (seen w1.trace = s :: seen w.trace
            ∧ s.bytes_read = u64 (st.bytes_read + (r3.data.take SAMPLE_REGION).length))
        ∧ (st1.cancelled = false ∧ st1.consistency_errors = st.consistency_errors
            ∧ st1.read_errors = st.read_errors ∧ st1.current_planned = st.current_planned)
        ∧ st1.bytes_read
            = u64_sub (u64 (u64_sub (u64 (st.bytes_read + (r3.data.take SAMPLE_REGION).length))
                SAMPLE_REGION + (r3.data.take SAMPLE_REGION).length)) SAMPLE_REGION
        ∧ st1.current_done
            = u64_sub (u64 (u64_sub (u64 (st.current_done + (r3.data.take SAMPLE_REGION).length))
                SAMPLE_REGION + (r3.data.take SAMPLE_REGION).length)) SAMPLE_REGION := by
  unfold read_sample_last
  simp only []
  generalize (if size > SAMPLE_REGION then size - SAMPLE_REGION else 0) = off
  obtain ⟨w1, e1, hr1, hf1, hu1, hs1, hb1, ht1⟩ := read_region_retry_ok_trace off SAMPLE_REGION cfg
    w st r3 (r4 :: rest) hseek hr he3 hf
  have k1 : (region_account st (r3.data.take SAMPLE_REGION) r3.dt off).cancelled = false := by
    simpa using hc
  have k2 : (region_account st (r3.data.take SAMPLE_REGION) r3.dt off).consistency_errors
      = st.consistency_errors := by simp
  have k3 : (region_account st (r3.data.take SAMPLE_REGION) r3.dt off).read_errors
      = st.read_errors := by simp
  have k6 : (region_account st (r3.data.take SAMPLE_REGION) r3.dt off).current_planned
      = st.current_planned := by simp
  have k4 := region_account_bytes_u64 st (r3.data.take SAMPLE_REGION) r3.dt off hb
  have k5 := region_account_done_u64 st (r3.data.take SAMPLE_REGION) r3.dt off hd
  generalize region_account st (r3.data.take SAMPLE_REGION) r3.dt off = st1 at e1 k1 k2 k3 k4 k5 k6
  rw [e1]
  simp only [ui_update_nil w1 _ false (hu1.trans hui), hcc, if_true]
  rw [if_neg (by simp [k1])]
  obtain ⟨w3, e3, hr3, hf3, hu3, hs3, hb3, ht3⟩ := read_region_retry_ok_trace off SAMPLE_REGION cfg
    { w1 with trace := IoCall.ui_update false st1 :: w1.trace }
    { st1 with
      current_done := u64_sub st1.current_done SAMPLE_REGION
      bytes_read := u64_sub st1.bytes_read SAMPLE_REGION }
    r4 rest hs1 hr1 he4 hf1
  have j1 : (region_account
      { st1 with
        current_done := u64_sub st1.current_done SAMPLE_REGION
        bytes_read := u64_sub st1.bytes_read SAMPLE_REGION }
      (r4.data.take SAMPLE_REGION) r4.dt off).cancelled = false := by simpa using k1
  have j2 : (region_account
      { st1 with
        current_done := u64_sub st1.current_done SAMPLE_REGION
        bytes_read := u64_sub st1.bytes_read SAMPLE_REGION }
      (r4.data.take SAMPLE_REGION) r4.dt off).consistency_errors = st.consistency_errors := by
    simpa using k2
  have j3 : (region_account
      { st1 with
        current_done := u64_sub st1.current_done SAMPLE_REGION
        bytes_read := u64_sub st1.bytes_read SAMPLE_REGION }
      (r4.data.take SAMPLE_REGION) r4.dt off).read_errors = st.read_errors := by
    simpa using k3
  have j6 : (region_account
      { st1 with
        current_done := u64_sub st1.current_done SAMPLE_REGION
        bytes_read := u64_sub st1.bytes_read SAMPLE_REGION }
      (r4.data.take SAMPLE_REGION) r4.dt off).current_planned = st.current_planned := by
    simpa using k6
  have j4 := region_account_bytes_u64
      { st1 with
        current_done := u64_sub st1.current_done SAMPLE_REGION
        bytes_read := u64_sub st1.bytes_read SAMPLE_REGION }
      (r4.data.take SAMPLE_REGION) r4.dt off (u64_sub_lt _ _)
  have j5 := region_account_done_u64
      { st1 with
        current_done := u64_sub st1.current_done SAMPLE_REGION
        bytes_read := u64_sub st1.bytes_read SAMPLE_REGION }
      (r4.data.take SAMPLE_REGION) r4.dt off (u64_sub_lt _ _)
  generalize region_account
      { st1 with
        current_done := u64_sub st1.current_done SAMPLE_REGION
        bytes_read := u64_sub st1.bytes_read SAMPLE_REGION }
      (r4.data.take SAMPLE_REGION) r4.dt off = st4 at e3 j1 j2 j3 j4 j5 j6
  rw [e3]
  simp only [hsame, ne_eq, not_true_eq_false, if_false]
  refine ⟨w3, _, st1, rfl, ⟨hr3, hf3, ?_, hs3, ?_⟩, ⟨?_, k4⟩, ⟨j1, j2, j3, j6⟩, ?_, ?_⟩
  · rw [hu3]; exact hu1.trans hui
  · rw [hb3]; exact hb1
  · rw [ht3, ht1]; rfl
  · show u64_sub st4.bytes_read SAMPLE_REGION = _
    rw [j4, hsame]
    show u64_sub (u64 (u64_sub st1.bytes_read SAMPLE_REGION + _)) SAMPLE_REGION = _
    rw [k4]
  · show u64_sub st4.current_done SAMPLE_REGION = _
    rw [j5, hsame]
    show u64_sub (u64 (u64_sub st1.current_done SAMPLE_REGION + _)) SAMPLE_REGION = _
    rw [k5]

theorem verify_net_full (x : Nat) (hx : x < 2 ^ 64) : verify_net x SAMPLE_REGION = x := by
  unfold verify_net
  rw [u64_sub_u64_add, u64_sub_u64_add, u64_of_lt x hx, u64_of_lt x hx]

theorem verify_net_lt (x n : Nat) : verify_net x n < 2 ^ 64 := u64_sub_lt _ _

/-- Sample mode on a file larger than the sample region with the consistency
check on, when the four reads (first region twice, last region twice) succeed
and each second read delivers the bytes of the first: `read_sample` returns
true, counts no error, and `bytes_read` and `current_done` have gone through
read, rollback, re-read and rollback for each region.  The callback was shown
the state after the first read of each region. -/
theorem read_sample_verified (size : Nat) (cfg : ScanConfig) (w : World) (st : ScanStats)
    (r1 r2 r3 r4 : FreadResp) (rest : List FreadResp)
    (hsize : size > SAMPLE_REGION) (hcc : cfg.consistency_check = true)
    (hbuf : ¬ w.bufs.sample_cap < SAMPLE_REGION) (hseek : w.seeks = []) (hui : w.ui = [])
    (hf : w.ferr = false) (hr : w.reads = r1 :: r2 :: r3 :: r4 :: rest)
    (he1 : r1.err = false) (he2 : r2.err = false) (he3 : r3.err = false) (he4 : r4.err = false)
    (hsame1 : r2.data.take SAMPLE_REGION = r1.data.take SAMPLE_REGION)
    (hsame3 : r4.data.take SAMPLE_REGION = r3.data.take SAMPLE_REGION)
    (hc : st.cancelled = false) (hb : st.bytes_read < 2 ^ 64) (hd : st.current_done < 2 ^ 64) :
    ∃ (w1 : World) (st1 s1 s2 : ScanStats),
      read_sample size cfg w st
          = (some (0 ^^^ region_crc (r1.data.take SAMPLE_REGION)
              ^^^ region_crc (r3.data.take SAMPLE_REGION)), w1, st1)
        ∧ w1.reads = rest
        ∧ (seen w1.trace = s2 :: s1 :: seen w.trace
            ∧ s1.bytes_read = u64 (st.bytes_read + (r1.data.take SAMPLE_REGION).length))
        ∧ (st1.cancelled = false ∧ st1.consistency_errors = st.consistency_errors
            ∧ st1.read_errors = st.read_errors ∧ st1.current_planned = st.current_planned)
        ∧ st1.bytes_read
            = verify_net (verify_net st.bytes_read (r1.data.take SAMPLE_REGION).length)
                (r3.data.take SAMPLE_REGION).length
        ∧ st1.current_done
            = verify_net (verify_net st.current_done (r1.data.take SAMPLE_REGION).length)
                (r3.data.take SAMPLE_REGION).length := by
  have hwant : ¬ size < SAMPLE_REGION := by omega
  unfold read_sample
  simp only [hbuf, if_false, hwant]
  obtain ⟨w1, e1, hr1, hf1, hu1, hs1, hb1, ht1⟩ := read_region_retry_ok_trace 0 SAMPLE_REGION cfg
    w st r1 (r2 :: r3 :: r4 :: rest) hseek hr he1 hf
  have k1 : (region_account st (r1.data.take SAMPLE_REGION) r1.dt 0).cancelled = false := by
    simpa using hc
  have k2 : (region_account st (r1.data.take SAMPLE_REGION) r1.dt 0).consistency_errors
      = st.consistency_errors := by simp
  have k3 : (region_account st (r1.data.take SAMPLE_REGION) r1.dt 0).read_errors
      = st.read_errors := by simp
  have k6 : (region_account st (r1.data.take SAMPLE_REGION) r1.dt 0).current_planned
      = st.current_planned := by simp
  have k4 := region_account_bytes_u64 st (r1.data.take SAMPLE_REGION) r1.dt 0 hb
  have k5 := region_account_done_u64 st (r1.data.take SAMPLE_REGION) r1.dt 0 hd
  generalize region_account st (r1.data.take SAMPLE_REGION) r1.dt 0 = sa at e1 k1 k2 k3 k4 k5 k6
  rw [e1]
  simp only [ui_update_nil w1 _ false (hu1.trans hui), hcc, if_true]
  rw [if_neg (by simp [k1])]
  obtain ⟨w3, e3, hr3, hf3, hu3, hs3, hb3, ht3⟩ := read_region_retry_ok_trace 0 SAMPLE_REGION cfg
    { w1 with trace := IoCall.ui_update false sa :: w1.trace }
    { sa with
      current_done := u64_sub sa.current_done SAMPLE_REGION
      bytes_read := u64_sub sa.bytes_read SAMPLE_REGION }
    r2 (r3 :: r4 :: rest) hs1 hr1 he2 hf1
  have j1 : (region_account
      { sa with
        current_done := u64_sub sa.current_done SAMPLE_REGION
        bytes_read := u64_sub sa.bytes_read SAMPLE_REGION }
      (r2.data.take SAMPLE_REGION) r2.dt 0).cancelled = false := by simpa using k1
  have j2 : (region_account
      { sa with
        current_done := u64_sub sa.current_done SAMPLE_REGION
        bytes_read := u64_sub sa.bytes_read SAMPLE_REGION }
      (r2.data.take SAMPLE_REGION) r2.dt 0).consistency_errors = st.consistency_errors := by
    simpa using k2
  have j3 : (region_account
      { sa with
        current_done := u64_sub sa.current_done SAMPLE_REGION
        bytes_read := u64_sub sa.bytes_read SAMPLE_REGION }
      (r2.data.take SAMPLE_REGION) r2.dt 0).read_errors = st.read_errors := by
    simpa using k3
  have j6 : (region_account
      { sa with
        current_done := u64_sub sa.current_done SAMPLE_REGION
        bytes_read := u64_sub sa.bytes_read SAMPLE_REGION }
      (r2.data.take SAMPLE_REGION) r2.dt 0).current_planned = st.current_planned := by
    simpa using k6
  have j4 := region_account_bytes_u64
      { sa with
        current_done := u64_sub sa.current_done SAMPLE_REGION
        bytes_read := u64_sub sa.bytes_read SAMPLE_REGION }
      (r2.data.take SAMPLE_REGION) r2.dt 0 (u64_sub_lt _ _)
  have j5 := region_account_done_u64
      { sa with
        current_done := u64_sub sa.current_done SAMPLE_REGION
        bytes_read := u64_sub sa.bytes_read SAMPLE_REGION }
      (r2.data.take SAMPLE_REGION) r2.dt 0 (u64_sub_lt _ _)
  generalize region_account
      { sa with
        current_done := u64_sub sa.current_done SAMPLE_REGION
        bytes_read := u64_sub sa.bytes_read SAMPLE_REGION }
      (r2.data.take SAMPLE_REGION) r2.dt 0 = sb at e3 j1 j2 j3 j4 j5 j6
  rw [e3]
  simp only [hsame1, ne_eq, not_true_eq_false, if_false, hsize, if_true]
  -- the state the first region leaves
  have m4 : u64_sub sb.bytes_read SAMPLE_REGION
      = verify_net st.bytes_read (r1.data.take SAMPLE_REGION).length := by
    rw [j4, hsame1]
    show u64_sub (u64 (u64_sub sa.bytes_read SAMPLE_REGION + _)) SAMPLE_REGION = _
    rw [k4]
    rfl
  have m5 : u64_sub sb.current_done SAMPLE_REGION
      = verify_net st.current_done (r1.data.take SAMPLE_REGION).length := by
    rw [j5, hsame1]
    show u64_sub (u64 (u64_sub sa.current_done SAMPLE_REGION + _)) SAMPLE_REGION = _
    rw [k5]
    rfl
  obtain ⟨w5, st9, s2, e5, ⟨hr5, -, -, -, -⟩, ⟨ht5, -⟩, ⟨l1, l2, l3, l6⟩, l4, l5⟩ :=
    read_sample_last_verified size cfg (0 ^^^ region_crc (r1.data.take SAMPLE_REGION)) w3
      { sb with
        current_done := u64_sub sb.current_done SAMPLE_REGION
        bytes_read := u64_sub sb.bytes_read SAMPLE_REGION }
      r3 r4 rest hcc hs3 (hu3.trans (by simpa using hu1.trans hui)) hf3 hr3 he3 he4 hsame3 j1
      (u64_sub_lt _ _) (u64_sub_lt _ _)
  rw [e5]
  simp only [l1, Bool.false_eq_true, if_false]
  refine ⟨w5, st9, sa, s2, rfl, hr5, ⟨?_, k4⟩, ⟨l1, l2.trans j2, l3.trans j3, l6.trans j6⟩, ?_, ?_⟩
  · rw [ht5, ht3, ht1]; rfl
  · rw [l4]
    show verify_net (u64_sub sb.bytes_read SAMPLE_REGION) _ = _
    rw [m4]
  · rw [l5]
    show verify_net (u64_sub sb.current_done SAMPLE_REGION) _ = _
    rw [m5]

/-! ## Verification re-read in full mode -/

theorem full_chunk_pos (cfg : ScanConfig) (size : Nat) : 0 < full_chunk cfg size := by
  unfold full_chunk
  split
  · omega
  · unfold choose_chunk_auto
    split_ifs <;> omega

/-- One pass of the loop of `read_full` whose `fread` raises no error: a short
read ends the loop, a full chunk goes round. -/
theorem read_full_chunk_clean (chunk : Nat) (cfg : ScanConfig) (loc : FullLocals) (w : World)
    (st : ScanStats) (r : FreadResp) (rest : List FreadResp) (hr : w.reads = r :: rest)
    (he : r.err = false) (hf : w.ferr = false) :
    ∃ w1 : World,
      read_full_chunk chunk cfg loc w st
          = ((if (r.data.take chunk).length < chunk then ChunkOutcome.eof else ChunkOutcome.next),
              full_locals_step loc (r.data.take chunk), w1,
              full_account st (r.data.take chunk) r.dt st.current_done)
        ∧ w1.reads = rest ∧ w1.ferr = false ∧ w1.ui = w.ui ∧ w1.seeks = w.seeks
        ∧ w1.bufs = w.bufs := by
  have hr0 : ({ w with errno := 0 } : World).reads = r :: rest := hr
  unfold read_full_chunk
  simp only [fread_cons _ chunk r rest hr0]
  simp only [he, hf, Bool.or_self, Bool.false_eq_true, if_false]
  refine ⟨{ w with
    reads := rest, ferr := false, errno := 0, trace := IoCall.fread chunk :: w.trace },
    ?_, rfl, rfl, rfl, rfl, rfl⟩
  split <;> rfl

/-- The loop of `read_full` over error-free reads: full chunks `fulls`, then the
short read `last` that ends the file.  The loop is left by `break`, with the
locals folded over the chunks; no error is counted. -/
theorem read_full_loop_clean (chunk : Nat) (cfg : ScanConfig) (last : FreadResp)
    (rest : List FreadResp) (hlast : (last.data.take chunk).length < chunk)
    (helast : last.err = false) :
    ∀ (fulls : List FreadResp) (fuel : Nat) (loc : FullLocals) (w : World) (st : ScanStats),
      (∀ c ∈ fulls, ¬ (c.data.take chunk).length < chunk ∧ c.err = false) →
      w.reads = fulls ++ last :: rest → w.ferr = false → w.ui = [] → st.cancelled = false →
      fulls.length < fuel →
      ∃ (w1 : World) (st1 : ScanStats),
        read_full_loop chunk cfg fuel loc w st
            = (true,
                (fulls ++ [last]).foldl (fun l r => full_locals_step l (r.data.take chunk)) loc,
                w1, st1)
          ∧ (w1.reads = rest ∧ w1.ferr = false ∧ w1.ui = [] ∧ w1.seeks = w.seeks
              ∧ w1.bufs = w.bufs)
          ∧ st1.cancelled = false ∧ st1.consistency_errors = st.consistency_errors
          ∧ st1.read_errors = st.read_errors := by
  intro fulls
  induction fulls with
  | nil =>
    intro fuel loc w st _ hr hf hui hc hfuel
    obtain ⟨f, rfl⟩ : ∃ f, fuel = f + 1 := ⟨fuel - 1, by simp at hfuel; omega⟩
    obtain ⟨w1, e, h1, h2, h3, h4, h5⟩ := read_full_chunk_clean chunk cfg loc w st last rest hr
      helast hf
    rw [read_full_loop]
    simp only [hc, Bool.false_eq_true, if_false]
    rw [e]
    simp only [hlast, if_true]
    exact ⟨w1, _, rfl, ⟨h1, h2, h3.trans hui, h4, h5⟩, by simpa using hc, by simp, by simp⟩
  | cons c cs ih =>
    intro fuel loc w st hall hr hf hui hc hfuel
    obtain ⟨f, rfl⟩ : ∃ f, fuel = f + 1 := ⟨fuel - 1, by simp at hfuel; omega⟩
    obtain ⟨hcl, hce⟩ := hall c (List.mem_cons_self _ _)
    obtain ⟨w1, e, h1, h2, h3, h4, h5⟩ := read_full_chunk_clean chunk cfg loc w st c
      (cs ++ last :: rest) hr hce hf
    have k1 : (full_account st (c.data.take chunk) c.dt st.current_done).cancelled = false := by
      simpa using hc
    have k2 : (full_account st (c.data.take chunk) c.dt st.current_done).consistency_errors
        = st.consistency_errors := by simp
    have k3 : (full_account st (c.data.take chunk) c.dt st.current_done).read_errors
        = st.read_errors := by simp
    generalize full_account st (c.data.take chunk) c.dt st.current_done = sa at e k1 k2 k3
    rw [read_full_loop]
    simp only [hc, Bool.false_eq_true, if_false]
    rw [e]
    simp only [hcl, if_false, ui_update_nil w1 sa false (h3.trans hui)]
    obtain ⟨w2, st2, e2, ⟨g1, g2, g3, g4, g5⟩, g6, g7, g8⟩ := ih f
      (full_locals_step loc (c.data.take chunk))
      { w1 with trace := IoCall.ui_update false sa :: w1.trace } sa
      (fun x hx => hall x (List.mem_cons_of_mem _ hx)) h1 h2 (h3.trans hui) k1
      (by simp at hfuel; omega)
    rw [e2]
    exact ⟨w2, st2, rfl, ⟨g1, g2, g3, g4.trans h4, g5.trans h5⟩, g6, g7.trans k2, g8.trans k3⟩

/-- The first checksum after the loop, started with fresh locals: that of the
first 64 KiB (or fewer) of the first read, if that read delivered anything. -/
theorem full_locals_fold_first (chunk : Nat) (first : FreadResp) (more : List FreadResp)
    (hne : 0 < (first.data.take chunk).length) :
    ((first :: more).foldl (fun l r => full_locals_step l (r.data.take chunk))
        ⟨0, 0, false⟩).first_crc_set = true
      ∧ ((first :: more).foldl (fun l r => full_locals_step l (r.data.take chunk))
        ⟨0, 0, false⟩).first_crc
        = crc32_update 0
            ((first.data.take chunk).take
              (if (first.data.take chunk).length < SAMPLE_REGION then (first.data.take chunk).length
                else SAMPLE_REGION)) := by
  have keep : ∀ (l : List FreadResp) (loc : FullLocals), loc.first_crc_set = true →
      (l.foldl (fun l r => full_locals_step l (r.data.take chunk)) loc).first_crc_set = true
        ∧ (l.foldl (fun l r => full_locals_step l (r.data.take chunk)) loc).first_crc
            = loc.first_crc := by
    intro l
    induction l with
    | nil => intro loc h; exact ⟨h, rfl⟩
    | cons x xs ih =>
      intro loc h
      rw [List.foldl_cons]
      have hx : (full_locals_step loc (x.data.take chunk)).first_crc_set = true
          ∧ (full_locals_step loc (x.data.take chunk)).first_crc = loc.first_crc := by
        unfold full_locals_step
        split
        · simp [h]
        · exact ⟨h, rfl⟩
      obtain ⟨a, b⟩ := ih _ hx.1
      exact ⟨a, b.trans hx.2⟩
  rw [List.foldl_cons]
  have h1 : (full_locals_step ⟨0, 0, false⟩ (first.data.take chunk)).first_crc_set = true
      ∧ (full_locals_step ⟨0, 0, false⟩ (first.data.take chunk)).first_crc
        = crc32_update 0
            ((first.data.take chunk).take
              (if (first.data.take chunk).length < SAMPLE_REGION then (first.data.take chunk).length
                else SAMPLE_REGION)) := by
    unfold full_locals_step
    rw [if_pos hne]
    exact ⟨rfl, rfl⟩
  obtain ⟨a, b⟩ := keep more _ h1.1
  exact ⟨a, b.trans h1.2⟩

/-- The consistency check at the end of `read_full` when the re-read of the
first chunk succeeds and has the checksum of the first read. -/
theorem read_full_verify_same (cfg : ScanConfig) (loc : FullLocals) (w : World) (st : ScanStats)
    (v : FreadResp) (rest : List FreadResp) (hcc : cfg.consistency_check = true)
    (hset : loc.first_crc_set = true) (hc : st.cancelled = false) (hseek : w.seeks = [])
    (hr : w.reads = v :: rest) (hv : v.err = false) (hf : w.ferr = false)
    (hpos : 0 < (v.data.take SAMPLE_REGION).length)
    (hcrc : crc32_update 0 (v.data.take SAMPLE_REGION) = loc.first_crc) :
    ∃ w1 : World, read_full_verify cfg loc w st = (true, w1, st) ∧ w1.reads = rest := by
  have hfs : fseeko w 0 = (true, { w with trace := IoCall.fseeko 0 :: w.trace }) := by
    unfold fseeko; rw [hseek]
  have hr0 : ({ w with trace := IoCall.fseeko 0 :: w.trace } : World).reads = v :: rest := hr
  unfold read_full_verify
  rw [if_pos (by simp [hcc, hset, hc])]
  simp only [hfs, if_true]
  simp only [fread_cons _ SAMPLE_REGION v rest hr0]
  simp only [hv, hf, Bool.or_self, Bool.not_false, hpos, gt_iff_lt, decide_True, Bool.and_self,
    if_true, hcrc, ne_eq, not_true_eq_false, if_false]
  exact ⟨_, rfl, rfl⟩

/-- Full mode with the consistency check on, over error-free reads: the full
chunks `fulls`, the short read `last` that ends the file, then the re-read `v`
of the first chunk, which delivers the bytes the first read began with.
`read_full` returns true and counts no error. -/
theorem read_full_verified (size : Nat) (cfg : ScanConfig) (w : World) (st : ScanStats)
    (fulls : List FreadResp) (last v first : FreadResp) (more rest : List FreadResp)
    (hcc : cfg.consistency_check = true) (hmal : w.mallocs = []) (hseek : w.seeks = [])
    (hui : w.ui = []) (hf : w.ferr = false) (hc : st.cancelled = false)
    (hr : w.reads = fulls ++ last :: v :: rest)
    (hfull : ∀ c ∈ fulls, ¬ (c.data.take (full_chunk cfg size)).length < full_chunk cfg size
      ∧ c.err = false)
    (hlast : (last.data.take (full_chunk cfg size)).length < full_chunk cfg size)
    (helast : last.err = false) (hv : v.err = false)
    (hfirst : fulls ++ [last] = first :: more)
    (hne : 0 < (first.data.take (full_chunk cfg size)).length)
    (hsame : v.data.take SAMPLE_REGION
      = (first.data.take (full_chunk cfg size)).take
          (if (first.data.take (full_chunk cfg size)).length < SAMPLE_REGION
            then (first.data.take (full_chunk cfg size)).length else SAMPLE_REGION)) :
    ∃ (crc : Nat) (w1 : World) (st1 : ScanStats),
      read_full size cfg w st = (some crc, w1, st1)
        ∧ st1.cancelled = false ∧ st1.consistency_errors = st.consistency_errors
        ∧ st1.read_errors = st.read_errors := by
  have hec : ∃ w0 : World, ensure_chunk_cap w (full_chunk cfg size) = (true, w0)
      ∧ w0.reads = w.reads ∧ w0.ferr = w.ferr ∧ w0.ui = w.ui ∧ w0.seeks = w.seeks := by
    unfold ensure_chunk_cap malloc
    split
    · exact ⟨w, rfl, rfl, rfl, rfl, rfl⟩
    · simp only [hmal]
      exact ⟨_, rfl, rfl, rfl, rfl, rfl⟩
  obtain ⟨w0, e0, a1, a2, a3, a4⟩ := hec
  obtain ⟨w1, st1, e1, ⟨b1, b2, b3, b4, -⟩, c1, c2, c3⟩ :=
    read_full_loop_clean (full_chunk cfg size) cfg last (v :: rest) hlast helast fulls
      (w0.reads.length + 1) ⟨0, 0, false⟩ w0 st hfull (a1.trans hr) (a2.trans hf) (a3.trans hui) hc
      (by rw [a1, hr]; simp; omega)
  obtain ⟨f1, f2⟩ := full_locals_fold_first (full_chunk cfg size) first more hne
  rw [hfirst] at e1
  have hpos : 0 < (v.data.take SAMPLE_REGION).length := by
    rw [hsame, List.length_take]
    have : 0 < SAMPLE_REGION := by decide
    split <;> omega
  obtain ⟨w2, e2, -⟩ := read_full_verify_same cfg _
    { w1 with trace := IoCall.ui_update true st1 :: w1.trace } st1 v rest hcc f1 c1
    (b4.trans (a4.trans hseek)) b1 hv b2 hpos (by rw [hsame, f2])
  unfold read_full
  simp only []
  have hchunk : (if chunk_bytes_from_mode cfg.chunk_mode ≠ 0 then chunk_bytes_from_mode cfg.chunk_mode
      else choose_chunk_auto size) = full_chunk cfg size := rfl
  rw [hchunk, e0]
  simp only [Bool.not_true, Bool.false_eq_true, if_false]
  rw [e1]
  simp only [ui_update_nil w1 st1 true b3]
  rw [e2]
  simp only [c1, Bool.false_eq_true, if_false]
  exact ⟨_, _, _, rfl, c1, c2, c3⟩

/-- Sample mode on a file of at most one sample region with the consistency
check on, when both reads of the region succeed and the second delivers the
bytes of the first: `read_sample` returns true and counts no error. -/
theorem read_sample_verified_small (size : Nat) (cfg : ScanConfig) (w : World) (st : ScanStats)
    (r1 r2 : FreadResp) (rest : List FreadResp)
    (hsize : ¬ size > SAMPLE_REGION) (hcc : cfg.consistency_check = true)
    (hbuf : ¬ w.bufs.sample_cap < SAMPLE_REGION) (hseek : w.seeks = []) (hui : w.ui = [])
    (hf : w.ferr = false) (hr : w.reads = r1 :: r2 :: rest)
    (he1 : r1.err = false) (he2 : r2.err = false)
    (hsame : r2.data.take (if size < SAMPLE_REGION then size else SAMPLE_REGION)
      = r1.data.take (if size < SAMPLE_REGION then size else SAMPLE_REGION))
    (hc : st.cancelled = false) :
    ∃ (crc : Nat) (w1 : World) (st1 : ScanStats),
      read_sample size cfg w st = (some crc, w1, st1)
        ∧ st1.cancelled = false ∧ st1.consistency_errors = st.consistency_errors
        ∧ st1.read_errors = st.read_errors := by
  unfold read_sample
  simp only [hbuf, if_false]
  generalize (if size < SAMPLE_REGION then size else SAMPLE_REGION) = want at hsame ⊢
  obtain ⟨w1, e1, hr1, hf1, hu1, hs1, -, -⟩ := read_region_retry_ok_trace 0 want cfg
    w st r1 (r2 :: rest) hseek hr he1 hf
  have k1 : (region_account st (r1.data.take want) r1.dt 0).cancelled = false := by
    simpa using hc
  have k2 : (region_account st (r1.data.take want) r1.dt 0).consistency_errors
      = st.consistency_errors := by simp
  have k3 : (region_account st (r1.data.take want) r1.dt 0).read_errors
      = st.read_errors := by simp
  generalize region_account st (r1.data.take want) r1.dt 0 = sa at e1 k1 k2 k3
  rw [e1]
  simp only [ui_update_nil w1 _ false (hu1.trans hui), hcc, if_true]
  rw [if_neg (by simp [k1])]
  obtain ⟨w3, e3, -, -, -, -, -, -⟩ := read_region_retry_ok_trace 0 want cfg
    { w1 with trace := IoCall.ui_update false sa :: w1.trace }
    { sa with
      current_done := u64_sub sa.current_done want
      bytes_read := u64_sub sa.bytes_read want }
    r2 rest hs1 hr1 he2 hf1
  have j1 : (region_account
      { sa with
        current_done := u64_sub sa.current_done want
        bytes_read := u64_sub sa.bytes_read want }
      (r2.data.take want) r2.dt 0).cancelled = false := by simpa using k1
  have j2 : (region_account
      { sa with
        current_done := u64_sub sa.current_done want
        bytes_read := u64_sub sa.bytes_read want }
      (r2.data.take want) r2.dt 0).consistency_errors = st.consistency_errors := by
    simpa using k2
  have j3 : (region_account
      { sa with
        current_done := u64_sub sa.current_done want
        bytes_read := u64_sub sa.bytes_read want }
      (r2.data.take want) r2.dt 0).read_errors = st.read_errors := by
    simpa using k3
  generalize region_account
      { sa with
        current_done := u64_sub sa.current_done want
        bytes_read := u64_sub sa.bytes_read want }
      (r2.data.take want) r2.dt 0 = sb at e3 j1 j2 j3
  rw [e3]
  simp only [hsame, ne_eq, not_true_eq_false, if_false, hsize]
  rw [if_neg (by simp [j1])]
  exact ⟨_, _, _, rfl, j1, j2, j3⟩

/-! ## Monotone counters -/

/-- Across a run every counter other than `bytes_read` (`dirs_total`,
`files_total`, `files_read`, `open_errors`, `read_errors`,
`read_errors_transient`, `stat_errors`, `path_errors`, `consistency_errors`,
`skipped_dirs`, `skipped_files`) is non-decreasing, for every policy and every
outcome of the underlying calls: the run returns, its final state is a later
state of the initial one, and the states `new` the callback was shown during
the run lie between the two, each a later state of the ones shown before it.
When the consistency check is off or every file is read in full mode, and the
64-bit byte total cannot wrap, the same holds with `bytes_read` included. -/
theorem scan_engine_run_counters_mono (root : CStr) (cfg : ScanConfig) (w : World)
    (st : ScanStats) :
    ∃ (b : Bool) (w1 : World) (st1 : ScanStats) (new : List ScanStats),
      scan_engine_run root cfg w st = some (b, w1, st1)
        ∧ seen w1.trace = new ++ seen w.trace
        ∧ (Mono false false st st1
            ∧ (∀ s ∈ new, Mono false false st s ∧ Mono false false s st1)
            ∧ new.Pairwise (fun later earlier => Mono false false earlier later))
        ∧ ((cfg.consistency_check = false ∨ cfg.full_read = true) → NoWrap w st →
            Mono true false st st1
              ∧ (∀ s ∈ new, Mono true false st s ∧ Mono true false s st1)
              ∧ new.Pairwise (fun later earlier => Mono true false earlier later)) := by
  obtain ⟨⟨b, w1, st1⟩, hr⟩ := Option.isSome_iff_exists.1 (scan_engine_run_isSome root cfg w st)
  have s0 := (scan_engine_run_trav false root cfg (fun h => by simp at h) w st b w1 st1 hr).step
  obtain ⟨new, e, hm, hp⟩ := s0.obs (fun h => by simp at h)
  refine ⟨b, w1, st1, new, hr, e, ⟨s0.mono (fun h => by simp at h), hm, hp⟩, ?_⟩
  intro hcfg hw
  have s1 := (scan_engine_run_trav true root cfg (fun _ => hcfg) w st b w1 st1 hr).step
  obtain ⟨new1, e1, hm1, hp1⟩ := s1.obs (fun _ => hw)
  have hnew : new1 = new := List.append_cancel_right (e1.symm.trans e)
  subst hnew
  exact ⟨s1.mono (fun _ => hw), hm1, hp1⟩

/-- C11: `bytes_read` is not monotone under the consistency check of sample
mode, because the rollback is applied twice.  Every other counter is
non-decreasing across any run, and so is `bytes_read` when the consistency
check is off or files are read in full mode (first part).  But for the 100 MiB
file of the specification's scenario, sampled with the consistency check on,
every read delivering 64 KiB without error, the callback is shown
`bytes_read = 65536` after the first read of the first region, and
`read_sample` returns with `bytes_read = 0`: the count of the first read is
taken back before the re-read and once more after it (second part). -/
theorem C11_bytes_read_falls_after_verification :
    (∀ (root : CStr) (cfg : ScanConfig) (w : World) (st : ScanStats),
        ∃ (b : Bool) (w1 : World) (st1 : ScanStats) (new : List ScanStats),
          scan_engine_run root cfg w st = some (b, w1, st1)
            ∧ seen w1.trace = new ++ seen w.trace
            ∧ (Mono false false st st1
                ∧ (∀ s ∈ new, Mono false false st s ∧ Mono false false s st1)
                ∧ new.Pairwise (fun later earlier => Mono false false earlier later))
            ∧ ((cfg.consistency_check = false ∨ cfg.full_read = true) → NoWrap w st →
                Mono true false st st1
                  ∧ (∀ s ∈ new, Mono true false st s ∧ Mono true false s st1)
                  ∧ new.Pairwise (fun later earlier => Mono true false earlier later)))
      ∧ ∃ s ∈ seen (read_sample (100 * 1024 * 1024) (cfg_with 0 true) four_blocks_world
            big_file_stats).2.1.trace,
          s.bytes_read = 65536
            ∧ (read_sample (100 * 1024 * 1024) (cfg_with 0 true) four_blocks_world
                big_file_stats).2.2.bytes_read = 0
            ∧ ¬ Mono true false s
                (read_sample (100 * 1024 * 1024) (cfg_with 0 true) four_blocks_world
                  big_file_stats).2.2 := by
  refine ⟨fun root cfg w st => scan_engine_run_counters_mono root cfg w st, ?_⟩
  have hb : big_file_stats.bytes_read = 0 := rfl
  have n : (zero_block.data.take SAMPLE_REGION).length = SAMPLE_REGION := by
    simp [zero_block]
  obtain ⟨w1, st1, s1, s2, e, -, ⟨ht, hs1⟩, -, l4, -⟩ :=
    read_sample_verified (100 * 1024 * 1024) (cfg_with 0 true) four_blocks_world big_file_stats
      zero_block zero_block zero_block zero_block [] (by decide) rfl (by decide) rfl rfl rfl rfl
      rfl rfl rfl rfl rfl rfl rfl (by decide) (by decide)
  rw [e]
  have h1 : s1.bytes_read = 65536 := by
    rw [hs1, n, hb]
    decide
  have h2 : st1.bytes_read = 0 := by
    rw [l4, n, hb, verify_net_full 0 (by norm_num), verify_net_full 0 (by norm_num)]
  refine ⟨s1, ?_, h1, h2, ?_⟩
  · show s1 ∈ seen w1.trace
    rw [ht]
    simp
  · intro hm
    have h3 : s1.bytes_read ≤ st1.bytes_read := hm.2.2.1 rfl
    rw [h1, h2] at h3
    omega

/-- C12: `files_read <= files_total` is an invariant of the traversal.  From any
state in which it holds (the zeroed stats in particular), for every directory
tree, policy, outcome of the underlying calls and answer of the callback,
`scan_dir_recursive` returns, and the invariant holds in the state it leaves
and in every state the callback was shown on the way. -/
theorem C12_files_read_le_files_total (fuel : Nat) (path : CStr) (depth : Nat)
    (cfg : ScanConfig) (w : World) (st : ScanStats) (hfuel : 129 ≤ fuel + depth)
    (h0 : st.files_read ≤ st.files_total)
    (hseen : ∀ s ∈ seen w.trace, s.files_read ≤ s.files_total) :
    ∃ (b : Bool) (w1 : World) (st1 : ScanStats),
      scan_dir_recursive fuel path depth cfg w st = some (b, w1, st1)
        ∧ st1.files_read ≤ st1.files_total
        ∧ ∀ s ∈ seen w1.trace, s.files_read ≤ s.files_total := by
  obtain ⟨⟨b, w1, st1⟩, hr⟩ :=
    Option.isSome_iff_exists.1 (scan_dir_recursive_isSome fuel path depth cfg w st hfuel)
  have t := scan_dir_recursive_trav false cfg (fun h => by simp at h) fuel path depth w st
    b w1 st1 hr
  obtain ⟨k1, k2⟩ := t.files ⟨hseen, by omega⟩
  exact ⟨b, w1, st1, hr, by omega, k1⟩

/-- Witness for C12: the scan of a root with two small files, on zeroed stats
and an empty trace. -/
theorem C12_files_read_le_files_total_witness :
    ∃ (b : Bool) (w1 : World) (st1 : ScanStats),
      scan_dir_recursive 129 "sdmc:/".toList 0 (cfg_with 0 true) (two_files_world [])
          ScanStats.zero = some (b, w1, st1)
        ∧ st1.files_read ≤ st1.files_total
        ∧ ∀ s ∈ seen w1.trace, s.files_read ≤ s.files_total :=
  C12_files_read_le_files_total 129 "sdmc:/".toList 0 (cfg_with 0 true) (two_files_world [])
    ScanStats.zero (by decide) (by decide) (fun s hs => by simp [two_files_world, world_reads, seen] at hs)

/-- Sample mode on a file larger than the sample region without the consistency
check, when the two reads succeed: both regions are counted. -/
theorem read_sample_plain (size : Nat) (cfg : ScanConfig) (w : World) (st : ScanStats)
    (r1 r2 : FreadResp) (rest : List FreadResp)
    (hsize : size > SAMPLE_REGION) (hcc : cfg.consistency_check = false)
    (hbuf : ¬ w.bufs.sample_cap < SAMPLE_REGION) (hseek : w.seeks = []) (hui : w.ui = [])
    (hf : w.ferr = false) (hr : w.reads = r1 :: r2 :: rest)
    (he1 : r1.err = false) (he2 : r2.err = false)
    (hc : st.cancelled = false) (hb : st.bytes_read < 2 ^ 64) (hd : st.current_done < 2 ^ 64) :
    (read_sample size cfg w st).1.isSome = true
      ∧ (read_sample size cfg w st).2.2.bytes_read
          = u64 (u64 (st.bytes_read + (r1.data.take SAMPLE_REGION).length)
              + (r2.data.take SAMPLE_REGION).length)
      ∧ (read_sample size cfg w st).2.2.current_done
          = u64 (u64 (st.current_done + (r1.data.take SAMPLE_REGION).length)
              + (r2.data.take SAMPLE_REGION).length) := by
  have hwant : ¬ size < SAMPLE_REGION := by omega
  unfold read_sample
  simp only [hbuf, if_false, hwant]
  obtain ⟨w1, e1, hr1, hf1, hu1, hs1, -, -⟩ := read_region_retry_ok_trace 0 SAMPLE_REGION cfg
    w st r1 (r2 :: rest) hseek hr he1 hf
  have k1 : (region_account st (r1.data.take SAMPLE_REGION) r1.dt 0).cancelled = false := by
    simpa using hc
  have k4 := region_account_bytes_u64 st (r1.data.take SAMPLE_REGION) r1.dt 0 hb
  have k5 := region_account_done_u64 st (r1.data.take SAMPLE_REGION) r1.dt 0 hd
  generalize region_account st (r1.data.take SAMPLE_REGION) r1.dt 0 = sa at e1 k1 k4 k5
  rw [e1]
  simp only [ui_update_nil w1 _ false (hu1.trans hui), hcc, Bool.false_eq_true, if_false]
  rw [if_neg (by simp [k1])]
  simp only [hsize, if_true]
  unfold read_sample_last
  simp only [hsize, if_true]
  obtain ⟨w3, e3, -, -, hu3, -, -, -⟩ := read_region_retry_ok_trace (size - SAMPLE_REGION)
    SAMPLE_REGION cfg { w1 with trace := IoCall.ui_update false sa :: w1.trace } sa
    r2 rest hs1 hr1 he2 hf1
  have j1 : (region_account sa (r2.data.take SAMPLE_REGION) r2.dt (size - SAMPLE_REGION)).cancelled
      = false := by simpa using k1
  have j4 := region_account_bytes_u64 sa (r2.data.take SAMPLE_REGION) r2.dt
    (size - SAMPLE_REGION) (by rw [k4]; exact u64_lt _)
  have j5 := region_account_done_u64 sa (r2.data.take SAMPLE_REGION) r2.dt
    (size - SAMPLE_REGION) (by rw [k5]; exact u64_lt _)
  generalize region_account sa (r2.data.take SAMPLE_REGION) r2.dt (size - SAMPLE_REGION) = sb
    at e3 j1 j4 j5
  rw [e3]
  have hu3b : w3.ui = [] := by rw [hu3]; exact hu1.trans hui
  simp only [ui_update_nil w3 _ false hu3b, hcc, Bool.false_eq_true, if_false]
  rw [if_neg (by simp [j1])]
  simp only []
  rw [if_neg (by simp [j1])]
  exact ⟨rfl, by rw [j4, k4], by rw [j5, k5]⟩

/-- C13 (as the code behaves): in sample mode with the consistency check on, an
error-free, unchanged file larger than the sample region is read successfully
with a net change of `bytes_read` and `current_done` of 0, not of the sampled
span of 131072 bytes: the rollback `-= want` is done both before and after each
verification re-read.  So the file completes with `current_done` where it was
and `current_planned` unchanged.  With the same policy except for the
consistency check (`cfg0`) the same reads add the two regions (131072 bytes). -/
theorem C13_verified_sample_counts_no_bytes (size : Nat) (cfg cfg0 : ScanConfig) (w : World)
    (st : ScanStats) (r1 r2 r3 r4 : FreadResp) (rest : List FreadResp)
    (hsize : size > SAMPLE_REGION) (hcc : cfg.consistency_check = true)
    (hcfg0 : cfg0 = { cfg with consistency_check := false })
    (hbuf : ¬ w.bufs.sample_cap < SAMPLE_REGION) (hseek : w.seeks = []) (hui : w.ui = [])
    (hf : w.ferr = false) (hr : w.reads = r1 :: r2 :: r3 :: r4 :: rest)
    (he1 : r1.err = false) (he2 : r2.err = false) (he3 : r3.err = false) (he4 : r4.err = false)
    (hlen1 : SAMPLE_REGION ≤ r1.data.length) (hlen3 : SAMPLE_REGION ≤ r3.data.length)
    (hsame1 : r2.data.take SAMPLE_REGION = r1.data.take SAMPLE_REGION)
    (hsame3 : r4.data.take SAMPLE_REGION = r3.data.take SAMPLE_REGION)
    (hc : st.cancelled = false) (hb : st.bytes_read + 2 * SAMPLE_REGION < 2 ^ 64)
    (hd : st.current_done + 2 * SAMPLE_REGION < 2 ^ 64) :
    ((read_sample size cfg w st).1.isSome = true
        ∧ (read_sample size cfg w st).2.2.bytes_read = st.bytes_read
        ∧ (read_sample size cfg w st).2.2.current_done = st.current_done
        ∧ (read_sample size cfg w st).2.2.current_planned = st.current_planned)
      ∧ ((read_sample size cfg0 w st).1.isSome = true
        ∧ (read_sample size cfg0 w st).2.2.bytes_read = st.bytes_read + 2 * SAMPLE_REGION
        ∧ (read_sample size cfg0 w st).2.2.current_done
            = st.current_done + 2 * SAMPLE_REGION) := by
  have n1 : (r1.data.take SAMPLE_REGION).length = SAMPLE_REGION := by
    rw [List.length_take]; omega
  have n3 : (r3.data.take SAMPLE_REGION).length = SAMPLE_REGION := by
    rw [List.length_take]; omega
  have n2 : (r2.data.take SAMPLE_REGION).length = SAMPLE_REGION := by rw [hsame1, n1]
  have hb0 : st.bytes_read < 2 ^ 64 := by omega
  have hd0 : st.current_done < 2 ^ 64 := by omega
  constructor
  · obtain ⟨w1, st1, s1, s2, e, -, -, ⟨-, -, -, l6⟩, l4, l5⟩ := read_sample_verified size cfg w st
      r1 r2 r3 r4 rest hsize hcc hbuf hseek hui hf hr he1 he2 he3 he4 hsame1 hsame3 hc hb0 hd0
    rw [e]
    refine ⟨rfl, ?_, ?_, l6⟩
    · show st1.bytes_read = _
      rw [l4, n1, n3, verify_net_full _ hb0, verify_net_full _ hb0]
    · show st1.current_done = _
      rw [l5, n1, n3, verify_net_full _ hd0, verify_net_full _ hd0]
  · obtain ⟨p1, p2, p3⟩ := read_sample_plain size cfg0 w st
      r1 r2 (r3 :: r4 :: rest) hsize (by rw [hcfg0]) hbuf hseek hui hf hr he1 he2 hc hb0 hd0
    refine ⟨p1, ?_, ?_⟩
    · rw [p2, n1, n2, u64_of_lt (st.bytes_read + SAMPLE_REGION) (by omega),
        u64_of_lt _ (by omega)]
      omega
    · rw [p3, n1, n2, u64_of_lt (st.current_done + SAMPLE_REGION) (by omega),
        u64_of_lt _ (by omega)]
      omega

/-- Witness for C13, the failing input: the 100 MiB file of the specification's
scenario, sampled with the consistency check on, every read delivering 64 KiB
without error.  It is planned with 131072 bytes and completes with
`current_done = 0` and `bytes_read = 0`; without the check both are 131072. -/
theorem C13_verified_sample_counts_no_bytes_witness :
    (big_file_stats.current_planned = 131072 ∧ big_file_stats.current_done = 0
        ∧ big_file_stats.bytes_read = 0 ∧ 2 * SAMPLE_REGION = 131072)
      ∧ (((read_sample (100 * 1024 * 1024) (cfg_with 0 true) four_blocks_world
              big_file_stats).1.isSome = true
          ∧ (read_sample (100 * 1024 * 1024) (cfg_with 0 true) four_blocks_world
              big_file_stats).2.2.bytes_read = big_file_stats.bytes_read
          ∧ (read_sample (100 * 1024 * 1024) (cfg_with 0 true) four_blocks_world
              big_file_stats).2.2.current_done = big_file_stats.current_done
          ∧ (read_sample (100 * 1024 * 1024) (cfg_with 0 true) four_blocks_world
              big_file_stats).2.2.current_planned = big_file_stats.current_planned)
        ∧ ((read_sample (100 * 1024 * 1024) (cfg_with 0 false) four_blocks_world
              big_file_stats).1.isSome = true
          ∧ (read_sample (100 * 1024 * 1024) (cfg_with 0 false) four_blocks_world
              big_file_stats).2.2.bytes_read = big_file_stats.bytes_read + 2 * SAMPLE_REGION
          ∧ (read_sample (100 * 1024 * 1024) (cfg_with 0 false) four_blocks_world
              big_file_stats).2.2.current_done
              = big_file_stats.current_done + 2 * SAMPLE_REGION)) :=
  ⟨by decide,
    C13_verified_sample_counts_no_bytes (100 * 1024 * 1024) (cfg_with 0 true) (cfg_with 0 false)
      four_blocks_world big_file_stats zero_block zero_block zero_block zero_block []
      (by decide) rfl rfl (by decide)
      rfl rfl rfl rfl rfl rfl rfl rfl (by simp [zero_block]) (by simp [zero_block]) rfl rfl rfl
      (by decide) (by decide)⟩

/-! ## The return value of the engine -/

/-- The return value of `scan_dir_recursive` is `!st->cancelled`. -/
theorem scan_dir_recursive_ret (fuel : Nat) (path : CStr) (depth : Nat) (cfg : ScanConfig)
    (w : World) (st : ScanStats) (b : Bool) (w1 : World) (st1 : ScanStats)
    (h : scan_dir_recursive fuel path depth cfg w st = some (b, w1, st1)) :
    b = !st1.cancelled := by
  unfold scan_dir_recursive at h
  by_cases hc : st.cancelled = true
  · simp only [hc, if_true, Option.some.injEq, Prod.mk.injEq] at h
    obtain ⟨rfl, -, rfl⟩ := h
    simp [hc]
  · have hc0 : st.cancelled = false := by simpa using hc
    simp only [hc0, Bool.false_eq_true, if_false] at h
    split at h
    · simp only [Option.some.injEq, Prod.mk.injEq] at h
      obtain ⟨rfl, -, rfl⟩ := h
      simp [hc0]
    · split at h
      · simp only [Option.some.injEq, Prod.mk.injEq] at h
        obtain ⟨rfl, -, rfl⟩ := h
        simp [hc0]
      · cases fuel with
        | zero => simp at h
        | succ fuel1 =>
          simp only [] at h
          split at h
          · simp only [Option.some.injEq, Prod.mk.injEq] at h
            obtain ⟨rfl, -, rfl⟩ := h
            simp [hc0]
          · split at h
            · simp at h
            · simp only [Option.some.injEq, Prod.mk.injEq] at h
              obtain ⟨rfl, -, rfl⟩ := h
              rfl

/-- C14 (as the code behaves): once the scan buffers are allocated,
`scan_engine_run` returns the negation of the cancellation flag it leaves, so it
returns false whenever the callback has cancelled the scan, and not only on a
fatal setup failure as `scan_engine.h` documents. -/
theorem C14_run_returns_not_cancelled (root : CStr) (cfg : ScanConfig) (w : World)
    (st : ScanStats) (halloc : (scan_buffers_init_default w).1 = true) :
    ∃ (w1 : World) (st1 : ScanStats),
      scan_engine_run root cfg w st = some (!st1.cancelled, w1, st1) := by
  have hsome := scan_engine_run_isSome root cfg w st
  obtain ⟨⟨b, w1, st1⟩, hr⟩ := Option.isSome_iff_exists.1 hsome
  refine ⟨w1, st1, ?_⟩
  rw [hr]
  unfold scan_engine_run at hr
  generalize hb : scan_buffers_init_default w = r at hr halloc
  obtain ⟨ok, w0⟩ := r
  simp only at halloc
  subst halloc
  simp only [Bool.not_true, Bool.false_eq_true, if_false] at hr
  split at hr
  · simp at hr
  · rename_i b2 w2 st2 heq
    simp only [Option.some.injEq, Prod.mk.injEq] at hr
    obtain ⟨rfl, -, rfl⟩ := hr
    rw [scan_dir_recursive_ret _ _ _ _ _ _ _ _ _ heq]

/-- Witness for C14, the failing input: the root holds two files, the buffers
are allocated and the callback asks to cancel at its first invocation; the
engine returns false. -/
theorem C14_run_returns_not_cancelled_witness :
    (scan_buffers_init_default (two_files_world [true])).1 = true
      ∧ (∃ (w1 : World) (st1 : ScanStats),
          scan_engine_run "sdmc:/".toList (cfg_with 0 false) (two_files_world [true])
            ScanStats.zero = some (!st1.cancelled, w1, st1))
      ∧ (scan_engine_run "sdmc:/".toList (cfg_with 0 false) (two_files_world [true])
            ScanStats.zero).map (fun r => (r.1, r.2.2.cancelled)) = some (false, true) :=
  ⟨by decide!,
    C14_run_returns_not_cancelled "sdmc:/".toList (cfg_with 0 false) (two_files_world [true])
      ScanStats.zero (by decide!),
    by decide!⟩

/-! ## Cancellation -/

/-- What `quiet` says of a trace: whenever a `stat`, `opendir` or `fopen` is in
it, no callback invocation older than that call has left the flag set. -/
theorem quiet_iff (t : List IoCall) :
    quiet t = true ↔
      ∀ (newer older : List IoCall) (e : IoCall), t = newer ++ e :: older → e.is_cancel = true →
        ∀ c ∈ newer, c.is_fs = false := by
  induction t with
  | nil =>
    simp only [quiet, true_iff]
    intro newer older e h
    simp at h
  | cons x t ih =>
    simp only [quiet, Bool.and_eq_true, Bool.or_eq_true, Bool.not_eq_true', ih]
    constructor
    · rintro ⟨hx, ht⟩ newer older e hsplit he c hc
      cases newer with
      | nil => simp at hc
      | cons y ys =>
        simp only [List.cons_append, List.cons.injEq] at hsplit
        obtain ⟨rfl, rfl⟩ := hsplit
        rcases List.mem_cons.1 hc with rfl | hc
        · rcases hx with hx | hx
          · exact hx
          · have : (ys ++ e :: older).any IoCall.is_cancel = true := by
              simp only [List.any_append, List.any_cons, he, Bool.true_or, Bool.or_true]
            rw [this] at hx
            exact absurd hx (by simp)
        · exact ht ys older e rfl he c hc
    · intro h
      refine ⟨?_, ?_⟩
      · by_cases hfs : x.is_fs = true
        · right
          rw [Bool.eq_false_iff]
          intro hany
          rw [List.any_eq_true] at hany
          obtain ⟨e, hmem, he⟩ := hany
          obtain ⟨s, u, rfl⟩ := List.append_of_mem hmem
          have := h (x :: s) u e rfl he x (List.mem_cons_self _ _)
          rw [hfs] at this
          exact absurd this (by simp)
        · left
          simpa using hfs
      · intro newer older e hsplit he c hc
        exact h (x :: newer) older e (by rw [hsplit]; rfl) he c (List.mem_cons_of_mem _ hc)

/-- C15: cancellation stops new work.  In the trace of a run (newest call
first), once a callback invocation `e` has left `st->cancelled` set, none of the
calls `newer` than it is a `stat`, `opendir` or `fopen`: no sibling and no
descendant is touched for the remainder of the run, wherever the flag was set.
The run may continue an earlier trace `w.trace` that is itself of this kind and
in which a cancelling callback means that the flag is set. -/
theorem C15_cancellation_stops_new_work (root : CStr) (cfg : ScanConfig) (w : World)
    (st : ScanStats) (hq : quiet w.trace = true)
    (hc : w.trace.any IoCall.is_cancel = true → st.cancelled = true) :
    ∃ (b : Bool) (w1 : World) (st1 : ScanStats),
      scan_engine_run root cfg w st = some (b, w1, st1)
        ∧ ∀ (newer older : List IoCall) (e : IoCall), w1.trace = newer ++ e :: older →
            e.is_cancel = true → ∀ c ∈ newer, c.is_fs = false := by
  obtain ⟨⟨b, w1, st1⟩, hr⟩ := Option.isSome_iff_exists.1 (scan_engine_run_isSome root cfg w st)
  have t := (scan_engine_run_trav false root cfg (fun h => by simp at h) w st b w1 st1 hr).step
  exact ⟨b, w1, st1, hr, (quiet_iff _).1 (t.calm hq hc).1⟩

/-- Witness for C15: the root holds the files `f` and `g`; the callback asks to
cancel at its third invocation, which is the one `read_full` makes after the
last chunk of `f`.  The trace ends there: `g` is never passed to `stat`. -/
theorem C15_cancellation_stops_new_work_witness :
    (∃ (b : Bool) (w1 : World) (st1 : ScanStats),
        scan_engine_run "sdmc:/".toList (cfg_with 0 false) (two_files_world [false, false, true])
            ScanStats.zero = some (b, w1, st1)
          ∧ ∀ (newer older : List IoCall) (e : IoCall), w1.trace = newer ++ e :: older →
              e.is_cancel = true → ∀ c ∈ newer, c.is_fs = false)
      ∧ trace_view (scan_engine_run "sdmc:/".toList (cfg_with 0 false)
            (two_files_world [false, false, true]) ScanStats.zero)
          = some ["opendir sdmc:/".toList, "callback".toList, "stat sdmc://f".toList,
              "callback".toList, "fopen sdmc://f".toList, "fread".toList,
              "callback: cancel".toList] :=
  ⟨C15_cancellation_stops_new_work "sdmc:/".toList (cfg_with 0 false)
      (two_files_world [false, false, true]) ScanStats.zero rfl (fun h => by simp [two_files_world, world_reads] at h),
    by decide!⟩

/-! ## Directory open failure -/

/-- After `fail_push_unique` on a list with a free slot, the first 250 bytes of
a non-empty path are among the live entries. -/
theorem fail_push_unique_mem (st : ScanStats) (p : CStr) (hp : p ≠ [])
    (hlen : st.fail_paths.length = FAIL_MAX) (hcnt : st.fail_count < FAIL_MAX) :
    p.take 250 ∈ fail_live (fail_push_unique st p) := by
  have hlive : (fail_live st).length = st.fail_count := by
    simp [fail_live]; omega
  rw [(fail_push_unique_live st p hlen (by omega)).1, if_neg hp]
  have hle : (push_new (fail_live st) (p.take 250)).length ≤ FAIL_MAX := by
    unfold push_new
    split
    · omega
    · simp; omega
  rw [List.take_of_length_le hle]
  unfold push_new
  split
  · assumption
  · simp

/-- The failure branch of `opendir` in `scan_dir_recursive`. -/
theorem scan_dir_recursive_opendir_failed (fuel : Nat) (path : CStr) (depth : Nat)
    (cfg : ScanConfig) (w : World) (st : ScanStats) (e : Int)
    (hc : st.cancelled = false) (hd : depth ≤ 128) (hs : should_skip_dir path cfg = false)
    (hopen : w.dirs path = Except.error e) :
    scan_dir_recursive (fuel + 1) path depth cfg w st
      = some (true, { w with trace := IoCall.opendir path :: w.trace, errno := e },
          fail_push_unique
            (err_push
              (first_fail_capture { st with open_errors := st.open_errors + 1 }
                (some "OPEN_DIR".toList) (some path) 0 0 e (some "opendir".toList))
              (fail_msg "opendir".toList
                { w with trace := IoCall.opendir path :: w.trace, errno := e } path))
            path) := by
  rw [scan_dir_recursive]
  simp only [hc, Bool.false_eq_true, if_false, show ¬ depth > 128 by omega, hs, hopen]

/-- C16: a directory that fails to open is recorded and skipped without stopping
the scan.  When `opendir` fails for a directory (not cancelled, depth at most
128, not filtered), `scan_dir_recursive` returns true, `open_errors` grows by
exactly 1 and no other counter changes; if no failure was captured before, the
first failure has kind `"OPEN_DIR"`, the path of the directory (as `"%.250s"`
stores it) and the `errno` of `opendir`; and if fewer than 5 failing paths were
recorded, the (non-empty) path is among them, again in its stored form, which
is the path itself when it has at most 250 bytes. -/
theorem C16_opendir_failure_recorded_and_skipped (fuel : Nat) (path : CStr) (depth : Nat)
    (cfg : ScanConfig) (w : World) (st : ScanStats) (e : Int)
    (hc : st.cancelled = false) (hd : depth ≤ 128) (hs : should_skip_dir path cfg = false)
    (hopen : w.dirs path = Except.error e) (hlen : st.fail_paths.length = FAIL_MAX) :
    ∃ (w1 : World) (st1 : ScanStats),
      scan_dir_recursive (fuel + 1) path depth cfg w st = some (true, w1, st1)
        ∧ w1.trace = IoCall.opendir path :: w.trace
        ∧ st1.open_errors = st.open_errors + 1
        ∧ st1.cancelled = false
        ∧ [st1.dirs_total, st1.files_total, st1.files_read, st1.bytes_read, st1.read_errors,
            st1.read_errors_transient, st1.stat_errors, st1.path_errors, st1.consistency_errors,
            st1.skipped_dirs, st1.skipped_files]
          = [st.dirs_total, st.files_total, st.files_read, st.bytes_read, st.read_errors,
            st.read_errors_transient, st.stat_errors, st.path_errors, st.consistency_errors,
            st.skipped_dirs, st.skipped_files]
        ∧ (st.first_fail_set = false →
            st1.first_fail_set = true ∧ st1.first_fail_kind = "OPEN_DIR".toList
              ∧ st1.first_fail_path = path.take 250 ∧ st1.first_fail_errno = e)
        ∧ (st.fail_count < FAIL_MAX → path ≠ [] → path.take 250 ∈ fail_live st1)
        ∧ (path.length ≤ 250 → path.take 250 = path) := by
  refine ⟨_, _, scan_dir_recursive_opendir_failed fuel path depth cfg w st e hc hd hs hopen,
    rfl, ?_, ?_, ?_, ?_, ?_, ?_⟩
  · simp
  · simp [hc]
  · simp
  · intro hset
    simp [first_fail_capture, hset]
  · intro hcnt hp
    apply fail_push_unique_mem _ _ hp
    · simpa using hlen
    · simpa using hcnt
  · intro h
    exact List.take_of_length_le h

/-- Witness for C16: on zeroed stats, `opendir` of `sdmc://a` fails with
`EACCES`. -/
theorem C16_opendir_failure_recorded_and_skipped_witness :
    ∃ (w1 : World) (st1 : ScanStats),
      scan_dir_recursive (128 + 1) "sdmc://a".toList 1 (cfg_with 0 false)
          { world_reads [] with dirs := fun _ => Except.error 13 } ScanStats.zero
        = some (true, w1, st1)
        ∧ w1.trace = IoCall.opendir "sdmc://a".toList
            :: ({ world_reads [] with dirs := fun _ => Except.error 13 } : World).trace
        ∧ st1.open_errors = ScanStats.zero.open_errors + 1
        ∧ st1.cancelled = false
        ∧ [st1.dirs_total, st1.files_total, st1.files_read, st1.bytes_read, st1.read_errors,
            st1.read_errors_transient, st1.stat_errors, st1.path_errors, st1.consistency_errors,
            st1.skipped_dirs, st1.skipped_files]
          = [ScanStats.zero.dirs_total, ScanStats.zero.files_total, ScanStats.zero.files_read,
            ScanStats.zero.bytes_read, ScanStats.zero.read_errors,
            ScanStats.zero.read_errors_transient, ScanStats.zero.stat_errors,
            ScanStats.zero.path_errors, ScanStats.zero.consistency_errors,
            ScanStats.zero.skipped_dirs, ScanStats.zero.skipped_files]
        ∧ (ScanStats.zero.first_fail_set = false →
            st1.first_fail_set = true ∧ st1.first_fail_kind = "OPEN_DIR".toList
              ∧ st1.first_fail_path = "sdmc://a".toList.take 250 ∧ st1.first_fail_errno = 13)
        ∧ (ScanStats.zero.fail_count < FAIL_MAX → "sdmc://a".toList ≠ [] →
            "sdmc://a".toList.take 250 ∈ fail_live st1)
        ∧ ("sdmc://a".toList.length ≤ 250 → "sdmc://a".toList.take 250 = "sdmc://a".toList) :=
  C16_opendir_failure_recorded_and_skipped 128 "sdmc://a".toList 1 (cfg_with 0 false)
    { world_reads [] with dirs := fun _ => Except.error 13 } ScanStats.zero 13
    rfl (by decide) (by decide!) rfl rfl

/-- C17: with the consistency check on, re-reading an unchanged region never
raises a consistency error.  On a stream without pending error, with every
`fseeko` succeeding, no read raising an error and the callback never asking to
cancel: (1) in sample mode on a file of at most 64 KiB, if the second read of
the region delivers the bytes of the first, (2) in sample mode on a larger
file, if this holds for the first and for the last region, and (3) in full
mode on a non-empty file read as the full chunks `fulls` and the final short
read `last`, if the re-read `v` delivers the bytes the first read began with,
the read of the file succeeds, and `consistency_errors` and `read_errors` are
what they were. -/
theorem C17_unchanged_reread_no_consistency_error (size : Nat) (cfg : ScanConfig) (w : World)
    (st : ScanStats) (r1 r2 r3 r4 : FreadResp) (rest : List FreadResp)
    (fulls : List FreadResp) (last v first : FreadResp) (more : List FreadResp)
    (hcc : cfg.consistency_check = true) (hseek : w.seeks = []) (hui : w.ui = [])
    (hf : w.ferr = false) (hc : st.cancelled = false) :
    (¬ size > SAMPLE_REGION → ¬ w.bufs.sample_cap < SAMPLE_REGION →
        w.reads = r1 :: r2 :: rest → r1.err = false → r2.err = false →
        r2.data.take (if size < SAMPLE_REGION then size else SAMPLE_REGION)
          = r1.data.take (if size < SAMPLE_REGION then size else SAMPLE_REGION) →
        (read_sample size cfg w st).1.isSome = true
          ∧ (read_sample size cfg w st).2.2.consistency_errors = st.consistency_errors
          ∧ (read_sample size cfg w st).2.2.read_errors = st.read_errors)
      ∧ (size > SAMPLE_REGION → ¬ w.bufs.sample_cap < SAMPLE_REGION →
        st.bytes_read < 2 ^ 64 → st.current_done < 2 ^ 64 →
        w.reads = r1 :: r2 :: r3 :: r4 :: rest →
        r1.err = false → r2.err = false → r3.err = false → r4.err = false →
        r2.data.take SAMPLE_REGION = r1.data.take SAMPLE_REGION →
        r4.data.take SAMPLE_REGION = r3.data.take SAMPLE_REGION →
        (read_sample size cfg w st).1.isSome = true
          ∧ (read_sample size cfg w st).2.2.consistency_errors = st.consistency_errors
          ∧ (read_sample size cfg w st).2.2.read_errors = st.read_errors)
      ∧ (w.mallocs = [] → w.reads = fulls ++ last :: v :: rest →
        (∀ c ∈ fulls, ¬ (c.data.take (full_chunk cfg size)).length < full_chunk cfg size
          ∧ c.err = false) →
        (last.data.take (full_chunk cfg size)).length < full_chunk cfg size →
        last.err = false → v.err = false → fulls ++ [last] = first :: more →
        0 < (first.data.take (full_chunk cfg size)).length →
        v.data.take SAMPLE_REGION
          = (first.data.take (full_chunk cfg size)).take
              (if (first.data.take (full_chunk cfg size)).length < SAMPLE_REGION
                then (first.data.take (full_chunk cfg size)).length else SAMPLE_REGION) →
        (read_full size cfg w st).1.isSome = true
          ∧ (read_full size cfg w st).2.2.consistency_errors = st.consistency_errors
          ∧ (read_full size cfg w st).2.2.read_errors = st.read_errors) := by
  refine ⟨?_, ?_, ?_⟩
  · intro hsize hbuf hr he1 he2 hsame
    obtain ⟨crc, w1, st1, e, -, k2, k3⟩ := read_sample_verified_small size cfg w st r1 r2 rest
      hsize hcc hbuf hseek hui hf hr he1 he2 hsame hc
    rw [e]
    exact ⟨rfl, k2, k3⟩
  · intro hsize hbuf hb hd hr he1 he2 he3 he4 hsame1 hsame3
    obtain ⟨w1, st1, s1, s2, e, -, -, ⟨-, k2, k3, -⟩, -, -⟩ := read_sample_verified size cfg w st
      r1 r2 r3 r4 rest hsize hcc hbuf hseek hui hf hr he1 he2 he3 he4 hsame1 hsame3 hc hb hd
    rw [e]
    exact ⟨rfl, k2, k3⟩
  · intro hmal hr hfull hlast helast hv hfirst hne hsame
    obtain ⟨crc, w1, st1, e, -, k2, k3⟩ := read_full_verified size cfg w st fulls last v first
      more rest hcc hmal hseek hui hf hc hr hfull hlast helast hv hfirst hne hsame
    rw [e]
    exact ⟨rfl, k2, k3⟩

/-- Witness for C17: a file of 3 bytes in sample mode, the 100 MiB file of the
specification's scenario in sample mode, every read delivering 64 KiB of zero
bytes, and a file of 3 bytes in full mode; each re-read delivers the bytes of
the first read. -/
theorem C17_unchanged_reread_no_consistency_error_witness :
    ((read_sample 3 (cfg_with 0 true) tiny_file_world ScanStats.zero).1.isSome = true
        ∧ (read_sample 3 (cfg_with 0 true) tiny_file_world ScanStats.zero).2.2.consistency_errors
            = ScanStats.zero.consistency_errors
        ∧ (read_sample 3 (cfg_with 0 true) tiny_file_world ScanStats.zero).2.2.read_errors
            = ScanStats.zero.read_errors)
      ∧ ((read_sample (100 * 1024 * 1024) (cfg_with 0 true) four_blocks_world
          big_file_stats).1.isSome = true
        ∧ (read_sample (100 * 1024 * 1024) (cfg_with 0 true) four_blocks_world
            big_file_stats).2.2.consistency_errors = big_file_stats.consistency_errors
        ∧ (read_sample (100 * 1024 * 1024) (cfg_with 0 true) four_blocks_world
            big_file_stats).2.2.read_errors = big_file_stats.read_errors)
      ∧ ((read_full 3 (cfg_with 0 true) tiny_file_world ScanStats.zero).1.isSome = true
        ∧ (read_full 3 (cfg_with 0 true) tiny_file_world ScanStats.zero).2.2.consistency_errors
            = ScanStats.zero.consistency_errors
        ∧ (read_full 3 (cfg_with 0 true) tiny_file_world ScanStats.zero).2.2.read_errors
            = ScanStats.zero.read_errors) :=
  ⟨(C17_unchanged_reread_no_consistency_error 3 (cfg_with 0 true) tiny_file_world
      ScanStats.zero ⟨[1, 2, 3], 1, false, 0⟩ ⟨[1, 2, 3], 1, false, 0⟩ zero_block zero_block []
      [] zero_block zero_block zero_block [] rfl rfl rfl rfl rfl).1
      (by decide) (by decide) rfl rfl rfl rfl,
    (C17_unchanged_reread_no_consistency_error (100 * 1024 * 1024) (cfg_with 0 true)
      four_blocks_world big_file_stats zero_block zero_block zero_block zero_block [] []
      zero_block zero_block zero_block [] rfl rfl rfl rfl rfl).2.1
      (by decide) (by decide) (by decide) (by decide) rfl rfl rfl rfl rfl rfl rfl,
    (C17_unchanged_reread_no_consistency_error 3 (cfg_with 0 true) tiny_file_world
      ScanStats.zero zero_block zero_block zero_block zero_block [] []
      ⟨[1, 2, 3], 1, false, 0⟩ ⟨[1, 2, 3], 1, false, 0⟩ ⟨[1, 2, 3], 1, false, 0⟩ []
      rfl rfl rfl rfl rfl).2.2
      rfl rfl (fun c hc => by simp at hc) (by decide) rfl rfl rfl (by decide) (by decide)⟩

/-! ## Error ring -/

theorem err_push_all_snoc (msgs : List CStr) (m : CStr) :
    err_push_all (msgs ++ [m]) = err_push (err_push_all msgs) m := by
  simp [err_push_all, List.foldl_append]

/-- The ring after any number of calls: the count is the number of calls, the
ring has its 16 slots, each of the last 16 messages sits in the slot of its
index modulo 16, and a slot no call has reached is still empty. -/
theorem err_push_all_inv (msgs : List CStr) :
    (err_push_all msgs).err_ring_count = msgs.length
      ∧ (err_push_all msgs).err_ring.length = 16
      ∧ (∀ i, msgs.length - 16 ≤ i → i < msgs.length →
          (err_push_all msgs).err_ring.getD (i % 16) [] = (msgs.getD i []).take 255)
      ∧ (∀ j, msgs.length ≤ j → j < 16 → (err_push_all msgs).err_ring.getD j [] = []) := by
  induction msgs using List.reverseRecOn with
  | nil =>
    refine ⟨rfl, rfl, ?_, ?_⟩
    · intro i _ h; simp at h
    · intro j _ hj
      simp only [err_push_all, List.foldl_nil, ScanStats.zero, ERR_RING_MAX]
      rw [List.getD_eq_getElem?_getD, List.getElem?_replicate]
      simp [hj]
  | append_singleton msgs m ih =>
    obtain ⟨hc, hl, hw, he⟩ := ih
    rw [err_push_all_snoc]
    have hidx : msgs.length % 16 < (err_push_all msgs).err_ring.length := by
      rw [hl]; exact Nat.mod_lt _ (by decide)
    refine ⟨?_, ?_, ?_, ?_⟩
    · simp [err_push, hc]
    · simp [err_push, hl]
    · intro i hlo hhi
      simp only [List.length_append, List.length_singleton] at hlo hhi
      simp only [err_push, hc, ERR_RING_MAX]
      by_cases hi : i = msgs.length
      · subst hi
        rw [List.getD_eq_getElem?_getD, List.getElem?_set_self hidx]
        simp
      · have hne : msgs.length % 16 ≠ i % 16 := by omega
        rw [List.getD_eq_getElem?_getD, List.getElem?_set_ne hne,
          ← List.getD_eq_getElem?_getD, hw i (by omega) (by omega)]
        have hil : i < msgs.length := by omega
        simp [List.getD_eq_getElem?_getD, List.getElem?_append_left hil]
    · intro j hlo hhi
      simp only [List.length_append, List.length_singleton] at hlo
      simp only [err_push, hc, ERR_RING_MAX]
      have hne : msgs.length % 16 ≠ j := by omega
      rw [List.getD_eq_getElem?_getD, List.getElem?_set_ne hne, ← List.getD_eq_getElem?_getD]
      exact he j (by omega) hhi

/-- C18: the error ring keeps the 16 most recent messages, oldest overwritten
first.  After `err_push` has been called on zeroed stats with the messages
`m_0 .. m_(n-1)`, `err_ring_count = n`; for every `i` with
`max(0, n-16) <= i < n` the slot `i mod 16` holds `m_i` cut to 255 bytes; and
every one of the 16 slots is either still empty or holds one of these last
messages, so no older message is retained. -/
theorem C18_err_ring_keeps_last_16 (msgs : List CStr) :
    (err_push_all msgs).err_ring_count = msgs.length
      ∧ (err_push_all msgs).err_ring.length = ERR_RING_MAX
      ∧ (∀ i, msgs.length - 16 ≤ i → i < msgs.length →
          (err_push_all msgs).err_ring.getD (i % ERR_RING_MAX) [] = (msgs.getD i []).take 255)
      ∧ (∀ j, j < ERR_RING_MAX →
          (err_push_all msgs).err_ring.getD j [] = []
            ∨ ∃ i, msgs.length - 16 ≤ i ∧ i < msgs.length ∧ i % ERR_RING_MAX = j
                ∧ (err_push_all msgs).err_ring.getD j [] = (msgs.getD i []).take 255) := by
  obtain ⟨hc, hl, hw, he⟩ := err_push_all_inv msgs
  refine ⟨hc, hl, hw, ?_⟩
  intro j hj
  simp only [ERR_RING_MAX] at hj ⊢
  by_cases hn : msgs.length ≤ j
  · exact Or.inl (he j hn hj)
  · right
    by_cases hlow : j < msgs.length % 16
    · have hmod : (msgs.length - msgs.length % 16 + j) % 16 = j := by omega
      refine ⟨msgs.length - msgs.length % 16 + j, by omega, by omega, hmod, ?_⟩
      have := hw (msgs.length - msgs.length % 16 + j) (by omega) (by omega)
      rwa [hmod] at this
    · have hmod : (msgs.length - msgs.length % 16 - 16 + j) % 16 = j := by omega
      refine ⟨msgs.length - msgs.length % 16 - 16 + j, by omega, by omega, hmod, ?_⟩
      have := hw (msgs.length - msgs.length % 16 - 16 + j) (by omega) (by omega)
      rwa [hmod] at this

/-! ## Performance telemetry -/

/-- The fraction `perf_record` computes is the throughput of the specification. -/
theorem spec_mib_s_eq (bytes dt_ms : Nat) :
    spec_mib_s bytes dt_ms = ((bytes * 1000 : Nat) : ℚ) / ((1048576 * max dt_ms 1 : Nat) : ℚ) := by
  have h : ((max dt_ms 1 : Nat) : ℚ) ≠ 0 := by
    have : 0 < max dt_ms 1 := by omega
    exact_mod_cast this.ne.symm
  unfold spec_mib_s
  push_cast
  field_simp

theorem throughput_ge_iff (bytes dt_ms k : Nat) :
    Throughput.ge ⟨bytes * 1000, 1048576 * max dt_ms 1⟩ k = true
      ↔ (k : ℚ) ≤ spec_mib_s bytes dt_ms := by
  have hpos : (0 : ℚ) < ((1048576 * max dt_ms 1 : Nat) : ℚ) := by
    have : 0 < 1048576 * max dt_ms 1 := by omega
    exact_mod_cast this
  rw [spec_mib_s_eq, le_div_iff₀ hpos]
  simp only [Throughput.ge, decide_eq_true_eq]
  exact_mod_cast Iff.rfl

theorem throughput_lt_iff (bytes dt_ms k : Nat) :
    Throughput.lt ⟨bytes * 1000, 1048576 * max dt_ms 1⟩ k = true
      ↔ spec_mib_s bytes dt_ms < (k : ℚ) := by
  have hpos : (0 : ℚ) < ((1048576 * max dt_ms 1 : Nat) : ℚ) := by
    have : 0 < 1048576 * max dt_ms 1 := by omega
    exact_mod_cast this
  rw [spec_mib_s_eq, div_lt_iff₀ hpos]
  simp only [Throughput.lt, decide_eq_true_eq]
  exact_mod_cast Iff.rfl

/-- The value of `perf_record` for `bytes > 0`, with the duration already
replaced by `max(dt_ms, 1)`. -/
theorem perf_record_eq (st : ScanStats) (bytes dt_ms off : Nat) (path : Option CStr)
    (hb : bytes ≠ 0) :
    perf_record st bytes dt_ms off path
      = (let d := max dt_ms 1
         let mibs : Throughput := ⟨bytes * 1000, 1048576 * d⟩
         let b := perf_bucket mibs
         let st1 := { st with
           perf_ops := st.perf_ops + 1
           perf_bytes := st.perf_bytes + bytes
           perf_hist := st.perf_hist.set b (st.perf_hist.getD b 0 + 1) }
         let st2 :=
           if mibs.lt 1 || decide (d ≥ 500) then
             { st1 with
               perf_stalls := st1.perf_stalls + 1
               perf_stall_total_ms := st1.perf_stall_total_ms + d }
           else st1
         if d > st2.perf_longest_ms then
           { st2 with
             perf_longest_ms := d
             perf_longest_mib_s := mibs
             perf_longest_off := off
             perf_longest_bytes := bytes
             perf_longest_path := ((path.getD "(unknown)".toList).take 250) }
         else st2) := by
  have hd : (if dt_ms = 0 then 1 else dt_ms) = max dt_ms 1 := by
    split <;> omega
  have hpos : max dt_ms 1 > 0 := by omega
  unfold perf_record
  simp only [hb, if_false, hd, hpos, if_true]
/-- The bucket `perf_bucket` selects for a fraction `q`, in terms of any rational
`T` that compares with 60, 30, 10 and 1 the way `q` does. -/
theorem perf_bucket_cases (q : Throughput) (T : ℚ)
    (h60 : q.ge 60 = true ↔ 60 ≤ T) (h30 : q.ge 30 = true ↔ 30 ≤ T)
    (h10 : q.ge 10 = true ↔ 10 ≤ T) (h1 : q.ge 1 = true ↔ 1 ≤ T) :
    perf_bucket q < 5 ∧ (perf_bucket q = 0 ↔ 60 ≤ T) ∧ (perf_bucket q = 1 ↔ 30 ≤ T ∧ T < 60)
      ∧ (perf_bucket q = 2 ↔ 10 ≤ T ∧ T < 30) ∧ (perf_bucket q = 3 ↔ 1 ≤ T ∧ T < 10)
      ∧ (perf_bucket q = 4 ↔ T < 1) := by
  unfold perf_bucket
  by_cases c60 : (60 : ℚ) ≤ T
  · rw [if_pos (h60.2 c60)]
    refine ⟨by norm_num, by simp [c60], ?_, ?_, ?_, ?_⟩ <;>
      simp <;> intros <;> linarith
  · rw [if_neg (fun h => c60 (h60.1 h))]
    by_cases c30 : (30 : ℚ) ≤ T
    · rw [if_pos (h30.2 c30)]
      refine ⟨by norm_num, by simp [c60], by simp [c30, not_le.1 c60], ?_, ?_, ?_⟩ <;>
        simp <;> intros <;> linarith
    · rw [if_neg (fun h => c30 (h30.1 h))]
      by_cases c10 : (10 : ℚ) ≤ T
      · rw [if_pos (h10.2 c10)]
        refine ⟨by norm_num, by simp [c60], ?_, by simp [c10, not_le.1 c30], ?_, ?_⟩ <;>
          simp <;> intros <;> linarith
      · rw [if_neg (fun h => c10 (h10.1 h))]
        by_cases c1 : (1 : ℚ) ≤ T
        · rw [if_pos (h1.2 c1)]
          refine ⟨by norm_num, by simp [c60], ?_, ?_, by simp [c1, not_le.1 c10], ?_⟩ <;>
            simp <;> intros <;> linarith
        · rw [if_neg (fun h => c1 (h1.1 h))]
          refine ⟨by norm_num, by simp [c60], ?_, ?_, ?_, by simp [not_le.1 c1]⟩ <;>
            simp <;> intros <;> linarith

/-- The effect of `perf_record` on the counters, the histogram and the stall
totals, for `bytes > 0`. -/
theorem perf_record_counts (st : ScanStats) (bytes dt_ms off : Nat) (path : Option CStr)
    (hb : bytes ≠ 0) (b : Nat)
    (hbk : b = perf_bucket ⟨bytes * 1000, 1048576 * max dt_ms 1⟩) :
    (perf_record st bytes dt_ms off path).perf_ops = st.perf_ops + 1
      ∧ (perf_record st bytes dt_ms off path).perf_bytes = st.perf_bytes + bytes
      ∧ (perf_record st bytes dt_ms off path).perf_hist
          = st.perf_hist.set b (st.perf_hist.getD b 0 + 1)
      ∧ (perf_record st bytes dt_ms off path).perf_stalls
          = st.perf_stalls
            + (if Throughput.lt ⟨bytes * 1000, 1048576 * max dt_ms 1⟩ 1 || decide (max dt_ms 1 ≥ 500)
                then 1 else 0)
      ∧ (perf_record st bytes dt_ms off path).perf_stall_total_ms
          = st.perf_stall_total_ms
            + (if Throughput.lt ⟨bytes * 1000, 1048576 * max dt_ms 1⟩ 1 || decide (max dt_ms 1 ≥ 500)
                then max dt_ms 1 else 0) := by
  rw [perf_record_eq st bytes dt_ms off path hb]
  simp only [← hbk]
  refine ⟨?_, ?_, ?_, ?_, ?_⟩ <;> split_ifs <;> simp_all

/-- C19: the bucket and stall rule of `perf_record`, with the throughput
`T = (bytes / 1048576) / (max(dt_ms, 1) / 1000)` MiB/s as an exact rational,
for the reads the engine records (at most 1 MiB, the largest chunk) and stats
whose 64-bit telemetry counters have room for one more operation.
For `bytes = 0` the stats are unchanged.  Otherwise `perf_ops` grows by 1,
`perf_bytes` by `bytes`, and exactly one of the 5 histogram buckets grows by 1:
bucket 0 if `T >= 60`, 1 if `30 <= T < 60`, 2 if `10 <= T < 30`, 3 if
`1 <= T < 10`, 4 if `T < 1`; `perf_stalls` grows by 1 and `perf_stall_total_ms`
by `max(dt_ms, 1)` if and only if `T < 1` or `dt_ms >= 500`, and both are
unchanged otherwise.  The double arithmetic of the source (`perf_mibs_double`)
selects the same bucket and gives the same answer to `mibs < 1.0`, and no
counter leaves the 64-bit range. -/
theorem C19_perf_record_bucket_and_stall (st : ScanStats) (bytes dt_ms off : Nat)
    (path : Option CStr) (hlen : st.perf_hist.length = 5) (hbytes : bytes ≤ 1048576)
    (hroom : st.perf_ops + 1 < 2 ^ 64 ∧ st.perf_bytes + bytes < 2 ^ 64
      ∧ (∀ j, j < 5 → st.perf_hist.getD j 0 + 1 < 2 ^ 64)
      ∧ st.perf_stalls + 1 < 2 ^ 64 ∧ st.perf_stall_total_ms + max dt_ms 1 < 2 ^ 64) :
    (bytes = 0 → perf_record st bytes dt_ms off path = st)
      ∧ (bytes ≠ 0 →
          ∃ b, b < 5
            ∧ (b = 0 ↔ 60 ≤ spec_mib_s bytes dt_ms)
            ∧ (b = 1 ↔ 30 ≤ spec_mib_s bytes dt_ms ∧ spec_mib_s bytes dt_ms < 60)
            ∧ (b = 2 ↔ 10 ≤ spec_mib_s bytes dt_ms ∧ spec_mib_s bytes dt_ms < 30)
            ∧ (b = 3 ↔ 1 ≤ spec_mib_s bytes dt_ms ∧ spec_mib_s bytes dt_ms < 10)
            ∧ (b = 4 ↔ spec_mib_s bytes dt_ms < 1)
            ∧ (perf_record st bytes dt_ms off path).perf_ops = st.perf_ops + 1
            ∧ (perf_record st bytes dt_ms off path).perf_bytes = st.perf_bytes + bytes
            ∧ (perf_record st bytes dt_ms off path).perf_hist.length = 5
            ∧ (∀ j, j < 5 →
                (perf_record st bytes dt_ms off path).perf_hist.getD j 0
                  = st.perf_hist.getD j 0 + (if j = b then 1 else 0))
            ∧ ((spec_mib_s bytes dt_ms < 1 ∨ 500 ≤ dt_ms) →
                (perf_record st bytes dt_ms off path).perf_stalls = st.perf_stalls + 1
                  ∧ (perf_record st bytes dt_ms off path).perf_stall_total_ms
                      = st.perf_stall_total_ms + max dt_ms 1)
            ∧ (¬ (spec_mib_s bytes dt_ms < 1 ∨ 500 ≤ dt_ms) →
                (perf_record st bytes dt_ms off path).perf_stalls = st.perf_stalls
                  ∧ (perf_record st bytes dt_ms off path).perf_stall_total_ms
                      = st.perf_stall_total_ms)
            ∧ perf_bucket (perf_mibs_double bytes dt_ms) = b
            ∧ ((perf_mibs_double bytes dt_ms).lt 1 = true ↔ spec_mib_s bytes dt_ms < 1)
            ∧ (perf_record st bytes dt_ms off path).perf_ops < 2 ^ 64
            ∧ (perf_record st bytes dt_ms off path).perf_bytes < 2 ^ 64
            ∧ (∀ j, j < 5 →
                (perf_record st bytes dt_ms off path).perf_hist.getD j 0 < 2 ^ 64)
            ∧ (perf_record st bytes dt_ms off path).perf_stalls < 2 ^ 64
            ∧ (perf_record st bytes dt_ms off path).perf_stall_total_ms < 2 ^ 64) := by
  refine ⟨fun h => by simp [perf_record, h], fun hb => ?_⟩
  obtain ⟨r1, r2, r3, r4, r5⟩ := hroom
  have h60 := throughput_ge_iff bytes dt_ms 60
  have h30 := throughput_ge_iff bytes dt_ms 30
  have h10 := throughput_ge_iff bytes dt_ms 10
  have h1 := throughput_ge_iff bytes dt_ms 1
  have hlt := throughput_lt_iff bytes dt_ms 1
  simp only [Nat.cast_ofNat, Nat.cast_one] at h60 h30 h10 h1 hlt
  obtain ⟨k5, k0, k1, k2, k3, k4⟩ := perf_bucket_cases _ _ h60 h30 h10 h1
  obtain ⟨e1, e2, e3, e4, e5⟩ := perf_record_counts st bytes dt_ms off path hb _ rfl
  obtain ⟨d1, d2⟩ := perf_mibs_double_agrees bytes dt_ms hb hbytes
  have hstall : (Throughput.lt ⟨bytes * 1000, 1048576 * max dt_ms 1⟩ 1
      || decide (max dt_ms 1 ≥ 500)) = true ↔ (spec_mib_s bytes dt_ms < 1 ∨ 500 ≤ dt_ms) := by
    rw [Bool.or_eq_true, hlt, decide_eq_true_eq]
    constructor
    · rintro (h | h)
      · exact Or.inl h
      · exact Or.inr (by omega)
    · rintro (h | h)
      · exact Or.inl h
      · exact Or.inr (by omega)
  have hhist : ∀ j, j < 5 →
      (perf_record st bytes dt_ms off path).perf_hist.getD j 0
        = st.perf_hist.getD j 0
          + (if j = perf_bucket ⟨bytes * 1000, 1048576 * max dt_ms 1⟩ then 1 else 0) := by
    intro j hj
    rw [e3, List.getD_eq_getElem?_getD, List.getElem?_set]
    by_cases hjb : j = perf_bucket ⟨bytes * 1000, 1048576 * max dt_ms 1⟩
    · subst hjb
      simp [hlen, k5]
    · rw [if_neg (fun h => hjb h.symm), if_neg hjb]
      simp [List.getD_eq_getElem?_getD]
  refine ⟨_, k5, k0, k1, k2, k3, k4, e1, e2, ?_, hhist, ?_, ?_, d1, ?_, ?_, ?_, ?_, ?_, ?_⟩
  · rw [e3, List.length_set, hlen]
  · intro h
    rw [e4, e5, if_pos (hstall.2 h), if_pos (hstall.2 h)]
    exact ⟨rfl, rfl⟩
  · intro h
    rw [e4, e5, if_neg (fun c => h (hstall.1 c)), if_neg (fun c => h (hstall.1 c))]
    exact ⟨rfl, rfl⟩
  · rw [d2]
    exact hlt
  · rw [e1]
    exact r1
  · rw [e2]
    exact r2
  · intro j hj
    rw [hhist j hj]
    have := r3 j hj
    split <;> omega
  · rw [e4]
    split <;> omega
  · rw [e5]
    split <;> omega

/-- Witness for C19: 65536 bytes read in 600 ms on zeroed stats, a throughput of
5/48 MiB/s: bucket 4 and a stall. -/
theorem C19_perf_record_bucket_and_stall_witness :
    (ScanStats.zero.perf_hist.length = 5 ∧ 65536 ≤ 1048576
        ∧ (ScanStats.zero.perf_ops + 1 < 2 ^ 64 ∧ ScanStats.zero.perf_bytes + 65536 < 2 ^ 64
          ∧ (∀ j, j < 5 → ScanStats.zero.perf_hist.getD j 0 + 1 < 2 ^ 64)
          ∧ ScanStats.zero.perf_stalls + 1 < 2 ^ 64
          ∧ ScanStats.zero.perf_stall_total_ms + max 600 1 < 2 ^ 64))
      ∧ ((65536 = 0 → perf_record ScanStats.zero 65536 600 0 none = ScanStats.zero)
      ∧ ((65536 : Nat) ≠ 0 →
          ∃ b, b < 5
            ∧ (b = 0 ↔ 60 ≤ spec_mib_s 65536 600)
            ∧ (b = 1 ↔ 30 ≤ spec_mib_s 65536 600 ∧ spec_mib_s 65536 600 < 60)
            ∧ (b = 2 ↔ 10 ≤ spec_mib_s 65536 600 ∧ spec_mib_s 65536 600 < 30)
            ∧ (b = 3 ↔ 1 ≤ spec_mib_s 65536 600 ∧ spec_mib_s 65536 600 < 10)
            ∧ (b = 4 ↔ spec_mib_s 65536 600 < 1)
            ∧ (perf_record ScanStats.zero 65536 600 0 none).perf_ops = ScanStats.zero.perf_ops + 1
            ∧ (perf_record ScanStats.zero 65536 600 0 none).perf_bytes
                = ScanStats.zero.perf_bytes + 65536
            ∧ (perf_record ScanStats.zero 65536 600 0 none).perf_hist.length = 5
            ∧ (∀ j, j < 5 →
                (perf_record ScanStats.zero 65536 600 0 none).perf_hist.getD j 0
                  = ScanStats.zero.perf_hist.getD j 0 + (if j = b then 1 else 0))
            ∧ ((spec_mib_s 65536 600 < 1 ∨ 500 ≤ 600) →
                (perf_record ScanStats.zero 65536 600 0 none).perf_stalls
                    = ScanStats.zero.perf_stalls + 1
                  ∧ (perf_record ScanStats.zero 65536 600 0 none).perf_stall_total_ms
                      = ScanStats.zero.perf_stall_total_ms + max 600 1)
            ∧ (¬ (spec_mib_s 65536 600 < 1 ∨ 500 ≤ 600) →
                (perf_record ScanStats.zero 65536 600 0 none).perf_stalls
                    = ScanStats.zero.perf_stalls
                  ∧ (perf_record ScanStats.zero 65536 600 0 none).perf_stall_total_ms
                      = ScanStats.zero.perf_stall_total_ms)
            ∧ perf_bucket (perf_mibs_double 65536 600) = b
            ∧ ((perf_mibs_double 65536 600).lt 1 = true ↔ spec_mib_s 65536 600 < 1)
            ∧ (perf_record ScanStats.zero 65536 600 0 none).perf_ops < 2 ^ 64
            ∧ (perf_record ScanStats.zero 65536 600 0 none).perf_bytes < 2 ^ 64
            ∧ (∀ j, j < 5 →
                (perf_record ScanStats.zero 65536 600 0 none).perf_hist.getD j 0 < 2 ^ 64)
            ∧ (perf_record ScanStats.zero 65536 600 0 none).perf_stalls < 2 ^ 64
            ∧ (perf_record ScanStats.zero 65536 600 0 none).perf_stall_total_ms < 2 ^ 64)) :=
  ⟨⟨by decide, by decide, by decide⟩,
    C19_perf_record_bucket_and_stall ScanStats.zero 65536 600 0 none (by decide) (by decide)
      (by decide)⟩

/-- One call of `perf_record` on the longest-operation snapshot: replaced when
the call has bytes and is strictly longer, kept otherwise. -/
theorem perf_record_longest_view (st : ScanStats) (c : PerfCall) :
    longest_view (perf_record st c.bytes c.dt_ms c.off c.path)
      = if 0 < c.bytes ∧ st.perf_longest_ms < c.eff_ms then c.snapshot else longest_view st := by
  by_cases hb : c.bytes = 0
  · simp [perf_record, hb]
  · rw [perf_record_eq st c.bytes c.dt_ms c.off c.path hb]
    have hb1 : 0 < c.bytes := Nat.pos_of_ne_zero hb
    simp only [hb1, true_and, PerfCall.eff_ms, PerfCall.snapshot, longest_view]
    split_ifs <;> simp_all

theorem perf_record_all_cons (st : ScanStats) (c : PerfCall) (cs : List PerfCall) :
    perf_record_all st (c :: cs)
      = perf_record_all (perf_record st c.bytes c.dt_ms c.off c.path) cs := rfl

theorem perf_record_all_append (st : ScanStats) (xs ys : List PerfCall) :
    perf_record_all st (xs ++ ys) = perf_record_all (perf_record_all st xs) ys := by
  simp [perf_record_all, List.foldl_append]

theorem longest_ms_cons (c : PerfCall) (cs : List PerfCall) :
    longest_ms (c :: cs) = if 0 < c.bytes then max c.eff_ms (longest_ms cs) else longest_ms cs := by
  unfold longest_ms
  by_cases h : 0 < c.bytes <;> simp [List.filter_cons, h]

theorem longest_view_ms (st : ScanStats) : (longest_view st).1 = st.perf_longest_ms := rfl

/-- The stored duration after a sequence of calls is the larger of the stored
duration before and the longest duration among the calls. -/
theorem perf_record_all_longest_ms (calls : List PerfCall) :
    ∀ st : ScanStats,
      (perf_record_all st calls).perf_longest_ms = max st.perf_longest_ms (longest_ms calls) := by
  induction calls with
  | nil => intro st; simp [perf_record_all, longest_ms]
  | cons c cs ih =>
    intro st
    rw [perf_record_all_cons, ih, longest_ms_cons, ← longest_view_ms (perf_record _ _ _ _ _),
      perf_record_longest_view]
    by_cases hb : 0 < c.bytes
    · by_cases hl : st.perf_longest_ms < c.eff_ms
      · simp only [hb, hl, and_self, if_true, PerfCall.snapshot]
        omega
      · simp only [hb, hl, and_false, if_false, if_true, longest_view]
        omega
    · simp only [hb, false_and, if_false, longest_view]

theorem le_longest_ms (calls : List PerfCall) :
    ∀ d ∈ calls, 0 < d.bytes → d.eff_ms ≤ longest_ms calls := by
  induction calls with
  | nil => intro d hd; simp at hd
  | cons c cs ih =>
    intro d hd hb
    rw [longest_ms_cons]
    rcases List.mem_cons.1 hd with h | h
    · subst h
      rw [if_pos hb]
      exact le_max_left _ _
    · have := ih d h hb
      split
      · exact le_trans this (le_max_right _ _)
      · exact this

/-- Calls that are not strictly longer than the stored duration leave the
snapshot as it is. -/
theorem perf_record_all_keeps (calls : List PerfCall) :
    ∀ st : ScanStats, (∀ d ∈ calls, 0 < d.bytes → d.eff_ms ≤ st.perf_longest_ms) →
      longest_view (perf_record_all st calls) = longest_view st := by
  induction calls with
  | nil => intro st _; rfl
  | cons c cs ih =>
    intro st h
    have hstep : longest_view (perf_record st c.bytes c.dt_ms c.off c.path) = longest_view st := by
      rw [perf_record_longest_view]
      by_cases hb : 0 < c.bytes
      · have := h c (List.mem_cons_self _ _) hb
        rw [if_neg (by omega)]
      · rw [if_neg (fun k => hb k.1)]
    have hms : (perf_record st c.bytes c.dt_ms c.off c.path).perf_longest_ms
        = st.perf_longest_ms := by
      rw [← longest_view_ms, hstep, longest_view_ms]
    rw [perf_record_all_cons, ih, hstep]
    intro d hd hb
    rw [hms]
    exact h d (List.mem_cons_of_mem _ hd) hb

/-- C20: the longest-operation snapshot is updated only on a strictly longer
duration.  After any sequence of `perf_record` calls on zeroed stats,
`perf_longest_ms` is the maximum of `max(dt_ms, 1)` over the calls with
`bytes > 0` (0 if there is none), and for the first call `c` that attains this
maximum (every call with bytes before it is strictly shorter)
`perf_longest_off` and `perf_longest_bytes` are those of `c` and
`perf_longest_path` is the path of `c` as `"%.250s"` stores it, which is the
path itself when it has at most 250 bytes. -/
theorem C20_longest_snapshot_first_max (calls : List PerfCall) :
    (perf_record_all ScanStats.zero calls).perf_longest_ms = longest_ms calls
      ∧ ∀ (pre post : List PerfCall) (c : PerfCall), calls = pre ++ c :: post → 0 < c.bytes →
          c.eff_ms = longest_ms calls → (∀ d ∈ pre, 0 < d.bytes → d.eff_ms < c.eff_ms) →
          (perf_record_all ScanStats.zero calls).perf_longest_off = c.off
            ∧ (perf_record_all ScanStats.zero calls).perf_longest_bytes = c.bytes
            ∧ (perf_record_all ScanStats.zero calls).perf_longest_path
                = (c.path.getD "(unknown)".toList).take 250
            ∧ (∀ p, c.path = some p → p.length ≤ 250 →
                (perf_record_all ScanStats.zero calls).perf_longest_path = p) := by
  have hms : (perf_record_all ScanStats.zero calls).perf_longest_ms = longest_ms calls := by
    rw [perf_record_all_longest_ms]
    simp [ScanStats.zero]
  refine ⟨hms, ?_⟩
  intro pre post c hsplit hb hmax hfirst
  have hpre : (perf_record_all ScanStats.zero pre).perf_longest_ms < c.eff_ms := by
    rw [perf_record_all_longest_ms]
    have h1 : c.eff_ms ≥ 1 := by unfold PerfCall.eff_ms; omega
    have h2 : longest_ms pre < c.eff_ms := by
      clear hsplit hmax
      induction pre with
      | nil => simp [longest_ms]; omega
      | cons d ds ih =>
        rw [longest_ms_cons]
        have hds := ih (fun x hx hxb => hfirst x (List.mem_cons_of_mem _ hx) hxb)
        split
        · rename_i hdb
          have := hfirst d (List.mem_cons_self _ _) hdb
          omega
        · exact hds
    simp only [ScanStats.zero]
    omega
  have hview : longest_view (perf_record_all ScanStats.zero calls) = c.snapshot := by
    rw [hsplit, perf_record_all_append, perf_record_all_cons, perf_record_all_keeps,
      perf_record_longest_view, if_pos ⟨hb, hpre⟩]
    intro d hd hdb
    have hle : d.eff_ms ≤ longest_ms calls :=
      le_longest_ms calls d (by rw [hsplit]; simp [hd]) hdb
    rw [← longest_view_ms, perf_record_longest_view, if_pos ⟨hb, hpre⟩]
    simp only [PerfCall.snapshot]
    omega
  have hoff : (perf_record_all ScanStats.zero calls).perf_longest_off = c.off :=
    congrArg (fun v => v.2.2.1) hview
  have hbytes : (perf_record_all ScanStats.zero calls).perf_longest_bytes = c.bytes :=
    congrArg (fun v => v.2.2.2.1) hview
  have hpath : (perf_record_all ScanStats.zero calls).perf_longest_path
      = (c.path.getD "(unknown)".toList).take 250 :=
    congrArg (fun v => v.2.2.2.2) hview
  refine ⟨hoff, hbytes, hpath, ?_⟩
  intro p hp hlen
  rw [hpath, hp]
  simp [List.take_of_length_le hlen]

/-- Witness for C20: three reads of 20, 50 and 50 ms; the second is the first of
the two longest and its offset, size and path are the ones kept. -/
theorem C20_longest_snapshot_first_max_witness :
    (perf_record_all ScanStats.zero
        [⟨100, 20, 0, some "a".toList⟩, ⟨200, 50, 100, some "b".toList⟩,
          ⟨300, 50, 300, some "c".toList⟩]).perf_longest_off = 100
      ∧ (perf_record_all ScanStats.zero
        [⟨100, 20, 0, some "a".toList⟩, ⟨200, 50, 100, some "b".toList⟩,
          ⟨300, 50, 300, some "c".toList⟩]).perf_longest_bytes = 200
      ∧ (perf_record_all ScanStats.zero
        [⟨100, 20, 0, some "a".toList⟩, ⟨200, 50, 100, some "b".toList⟩,
          ⟨300, 50, 300, some "c".toList⟩]).perf_longest_path
          = ((some "b".toList : Option CStr).getD "(unknown)".toList).take 250
      ∧ (∀ p, (some "b".toList : Option CStr) = some p → p.length ≤ 250 →
          (perf_record_all ScanStats.zero
            [⟨100, 20, 0, some "a".toList⟩, ⟨200, 50, 100, some "b".toList⟩,
              ⟨300, 50, 300, some "c".toList⟩]).perf_longest_path = p) :=
  (C20_longest_snapshot_first_max
      [⟨100, 20, 0, some "a".toList⟩, ⟨200, 50, 100, some "b".toList⟩,
        ⟨300, 50, 300, some "c".toList⟩]).2
    [⟨100, 20, 0, some "a".toList⟩] [⟨300, 50, 300, some "c".toList⟩]
    ⟨200, 50, 100, some "b".toList⟩ rfl (by decide) (by decide) (by decide)

/-! ## Filters -/

/-- C21: the known-folder filter is off unless it is enabled and the whole card
is scanned.  When `skip_known_folders` is false or `deep_target` is not
`SCAN_TARGET_ALL`, `should_skip_dir` returns false for every path: a targeted
scan of `sdmc:/Nintendo` or `sdmc:/emuMMC` skips neither its root nor any
descendant by this filter. -/
theorem C21_folder_filter_off_when_targeted (cfg : ScanConfig)
    (h : cfg.skip_known_folders = false ∨ cfg.deep_target ≠ ScanTarget.SCAN_TARGET_ALL)
    (path : CStr) : should_skip_dir path cfg = false := by
  unfold should_skip_dir
  rcases h with h | h
  · simp [h]
  · simp [h]

/-- Witness for C21: the scan target `sdmc:/Nintendo` with the folder filter
switched on, at a path below the target's root. -/
theorem C21_folder_filter_off_when_targeted_witness :
    should_skip_dir "sdmc:/Nintendo/Contents".toList
      (filter_cfg ScanTarget.SCAN_TARGET_NINTENDO) = false :=
  C21_folder_filter_off_when_targeted (filter_cfg ScanTarget.SCAN_TARGET_NINTENDO)
    (Or.inr (by decide)) "sdmc:/Nintendo/Contents".toList

/-! ## Known-folder filter -/

/-- The comparison `ci_eq` holds exactly when the two runs agree after
`tolower`. -/
theorem ci_eq_iff (a b : CStr) :
    ci_eq a b = true ↔ a.map Char.toLower = b.map Char.toLower := by
  simp [ci_eq]

/-- Only `/` lowers to `/`. -/
theorem toLower_eq_slash (c : Char) (h : c.toLower = '/') : c = '/' := by
  unfold Char.toLower at h
  simp only [] at h
  split at h
  · rename_i hn
    exfalso
    obtain ⟨k, hk⟩ : ∃ k, c.toNat = k := ⟨_, rfl⟩
    rw [hk] at h hn
    obtain ⟨h1, h2⟩ := hn
    interval_cases k <;> revert h <;> decide
  · exact h

/-- The first search loop of `path_contains_segment_ci`: the needle is found at
some offset exactly when the path has a stretch that agrees with it up to case. -/
theorem needle_anywhere_iff (path needle : CStr) :
    (List.range (path.length + 1 - needle.length)).any
        (fun i => ci_eq ((path.drop i).take needle.length) needle) = true
      ↔ ∃ pre mid post, path = pre ++ mid ++ post
          ∧ mid.map Char.toLower = needle.map Char.toLower := by
  simp only [List.any_eq_true, List.mem_range, ci_eq_iff]
  constructor
  · rintro ⟨i, -, h⟩
    refine ⟨path.take i, (path.drop i).take needle.length, (path.drop i).drop needle.length,
      ?_, h⟩
    rw [List.append_assoc, List.take_append_drop, List.take_append_drop]
  · rintro ⟨pre, mid, post, rfl, h⟩
    have hl : mid.length = needle.length := by simpa using congrArg List.length h
    refine ⟨pre.length, ?_, ?_⟩
    · simp only [List.length_append]
      omega
    · rw [List.append_assoc, List.drop_left, ← hl, List.take_left]
      exact h

/-- The second check of `path_contains_segment_ci`: the needle at the end of the
path. -/
theorem needle_at_end_iff (path needle : CStr) :
    (decide (path.length ≥ needle.length)
        && ci_eq (path.drop (path.length - needle.length)) needle) = true
      ↔ ends_with_ci path needle := by
  simp only [Bool.and_eq_true, decide_eq_true_eq, ci_eq_iff, ends_with_ci]
  constructor
  · rintro ⟨-, h⟩
    exact ⟨path.take (path.length - needle.length), _, (List.take_append_drop _ _).symm, h⟩
  · rintro ⟨pre, t, rfl, h⟩
    have hl : t.length = needle.length := by simpa using congrArg List.length h
    refine ⟨by simp [hl], ?_⟩
    have : (pre ++ t).length - needle.length = pre.length := by simp [hl]
    rw [this, List.drop_left]
    exact h

/-- The third check of `path_contains_segment_ci`: the needle at the start of
the path. -/
theorem needle_at_start_iff (path needle : CStr) :
    (decide (path.length ≥ needle.length) && ci_eq (path.take needle.length) needle) = true
      ↔ starts_with_ci path needle := by
  simp only [Bool.and_eq_true, decide_eq_true_eq, ci_eq_iff, starts_with_ci]
  constructor
  · rintro ⟨-, h⟩
    exact ⟨path.take needle.length, path.drop needle.length, (List.take_append_drop _ _).symm, h⟩
  · rintro ⟨hd, rest, rfl, h⟩
    have hl : hd.length = needle.length := by simpa using congrArg List.length h
    refine ⟨by simp [hl], ?_⟩
    rw [← hl, List.take_left]
    exact h

/-- A run that agrees up to case with a name free of `/` is free of `/`. -/
theorem slash_not_mem_of_ci (s seg : CStr) (h : s.map Char.toLower = seg.map Char.toLower)
    (hs : '/' ∉ seg.map Char.toLower) : '/' ∉ s := by
  intro hm
  apply hs
  rw [← h]
  exact List.mem_map.2 ⟨'/', hm, by decide⟩

/-- A run agrees up to case with `/seg` exactly when it is `/s` for a run `s`
that agrees with `seg`. -/
theorem ci_slash_cons (mid seg : CStr) :
    mid.map Char.toLower = ("/".toList ++ seg).map Char.toLower
      ↔ ∃ s, mid = '/' :: s ∧ s.map Char.toLower = seg.map Char.toLower := by
  constructor
  · intro h
    cases mid with
    | nil => simp at h
    | cons a m =>
      simp only [String.toList, List.map_cons, List.cons_append, List.nil_append,
        List.cons.injEq] at h
      have ha : a = '/' := toLower_eq_slash a (by simpa using h.1)
      exact ⟨m, by rw [ha], h.2⟩
  · rintro ⟨s, rfl, h⟩
    simp only [String.toList, List.map_cons, List.cons_append, List.nil_append, h]

/-- A run agrees up to case with `/seg/` exactly when it is `/s/` for a run `s`
that agrees with `seg`. -/
theorem ci_slash_both (mid seg : CStr) :
    mid.map Char.toLower = ("/".toList ++ seg ++ "/".toList).map Char.toLower
      ↔ ∃ s, mid = '/' :: s ++ ['/'] ∧ s.map Char.toLower = seg.map Char.toLower := by
  constructor
  · intro h
    rw [List.map_append] at h
    obtain ⟨m1, m2, rfl, h1, h2⟩ := List.map_eq_append_iff.1 h
    obtain ⟨s, rfl, hs⟩ := (ci_slash_cons m1 seg).1 h1
    cases m2 with
    | nil => simp at h2
    | cons b m =>
      cases m with
      | nil =>
        have hb : b = '/' := toLower_eq_slash b (by simpa using h2)
        exact ⟨s, by rw [hb], hs⟩
      | cons c m => simp at h2
  · rintro ⟨s, rfl, h⟩
    rw [List.map_append, List.map_append, (ci_slash_cons ('/' :: s) seg).2 ⟨s, rfl, h⟩]
    rfl

/-- What `path_contains_segment_ci` decides, for a name of at most 56 bytes
without `/`: some segment after a `/` equals the name up to case, or the path
begins with `sdmc:/` and the name up to case, whatever follows the name. -/
theorem path_contains_segment_ci_iff (path seg : CStr) (h0 : seg ≠ [])
    (hlen : seg.length ≤ 56) (hs : '/' ∉ seg.map Char.toLower) :
    path_contains_segment_ci path seg = true
      ↔ has_segment_ci path seg ∨ starts_with_ci path ("sdmc:/".toList ++ seg) := by
  have t1 : ("/".toList ++ seg ++ "/".toList).take 63 = "/".toList ++ seg ++ "/".toList :=
    List.take_of_length_le (by simp [String.toList]; omega)
  have t2 : ("/".toList ++ seg).take 63 = "/".toList ++ seg :=
    List.take_of_length_le (by simp [String.toList]; omega)
  have t3 : ("sdmc:/".toList ++ seg).take 63 = "sdmc:/".toList ++ seg :=
    List.take_of_length_le (by simp [String.toList]; omega)
  unfold path_contains_segment_ci
  simp only [if_neg h0, t1, t2, t3]
  constructor
  · intro h
    split at h
    · rename_i h1
      obtain ⟨pre, mid, post, rfl, hm⟩ := (needle_anywhere_iff _ _).1 h1
      obtain ⟨s, rfl, hse⟩ := (ci_slash_both mid seg).1 hm
      exact Or.inl ⟨pre, s, '/' :: post, by simp, Or.inr ⟨post, rfl⟩,
        slash_not_mem_of_ci s seg hse hs, hse⟩
    · split at h
      · rename_i h2
        obtain ⟨pre, t, rfl, ht⟩ := (needle_at_end_iff _ _).1 h2
        obtain ⟨s, rfl, hse⟩ := (ci_slash_cons t seg).1 ht
        exact Or.inl ⟨pre, s, [], by simp, Or.inl rfl, slash_not_mem_of_ci s seg hse hs, hse⟩
      · split at h
        · rename_i h3
          exact Or.inr ((needle_at_start_iff _ _).1 h3)
        · simp at h
  · intro h
    rcases h with ⟨pre, s, post, rfl, hp, -, hse⟩ | h
    · rcases hp with rfl | ⟨rest, rfl⟩
      · by_cases h1 : (List.range ((pre ++ '/' :: s ++ []).length + 1
            - ("/".toList ++ seg ++ "/".toList).length)).any
            (fun i => ci_eq (((pre ++ '/' :: s ++ []).drop i).take
              ("/".toList ++ seg ++ "/".toList).length) ("/".toList ++ seg ++ "/".toList)) = true
        · rw [if_pos h1]
        · rw [if_neg h1, if_pos]
          exact (needle_at_end_iff _ _).2
            ⟨pre, '/' :: s, by simp, (ci_slash_cons _ seg).2 ⟨s, rfl, hse⟩⟩
      · rw [if_pos]
        exact (needle_anywhere_iff _ _).2
          ⟨pre, '/' :: s ++ ['/'], rest, by simp, (ci_slash_both _ seg).2 ⟨s, rfl, hse⟩⟩
    · split
      · rfl
      · split
        · rfl
        · rw [if_pos ((needle_at_start_iff _ _).2 h)]

/-- A segment match is found by one of the first two checks of
`path_contains_segment_ci`. -/
theorem has_segment_ci_search (path seg : CStr) (h : has_segment_ci path seg) :
    (List.range (path.length + 1 - ("/".toList ++ seg ++ "/".toList).length)).any
        (fun i => ci_eq ((path.drop i).take ("/".toList ++ seg ++ "/".toList).length)
          ("/".toList ++ seg ++ "/".toList)) = true
      ∨ (decide (path.length ≥ ("/".toList ++ seg).length)
          && ci_eq (path.drop (path.length - ("/".toList ++ seg).length))
            ("/".toList ++ seg)) = true := by
  obtain ⟨pre, s, post, rfl, hp, -, hse⟩ := h
  rcases hp with rfl | ⟨rest, rfl⟩
  · exact Or.inr ((needle_at_end_iff _ _).2
      ⟨pre, '/' :: s, by simp, (ci_slash_cons _ seg).2 ⟨s, rfl, hse⟩⟩)
  · exact Or.inl ((needle_anywhere_iff _ _).2
      ⟨pre, '/' :: s ++ ['/'], rest, by simp, (ci_slash_both _ seg).2 ⟨s, rfl, hse⟩⟩)

/-- What `should_skip_dir` decides: with the filter enabled and the whole card
as target, some segment after a `/` equals one of the three folder names up to
case, or the path begins with `sdmc:/` and one of the names up to case. -/
theorem should_skip_dir_iff (path : CStr) (cfg : ScanConfig) :
    should_skip_dir path cfg = true ↔
      cfg.skip_known_folders = true ∧ cfg.deep_target = ScanTarget.SCAN_TARGET_ALL
        ∧ ∃ seg ∈ ["Nintendo", "emuMMC", "Emutendo"].map String.toList,
            has_segment_ci path seg ∨ starts_with_ci path ("sdmc:/".toList ++ seg) := by
  have hN := path_contains_segment_ci_iff path "Nintendo".toList (by decide) (by decide)
    (by decide)
  have he := path_contains_segment_ci_iff path "emuMMC".toList (by decide) (by decide)
    (by decide)
  have hE := path_contains_segment_ci_iff path "Emutendo".toList (by decide) (by decide)
    (by decide)
  unfold should_skip_dir
  cases hk : cfg.skip_known_folders
  · simp
  · by_cases ht : cfg.deep_target = ScanTarget.SCAN_TARGET_ALL
    · simp only [Bool.not_true, Bool.false_eq_true, if_false, ht, ne_eq, not_true_eq_false,
        true_and, List.map_cons, List.map_nil, List.mem_cons, List.mem_singleton,
        List.not_mem_nil, or_false, exists_eq_or_imp, exists_eq_left, ← hN, ← he, ← hE]
      cases path_contains_segment_ci path "Nintendo".toList <;>
        cases path_contains_segment_ci path "emuMMC".toList <;>
        cases path_contains_segment_ci path "Emutendo".toList <;> simp
    · simp [ht]

/-- The child path `"%s/%s"` of a path of the scan is a path of the scan. -/
theorem scan_path_child (root path name : CStr) (h : scan_path root path) :
    scan_path root (path ++ "/".toList ++ name) := by
  rcases h with rfl | ⟨rest, rfl⟩
  · exact Or.inr ⟨name, rfl⟩
  · exact Or.inr ⟨rest ++ "/".toList ++ name, by simp⟩

/-- With the whole card as target, the root `main.c` hands to the engine is
`sdmc:/`, whatever the custom root. -/
theorem get_deep_root_all (custom_root : CStr) :
    get_deep_root ScanTarget.SCAN_TARGET_ALL custom_root = "sdmc:/".toList := by
  unfold get_deep_root
  simp only []
  decide

/-- The third check of `path_contains_segment_ci` never fires on a path of a
scan of `sdmc:/`: such a path is the root, which is too short, or has a second
`/` where the name would begin. -/
theorem scan_path_no_root_prefix (path seg : CStr) (c : Char) (tl : CStr)
    (hseg : seg = c :: tl) (hc : c.toLower ≠ '/') (hp : scan_path "sdmc:/".toList path) :
    ¬ starts_with_ci path ("sdmc:/".toList ++ seg) := by
  rintro ⟨h, rest, e, hm⟩
  subst hseg
  have hl : h.length = 6 + (tl.length + 1) := by
    have := congrArg List.length hm
    simp [String.toList] at this
    omega
  have hr : "sdmc:/".toList = ['s', 'd', 'm', 'c', ':', '/'] := rfl
  have hs : "/".toList = ['/'] := rfl
  have h6 : (h.map Char.toLower)[6]? = some c.toLower := by
    rw [hm, hr]
    simp
  have hh : h[6]? = path[6]? := by
    rw [e]
    exact (List.getElem?_append_left (by omega)).symm
  rcases hp with rfl | ⟨r, rfl⟩
  · have := congrArg List.length e
    simp [String.toList] at this
    omega
  · have h7 : ("sdmc:/".toList ++ "/".toList ++ r)[6]? = some '/' := by
      rw [hr, hs]
      simp
    rw [List.getElem?_map, hh, h7] at h6
    simp only [Option.map_some', Option.some.injEq] at h6
    exact hc h6.symm

/-- C22: on the paths of a scan the known-folder filter matches whole segments
only.  The filter is active only with `skip_known_folders` set and the whole
card as target, and `main.c` then scans the root `sdmc:/`; for every path of
that scan (the root, or a child path `sdmc://...` built as `"%s/%s"`),
`should_skip_dir` is true exactly when some segment of the path that follows a
`/` equals `Nintendo`, `emuMMC` or `Emutendo` up to ASCII case.  The child path
of a path of the scan is again one.  The top-level folder `NintendoBackup`,
tested as `sdmc://NintendoBackup`, is not skipped, nor is anything below it;
`Nintendo` and `EMUMMC` are, at any level. -/
theorem C22_folder_filter_matches_whole_segments (cfg : ScanConfig) (custom_root path : CStr)
    (hk : cfg.skip_known_folders = true)
    (ht : cfg.deep_target = ScanTarget.SCAN_TARGET_ALL)
    (hp : scan_path (get_deep_root cfg.deep_target custom_root) path) :
    (should_skip_dir path cfg = true ↔
        ∃ seg ∈ ["Nintendo", "emuMMC", "Emutendo"].map String.toList, has_segment_ci path seg)
      ∧ (∀ name : CStr,
          scan_path (get_deep_root cfg.deep_target custom_root) (path ++ "/".toList ++ name))
      ∧ should_skip_dir "sdmc://NintendoBackup".toList cfg = false
      ∧ should_skip_dir "sdmc://NintendoBackup/save/Nintendont".toList cfg = false
      ∧ should_skip_dir "sdmc://Nintendo".toList cfg = true
      ∧ should_skip_dir "sdmc://backup/EMUMMC/RAW1".toList cfg = true := by
  have hroot : get_deep_root cfg.deep_target custom_root = "sdmc:/".toList := by
    rw [ht]
    exact get_deep_root_all custom_root
  rw [hroot] at hp ⊢
  have hcfg : ∀ p, should_skip_dir p cfg
      = should_skip_dir p (filter_cfg ScanTarget.SCAN_TARGET_ALL) := by
    intro p
    simp [should_skip_dir, hk, ht, filter_cfg]
  refine ⟨?_, fun name => scan_path_child _ _ name hp, ?_, ?_, ?_, ?_⟩
  · rw [should_skip_dir_iff]
    simp only [hk, ht, true_and]
    constructor
    · rintro ⟨seg, hm, hs | hs⟩
      · exact ⟨seg, hm, hs⟩
      · exfalso
        simp only [List.map_cons, List.map_nil, List.mem_cons, List.mem_singleton,
          List.not_mem_nil, or_false] at hm
        rcases hm with rfl | rfl | rfl
        · exact scan_path_no_root_prefix path _ 'N' "intendo".toList rfl (by decide) hp hs
        · exact scan_path_no_root_prefix path _ 'e' "muMMC".toList rfl (by decide) hp hs
        · exact scan_path_no_root_prefix path _ 'E' "mutendo".toList rfl (by decide) hp hs
    · rintro ⟨seg, hm, hs⟩
      exact ⟨seg, hm, Or.inl hs⟩
  · rw [hcfg]; decide!
  · rw [hcfg]; decide!
  · rw [hcfg]; decide!
  · rw [hcfg]; decide!

/-- Witness for C22: the folder `NintendoBackup` at the top of the card, with
the filter active. -/
theorem C22_folder_filter_matches_whole_segments_witness :
    (should_skip_dir "sdmc://NintendoBackup".toList (filter_cfg ScanTarget.SCAN_TARGET_ALL)
          = true ↔
        ∃ seg ∈ ["Nintendo", "emuMMC", "Emutendo"].map String.toList,
          has_segment_ci "sdmc://NintendoBackup".toList seg)
      ∧ (∀ name : CStr,
          scan_path (get_deep_root (filter_cfg ScanTarget.SCAN_TARGET_ALL).deep_target [])
            ("sdmc://NintendoBackup".toList ++ "/".toList ++ name))
      ∧ should_skip_dir "sdmc://NintendoBackup".toList
          (filter_cfg ScanTarget.SCAN_TARGET_ALL) = false
      ∧ should_skip_dir "sdmc://NintendoBackup/save/Nintendont".toList
          (filter_cfg ScanTarget.SCAN_TARGET_ALL) = false
      ∧ should_skip_dir "sdmc://Nintendo".toList (filter_cfg ScanTarget.SCAN_TARGET_ALL) = true
      ∧ should_skip_dir "sdmc://backup/EMUMMC/RAW1".toList
          (filter_cfg ScanTarget.SCAN_TARGET_ALL) = true :=
  C22_folder_filter_matches_whole_segments (filter_cfg ScanTarget.SCAN_TARGET_ALL) []
    "sdmc://NintendoBackup".toList rfl rfl (Or.inr ⟨"NintendoBackup".toList, by decide⟩)

/-! ## Extension filter -/

/-- The function `ends_with_ext_ci` holds exactly when the path ends with the
extension up to case. -/
theorem ends_with_ext_ci_iff (path ext : CStr) :
    ends_with_ext_ci path ext = true ↔ ends_with_ci path ext := by
  unfold ends_with_ext_ci ends_with_ci
  simp only []
  constructor
  · intro h
    split at h
    · simp at h
    · exact ⟨path.take (path.length - ext.length), path.drop (path.length - ext.length),
        (List.take_append_drop _ _).symm, (ci_eq_iff _ _).1 h⟩
  · rintro ⟨pre, t, rfl, ht⟩
    have hl : t.length = ext.length := by simpa using congrArg List.length ht
    rw [if_neg (by simp [hl])]
    rw [ci_eq_iff]
    have : (pre ++ t).length - ext.length = pre.length := by simp [hl]
    rw [this, List.drop_left]
    exact ht

/-- C23: the extension filter.  `should_skip_file` returns true exactly when
`skip_media_exts` is set and the path ends, up to ASCII case, with one of
`.nsp .nsz .xci .xcz .mp4 .mkv .avi .mov .webm .iso .bin .img .zip .7z .rar`;
in particular it is false for every path when `skip_media_exts` is false. -/
theorem C23_should_skip_file_iff_media_ext (path : CStr) (cfg : ScanConfig) :
    (should_skip_file path cfg = true ↔
      cfg.skip_media_exts = true
        ∧ ∃ ext ∈ [".nsp", ".nsz", ".xci", ".xcz", ".mp4", ".mkv", ".avi", ".mov", ".webm",
            ".iso", ".bin", ".img", ".zip", ".7z", ".rar"].map String.toList,
          ends_with_ci path ext)
      ∧ (cfg.skip_media_exts = false → should_skip_file path cfg = false) := by
  constructor
  · unfold should_skip_file
    cases h : cfg.skip_media_exts
    · simp
    · simp only [Bool.not_true, Bool.false_eq_true, if_false, List.any_eq_true, true_and]
      constructor
      · rintro ⟨ext, hm, he⟩
        exact ⟨ext, hm, (ends_with_ext_ci_iff path ext).1 he⟩
      · rintro ⟨ext, hm, he⟩
        exact ⟨ext, hm, (ends_with_ext_ci_iff path ext).2 he⟩
  · intro h
    simp [should_skip_file, h]

/-! ## Chunk sizes -/

/-- The `switch` on the integer agrees with `chunk_bytes_from_mode` on the five
enumerators. -/
theorem chunk_bytes_from_code_eq (m : ChunkMode) :
    chunk_bytes_from_code m.code = chunk_bytes_from_mode m := by
  cases m <;> rfl

/-- C24: the chunk size of a full read.  A fixed mode gives 128 KiB, 256 KiB,
512 KiB or 1 MiB whatever the file size; `CHUNK_AUTO`, like any other value that
is not a fixed mode, gives 1 MiB from 1 GiB on, 512 KiB from 256 MiB on, 256 KiB
from 64 MiB on and 128 KiB below.  The size is monotone in the file size and
lies between 128 KiB and 1 MiB.  `full_chunk_of_code` is the choice on the
integer held by `cfg->chunk_mode`, `full_chunk` the one `read_full` makes. -/
theorem C24_full_read_chunk_size (m : Int) (size : Nat) :
    (m = ChunkMode.CHUNK_128K.code → full_chunk_of_code m size = 128 * 1024)
      ∧ (m = ChunkMode.CHUNK_256K.code → full_chunk_of_code m size = 256 * 1024)
      ∧ (m = ChunkMode.CHUNK_512K.code → full_chunk_of_code m size = 512 * 1024)
      ∧ (m = ChunkMode.CHUNK_1M.code → full_chunk_of_code m size = 1024 * 1024)
      ∧ (m ≠ ChunkMode.CHUNK_128K.code ∧ m ≠ ChunkMode.CHUNK_256K.code
          ∧ m ≠ ChunkMode.CHUNK_512K.code ∧ m ≠ ChunkMode.CHUNK_1M.code →
          (1024 * 1024 * 1024 ≤ size → full_chunk_of_code m size = 1024 * 1024)
          ∧ (256 * 1024 * 1024 ≤ size → size < 1024 * 1024 * 1024 →
              full_chunk_of_code m size = 512 * 1024)
          ∧ (64 * 1024 * 1024 ≤ size → size < 256 * 1024 * 1024 →
              full_chunk_of_code m size = 256 * 1024)
          ∧ (size < 64 * 1024 * 1024 → full_chunk_of_code m size = 128 * 1024))
      ∧ (∀ size2, size ≤ size2 → full_chunk_of_code m size ≤ full_chunk_of_code m size2)
      ∧ 128 * 1024 ≤ full_chunk_of_code m size ∧ full_chunk_of_code m size ≤ 1024 * 1024
      ∧ (∀ cfg : ScanConfig, cfg.chunk_mode.code = m →
          full_chunk cfg size = full_chunk_of_code m size) := by
  refine ⟨?_, ?_, ?_, ?_, ?_, ?_, ?_, ?_, ?_⟩
  · intro h; subst h; rfl
  · intro h; subst h; rfl
  · intro h; subst h; rfl
  · intro h; subst h; rfl
  · rintro ⟨h1, h2, h3, h4⟩
    simp only [ChunkMode.code] at h1 h2 h3 h4
    simp only [full_chunk_of_code, chunk_bytes_from_code, h1, h2, h3, h4, if_false,
      choose_chunk_auto, ne_eq, not_true_eq_false]
    refine ⟨?_, ?_, ?_, ?_⟩
    · intro h; simp [h]
    · intro h h'; rw [if_neg (by omega), if_pos (by omega)]
    · intro h h'; rw [if_neg (by omega), if_neg (by omega), if_pos (by omega)]
    · intro h; rw [if_neg (by omega), if_neg (by omega), if_neg (by omega)]
  · intro size2 hle
    simp only [full_chunk_of_code, chunk_bytes_from_code, choose_chunk_auto]
    split_ifs <;> omega
  · simp only [full_chunk_of_code, chunk_bytes_from_code, choose_chunk_auto]
    split_ifs <;> omega
  · simp only [full_chunk_of_code, chunk_bytes_from_code, choose_chunk_auto]
    split_ifs <;> omega
  · intro cfg h
    subst h
    simp only [full_chunk, full_chunk_of_code, chunk_bytes_from_code_eq]

/-! ## Depth bound -/

/-- C25: the depth bound of 128 is not fatal.  A call of `scan_dir_recursive`
that is not cancelled and has `depth > 128` returns true without touching the
outside world (no directory is opened), with `path_errors` one higher, one
message pushed (`"Maximum directory depth reached (possible loop)"`, in the slot
`err_ring_count % 16` of the ring) and every other counter unchanged.  A call
with `depth <= 128` on a directory the folder filter lets through goes on to
`opendir`: if that fails the call returns with `path_errors` unchanged, and if
it succeeds the result is that of the loop over the entries, which are visited
at `depth + 1`.  In a file system that is an endless chain of nested
directories the scan from depth 0 thus returns true with 129 directories counted
below the root and a single path error, that of the directory at depth 129. -/
theorem C25_depth_bound_not_fatal (fuel : Nat) (path : CStr) (depth : Nat) (cfg : ScanConfig)
    (w : World) (st : ScanStats) (hc : st.cancelled = false) :
    (depth > 128 →
      ∃ st1 : ScanStats,
        scan_dir_recursive fuel path depth cfg w st = some (true, w, st1)
          ∧ st1.path_errors = st.path_errors + 1
          ∧ st1.err_ring_count = st.err_ring_count + 1
          ∧ (st.err_ring.length = ERR_RING_MAX →
              st1.err_ring.getD (st.err_ring_count % ERR_RING_MAX) []
                = "Maximum directory depth reached (possible loop)".toList)
          ∧ st1.cancelled = false
          ∧ [st1.dirs_total, st1.files_total, st1.files_read, st1.bytes_read, st1.open_errors,
              st1.read_errors, st1.read_errors_transient, st1.stat_errors,
              st1.consistency_errors, st1.skipped_dirs, st1.skipped_files, st1.fail_count]
            = [st.dirs_total, st.files_total, st.files_read, st.bytes_read, st.open_errors,
              st.read_errors, st.read_errors_transient, st.stat_errors,
              st.consistency_errors, st.skipped_dirs, st.skipped_files, st.fail_count])
      ∧ (depth ≤ 128 → should_skip_dir path cfg = false →
          (∀ e, w.dirs path = Except.error e →
            ∃ (w1 : World) (st1 : ScanStats),
              scan_dir_recursive (fuel + 1) path depth cfg w st = some (true, w1, st1)
                ∧ w1.trace = IoCall.opendir path :: w.trace
                ∧ st1.path_errors = st.path_errors)
          ∧ (∀ entries, w.dirs path = Except.ok entries →
              scan_dir_recursive (fuel + 1) path depth cfg w st
                = (scan_entries
                    (fun child w1 st1 => scan_dir_recursive fuel child (depth + 1) cfg w1 st1)
                    path cfg entries { w with trace := IoCall.opendir path :: w.trace } st).map
                  (fun r => (!r.2.cancelled, r.1, r.2))))
      ∧ error_view (scan_engine_run "sdmc:/".toList (cfg_with 0 false) chain_world ScanStats.zero)
          = some (true, [129, 0, 1, 0, 0, 0, 1, 0], false) := by
  refine ⟨?_, ?_, by decide!⟩
  · intro hd
    refine ⟨_, scan_dir_recursive_depth_exceeded fuel path depth cfg w st hc hd, by simp,
      by simp [err_push], ?_, by simp [hc], by simp⟩
    intro hlen
    have hidx : st.err_ring_count % ERR_RING_MAX < st.err_ring.length := by
      rw [hlen]
      exact Nat.mod_lt _ (by decide)
    simp only [err_push]
    rw [List.getD_eq_getElem?_getD, List.getElem?_set_self hidx]
    decide
  · intro hd hs
    constructor
    · intro e hopen
      exact ⟨_, _, scan_dir_recursive_opendir_failed fuel path depth cfg w st e hc hd hs hopen,
        rfl, by simp⟩
    · intro entries hopen
      rw [scan_dir_recursive]
      simp only [hc, Bool.false_eq_true, if_false, show ¬ depth > 128 by omega, hs, hopen]
      cases scan_entries
        (fun child w1 st1 => scan_dir_recursive fuel child (depth + 1) cfg w1 st1) path cfg
        entries { w with trace := IoCall.opendir path :: w.trace } st <;> rfl

/-- Witness for C25: zeroed stats in the world of an endless chain of nested
directories. -/
theorem C25_depth_bound_not_fatal_witness :
    (129 > 128 →
      ∃ st1 : ScanStats,
        scan_dir_recursive 0 "sdmc:/a".toList 129 (cfg_with 0 false) chain_world ScanStats.zero
            = some (true, chain_world, st1)
          ∧ st1.path_errors = ScanStats.zero.path_errors + 1
          ∧ st1.err_ring_count = ScanStats.zero.err_ring_count + 1
          ∧ (ScanStats.zero.err_ring.length = ERR_RING_MAX →
              st1.err_ring.getD (ScanStats.zero.err_ring_count % ERR_RING_MAX) []
                = "Maximum directory depth reached (possible loop)".toList)
          ∧ st1.cancelled = false
          ∧ [st1.dirs_total, st1.files_total, st1.files_read, st1.bytes_read, st1.open_errors,
              st1.read_errors, st1.read_errors_transient, st1.stat_errors,
              st1.consistency_errors, st1.skipped_dirs, st1.skipped_files, st1.fail_count]
            = [ScanStats.zero.dirs_total, ScanStats.zero.files_total, ScanStats.zero.files_read,
              ScanStats.zero.bytes_read, ScanStats.zero.open_errors, ScanStats.zero.read_errors,
              ScanStats.zero.read_errors_transient, ScanStats.zero.stat_errors,
              ScanStats.zero.consistency_errors, ScanStats.zero.skipped_dirs,
              ScanStats.zero.skipped_files, ScanStats.zero.fail_count])
      ∧ (129 ≤ 128 → should_skip_dir "sdmc:/a".toList (cfg_with 0 false) = false →
          (∀ e, chain_world.dirs "sdmc:/a".toList = Except.error e →
            ∃ (w1 : World) (st1 : ScanStats),
              scan_dir_recursive (0 + 1) "sdmc:/a".toList 129 (cfg_with 0 false) chain_world
                  ScanStats.zero = some (true, w1, st1)
                ∧ w1.trace = IoCall.opendir "sdmc:/a".toList :: chain_world.trace
                ∧ st1.path_errors = ScanStats.zero.path_errors)
          ∧ (∀ entries, chain_world.dirs "sdmc:/a".toList = Except.ok entries →
              scan_dir_recursive (0 + 1) "sdmc:/a".toList 129 (cfg_with 0 false) chain_world
                  ScanStats.zero
                = (scan_entries
                    (fun child w1 st1 =>
                      scan_dir_recursive 0 child (129 + 1) (cfg_with 0 false) w1 st1)
                    "sdmc:/a".toList (cfg_with 0 false) entries
                    { chain_world with
                      trace := IoCall.opendir "sdmc:/a".toList :: chain_world.trace }
                    ScanStats.zero).map
                  (fun r => (!r.2.cancelled, r.1, r.2))))
      ∧ error_view (scan_engine_run "sdmc:/".toList (cfg_with 0 false) chain_world ScanStats.zero)
          = some (true, [129, 0, 1, 0, 0, 0, 1, 0], false) :=
  C25_depth_bound_not_fatal 0 "sdmc:/a".toList 129 (cfg_with 0 false) chain_world ScanStats.zero rfl

/-! ## Opening files -/

/-- A callback invocation that is not answered by a cancel request leaves the
stats as they are. -/
theorem ui_update_quiet (w : World) (st : ScanStats) (force : Bool)
    (h : w.ui.head? ≠ some true) :
    ui_update w st force
      = ({ w with ui := w.ui.tail, trace := IoCall.ui_update force st :: w.trace }, st) := by
  unfold ui_update
  split
  · rename_i he
    simp [he]
  · rename_i c rest he
    have hcf : c = false := by
      cases c
      · rfl
      · simp [he] at h
    subst hcf
    simp [he]

/-- The fields `scan_file_plan` leaves alone. -/
theorem scan_file_plan_frame (child : CStr) (fsize : Nat) (cfg : ScanConfig) (st : ScanStats) :
    (scan_file_plan child fsize cfg st).2.cancelled = st.cancelled
      ∧ (scan_file_plan child fsize cfg st).2.files_total = st.files_total
      ∧ (scan_file_plan child fsize cfg st).2.files_read = st.files_read
      ∧ (scan_file_plan child fsize cfg st).2.open_errors = st.open_errors
      ∧ (scan_file_plan child fsize cfg st).2.bytes_read = st.bytes_read
      ∧ (scan_file_plan child fsize cfg st).2.first_fail_set = st.first_fail_set
      ∧ (scan_file_plan child fsize cfg st).2.fail_paths = st.fail_paths
      ∧ (scan_file_plan child fsize cfg st).2.fail_count = st.fail_count := by
  unfold scan_file_plan
  simp only []
  split <;> exact ⟨rfl, rfl, rfl, rfl, rfl, rfl, rfl, rfl⟩
/-- C26 (amended): `files_read` counts the files that were opened.  For a
regular file that the extension filter lets through, with the scan not cancelled
and no cancel request at the callback before the open, `files_total` grows by 1
in every case.  When `fopen` fails, the loop goes on with the next entry,
`files_read` is unchanged, `open_errors` grows by 1, nothing is read (`fopen` is
the last call made, no `fread` answer is used, `bytes_read` is unchanged), a
first failure is captured with kind `"OPEN_FILE"`, the stored path and the
`errno` of `fopen`, and the stored path is among the failing paths when there
was room.  When `fopen` succeeds, `files_read` grows by 1. -/
theorem C26_files_read_counts_opened_files (child : CStr) (fsize : Nat) (cfg : ScanConfig)
    (w : World) (st : ScanStats) (hskip : should_skip_file child cfg = false)
    (hc : st.cancelled = false) (hui : w.ui.head? ≠ some true) :
    (scan_file child fsize cfg w st).2.2.files_total = st.files_total + 1
      ∧ (∀ e, w.fopens child = some e →
          (scan_file child fsize cfg w st).1 = true
            ∧ (scan_file child fsize cfg w st).2.2.files_read = st.files_read
            ∧ (scan_file child fsize cfg w st).2.2.open_errors = st.open_errors + 1
            ∧ (scan_file child fsize cfg w st).2.2.bytes_read = st.bytes_read
            ∧ (∃ s : ScanStats, (scan_file child fsize cfg w st).2.1.trace
                = IoCall.fopen child :: IoCall.ui_update true s :: w.trace)
            ∧ (scan_file child fsize cfg w st).2.1.reads = w.reads
            ∧ (st.first_fail_set = false →
                (scan_file child fsize cfg w st).2.2.first_fail_kind = "OPEN_FILE".toList
                  ∧ (scan_file child fsize cfg w st).2.2.first_fail_path = child.take 250
                  ∧ (scan_file child fsize cfg w st).2.2.first_fail_errno = e)
            ∧ (st.fail_paths.length = FAIL_MAX → st.fail_count < FAIL_MAX → child ≠ [] →
                child.take 250 ∈ fail_live (scan_file child fsize cfg w st).2.2))
      ∧ (w.fopens child = none →
          (scan_file child fsize cfg w st).2.2.files_read = st.files_read + 1) := by
  have hp := scan_file_plan_frame child fsize cfg
    (largest_update { st with files_total := st.files_total + 1 } child fsize)
  unfold scan_file
  simp only [hskip, Bool.false_eq_true, if_false]
  generalize scan_file_plan child fsize cfg
    (largest_update { st with files_total := st.files_total + 1 } child fsize) = pl at hp ⊢
  obtain ⟨sample, sP⟩ := pl
  simp only [largest_update_cancelled, largest_update_files_total, largest_update_files_read,
    largest_update_open_errors, largest_update_bytes_read, largest_update_first_fail_set,
    largest_update_fail_paths, largest_update_fail_count, hc] at hp
  obtain ⟨p1, p2, p3, p4, p5, p6, p7, p8⟩ := hp
  simp only [ui_update_quiet w sP true hui]
  rw [if_neg (by simp [p1])]
  cases hfo : w.fopens child with
  | some e =>
    simp only []
    refine ⟨by simp [p2], ?_, ?_⟩
    · intro e1 he1
      cases he1
      refine ⟨trivial, by simp [p3], by simp [p4], by simp [p5], ⟨sP, rfl⟩, trivial, ?_, ?_⟩
      · intro hset
        simp [first_fail_capture, p6, hset]
      · intro hlen hcnt hne
        apply fail_push_unique_mem _ _ hne
        · simpa [p7] using hlen
        · simpa [p8] using hcnt
    · intro h; cases h
  | none =>
    simp only []
    have hrd : ∀ (o : Option Nat) (wR : World) (sR : ScanStats),
        (if sample = true then
            read_sample fsize cfg
              { w with ui := w.ui.tail,
                       trace := IoCall.fopen child :: IoCall.ui_update true sP :: w.trace,
                       ferr := false }
              { sP with files_read := sP.files_read + 1 }
          else
            read_full fsize cfg
              { w with ui := w.ui.tail,
                       trace := IoCall.fopen child :: IoCall.ui_update true sP :: w.trace,
                       ferr := false }
              { sP with files_read := sP.files_read + 1 }) = (o, wR, sR) →
        sR.files_total = st.files_total + 1 ∧ sR.files_read = st.files_read + 1 := by
      intro o wR sR hr
      have hm : Mono false true { sP with files_read := sP.files_read + 1 } sR := by
        split at hr
        · exact (read_sample_step false true fsize cfg (fun h => by simp at h) _ _ _ _ _ hr).mono
            (fun h => by simp at h)
        · exact (read_full_step false true fsize cfg _ _ _ _ _ hr).mono (fun h => by simp at h)
      have := hm.2.2.2 rfl
      simp only [p2, p3] at this
      exact this
    generalize hrr : (if sample = true then
        read_sample fsize cfg
          { w with ui := w.ui.tail,
                   trace := IoCall.fopen child :: IoCall.ui_update true sP :: w.trace,
                   ferr := false }
          { sP with files_read := sP.files_read + 1 }
      else
        read_full fsize cfg
          { w with ui := w.ui.tail,
                   trace := IoCall.fopen child :: IoCall.ui_update true sP :: w.trace,
                   ferr := false }
          { sP with files_read := sP.files_read + 1 }) = rr
    obtain ⟨o, wR, sR⟩ := rr
    obtain ⟨f1, f2⟩ := hrd o wR sR hrr
    refine ⟨?_, ?_, ?_⟩
    · simp only []
      split
      · split <;> simp [f1]
      · exact f1
    · intro e h
      cases h
    · intro _
      simp only []
      split
      · split <;> simp [f2]
      · exact f2

/-- Witness for C26: the file `sdmc://f` that `fopen` refuses, on zeroed stats. -/
theorem C26_files_read_counts_opened_files_witness :
    (scan_file "sdmc://f".toList 10 (cfg_with 0 false) locked_file_world
        ScanStats.zero).2.2.files_total = ScanStats.zero.files_total + 1
      ∧ (∀ e, locked_file_world.fopens "sdmc://f".toList = some e →
          (scan_file "sdmc://f".toList 10 (cfg_with 0 false) locked_file_world
              ScanStats.zero).1 = true
            ∧ (scan_file "sdmc://f".toList 10 (cfg_with 0 false) locked_file_world
                ScanStats.zero).2.2.files_read = ScanStats.zero.files_read
            ∧ (scan_file "sdmc://f".toList 10 (cfg_with 0 false) locked_file_world
                ScanStats.zero).2.2.open_errors = ScanStats.zero.open_errors + 1
            ∧ (scan_file "sdmc://f".toList 10 (cfg_with 0 false) locked_file_world
                ScanStats.zero).2.2.bytes_read = ScanStats.zero.bytes_read
            ∧ (∃ s : ScanStats,
                (scan_file "sdmc://f".toList 10 (cfg_with 0 false) locked_file_world
                    ScanStats.zero).2.1.trace
                  = IoCall.fopen "sdmc://f".toList :: IoCall.ui_update true s
                      :: locked_file_world.trace)
            ∧ (scan_file "sdmc://f".toList 10 (cfg_with 0 false) locked_file_world
                ScanStats.zero).2.1.reads = locked_file_world.reads
            ∧ (ScanStats.zero.first_fail_set = false →
                (scan_file "sdmc://f".toList 10 (cfg_with 0 false) locked_file_world
                    ScanStats.zero).2.2.first_fail_kind = "OPEN_FILE".toList
                  ∧ (scan_file "sdmc://f".toList 10 (cfg_with 0 false) locked_file_world
                      ScanStats.zero).2.2.first_fail_path = "sdmc://f".toList.take 250
                  ∧ (scan_file "sdmc://f".toList 10 (cfg_with 0 false) locked_file_world
                      ScanStats.zero).2.2.first_fail_errno = e)
            ∧ (ScanStats.zero.fail_paths.length = FAIL_MAX →
                ScanStats.zero.fail_count < FAIL_MAX → "sdmc://f".toList ≠ [] →
                "sdmc://f".toList.take 250
                  ∈ fail_live (scan_file "sdmc://f".toList 10 (cfg_with 0 false)
                      locked_file_world ScanStats.zero).2.2))
      ∧ (locked_file_world.fopens "sdmc://f".toList = none →
          (scan_file "sdmc://f".toList 10 (cfg_with 0 false) locked_file_world
              ScanStats.zero).2.2.files_read = ScanStats.zero.files_read + 1) :=
  C26_files_read_counts_opened_files "sdmc://f".toList 10 (cfg_with 0 false) locked_file_world
    ScanStats.zero (by decide!) rfl (by decide)

/-- Counterexample for C26: a scan of a root whose single regular file `f` passes
the extension filter and cannot be opened ends with `files_total = 1`,
`open_errors = 1` and `files_read = 0`: the failed open was not counted in
`files_read`. -/
theorem C26_failed_open_not_counted_counterexample :
    should_skip_file "sdmc://f".toList (cfg_with 0 false) = false
      ∧ locked_file_world.fopens "sdmc://f".toList = some 13
      ∧ fail_view (scan_engine_run "sdmc:/".toList (cfg_with 0 false) locked_file_world
          ScanStats.zero) = some (true, [1, 0, 0, 0, 0, 0, 1, 0], ["sdmc://f".toList]) := by
  decide!

/-! ## Byte-counter rollback -/

/-- The rollback of `read_sample` on a counter that holds less than the region
size: the 64-bit subtraction wraps round. -/
theorem u64_sub_short (x n : Nat) (h : x + n < SAMPLE_REGION) :
    u64_sub (u64 (x + n)) SAMPLE_REGION = x + n + 2 ^ 64 - SAMPLE_REGION := by
  unfold u64_sub u64 SAMPLE_REGION at *
  omega

/-- C27: the rollback of sample-mode verification wraps below zero after a short
read.  `read_region_retry` adds the `r` bytes that `fread` delivered, and
`read_sample` then subtracts the `want` bytes it asked for, in 64-bit unsigned
arithmetic: whenever the counter `x` and the `n` bytes delivered stay below the
region size, the subtraction leaves `x + n + 2 ^ 64 - 65536`, not 0 (first
part).  For the file of `short_file_world`, 128 KiB long by `stat` and ending
after three bytes, on zeroed stats: the callback is shown 3 in `bytes_read` and
`current_done` after the first read; if the seek before the re-read fails,
`read_sample` returns false right after the first subtraction, with
`2 ^ 64 - 65533` in both (second part); if all calls succeed, the callback is
later shown `2 ^ 64 - 131066` and the function returns true with
`2 ^ 64 - 262138` in both (third part). -/
theorem C27_short_read_rollback_wraps :
    (∀ x n : Nat, x + n < SAMPLE_REGION →
        u64_sub (u64 (x + n)) SAMPLE_REGION = x + n + 2 ^ 64 - SAMPLE_REGION
          ∧ 2 ^ 63 < u64_sub (u64 (x + n)) SAMPLE_REGION)
      ∧ ((read_sample 131072 (cfg_with 0 true) short_file_seek_world ScanStats.zero).1 = none
          ∧ bytes_view (read_sample 131072 (cfg_with 0 true) short_file_seek_world
              ScanStats.zero) = [(3, 3), (2 ^ 64 - 65533, 2 ^ 64 - 65533)])
      ∧ ((read_sample 131072 (cfg_with 0 true) short_file_world ScanStats.zero).1.isSome = true
          ∧ bytes_view (read_sample 131072 (cfg_with 0 true) short_file_world ScanStats.zero)
            = [(3, 3), (2 ^ 64 - 131066, 2 ^ 64 - 131066),
                (2 ^ 64 - 262138, 2 ^ 64 - 262138)]) := by
  refine ⟨?_, by decide!, by decide!⟩
  intro x n h
  rw [u64_sub_short x n h]
  unfold SAMPLE_REGION at *
  omega

/-! ## Failing paths and cancellation -/

/-- C28: a file whose read was cut short by a cancel request is recorded as a
failing path.  In `cancel_in_read_world` the file `sdmc://f` is opened and its
ten bytes are read without error; the callback at the end of the read loop asks
to cancel, `read_full` returns false for that reason alone, and the path is
pushed to `fail_paths` before the loop is left.  The run ends with every error
counter (`open_errors`, `stat_errors`, `path_errors`, `read_errors`,
`read_errors_transient`, `consistency_errors`) at 0, no failure captured, no
message pushed, and `sdmc://f` as the one entry of `fail_paths`. -/
theorem C28_cancelled_read_recorded_as_failing :
    trace_view (scan_engine_run "sdmc:/".toList (cfg_with 0 true) cancel_in_read_world
        ScanStats.zero)
        = some (["opendir sdmc:/", "callback", "stat sdmc://f", "callback", "fopen sdmc://f",
            "fread", "callback: cancel"].map String.toList)
      ∧ fail_view (scan_engine_run "sdmc:/".toList (cfg_with 0 true) cancel_in_read_world
          ScanStats.zero) = some (false, [0, 0, 0, 0, 0, 0, 1, 1], ["sdmc://f".toList])
      ∧ (scan_engine_run "sdmc:/".toList (cfg_with 0 true) cancel_in_read_world
          ScanStats.zero).map
            (fun r => (r.2.2.cancelled, r.2.2.first_fail_set, r.2.2.err_ring_count,
              r.2.2.bytes_read))
          = some (true, false, 0, 10) := by
  decide!

/-! ## First-chunk checksum of a full read -/

/-- The bytes `read_full` takes the first-chunk checksum from: at most
`SAMPLE_REGION` of those the `fread` delivered. -/
theorem take_min_sample (data : List Nat) :
    data.take (if data.length < SAMPLE_REGION then data.length else SAMPLE_REGION)
      = data.take SAMPLE_REGION := by
  split
  · rw [List.take_of_length_le (le_refl _), List.take_of_length_le (by omega)]
  · rfl

/-- The first pass through the loop of `read_full` that is delivered any bytes
takes the first-chunk checksum from the bytes of its first `fread` alone,
whether or not that call raised the error indicator and whatever the retries
deliver. -/
theorem read_full_chunk_first_crc (chunk : Nat) (cfg : ScanConfig) (loc : FullLocals)
    (w : World) (st : ScanStats) (r : FreadResp) (rest : List FreadResp)
    (hset : loc.first_crc_set = false) (hr : w.reads = r :: rest)
    (hpos : 0 < (r.data.take chunk).length) :
    (read_full_chunk chunk cfg loc w st).2.1.first_crc_set = true
      ∧ (read_full_chunk chunk cfg loc w st).2.1.first_crc
          = crc32_update 0 ((r.data.take chunk).take SAMPLE_REGION) := by
  have hr0 : ({ w with errno := 0 } : World).reads = r :: rest := hr
  unfold read_full_chunk
  simp only [fread_cons _ chunk r rest hr0, hset, Bool.not_false, if_true, gt_iff_lt, hpos,
    take_min_sample]
  split
  · split
    · split
      · exact ⟨rfl, rfl⟩
      · split <;> exact ⟨rfl, rfl⟩
    · exact ⟨rfl, rfl⟩
  · exact ⟨rfl, rfl⟩

/-- C29: the first-chunk checksum of a full read is that of the bytes the first
`fread` delivered, which is not the first `min(size, 65536)` bytes of the file
when that call stopped early with an error.  In `partial_read_world` the file
holds five bytes and does not change: the first `fread` delivers two bytes and
fails, the retry delivers the other three, and the full read finishes without
persistent error (`read_errors = 0`, `read_errors_transient = 1`).  The checksum
captured is that of the first two bytes; the re-read from offset 0 delivers all
five, its checksum differs, and `read_full` returns false with
`consistency_errors = 1` and a first failure of kind `"CONSIST"`. -/
theorem C29_partial_first_read_yields_consistency_error :
    (∀ (chunk : Nat) (cfg : ScanConfig) (loc : FullLocals) (w : World) (st : ScanStats)
        (r : FreadResp) (rest : List FreadResp),
        loc.first_crc_set = false → w.reads = r :: rest → 0 < (r.data.take chunk).length →
        (read_full_chunk chunk cfg loc w st).2.1.first_crc_set = true
          ∧ (read_full_chunk chunk cfg loc w st).2.1.first_crc
              = crc32_update 0 ((r.data.take chunk).take SAMPLE_REGION))
      ∧ trace_view (some (true, (read_full 5 (full_cfg 1) partial_read_world ScanStats.zero).2))
          = some (["fread", "fread", "callback", "fseeko", "fread"].map String.toList)
      ∧ (read_full 5 (full_cfg 1) partial_read_world ScanStats.zero).1 = none
      ∧ error_counters (read_full 5 (full_cfg 1) partial_read_world ScanStats.zero).2.2
          = [0, 0, 0, 0, 1, 1]
      ∧ (read_full 5 (full_cfg 1) partial_read_world ScanStats.zero).2.2.first_fail_kind
          = "CONSIST".toList
      ∧ (read_full_loop (full_chunk (full_cfg 1) 5) (full_cfg 1) 4 ⟨0, 0, false⟩
          partial_read_world ScanStats.zero).2.1.first_crc = crc32_update 0 (five_bytes.take 2)
      ∧ crc32_update 0 (five_bytes.take 2) ≠ crc32_update 0 (five_bytes.take (min 5 65536)) := by
  refine ⟨?_, by decide!, by decide!, by decide!, by decide!, by decide!, by decide!⟩
  intro chunk cfg loc w st r rest hset hr hpos
  exact read_full_chunk_first_crc chunk cfg loc w st r rest hset hr hpos

/-! ## Verdict -/

/-- C30: the decision table of `compute_verdict`.  The verdict is `WARNINGS` for
a NULL result or one with `ran` false; otherwise `CANCELLED` if `cancelled` is
set; otherwise `FAILED` exactly when `read_errors > 0`, `consistency_errors > 0`
or the write test was enabled and did not succeed; otherwise `PASSED` exactly
when `open_errors`, `stat_errors`, `path_errors`, `read_errors_transient`,
`skipped_dirs` and `skipped_files` are all zero and the write test was enabled;
and `WARNINGS` in every remaining case. -/
theorem C30_compute_verdict_table (r : RunResult) :
    compute_verdict none = Verdict.VERDICT_WARNINGS
      ∧ (r.ran = false → compute_verdict (some r) = Verdict.VERDICT_WARNINGS)
      ∧ (r.ran = true → r.cancelled = true →
          compute_verdict (some r) = Verdict.VERDICT_CANCELLED)
      ∧ (r.ran = true → r.cancelled = false →
          (compute_verdict (some r) = Verdict.VERDICT_FAILED ↔
            (r.read_errors > 0 ∨ r.consistency_errors > 0
              ∨ (r.write_test_enabled = true ∧ r.write_test_ok = false)))
          ∧ (compute_verdict (some r) = Verdict.VERDICT_PASSED ↔
              (¬ (r.read_errors > 0 ∨ r.consistency_errors > 0
                  ∨ (r.write_test_enabled = true ∧ r.write_test_ok = false))
                ∧ r.open_errors = 0 ∧ r.stat_errors = 0 ∧ r.path_errors = 0
                ∧ r.read_errors_transient = 0 ∧ r.skipped_dirs = 0 ∧ r.skipped_files = 0
                ∧ r.write_test_enabled = true))
          ∧ (compute_verdict (some r) = Verdict.VERDICT_WARNINGS ↔
              (¬ (r.read_errors > 0 ∨ r.consistency_errors > 0
                  ∨ (r.write_test_enabled = true ∧ r.write_test_ok = false))
                ∧ ¬ (r.open_errors = 0 ∧ r.stat_errors = 0 ∧ r.path_errors = 0
                  ∧ r.read_errors_transient = 0 ∧ r.skipped_dirs = 0 ∧ r.skipped_files = 0
                  ∧ r.write_test_enabled = true)))
          ∧ compute_verdict (some r) ≠ Verdict.VERDICT_CANCELLED) := by
  obtain ⟨ran, cancelled, oe, re, rt, se, pe, ce, sd, sf, wte, wto⟩ := r
  refine ⟨rfl, ?_, ?_, ?_⟩
  · intro h
    simp only at h
    simp [compute_verdict, h]
  · intro h1 h2
    simp only at h1 h2
    simp [compute_verdict, h1, h2]
  · intro h1 h2
    simp only at h1 h2
    subst h1 h2
    simp only [compute_verdict, Bool.not_true, Bool.false_eq_true, if_false]
    cases wte <;> cases wto <;>
      simp only [Bool.and_true, Bool.and_false, Bool.not_true, Bool.not_false, Bool.false_eq_true,
        Bool.true_and, Bool.false_and, if_true, if_false] <;>
      split_ifs <;> simp_all <;> omega

end SdCheck
